import Mathlib

/-!
# Coil path algebra: a shallow embedding of `coil/coil_path.c`

C strings are modelled by the list of their characters before the terminating
NUL.  Caller-supplied output buffers are modelled as byte arrays (`List Char`,
NUL bytes included) together with their previous contents, so that a copy
which writes no terminator is visible in the model.  A memory access that
leaves its object and whose effect the C code depends on ends the run with an
`undefined` outcome.
-/

set_option autoImplicit false
set_option maxRecDepth 8192

namespace Coil

/-! ## Constants of `coil_path.h` -/

/-- The string terminator. -/
def NUL : Char := Char.ofNat 0

/-- `COIL_PATH_DELIM`. -/
def COIL_PATH_DELIM : Char := '.'

/-- `COIL_ROOT_PATH`, the string `@root`. -/
def COIL_ROOT_PATH : List Char := ['@', 'r', 'o', 'o', 't']

/-- `COIL_ROOT_PATH_LEN`, that is `sizeof(COIL_ROOT_PATH) - 1`. -/
def COIL_ROOT_PATH_LEN : Nat := COIL_ROOT_PATH.length

/-- `COIL_PATH_LEN`. -/
def COIL_PATH_LEN : Nat := 255

/-- `COIL_PATH_BUFLEN`. -/
def COIL_PATH_BUFLEN : Nat := COIL_PATH_LEN + 1

/-- Number of values of a `guint` (32 bits). -/
def GUINT_RANGE : Nat := 2 ^ 32

/-- `COIL_PATH_IS_ABSOLUTE`: `strncmp(path, "@root", 5) == 0`. -/
def COIL_PATH_IS_ABSOLUTE (path : List Char) : Bool :=
  path.take COIL_ROOT_PATH_LEN == COIL_ROOT_PATH

/-- `COIL_PATH_IS_RELATIVE`: `strncmp(path, "@root", 5) != 0`. -/
def COIL_PATH_IS_RELATIVE (path : List Char) : Bool :=
  !COIL_PATH_IS_ABSOLUTE path

/-- `COIL_PATH_IS_ROOT`: `strcmp(path, "@root") == 0`. -/
def COIL_PATH_IS_ROOT (path : List Char) : Bool :=
  path == COIL_ROOT_PATH

/-! ## The C library functions used by `coil_path.c` -/

/-- The C string stored at the start of a byte array: the bytes before the
first NUL. -/
def cstr (mem : List Char) : List Char :=
  mem.takeWhile (fun c => c != NUL)

/-- Overwrite the first bytes of a buffer; `none` when the bytes do not fit
(a write past the end of the buffer). -/
def poke (buf bytes : List Char) : Option (List Char) :=
  if bytes.length ≤ buf.length then some (bytes ++ buf.drop bytes.length) else none

/-- `strncpy(dst, src, n)`: exactly `n` bytes are written, the string `src`
cut at `n` bytes and padded with NUL when it is shorter.  No terminator is
written when `src` has `n` characters or more. -/
def strncpy (dst src : List Char) (n : Nat) : Option (List Char) :=
  poke dst ((cstr src).take n ++ List.replicate (n - (cstr src).length) NUL)

/-- `strcpy(dst, src)`: the string and its terminator. -/
def strcpy (dst src : List Char) : Option (List Char) :=
  poke dst (cstr src ++ [NUL])

/-- `dst[n] = '\0'`. -/
def put_nul (dst : List Char) (n : Nat) : Option (List Char) :=
  if n < dst.length then some (dst.set n NUL) else none

/-- `strrchr(s, c)` for a character `c` other than NUL: the offset of the last
occurrence of `c` in `s`, `none` for the NULL result. -/
def strrchr : List Char → Char → Option Nat
  | [], _ => none
  | x :: xs, c =>
    match strrchr xs c with
    | some i => some (i + 1)
    | none => if x = c then some 0 else none

/-- `strstr(s, "..") != NULL`. -/
def strstr_dotdot : List Char → Bool
  | a :: b :: t => (a == COIL_PATH_DELIM && b == COIL_PATH_DELIM) || strstr_dotdot (b :: t)
  | _ => false

/-! ## Output buffers and outcomes of `coil_path_resolve_full` -/

/-- The three output arguments `path`, `container` and `key`; `none` is a
NULL pointer, `some mem` a buffer with its current bytes. -/
structure Buffers where
  path : Option (List Char)
  container : Option (List Char)
  key : Option (List Char)
deriving DecidableEq, Repr

/-- What a call of `coil_path_resolve_full` does. -/
inductive Outcome where
  /-- `return TRUE`, with the buffers as they are left. -/
  | success (bufs : Buffers)
  /-- `goto error`: a `COIL_ERROR_PATH` error is set and FALSE is returned. -/
  | pathError (bufs : Buffers)
  /-- A `g_return_val_if_fail` guard returned FALSE; no error is set. -/
  | precondition
  /-- A memory access outside of its object that the result depends on. -/
  | undefined
deriving DecidableEq, Repr

/-- Apply a write to an output buffer unless the pointer is NULL.  The outer
`none` is a write past the end of the buffer. -/
def on_buffer (buf : Option (List Char)) (write : List Char → Option (List Char)) :
    Option (Option (List Char)) :=
  match buf with
  | none => some none
  | some mem => (write mem).map some

/-- The `error:` label of `coil_path_resolve_full`: every buffer that is not
NULL is set to the empty string. -/
def resolve_error (bufs : Buffers) : Outcome :=
  match on_buffer bufs.key (fun m => put_nul m 0),
        on_buffer bufs.path (fun m => put_nul m 0),
        on_buffer bufs.container (fun m => put_nul m 0) with
  | some k, some p, some c => Outcome.pathError ⟨p, c, k⟩
  | _, _, _ => Outcome.undefined

/-- The branch of `coil_path_resolve_full` for `COIL_PATH_IS_ABSOLUTE(reference)`. -/
def resolve_absolute (reference : List Char) (bufs : Buffers) : Outcome :=
  if reference.length = COIL_ROOT_PATH_LEN then
    match on_buffer bufs.path (fun m => strncpy m COIL_ROOT_PATH COIL_ROOT_PATH_LEN),
          on_buffer bufs.container (fun m => strncpy m COIL_ROOT_PATH COIL_ROOT_PATH_LEN),
          on_buffer bufs.key (fun m => put_nul m 0) with
    | some p, some c, some k => Outcome.success ⟨p, c, k⟩
    | _, _, _ => Outcome.undefined
  else
    match strrchr (reference.drop COIL_ROOT_PATH_LEN) COIL_PATH_DELIM with
    | none => resolve_error bufs
    | some i =>
      -- `++key_ptr`, as an offset into `reference`
      let key_off := COIL_ROOT_PATH_LEN + i + 1
      let key_ptr := reference.drop key_off
      if key_ptr.head? ≠ some COIL_PATH_DELIM ∧ key_ptr ≠ [] then
        let n := (key_off - 1) % GUINT_RANGE
        match on_buffer bufs.path (fun m => strncpy m reference COIL_PATH_LEN),
              on_buffer bufs.container
                (fun m => (strncpy m reference n).bind (fun m1 => put_nul m1 n)),
              on_buffer bufs.key (fun m => strcpy m key_ptr) with
        | some p, some c, some k => Outcome.success ⟨p, c, k⟩
        | _, _, _ => Outcome.undefined
      else resolve_error bufs

/-- The inner loop `while (*--e != '.' && e > base)` started with `e` at a
positive offset into `base`; the result is the offset at which it stops. -/
def pop_key_from : List Char → Nat → Nat
  | _, 0 => 0
  | base, e + 1 =>
    if base.getD e NUL ≠ COIL_PATH_DELIM ∧ 0 < e then pop_key_from base e else e

/-- One run of the inner loop `while (*--e != '.' && e > base)`, `e` being an
offset relative to `base`.  Started at or below `base` the loop reads one byte
in front of `base` and stops whatever that byte is, because `e > base` is
false. -/
def pop_key (base : List Char) (e : Int) : Int :=
  if 0 < e then (pop_key_from base e.toNat : Nat) else e - 1

/-- The loop `while (*++s == '.') <pop one key>`, started with `s` one past
the first dot of the reference.  Returns the final `s` and `e`. -/
def back_references (base : List Char) : List Char → Int → List Char × Int
  | [], e => ([], e)
  | c :: s, e =>
    if c = COIL_PATH_DELIM then back_references base s (pop_key base e) else (c :: s, e)

/-- The argument `s + 1` of the mid-path check.  When `s` is empty, `s + 1`
lies one past the terminator of the reference and `strstr` scans `after`, the
bytes that follow the reference in memory. -/
def mid_path_text (after s : List Char) : List Char :=
  match s with
  | [] => after
  | _ :: t => t

/-- The loop `while (*key_ptr != '.') key_ptr--`, started at offset `i` of
`mem`; `none` when it runs off the front of the buffer. -/
def key_ptr_scan (mem : List Char) : Nat → Option Nat
  | 0 => if mem.getD 0 NUL = COIL_PATH_DELIM then some 0 else none
  | i + 1 => if mem.getD (i + 1) NUL = COIL_PATH_DELIM then some (i + 1) else key_ptr_scan mem i

/-- The block `if (*s == '.') { while (*++s == '.') <pop one key> }` with
`s = reference` and `e = base + strlen(base)` on entry.  Returns the final
`s` and the final offset of `e` relative to `base`. -/
def leading_back_references (base reference : List Char) : List Char × Int :=
  match reference with
  | [] => ([], (base.length : Int))
  | c :: r =>
    if c = COIL_PATH_DELIM then back_references base r (base.length : Int)
    else (c :: r, (base.length : Int))

/-- The relative branch of `coil_path_resolve_full` after the leading dots:
the mid-path check, the length checks and the construction of the results
from `base`, the rest `s` of the reference and the offset `e`. -/
def resolve_append (after base s : List Char) (e : Int) (bufs : Buffers) : Outcome :=
  if strstr_dotdot (mid_path_text after s) then resolve_error bufs
  else
    let l1 := (e % (GUINT_RANGE : Int)).toNat
    let l2 := s.length % GUINT_RANGE
    let path_len := (l1 + l2 + 1) % GUINT_RANGE
    if path_len > COIL_PATH_LEN then resolve_error bufs
    else if l1 = 0 then resolve_error bufs
    else if l2 = 0 then resolve_error bufs
    else if base.length < l1 then Outcome.undefined -- memcpy(p, base, l1) leaves base
    else
      -- the bytes written to `buffer`: base[0..l1), the delimiter, s and a NUL
      let buffer := base.take l1 ++ COIL_PATH_DELIM :: (s ++ [NUL])
      match on_buffer bufs.path (fun m => poke m buffer) with
      | none => Outcome.undefined
      | some p =>
        if bufs.container.isSome ∨ bufs.key.isSome then
          match key_ptr_scan buffer path_len with
          | none => Outcome.undefined
          | some k =>
            let n := k % GUINT_RANGE
            match on_buffer bufs.container
                    (fun m => (strncpy m buffer n).bind (fun m1 => put_nul m1 n)),
                  on_buffer bufs.key (fun m => strcpy m (buffer.drop (k + 1))) with
            | some c, some ky => Outcome.success ⟨p, c, ky⟩
            | _, _ => Outcome.undefined
        else Outcome.success ⟨p, none, none⟩

/-- The branch of `coil_path_resolve_full` for a reference that is not
absolute. -/
def resolve_relative (after base reference : List Char) (bufs : Buffers) : Outcome :=
  let se := leading_back_references base reference
  resolve_append after base se.1 se.2 bufs

/-- `coil_path_resolve_full(base, reference, path, container, key, error)`.
`reference` is not NULL (the function returns FALSE at once otherwise);
`base` may be NULL.  `after` holds the bytes that follow the terminator of
`reference` in memory, which the mid-path check scans when the reference has
nothing after its leading dots. -/
def coil_path_resolve_full (after : List Char) (base : Option (List Char))
    (reference : List Char) (bufs : Buffers) : Outcome :=
  if bufs.path.isNone ∧ bufs.container.isNone ∧ bufs.key.isNone then Outcome.precondition
  else if COIL_PATH_IS_ABSOLUTE reference then resolve_absolute reference bufs
  else
    match base with
    | none => Outcome.precondition
    | some b => resolve_relative after b reference bufs

/-- `coil_path_resolve(base, reference, path, error)`. -/
def coil_path_resolve (after : List Char) (base : Option (List Char))
    (reference : List Char) (path : Option (List Char)) : Outcome :=
  coil_path_resolve_full after base reference ⟨path, none, none⟩

/-! ## `coil_path_relativize` -/

/-- What a call of `coil_path_relativize` does. -/
inductive Relativized where
  /-- The function returns; `none` is the NULL of a failed precondition. -/
  | returned (result : Option (List Char))
  /-- A memory access outside of its object. -/
  | undefined
deriving DecidableEq, Repr

/-- The loop that finds the first differing character.  `i` is the offset
reached, `marker` the offset of the last delimiter seen in the base.  Returns
what is left of the base (`p1`), of the path (`p2`), and the marker. -/
def first_difference : List Char → List Char → Nat → Option Nat →
    List Char × List Char × Option Nat
  | [], p2, _, marker => ([], p2, marker)
  | c1 :: p1, [], _, marker => (c1 :: p1, [], marker)
  | c1 :: p1, c2 :: p2, i, marker =>
    if c1 = c2 then
      first_difference p1 p2 (i + 1) (if c1 = COIL_PATH_DELIM then some i else marker)
    else (c1 :: p1, c2 :: p2, marker)

/-- `coil_path_relativize(base, path)`; `path` is not NULL. -/
def coil_path_relativize (base : Option (List Char)) (path : List Char) : Relativized :=
  if path = [] then Relativized.returned none
  else
    match base with
    | none => Relativized.returned (some path)
    | some b =>
      if b = [] ∨ COIL_PATH_IS_RELATIVE path then Relativized.returned (some path)
      else if COIL_PATH_IS_ROOT path ∨ COIL_PATH_IS_ROOT b then Relativized.returned none
      else
        let d := first_difference b path 0 none
        let p1 := d.1
        let p2 := d.2.1
        let marker := d.2.2
        let text : Option (List Char) :=
          if p1 ≠ [] ∨ p2 = [] then
            match marker with
            | none => none -- p2 = path + (NULL - base)
            | some m =>
              some (COIL_PATH_DELIM ::
                (List.replicate ((b.drop m).count COIL_PATH_DELIM) COIL_PATH_DELIM
                  ++ path.drop (m + 1)))
          else some (p2.drop 1)
        match text with
        | none => Relativized.undefined
        | some t =>
          -- `buffer[COIL_PATH_BUFLEN]` has to hold the text and its terminator
          if t.length + 1 ≤ COIL_PATH_BUFLEN then Relativized.returned (some t)
          else Relativized.undefined

/-! ## Vocabulary for the statements -/

/-- The strings held by the output buffers. -/
def Buffers.strings (b : Buffers) :
    Option (List Char) × Option (List Char) × Option (List Char) :=
  (b.path.map cstr, b.container.map cstr, b.key.map cstr)

/-- The given strings in the places of the buffers that are not NULL. -/
def Buffers.expect (b : Buffers) (p c k : List Char) :
    Option (List Char) × Option (List Char) × Option (List Char) :=
  (b.path.map (fun _ => p), b.container.map (fun _ => c), b.key.map (fun _ => k))

/-- A buffer argument is NULL or holds at least `COIL_PATH_BUFLEN` bytes, as
the documentation of `coil_path_resolve_full` asks. -/
def buffer_fits (buf : Option (List Char)) : Bool :=
  match buf with
  | none => true
  | some m => decide (COIL_PATH_BUFLEN ≤ m.length)

/-- The buffers a caller may pass: not all NULL, each large enough. -/
def Buffers.usable (b : Buffers) : Bool :=
  (b.path.isSome || b.container.isSome || b.key.isSome) &&
    (buffer_fits b.path && buffer_fits b.container && buffer_fits b.key)

/-- The text `.k1.k2 ... .kn` that a list of keys adds to a path. -/
def keys_text : List (List Char) → List Char
  | [] => []
  | k :: ks => COIL_PATH_DELIM :: (k ++ keys_text ks)

/-- The return value of a call that returns with or without a PATH error, and
the strings it leaves in the buffers; `none` for the two other outcomes. -/
def Outcome.result : Outcome →
    Option (Bool × (Option (List Char) × Option (List Char) × Option (List Char)))
  | Outcome.success b => some (true, b.strings)
  | Outcome.pathError b => some (false, b.strings)
  | Outcome.precondition => none
  | Outcome.undefined => none

/-- A buffer of `COIL_PATH_BUFLEN` zero bytes. -/
def zero_buffer : List Char := List.replicate COIL_PATH_BUFLEN NUL

/-- A buffer of `COIL_PATH_BUFLEN` bytes that still holds the string
`@root.a.b` of an earlier call. -/
def stale_buffer : List Char :=
  COIL_ROOT_PATH ++ ['.', 'a', '.', 'b'] ++ List.replicate 247 NUL

/-! ## `coil_path_build`, `coil_path_get_container`, `coil_path_get_key`

`COIL_DEBUG` says whether the build defines `COIL_DEBUG`: without it `coil.h`
defines `G_DISABLE_CHECKS` and the `g_return_if_fail` guards are compiled out.
The guards that only reject NULL pointers are not modelled. -/

/-- What a call of `coil_path_build` does. -/
inductive Built where
  /-- The result is NULL. -/
  | null
  /-- The result is this string. -/
  | string (s : List Char)
  /-- The assertion `g_assert(len <= COIL_PATH_LEN)` fails. -/
  | abort
deriving DecidableEq, Repr

/-- `coil_path_build(base, key_1, ..., key_n, NULL)`. -/
def coil_path_build (base : Option (List Char)) (keys : List (List Char)) : Built :=
  match base with
  | none => Built.null
  | some b =>
    let len := b.length + (keys.map (fun s => s.length + 1)).sum
    if len ≤ COIL_PATH_LEN then Built.string (b ++ keys_text keys) else Built.abort

/-- `coil_path_get_container(path)`. -/
def coil_path_get_container (path : List Char) : Option (List Char) :=
  match strrchr path COIL_PATH_DELIM with
  | none => none
  | some offset => some (path.take offset)

/-- `coil_path_get_key(path)`. -/
def coil_path_get_key (COIL_DEBUG : Bool) (path : List Char) : Option (List Char) :=
  if COIL_DEBUG = true ∧ path = [] then none
  else
    match strrchr path COIL_PATH_DELIM with
    | none => some path
    | some offset =>
      if path.drop (offset + 1) = [] then none else some (path.drop (offset + 1))

/-! ## `_path_has_container` and its two callers -/

/-- The loop `while (*p1 != 0 && *p1 == *p2) { p1++; p2++; }`: what is left
of the two strings when it stops. -/
def skip_common : List Char → List Char → List Char × List Char
  | c1 :: p1, c2 :: p2 => if c1 = c2 then skip_common p1 p2 else (c1 :: p1, c2 :: p2)
  | p1, p2 => (p1, p2)

/-- `_path_has_container(path, base, strict)`. -/
def _path_has_container (path base : List Char) (strict : Bool) : Bool :=
  if COIL_PATH_IS_ROOT base then !COIL_PATH_IS_ROOT path
  else
    let p := skip_common path base
    let has_prefix : Bool := p.1.head? == some COIL_PATH_DELIM && p.2.isEmpty
    if strict then has_prefix && !p.1.contains COIL_PATH_DELIM else has_prefix

/-- `coil_path_is_descendent(path, maybe_container)`. -/
def coil_path_is_descendent (path maybe_container : List Char) : Bool :=
  _path_has_container path maybe_container false

/-- `coil_path_has_container(path, maybe_container)`. -/
def coil_path_has_container (path maybe_container : List Char) : Bool :=
  _path_has_container path maybe_container true

/-- An absolute path of the data model: `@root` followed by zero or more keys,
each introduced by a dot, non-empty and without a dot. -/
def is_absolute_path (p : List Char) : Prop :=
  ∃ ks : List (List Char), (∀ k ∈ ks, k ≠ [] ∧ COIL_PATH_DELIM ∉ k) ∧
    p = COIL_ROOT_PATH ++ keys_text ks

/-! ## `coil_validate_key` and `coil_validate_path`

The two functions hand the patterns `^COIL_KEY_REGEX$` and `^COIL_PATH_REGEX$`
to GLib's `g_regex_match`.  The patterns are transcribed as regular
expressions and matched by derivatives; the anchors are those of a pattern
compiled, as here, without `G_REGEX_MULTILINE` and without
`G_REGEX_DOLLAR_ENDONLY`: `^` matches at the start of the subject and `$` at
its end and also immediately before a newline that ends the subject. -/

/-- The regular expressions that the two patterns are made of. -/
inductive Regex where
  /-- Matches no string. -/
  | nothing
  /-- Matches the empty string. -/
  | empty
  /-- One character of a class. -/
  | set (p : Char → Bool)
  /-- The alternation `a|b`. -/
  | alt (a b : Regex)
  /-- The sequence `ab`. -/
  | seq (a b : Regex)
  /-- The repetition `a*`. -/
  | star (a : Regex)

/-- The literal character `c`. -/
def Regex.chr (c : Char) : Regex := Regex.set (fun x => x == c)

/-- The option `a?`. -/
def Regex.opt (a : Regex) : Regex := Regex.alt a Regex.empty

/-- The repetition `a+`. -/
def Regex.plus (a : Regex) : Regex := Regex.seq a (Regex.star a)

/-- Whether the expression matches the empty string. -/
def Regex.nullable : Regex → Bool
  | Regex.nothing => false
  | Regex.empty => true
  | Regex.set _ => false
  | Regex.alt a b => a.nullable || b.nullable
  | Regex.seq a b => a.nullable && b.nullable
  | Regex.star _ => true

/-- The derivative: what has to match the rest after the character `c`. -/
def Regex.deriv : Regex → Char → Regex
  | Regex.nothing, _ => Regex.nothing
  | Regex.empty, _ => Regex.nothing
  | Regex.set p, c => if p c then Regex.empty else Regex.nothing
  | Regex.alt a b, c => Regex.alt (a.deriv c) (b.deriv c)
  | Regex.seq a b, c =>
    if a.nullable then Regex.alt (Regex.seq (a.deriv c) b) (b.deriv c)
    else Regex.seq (a.deriv c) b
  | Regex.star a, c => Regex.seq (a.deriv c) (Regex.star a)

/-- Whether the expression matches the whole of the string. -/
def Regex.rmatch : Regex → List Char → Bool
  | r, [] => r.nullable
  | r, c :: s => (r.deriv c).rmatch s

/-- The class `[a-zA-Z_]`. -/
def is_key_start (c : Char) : Bool :=
  ('a' ≤ c && c ≤ 'z') || ('A' ≤ c && c ≤ 'Z') || c == '_'

/-- The class `[\w-]`: letters, digits, `_` and `-`. -/
def is_key_char (c : Char) : Bool :=
  ('a' ≤ c && c ≤ 'z') || ('A' ≤ c && c ≤ 'Z') || ('0' ≤ c && c ≤ '9') || c == '_' || c == '-'

/-- `COIL_KEY_REGEX`, that is `-*[a-zA-Z_][\w-]*`. -/
def COIL_KEY_REGEX : Regex :=
  Regex.seq (Regex.star (Regex.chr '-'))
    (Regex.seq (Regex.set is_key_start) (Regex.star (Regex.set is_key_char)))

/-- `COIL_PATH_REGEX`, that is `(@|\.\.+)?` `COIL_KEY_REGEX` `(\.` `COIL_KEY_REGEX` `)*`. -/
def COIL_PATH_REGEX : Regex :=
  Regex.seq
    (Regex.opt (Regex.alt (Regex.chr '@')
      (Regex.seq (Regex.chr '.') (Regex.plus (Regex.chr '.')))))
    (Regex.seq COIL_KEY_REGEX
      (Regex.star (Regex.seq (Regex.chr '.') COIL_KEY_REGEX)))

/-- The newline sequences of GLib's default `PCRE_NEWLINE_ANY`: CR LF, LF, VT,
FF, CR, NEL, LS and PS. -/
def NEWLINES : List (List Char) :=
  [[Char.ofNat 13, Char.ofNat 10], [Char.ofNat 10], [Char.ofNat 11], [Char.ofNat 12],
   [Char.ofNat 13], [Char.ofNat 133], [Char.ofNat 8232], [Char.ofNat 8233]]

/-- `g_regex_match` for the pattern `^r$` with `G_REGEX_MATCH_NOTEMPTY`: the
expression matches the whole subject, or the subject without the newline that
ends it; an empty match does not count. -/
def g_regex_match_line (r : Regex) (subject : List Char) : Bool :=
  (r.rmatch subject && !subject.isEmpty) ||
    NEWLINES.any (fun nl =>
      nl.isSuffixOf subject &&
        (r.rmatch (subject.take (subject.length - nl.length)) &&
          !(subject.take (subject.length - nl.length)).isEmpty))

/-- `coil_validate_path(path)`. -/
def coil_validate_path (path : List Char) : Bool :=
  g_regex_match_line COIL_PATH_REGEX path

/-- `coil_validate_key(key)`. -/
def coil_validate_key (key : List Char) : Bool :=
  g_regex_match_line COIL_KEY_REGEX key

/-- A key in the words of the data model: zero or more `-`, then a letter or
`_`, then zero or more letters, digits, `_` or `-`. -/
def is_key (k : List Char) : Prop :=
  ∃ (n : Nat) (c : Char) (rest : List Char),
    k = List.replicate n '-' ++ c :: rest ∧ is_key_start c = true ∧
      ∀ x ∈ rest, is_key_char x = true

/-- The well-formed paths in the words of claim C13: `@root` followed by zero
or more `.key` segments, or zero or more leading dots followed by one or more
keys joined by single dots. -/
def is_data_model_path (p : List Char) : Prop :=
  (∃ ks : List (List Char), (∀ k ∈ ks, is_key k) ∧ p = COIL_ROOT_PATH ++ keys_text ks) ∨
  (∃ (n : Nat) (k : List Char) (ks : List (List Char)),
    is_key k ∧ (∀ j ∈ ks, is_key j) ∧ p = List.replicate n '.' ++ k ++ keys_text ks)

/-- The strings that `COIL_PATH_REGEX` describes: nothing, `@`, or two or more
dots, followed by one or more keys joined by single dots. -/
def is_pattern_path (p : List Char) : Prop :=
  ∃ (pre k : List Char) (ks : List (List Char)),
    (pre = [] ∨ pre = ['@'] ∨ ∃ n : Nat, pre = List.replicate (n + 2) '.') ∧
      is_key k ∧ (∀ j ∈ ks, is_key j) ∧ p = pre ++ k ++ keys_text ks

/-- Whether the string ends with one of the newline sequences. -/
def ends_with_newline (s : List Char) : Bool :=
  NEWLINES.any (fun nl => nl.isSuffixOf s)

/-! ## The struct engine: objects and tables

Objects live in an `Engine`: a pointer to a struct is the index of the struct
in `Engine.structs`, a `GHashTable` of paths is an index in `Engine.tables`
(the structs of one tree share the table of their root).  A hash table is an
association list; only lookups observe it.  Strings and `GValue`s are values:
reference counts, the ownership of strings and finalisation are not modelled,
so an execution of the model is an execution of the code in which the caller
holds a reference to every object.  `guint` fields count modulo
`GUINT_RANGE`. -/

/-- What a `GValue` of the library holds: the none object, a boolean, an
integer, a string, a list, or a struct, link or include object. -/
inductive Value where
  | none_object
  | boolean (b : Bool)
  | int (i : Int)
  | string (s : List Char)
  | list (items : List Value)
  | struct (id : Nat)
  | link (id : Nat)
  | inc (id : Nat)

mutual
/-- Structural equality of values. -/
def Value.beq : Value → Value → Bool
  | Value.none_object, Value.none_object => true
  | Value.boolean a, Value.boolean b => a == b
  | Value.int a, Value.int b => a == b
  | Value.string a, Value.string b => a == b
  | Value.list a, Value.list b => Value.beqList a b
  | Value.struct a, Value.struct b => a == b
  | Value.link a, Value.link b => a == b
  | Value.inc a, Value.inc b => a == b
  | _, _ => false
/-- Structural equality of lists of values. -/
def Value.beqList : List Value → List Value → Bool
  | [], [] => true
  | x :: xs, y :: ys => Value.beq x y && Value.beqList xs ys
  | _, _ => false
end

mutual
theorem Value.eq_of_beq : ∀ a b : Value, Value.beq a b = true → a = b
  | Value.none_object, b, h => by cases b <;> simp_all [Value.beq]
  | Value.boolean a, b, h => by cases b <;> simp_all [Value.beq]
  | Value.int a, b, h => by cases b <;> simp_all [Value.beq]
  | Value.string a, b, h => by cases b <;> simp_all [Value.beq]
  | Value.list a, b, h => by
    cases b <;> simp_all [Value.beq]
    exact Value.eq_of_beqList _ _ h
  | Value.struct a, b, h => by cases b <;> simp_all [Value.beq]
  | Value.link a, b, h => by cases b <;> simp_all [Value.beq]
  | Value.inc a, b, h => by cases b <;> simp_all [Value.beq]
theorem Value.eq_of_beqList : ∀ a b : List Value, Value.beqList a b = true → a = b
  | [], b, h => by cases b <;> simp_all [Value.beqList]
  | x :: xs, b, h => by
    cases b with
    | nil => simp [Value.beqList] at h
    | cons y ys =>
      simp only [Value.beqList, Bool.and_eq_true] at h
      rw [Value.eq_of_beq x y h.1, Value.eq_of_beqList xs ys h.2]
end

mutual
theorem Value.beq_self : ∀ a : Value, Value.beq a a = true
  | Value.none_object => by simp [Value.beq]
  | Value.boolean a => by simp [Value.beq]
  | Value.int a => by simp [Value.beq]
  | Value.string a => by simp [Value.beq]
  | Value.list a => by simp [Value.beq, Value.beqList_self a]
  | Value.struct a => by simp [Value.beq]
  | Value.link a => by simp [Value.beq]
  | Value.inc a => by simp [Value.beq]
theorem Value.beqList_self : ∀ a : List Value, Value.beqList a a = true
  | [] => by simp [Value.beqList]
  | x :: xs => by simp [Value.beqList, Value.beq_self x, Value.beqList_self xs]
end

instance : DecidableEq Value := fun a b =>
  if h : Value.beq a b = true then isTrue (Value.eq_of_beq a b h)
  else isFalse (fun hab => h (hab ▸ Value.beq_self a))

/-- The struct a value holds: `G_VALUE_HOLDS(value, COIL_TYPE_STRUCT)` and
`g_value_get_object`. -/
def Value.holds_struct : Value → Option Nat
  | Value.struct id => some id
  | _ => none

/-- The error codes of `coil_error.h`. -/
inductive CoilError where
  | COIL_ERROR_FILE
  | COIL_ERROR_INTERNAL
  | COIL_ERROR_KEY
  | COIL_ERROR_KEY_MISSING
  | COIL_ERROR_LINK
  | COIL_ERROR_PARSE
  | COIL_ERROR_PATH
  | COIL_ERROR_STRUCT
  | COIL_ERROR_VALUE
deriving DecidableEq, Repr

/-- A `StructItem`, one link of a struct's `order`; `value` is NULL between the
two halves of an overwrite. -/
structure StructItem where
  key : List Char
  path : List Char
  value : Option Value
deriving DecidableEq

/-- A handler connected to a signal of a struct: the struct passed as `data`,
and how many times the handler is blocked. -/
structure Handler where
  data : Nat
  block_count : Nat
deriving DecidableEq, Repr

/-- A `CoilStruct` with its `CoilStructPrivate` and the fields it inherits
from `CoilExpandable`.  `key_table` maps a key to its value or to NULL (a key
marked deleted); `order` lists the items from the head of the `GList`, the key
set last first; `dependencies` likewise.  `modify_handlers` are the
connections of `_struct_expand_notify_cb` to the `modify` signal,
`prototype_handlers` those of `_prototype_expand_notify_cb` to
`notify::is-prototype`, their `data`. -/
structure CoilStruct where
  container : Option Nat
  expanded : Bool
  is_prototype : Bool
  always_expand : Bool
  remember_deps : Bool
  key_table : List (List Char × Option Value)
  path_table : Nat
  name : List Char
  path : List Char
  size : Nat
  version : Nat
  order : List StructItem
  dependencies : List Value
  expand_ptr : Option Nat
  expand_lock : Bool
  modify_handlers : List Handler
  prototype_handlers : List Nat
deriving DecidableEq

/-- A `CoilLink`: its container, whether it is marked expanded, and the path
it points to. -/
structure CoilLink where
  container : Option Nat
  expanded : Bool
  path : List Char
deriving DecidableEq, Repr

/-- A `CoilInclude`: its container and whether it is marked expanded. -/
structure CoilInclude where
  container : Option Nat
  expanded : Bool
deriving DecidableEq, Repr

/-- The objects of a program: structs, path tables, links and includes. -/
structure Engine where
  structs : List CoilStruct
  tables : List (List (List Char × Value))
  links : List CoilLink
  includes : List CoilInclude
deriving DecidableEq

/-- How a call ends. -/
inductive Run (α : Type) where
  /-- The call returns `a` and leaves the objects as in `e`. -/
  | done (e : Engine) (a : α)
  /-- A `g_assert` fails or `g_error` is called: the program aborts. -/
  | abort
  /-- A memory access through a pointer that is NULL, dangling or not
  initialised. -/
  | undefined
  /-- The call does not return: a loop or a recursion without end. -/
  | diverge
deriving DecidableEq

/-- Continue after a call that returned. -/
def Run.bind {α β : Type} (r : Run α) (f : Engine → α → Run β) : Run β :=
  match r with
  | Run.done e a => f e a
  | Run.abort => Run.abort
  | Run.undefined => Run.undefined
  | Run.diverge => Run.diverge

/-- `g_hash_table_lookup_extended` on an association list. -/
def table_lookup {β : Type} (t : List (List Char × β)) (k : List Char) : Option β :=
  match t with
  | [] => none
  | (k1, v) :: rest => if k1 = k then some v else table_lookup rest k

/-- `g_hash_table_remove`. -/
def table_remove {β : Type} (t : List (List Char × β)) (k : List Char) : List (List Char × β) :=
  match t with
  | [] => []
  | (k1, v) :: rest => if k1 = k then table_remove rest k else (k1, v) :: table_remove rest k

/-- `g_hash_table_insert`: the value of an existing key is replaced. -/
def table_insert {β : Type} (t : List (List Char × β)) (k : List Char) (v : β) :
    List (List Char × β) :=
  (k, v) :: table_remove t k

/-- The path table behind a handle; a handle that names no table has no
entries. -/
def Engine.table (e : Engine) (t : Nat) : List (List Char × Value) :=
  (e.tables[t]?).getD []

/-- Store a struct at its place. -/
def Engine.set_struct (e : Engine) (id : Nat) (s : CoilStruct) : Engine :=
  { e with structs := e.structs.set id s }

/-- Store a path table at its place. -/
def Engine.set_table (e : Engine) (t : Nat) (tbl : List (List Char × Value)) : Engine :=
  { e with tables := e.tables.set t tbl }

/-- `g_hash_table_lookup(self->priv->path_table, path)`. -/
def path_table_lookup (e : Engine) (s : CoilStruct) (path : List Char) : Option Value :=
  table_lookup (e.table s.path_table) path

/-- A `guint` incremented. -/
def guint_succ (n : Nat) : Nat := (n + 1) % GUINT_RANGE

/-- A `guint` decremented. -/
def guint_pred (n : Nat) : Nat := (n + GUINT_RANGE - 1) % GUINT_RANGE

/-! ## The struct engine: functions of `coil_struct.c`

`coil.h` defines `G_DISABLE_CHECKS` unless `COIL_DEBUG` is defined, so the
`g_return_if_fail` guards are compiled only into a debug build; `COIL_DEBUG`
says which build runs.  Guards that reject a NULL pointer or an object of the
wrong type are not modelled apart from that: a handle that names no struct is
an invalid pointer.  The functions that call each other in a circle are
passed in as `Calls`. -/

/-- The build and the functions that are called across the recursion of the
struct engine, each with what it returns and the error it sets:
`coil_expand(object, NULL, error)` on a struct;
`coil_struct_merge(src, dest, overwrite, error)`;
`coil_expand_value_internal(value, &value, NULL, error)` with the value it
yields, NULL when it fails;
`coil_expand(object, visited, error)` on a struct with the table `visited`
as it is on entry and as it is left;
`coil_expand_value_internal(value, &value, visited, error)` on a value that
holds a link or an include;
`coil_struct_copy(self, new_container, error)`;
`coil_struct_expand_recursive(self, error)`. -/
structure Calls where
  COIL_DEBUG : Bool
  coil_expand : Engine → Nat → Run (Bool × Option CoilError)
  coil_struct_merge : Engine → Nat → Nat → Bool → Run (Option CoilError)
  coil_expand_value_internal : Engine → Value → Run (Option Value × Option CoilError)
  coil_expand_visited : Engine → Nat → List Value → Run (Bool × Option CoilError × List Value)
  coil_expand_value_visited :
    Engine → Value → List Value → Run (Option Value × Option CoilError × List Value)
  coil_struct_copy : Engine → Nat → Option Nat → Run (Option Nat × Option CoilError)
  coil_struct_expand_recursive : Engine → Nat → Run (Bool × Option CoilError)

/-- The memory a caller of `coil_path_resolve_full` leaves to the machine: the
bytes of its three local buffers of `COIL_PATH_BUFLEN` bytes when the call
starts, and the bytes that follow the terminator of the reference. -/
structure Frame where
  path : List Char
  container_path : List Char
  key : List Char
  after : List Char
deriving DecidableEq, Repr

/-- `coil_struct_is_root(self)`. -/
def coil_struct_is_root (s : CoilStruct) : Bool := s.container.isNone

/-- `coil_struct_is_empty(self)`, that is `!(size || dependencies)`. -/
def coil_struct_is_empty (s : CoilStruct) : Bool :=
  !(s.size != 0 || !s.dependencies.isEmpty)

/-- The loop of `coil_struct_get_root`; it runs out of `fuel` only when the
chain of containers comes back to a struct it has passed. -/
def get_root_loop : Nat → Engine → Nat → Run Nat
  | 0, _, _ => Run.diverge
  | fuel + 1, e, root =>
    match e.structs[root]? with
    | none => Run.undefined
    | some s =>
      match s.container with
      | none => Run.done e root
      | some c => get_root_loop fuel e c

/-- `coil_struct_get_root(self)`. -/
def coil_struct_get_root (e : Engine) (self : Nat) : Run Nat :=
  get_root_loop (e.structs.length + 1) e self

/-- The loop of `coil_struct_is_ancestor`. -/
def is_ancestor_loop : Nat → Engine → Nat → Nat → Run Bool
  | 0, _, _, _ => Run.diverge
  | fuel + 1, e, parent, container =>
    match e.structs[container]? with
    | none => Run.undefined
    | some s =>
      match s.container with
      | none => Run.done e false
      | some c => if c = parent then Run.done e true else is_ancestor_loop fuel e parent c

/-- `coil_struct_is_ancestor(parent, child)`. -/
def coil_struct_is_ancestor (e : Engine) (parent child : Nat) : Run Bool :=
  is_ancestor_loop (e.structs.length + 1) e parent child

/-- `coil_struct_is_descendent(child, parent)`. -/
def coil_struct_is_descendent (e : Engine) (child parent : Nat) : Run Bool :=
  coil_struct_is_ancestor e parent child

/-- `_prototype_expand_notify_cb(instance, arg1, data)`: once the struct is
no prototype the handler disconnects itself, asserting that it was connected
once, and connects `_struct_expand_notify_cb` to `modify` instead. -/
def _prototype_expand_notify_cb (e : Engine) (inst data : Nat) : Run Unit :=
  match e.structs[inst]? with
  | none => Run.undefined
  | some parent =>
    if !parent.is_prototype then
      if parent.prototype_handlers.count data = 1 then
        Run.done (e.set_struct inst
          { parent with
            prototype_handlers := parent.prototype_handlers.filter (fun d => d != data)
            modify_handlers := parent.modify_handlers ++ [⟨data, 0⟩] }) ()
      else Run.abort
    else Run.done e ()

/-- `g_object_set(self, "is-prototype", value, NULL)`: the field is set and
`notify::is-prototype` is emitted to the handlers connected at that time that
are still connected when their turn comes. -/
def set_is_prototype (e : Engine) (self : Nat) (value : Bool) : Run Unit :=
  match e.structs[self]? with
  | none => Run.undefined
  | some s =>
    s.prototype_handlers.foldl
      (fun r d => r.bind (fun e1 _ =>
        match e1.structs[self]? with
        | none => Run.undefined
        | some s1 =>
          if s1.prototype_handlers.contains d then _prototype_expand_notify_cb e1 self d
          else Run.done e1 ()))
      (Run.done (e.set_struct self { s with is_prototype := value }) ())

/-- `coil_struct_foreach_container(self, _cast_prototype_to_real, NULL)`: the
walk up the containers stops at the first struct that is no prototype. -/
def cast_prototypes : Nat → Engine → Nat → Run Unit
  | 0, _, _ => Run.diverge
  | fuel + 1, e, container =>
    match e.structs[container]? with
    | none => Run.undefined
    | some s =>
      if s.is_prototype then
        (set_is_prototype e container false).bind (fun e1 _ =>
          match e1.structs[container]? with
          | none => Run.undefined
          | some s1 =>
            match s1.container with
            | none => Run.done e1 ()
            | some c => cast_prototypes fuel e1 c)
      else Run.done e ()

/-- `_struct_expand_notify_cb(instance, data)`: the handler disconnects itself,
asserting that it was connected once, and expands `data`; it returns the
error of the expansion. -/
def _struct_expand_notify_cb (X : Calls) (e : Engine) (inst data : Nat) :
    Run (Option CoilError) :=
  match e.structs[inst]? with
  | none => Run.undefined
  | some parent =>
    if (parent.modify_handlers.filter (fun h => h.data == data)).length = 1 then
      (X.coil_expand
        (e.set_struct inst
          { parent with
            modify_handlers := parent.modify_handlers.filter (fun h => h.data != data) })
        data).bind (fun e1 r => Run.done e1 r.2)
    else Run.abort

/-- `g_signal_emit(self, struct_signals[MODIFY], 0, &internal_error)`: the
handlers connected when the emission starts run in turn, unless blocked or
disconnected by then; the signal has no accumulator, so the error that comes
back is that of the last handler run, NULL when none ran. -/
def emit_modify (X : Calls) (e : Engine) (self : Nat) : Run (Option CoilError) :=
  match e.structs[self]? with
  | none => Run.undefined
  | some s =>
    s.modify_handlers.foldl
      (fun r h => r.bind (fun e1 err =>
        match e1.structs[self]? with
        | none => Run.undefined
        | some s1 =>
          if s1.modify_handlers.any (fun h1 => h1.data == h.data && h1.block_count == 0) then
            _struct_expand_notify_cb X e1 self h.data
          else Run.done e1 err))
      (Run.done e none)

/-- `coil_struct_new("container", container, "name", name, "path", path,
"is-prototype", is_prototype, ...)`.  `container`, `name` and `is-prototype`
are construct properties, set before `coil_struct_constructor` runs; the
constructor builds the path of a contained struct from the path of its
container, or makes a root with a path table of its own; `path`, when given,
is set afterwards.  The result is the new struct. -/
def coil_struct_new (e : Engine) (container : Option Nat) (name : List Char)
    (path : Option (List Char)) (is_prototype : Bool) : Run Nat :=
  let fresh (built : List Char) (table : Nat) : CoilStruct :=
    { container := container, expanded := true, is_prototype := is_prototype,
      always_expand := false, remember_deps := false, key_table := [],
      path_table := table, name := name, path := path.getD built, size := 0,
      version := 0, order := [], dependencies := [], expand_ptr := none,
      expand_lock := false, modify_handlers := [], prototype_handlers := [] }
  match container with
  | some c =>
    match e.structs[c]? with
    | none => Run.undefined
    | some cs =>
      match coil_path_build (some cs.path) [name] with
      | Built.string built =>
        Run.done { e with structs := e.structs ++ [fresh built cs.path_table] }
          e.structs.length
      | Built.null => Run.undefined
      | Built.abort => Run.abort
  | none =>
    Run.done
      { e with
        structs := e.structs ++ [fresh COIL_ROOT_PATH e.tables.length]
        tables := e.tables ++ [[]] }
      e.structs.length

/-- One turn of the loop of `_struct_rebuild_path_data` for the item at
`index` of the order of `self`: the path of the item is built anew from the
path of the struct and entered in the path table in place of the old one; a
struct held by the item gets the new path and, when its size is not zero, is
rebuilt by `recur`. -/
def rebuild_item (recur : Engine → Nat → Run Unit) (e : Engine) (self index : Nat) :
    Run Unit :=
  match e.structs[self]? with
  | none => Run.undefined
  | some s =>
    match s.order[index]? with
    | none => Run.undefined
    | some item =>
      match coil_path_build (some s.path) [item.key] with
      | Built.null => Run.undefined
      | Built.abort => Run.abort
      | Built.string new_path =>
        match item.value with
        | none => Run.undefined
        | some value =>
          let e1 := e.set_table s.path_table
            (table_insert (table_remove (e.table s.path_table) item.path) new_path value)
          let children : Run Unit :=
            match value.holds_struct with
            | none => Run.done e1 ()
            | some child =>
              match e1.structs[child]? with
              | none => Run.undefined
              | some cs =>
                let e2 := e1.set_struct child { cs with path := new_path }
                if cs.size != 0 then recur e2 child else Run.done e2 ()
          children.bind (fun e3 _ =>
            match e3.structs[self]? with
            | none => Run.undefined
            | some s3 =>
              match s3.order[index]? with
              | none => Run.undefined
              | some item3 =>
                Run.done (e3.set_struct self
                  { s3 with order := s3.order.set index { item3 with path := new_path } }) ())

/-- `_struct_rebuild_path_data(self)`; `fuel` bounds the depth of the
recursion into the structs held. -/
def _struct_rebuild_path_data : Nat → Engine → Nat → Run Unit
  | 0, _, _ => Run.diverge
  | fuel + 1, e, self =>
    match e.structs[self]? with
    | none => Run.undefined
    | some s =>
      if s.order.isEmpty then Run.abort
      else
        (List.range s.order.length).foldl
          (fun r index => r.bind (fun e1 _ =>
            rebuild_item (_struct_rebuild_path_data fuel) e1 self index))
          (Run.done e ())

/-- `struct_rebuild_path_data(self)`. -/
def struct_rebuild_path_data (e : Engine) (self : Nat) : Run Unit :=
  match e.structs[self]? with
  | none => Run.undefined
  | some s =>
    if s.size = 0 then Run.done e ()
    else
      match s.order.head? with
      | none => Run.undefined
      | some first_item =>
        if coil_path_has_container first_item.key s.path then Run.done e ()
        else _struct_rebuild_path_data (e.structs.length + 1) e self

/-- `coil_struct_is_deleted_key(self, key)`. -/
def coil_struct_is_deleted_key (s : CoilStruct) (key : List Char) : Bool :=
  if coil_struct_is_empty s then false
  else
    match table_lookup s.key_table key with
    | some none => true
    | _ => false

/-- `coil_struct_contains_key(self, key, check_secondary_keys)`. -/
def coil_struct_contains_key (COIL_DEBUG : Bool) (s : CoilStruct) (key : List Char)
    (check_secondary_keys : Bool) : Bool :=
  if COIL_DEBUG && s.is_prototype then false
  else if coil_struct_is_empty s then false
  else if !check_secondary_keys then (table_lookup s.key_table key).isSome
  else false

/-- `coil_struct_mark_key_deleted(self, key, error)`. -/
def coil_struct_mark_key_deleted (COIL_DEBUG : Bool) (e : Engine) (self : Nat)
    (key : List Char) : Run (Option CoilError) :=
  match e.structs[self]? with
  | none => Run.undefined
  | some s =>
    if coil_struct_is_root s then Run.done e (some CoilError.COIL_ERROR_STRUCT)
    else if coil_struct_is_deleted_key s key then
      Run.done e (some CoilError.COIL_ERROR_STRUCT)
    else if coil_struct_contains_key COIL_DEBUG s key false then
      Run.done e (some CoilError.COIL_ERROR_STRUCT)
    else
      Run.done (e.set_struct self
        { s with
          key_table := table_insert s.key_table key none
          version := guint_succ s.version }) none

/-- The offset of the first item of the order with the given key, found by
the `strcmp` loop of `struct_delete_internal`. -/
def find_item : List StructItem → List Char → Option Nat
  | [], _ => none
  | item :: rest, key =>
    if item.key = key then some 0 else (find_item rest key).map (fun i => i + 1)

/-- `struct_delete_internal(self, key, path, skip_value_check, preserve_order,
&preserved_item)`: the return value and the offset of the preserved item in
the order. -/
def struct_delete_internal (COIL_DEBUG : Bool) (e : Engine) (self : Nat)
    (key path : List Char) (skip_value_check preserve_order : Bool) :
    Run (Bool × Option Nat) :=
  match e.structs[self]? with
  | none => Run.undefined
  | some s =>
    if COIL_DEBUG && s.is_prototype then Run.done e (false, none)
    else
      let found := table_lookup s.key_table key
      if !skip_value_check && !(s.size != 0 && found.isSome && found.join.isSome) then
        if !(found.isSome || coil_struct_is_root s) then
          (coil_struct_mark_key_deleted COIL_DEBUG e self key).bind
            (fun e1 _ => Run.done e1 (false, none))
        else Run.done e (false, none)
      else if coil_struct_is_empty s then Run.done e (false, none)
      else
        match find_item s.order key with
        | none => Run.abort
        | some index =>
          let order :=
            if preserve_order then s.order.set index ⟨key, path, none⟩
            else s.order.eraseIdx index
          let e1 := e.set_table s.path_table (table_remove (e.table s.path_table) path)
          Run.done (e1.set_struct self
            { s with
              order := order
              key_table := table_remove s.key_table key
              size := guint_pred s.size
              version := guint_succ s.version })
            (true, if preserve_order then some index else none)

/-- The bytes `coil_path_build_buffer(buffer, base, key, NULL)` writes. -/
def coil_path_build_buffer (base key : List Char) : List Char :=
  base ++ COIL_PATH_DELIM :: (key ++ [NUL])

/-- `coil_struct_delete_key(self, key)`; the path is built in a local buffer
of `COIL_PATH_BUFLEN` bytes without a check of its length. -/
def coil_struct_delete_key (COIL_DEBUG : Bool) (e : Engine) (self : Nat) (key : List Char) :
    Run Bool :=
  match e.structs[self]? with
  | none => Run.undefined
  | some s =>
    if COIL_PATH_BUFLEN < (coil_path_build_buffer s.path key).length then Run.undefined
    else
      (struct_delete_internal COIL_DEBUG e self key (s.path ++ COIL_PATH_DELIM :: key)
        false false).bind (fun e1 r => Run.done e1 r.1)

/-- The overwrite in `struct_set_value_internal`: the old value is deleted
while its item is preserved, and the item takes the new value; the function
asserts that the delete succeeds. -/
def set_value_overwrite (COIL_DEBUG : Bool) (e : Engine) (self : Nat) (key path : List Char)
    (value : Value) : Run Unit :=
  (struct_delete_internal COIL_DEBUG e self key path true true).bind (fun e1 r =>
    match r.1, r.2 with
    | true, some index =>
      match e1.structs[self]? with
      | none => Run.undefined
      | some s1 =>
        match s1.order[index]? with
        | none => Run.undefined
        | some item =>
          Run.done (e1.set_struct self
            { s1 with order := s1.order.set index { item with value := some value } }) ()
    | _, _ => Run.abort)

/-- The test in `struct_set_value_internal` for a prototype that is
overwritten by a struct: the prototype and the struct, if so.  The outer
`none` is an old value that holds an invalid pointer. -/
def overwritten_prototype (e : Engine) (old_value value : Value) :
    Option (Option (Nat × Nat)) :=
  match old_value.holds_struct with
  | none => some none
  | some node =>
    match e.structs[node]? with
    | none => none
    | some ns =>
      if ns.is_prototype then some (value.holds_struct.map (fun src => (node, src)))
      else some none

/-- The first half of `struct_set_value_internal` after the `modify` signal:
a path without a value gets a new item at the head of the order; a prototype
overwritten by a struct is merged with it, and the function returns (the
result is `some` of the error to return); any other value is overwritten. -/
def set_value_order (X : Calls) (e : Engine) (self : Nat) (key path : List Char)
    (value : Value) : Run (Option (Option CoilError)) :=
  match e.structs[self]? with
  | none => Run.undefined
  | some s =>
    match path_table_lookup e s path with
    | none =>
      Run.done (e.set_struct self { s with order := ⟨key, path, some value⟩ :: s.order }) none
    | some old_value =>
      match overwritten_prototype e old_value value with
      | none => Run.undefined
      | some (some (node, src)) =>
        (X.coil_struct_merge e src node true).bind (fun e1 internal_error =>
          match internal_error with
          | some err => Run.done e1 (some (some err))
          | none =>
            (set_is_prototype e1 node false).bind (fun e2 _ => Run.done e2 (some none)))
      | some none =>
        (set_value_overwrite X.COIL_DEBUG e self key path value).bind
          (fun e1 _ => Run.done e1 none)

/-- The second half of `struct_set_value_internal`: a struct that is set as a
value takes the path table of `self` unless it is below `self` already, gets
`self` as container with the key as name and the path as path, and has its
path data rebuilt; any other expandable gets `self` as container. -/
def set_value_attach (e : Engine) (self : Nat) (key path : List Char) (value : Value) :
    Run Unit :=
  match value with
  | Value.struct node =>
    (coil_struct_is_descendent e node self).bind (fun e1 below =>
      match e1.structs[self]?, e1.structs[node]? with
      | some s, some ns =>
        struct_rebuild_path_data
          (e1.set_struct node
            { ns with
              path_table := if below then ns.path_table else s.path_table
              container := some self
              name := key
              path := path })
          node
      | _, _ => Run.undefined)
  | Value.link l =>
    match e.links[l]? with
    | none => Run.undefined
    | some object =>
      Run.done { e with links := e.links.set l { object with container := some self } } ()
  | Value.inc i =>
    match e.includes[i]? with
    | none => Run.undefined
    | some object =>
      Run.done { e with includes := e.includes.set i { object with container := some self } } ()
  | _ => Run.done e ()

/-- `struct_set_value_internal(self, key, path, value, cast_prototype,
error)`: the error it sets, if any. -/
def struct_set_value_internal (X : Calls) (e : Engine) (self : Nat) (key path : List Char)
    (value : Value) (cast_prototype : Bool) : Run (Option CoilError) :=
  (emit_modify X e self).bind (fun e1 internal_error =>
    match internal_error with
    | some err => Run.done e1 (some err)
    | none =>
      (set_value_order X e1 self key path value).bind (fun e2 early =>
        match early with
        | some result => Run.done e2 result
        | none =>
          (set_value_attach e2 self key path value).bind (fun e3 _ =>
            match e3.structs[self]? with
            | none => Run.undefined
            | some s =>
              let e4 := (e3.set_table s.path_table
                  (table_insert (e3.table s.path_table) path value)).set_struct self
                { s with
                  key_table := table_insert s.key_table key (some value)
                  version := guint_succ s.version
                  size := guint_succ s.size }
              if cast_prototype && s.is_prototype then
                (cast_prototypes (e4.structs.length + 1) e4 self).bind
                  (fun e5 _ => Run.done e5 none)
              else Run.done e4 none)))

/-- Where the first loop of `create_containers` stops: the local buffer, the
offset `key` (equal to `len`), the number of keys popped, and `value`, which
is not initialised (`none`) before the first lookup. -/
structure Search where
  buf : List Char
  key : Nat
  missing : Nat
  value : Option (Option Value)

/-- The first loop of `create_containers`: look the path up, and while it has
no value pop its last key.  The result is the error set on a value that is no
struct, or the place where the loop stops.  Popping scans backwards for a
delimiter; a path without one is left at its front. -/
def create_containers_find (is_prototype : Bool) :
    Nat → Engine → Nat → Search → Run (Except CoilError Search)
  | 0, _, _, _ => Run.diverge
  | fuel + 1, e, self, st =>
    if st.key ≤ COIL_ROOT_PATH_LEN then Run.done e (Except.ok st)
    else
      match e.structs[self]? with
      | none => Run.undefined
      | some s =>
        match path_table_lookup e s (cstr st.buf) with
        | some value =>
          match value.holds_struct with
          | none => Run.done e (Except.error CoilError.COIL_ERROR_PATH)
          | some container =>
            match e.structs[container]? with
            | none => Run.undefined
            | some cs =>
              if !is_prototype && cs.is_prototype then
                (cast_prototypes (e.structs.length + 1) e container).bind (fun e1 _ =>
                  Run.done e1 (Except.ok { st with value := some (some value) }))
              else Run.done e (Except.ok { st with value := some (some value) })
        | none =>
          match strrchr (cstr st.buf) COIL_PATH_DELIM with
          | none => Run.undefined
          | some offset =>
            create_containers_find is_prototype fuel e self
              ⟨st.buf.set offset NUL, offset, st.missing + 1, some none⟩

/-- The second loop of `create_containers`: for each key popped, put the
delimiter back, make a struct for the path that ends there and set it in its
container.  A NULL `container` passes the guards of a debug build only. -/
def create_containers_add (X : Calls) (is_prototype : Bool) :
    Nat → Engine → List Char → Nat → Option Nat → Run (Option Nat)
  | 0, e, _, _, container => Run.done e container
  | missing + 1, e, buf, key, container =>
    if buf.length ≤ key then Run.undefined
    else
      let buf1 := buf.set key COIL_PATH_DELIM
      let name := cstr (buf1.drop (key + 1))
      let path := cstr buf1
      (coil_struct_new e container name (some path) is_prototype).bind (fun e1 next =>
        let set : Run Unit :=
          match container with
          | some c =>
            (struct_set_value_internal X e1 c name path (Value.struct next) false).bind
              (fun e2 _ => Run.done e2 ())
          | none => if X.COIL_DEBUG then Run.done e1 () else Run.undefined
        set.bind (fun e2 _ =>
          create_containers_add X is_prototype missing e2 buf1 (key + 1 + name.length)
            (some next)))

/-- `create_containers(self, container_path, is_prototype, error)`: the
container, NULL with the error set when a value on the way is no struct. -/
def create_containers (X : Calls) (e : Engine) (self : Nat) (container_path : List Char)
    (is_prototype : Bool) : Run (Option Nat × Option CoilError) :=
  if COIL_PATH_IS_ROOT container_path then
    (coil_struct_get_root e self).bind (fun e1 root => Run.done e1 (some root, none))
  else if COIL_PATH_BUFLEN ≤ container_path.length then Run.abort
  else
    (create_containers_find is_prototype (container_path.length + 1) e self
      ⟨container_path ++ [NUL], container_path.length, 0, none⟩).bind (fun e1 found =>
      match found with
      | Except.error err => Run.done e1 (none, some err)
      | Except.ok st =>
        let container : Run (Option Nat) :=
          if st.key = COIL_ROOT_PATH_LEN then
            (coil_struct_get_root e1 self).bind (fun e2 root => Run.done e2 (some root))
          else
            match st.value with
            | none => Run.undefined
            | some none => Run.done e1 none
            | some (some value) => Run.done e1 value.holds_struct
        container.bind (fun e2 c =>
          (create_containers_add X is_prototype st.missing e2 st.buf st.key c).bind
            (fun e3 last => Run.done e3 (last, none))))

/-- `coil_struct_set_path_value(self, path, value, error)`: the error it
sets, if any. -/
def coil_struct_set_path_value (X : Calls) (f : Frame) (e : Engine) (self : Nat)
    (_path : List Char) (value : Value) : Run (Option CoilError) :=
  match e.structs[self]? with
  | none => Run.undefined
  | some s =>
    match coil_path_resolve_full f.after (some s.path) _path
        ⟨some f.path, some f.container_path, some f.key⟩ with
    | Outcome.undefined => Run.undefined
    | Outcome.precondition => Run.undefined
    | Outcome.pathError _ => Run.done e (some CoilError.COIL_ERROR_PATH)
    | Outcome.success b =>
      (create_containers X e self ((b.container.map cstr).getD []) false).bind (fun e1 r =>
        match r.1 with
        | none => Run.done e1 r.2
        | some container =>
          struct_set_value_internal X e1 container ((b.key.map cstr).getD [])
            ((b.path.map cstr).getD []) value true)

/-- `coil_struct_set_key_value(self, key, value, error)`: the error it sets,
if any. -/
def coil_struct_set_key_value (X : Calls) (e : Engine) (self : Nat) (key : List Char)
    (value : Value) : Run (Option CoilError) :=
  match e.structs[self]? with
  | none => Run.undefined
  | some s =>
    match coil_path_build (some s.path) [key] with
    | Built.null => Run.undefined
    | Built.abort => Run.abort
    | Built.string path => struct_set_value_internal X e self key path value true

/-- `_maybe_expand_value(value, error)`. -/
def _maybe_expand_value (X : Calls) (e : Engine) (value : Option Value) :
    Run (Option Value × Option CoilError) :=
  match value with
  | none => Run.done e (none, none)
  | some (Value.struct id) => X.coil_expand_value_internal e (Value.struct id)
  | some (Value.link id) => X.coil_expand_value_internal e (Value.link id)
  | some (Value.inc id) => X.coil_expand_value_internal e (Value.inc id)
  | some v => Run.done e (some v, none)

/-- `coil_struct_get_key_value(self, key, expand_value, error)`: the value
returned, NULL as `none`, and the error set. -/
def coil_struct_get_key_value (X : Calls) (e : Engine) (self : Nat) (key : List Char)
    (expand_value : Bool) : Run (Option Value × Option CoilError) :=
  match e.structs[self]? with
  | none => Run.undefined
  | some s =>
    if X.COIL_DEBUG && s.is_prototype then Run.done e (none, none)
    else
      let finish (e1 : Engine) (result : Option Value) :=
        if expand_value then _maybe_expand_value X e1 result else Run.done e1 (result, none)
      match table_lookup s.key_table key with
      | some result => finish e result
      | none =>
        if s.expanded then finish e none
        else
          (X.coil_expand e self).bind (fun e1 r =>
            if r.1 then finish e1 none
            else
              match e1.structs[self]? with
              | none => Run.undefined
              | some s1 =>
                match (table_lookup s1.key_table key).join with
                | none => Run.done e1 (none, r.2)
                | some result => finish e1 (some result))

/-- `coil_struct_is_deleted_path(self, path)`.  The function takes the
`GValue` it finds at the container path for the container struct itself. -/
def coil_struct_is_deleted_path (f : Frame) (e : Engine) (s : CoilStruct) (path : List Char) :
    Run Bool :=
  if coil_struct_is_empty s then Run.done e false
  else
    match coil_path_resolve_full f.after (some s.path) path
        ⟨none, some f.container_path, some f.key⟩ with
    | Outcome.undefined => Run.undefined
    | Outcome.precondition => Run.done e false
    | Outcome.pathError _ => Run.done e false
    | Outcome.success b =>
      match path_table_lookup e s ((b.container.map cstr).getD []) with
      | none => Run.done e false
      | some _ => Run.undefined

/-- `coil_struct_get_path_value(self, path, expand_value, error)`: the value
returned, NULL as `none`, and the error set. -/
def coil_struct_get_path_value (X : Calls) (f : Frame) (e : Engine) (self : Nat)
    (path : List Char) (expand_value : Bool) : Run (Option Value × Option CoilError) :=
  match e.structs[self]? with
  | none => Run.undefined
  | some s =>
    if X.COIL_DEBUG && s.is_prototype then Run.done e (none, none)
    else
      let finish (e1 : Engine) (result : Option Value) :=
        if expand_value then _maybe_expand_value X e1 result else Run.done e1 (result, none)
      if COIL_PATH_IS_ABSOLUTE path && s.expanded then finish e (path_table_lookup e s path)
      else
        match coil_path_resolve_full f.after (some s.path) path ⟨some f.path, none, none⟩ with
        | Outcome.undefined => Run.undefined
        | Outcome.pathError _ => Run.done e (none, some CoilError.COIL_ERROR_PATH)
        | Outcome.precondition => Run.undefined
        | Outcome.success b =>
          let buffer := (b.path.map cstr).getD []
          match path_table_lookup e s buffer with
          | some result => finish e (some result)
          | none =>
            (coil_struct_is_deleted_path f e s buffer).bind (fun e1 deleted =>
              if !deleted && !s.expanded then
                (X.coil_expand e1 self).bind (fun e2 r =>
                  if r.1 then
                    match e2.structs[self]? with
                    | none => Run.undefined
                    | some s2 => finish e2 (path_table_lookup e2 s2 buffer)
                  else Run.done e2 (none, r.2))
              else finish e1 none)

/-- A `CoilStructIter`: the struct, the version it had, and the offset in the
order of the link the iterator stands on.  The offset stands for the pointer
only as long as the order is not changed. -/
structure CoilStructIter where
  node : Nat
  version : Nat
  position : Option Nat
deriving DecidableEq, Repr

/-- `coil_struct_iter_init(iter, node)`: the iterator as it is left; a debug
build leaves it as it was for a prototype. -/
def coil_struct_iter_init (COIL_DEBUG : Bool) (e : Engine) (iter : CoilStructIter)
    (node : Nat) : Option CoilStructIter :=
  match e.structs[node]? with
  | none => none
  | some s =>
    if COIL_DEBUG && s.is_prototype then some iter
    else
      some ⟨node, s.version, if s.order.isEmpty then none else some (s.order.length - 1)⟩

/-- `coil_struct_iter_next(iter, &key, &path, &value)`: the iterator as it is
left and the item handed out, `none` for FALSE; the outer `none` is an access
through an invalid pointer. -/
def coil_struct_iter_next (COIL_DEBUG : Bool) (e : Engine) (iter : CoilStructIter) :
    Option (CoilStructIter × Option StructItem) :=
  match iter.position with
  | none => some (iter, none)
  | some index =>
    match e.structs[iter.node]? with
    | none => none
    | some s =>
      match s.order[index]? with
      | none => none
      | some item =>
        if COIL_DEBUG && iter.version != s.version then some (iter, none)
        else
          some ({ iter with position := if index = 0 then none else some (index - 1) },
            some item)

/-- The loop `while (coil_struct_iter_next(&it, ...))`: the items handed out
until the function returns FALSE. -/
def iter_loop (COIL_DEBUG : Bool) (e : Engine) : Nat → CoilStructIter → Option (List StructItem)
  | 0, _ => none
  | fuel + 1, iter =>
    match coil_struct_iter_next COIL_DEBUG e iter with
    | none => none
    | some (_, none) => some []
    | some (iter1, some item) => (iter_loop COIL_DEBUG e fuel iter1).map (fun l => item :: l)

/-- The items that `coil_struct_iter_init(&it, node)` followed by the loop
`while (coil_struct_iter_next(&it, ...))` hands out.  A debug build leaves the
iterator of a prototype as it was, not initialised: `none`. -/
def coil_struct_iterate (COIL_DEBUG : Bool) (e : Engine) (node : Nat) :
    Option (List StructItem) :=
  match e.structs[node]? with
  | none => none
  | some s =>
    if COIL_DEBUG && s.is_prototype then none
    else
      (coil_struct_iter_init COIL_DEBUG e ⟨0, 0, none⟩ node).bind
        (fun iter => iter_loop COIL_DEBUG e (s.order.length + 1) iter)

/-- `coil_struct_clear(self)`. -/
def coil_struct_clear (e : Engine) (self : Nat) : Run Unit :=
  match e.structs[self]? with
  | none => Run.undefined
  | some s =>
    let table := s.order.foldl (fun t item => table_remove t item.path) (e.table s.path_table)
    Run.done ((e.set_table s.path_table table).set_struct self
      { s with
        dependencies := []
        key_table := []
        order := []
        expand_ptr := none
        size := 0
        version := 0 }) ()

/-- `coil_struct_get_size(self)`; `fuel` bounds the depth of the recursion
into the dependencies. -/
def get_size_loop : Nat → Engine → Nat → Run Nat
  | 0, _, _ => Run.diverge
  | fuel + 1, e, self =>
    match e.structs[self]? with
    | none => Run.undefined
    | some s =>
      if s.expanded || s.dependencies.isEmpty then Run.done e s.size
      else
        let start := s.expand_ptr.getD (s.dependencies.length - 1)
        ((s.dependencies.take (start + 1)).reverse).foldl
          (fun r dep => r.bind (fun e1 size =>
            match dep.holds_struct with
            | none => Run.abort
            | some d =>
              (get_size_loop fuel e1 d).bind (fun e2 n => Run.done e2 ((size + n) % GUINT_RANGE))))
          (Run.done e s.size)

/-- `coil_struct_get_size(self)`. -/
def coil_struct_get_size (e : Engine) (self : Nat) : Run Nat :=
  get_size_loop (e.structs.length + 1) e self

/-- The table consistency of one struct in the words of the data model: for
every item `(k, p, v)` of its order, `p` is the path of the struct, a
delimiter and `k`, and both the key table at `k` and the path table at `p`
hold `v`. -/
def table_consistent (e : Engine) (s : CoilStruct) : Bool :=
  s.order.all (fun item =>
    decide (item.path = s.path ++ COIL_PATH_DELIM :: item.key) &&
    decide (table_lookup s.key_table item.key = some item.value) &&
    decide (path_table_lookup e s item.path = item.value))

/-- Calls for programs in which nothing needs to be expanded, merged or
copied: each function returns at once without an error. -/
def plain_calls (COIL_DEBUG : Bool) : Calls :=
  { COIL_DEBUG := COIL_DEBUG
    coil_expand := fun e _ => Run.done e (true, none)
    coil_struct_merge := fun e _ _ _ => Run.done e none
    coil_expand_value_internal := fun e v => Run.done e (some v, none)
    coil_expand_visited := fun e _ visited => Run.done e (true, none, visited)
    coil_expand_value_visited := fun e v visited => Run.done e (some v, none, visited)
    coil_struct_copy := fun e self _ => Run.done e (some self, none)
    coil_struct_expand_recursive := fun e _ => Run.done e (true, none) }

/-- An engine with nothing in it. -/
def empty_engine : Engine := ⟨[], [], [], []⟩

/-- A frame of three zero buffers. -/
def zero_frame : Frame := ⟨zero_buffer, zero_buffer, zero_buffer, []⟩

/-- The objects and the value a call returned with; `none` when it did not
return. -/
def Run.result {α : Type} : Run α → Option (Engine × α)
  | Run.done e a => some (e, a)
  | _ => none

/-- A root struct in an empty engine, `coil_struct_new(NULL)`: the struct 0. -/
def new_root (is_prototype : Bool) : Run Nat :=
  coil_struct_new empty_engine none COIL_ROOT_PATH none is_prototype

/-- The calls `set_path_value(root, "a.b", 1)`, `set_key_value(root, "x", a)`
with `a` the struct made at `@root.a`, and `set_path_value(root, "a.c", 2)` on
a new root. -/
def alias_scenario : Run (Option CoilError) :=
  (new_root false).bind (fun e0 root =>
    (coil_struct_set_path_value (plain_calls false) zero_frame e0 root ['a', '.', 'b']
      (Value.int 1)).bind (fun e1 _ =>
      (coil_struct_set_key_value (plain_calls false) e1 root ['x'] (Value.struct 1)).bind
        (fun e2 _ =>
          coil_struct_set_path_value (plain_calls false) zero_frame e2 root ['a', '.', 'c']
            (Value.int 2))))

/-- A new root and, below it, the prototype that
`create_containers(root, "@root.a.b", TRUE, NULL)` makes at `@root.a` (the
struct 1), which holds the prototype at `@root.a.b` (the struct 2) under the
key `b`. -/
def prototype_scenario (COIL_DEBUG : Bool) : Run (Option Nat × Option CoilError) :=
  (new_root false).bind (fun e0 root =>
    create_containers (plain_calls COIL_DEBUG) e0 root
      ['@', 'r', 'o', 'o', 't', '.', 'a', '.', 'b'] true)
/-- The objects a call left behind; an empty engine when it did not return. -/
def Run.engine {α : Type} : Run α → Engine
  | Run.done e _ => e
  | _ => empty_engine

/-- The objects after `set_path_value(root, "a.b", 1)` on a new root: the
root is the struct 0 and the struct at `@root.a` the struct 1. -/
def nested_engine : Engine :=
  ((new_root false).bind (fun e0 root =>
    coil_struct_set_path_value (plain_calls false) zero_frame e0 root ['a', '.', 'b']
      (Value.int 1))).engine

/-- The struct at `@root.a` of `nested_engine`. -/
def nested_struct : CoilStruct :=
  { container := some 0, expanded := true, is_prototype := false, always_expand := false,
    remember_deps := false, key_table := [(['b'], some (Value.int 1))], path_table := 0,
    name := ['a'], path := ['@', 'r', 'o', 'o', 't', '.', 'a'], size := 1, version := 1,
    order := [⟨['b'], ['@', 'r', 'o', 'o', 't', '.', 'a', '.', 'b'], some (Value.int 1)⟩],
    dependencies := [], expand_ptr := none, expand_lock := false, modify_handlers := [],
    prototype_handlers := [] }

/-- `G_VALUE_HOLDS(value, COIL_TYPE_EXPANDABLE)`: the value holds a struct, a
link or an include. -/
def Value.holds_expandable : Value → Bool
  | Value.struct _ => true
  | Value.link _ => true
  | Value.inc _ => true
  | _ => false

/-! ## The struct engine: dependencies, expansion, merge and copy -/

/-- `coil_struct_has_dependency(self, type, object)` for the object a value
holds. -/
def coil_struct_has_dependency (s : CoilStruct) (object : Value) : Bool :=
  s.dependencies.any (fun dep => decide (dep = object))

/-- `coil_struct_add_dependency(self, type, object)`: the dependency is put
at the head of the list, so the link `expand_ptr` points to moves one place
away from the head. -/
def coil_struct_add_dependency (e : Engine) (self : Nat) (object : Value) : Run Unit :=
  match e.structs[self]? with
  | none => Run.undefined
  | some s =>
    Run.done (e.set_struct self
      { s with
        dependencies := object :: s.dependencies
        expand_ptr := s.expand_ptr.map (fun i => i + 1)
        version := guint_succ s.version
        expanded := false }) ()

/-- `struct_connect_expand_notify(self, parent)`. -/
def struct_connect_expand_notify (e : Engine) (self parent : Nat) : Run Unit :=
  match e.structs[parent]? with
  | none => Run.undefined
  | some ps =>
    if ps.is_prototype then
      Run.done (e.set_struct parent
        { ps with prototype_handlers := ps.prototype_handlers ++ [self] }) ()
    else
      Run.done (e.set_struct parent
        { ps with modify_handlers := ps.modify_handlers ++ [⟨self, 0⟩] }) ()

/-- The end of `coil_struct_extend` and `coil_struct_extend_path`: the
dependency is added, and the struct is expanded at once when it has
`always_expand` and connected to the signals of the parent otherwise. -/
def extend_finish (X : Calls) (e : Engine) (self parent : Nat) : Run (Option CoilError) :=
  (coil_struct_add_dependency e self (Value.struct parent)).bind (fun e1 _ =>
    match e1.structs[self]? with
    | none => Run.undefined
    | some s1 =>
      if s1.always_expand then (X.coil_expand e1 self).bind (fun e2 r => Run.done e2 r.2)
      else (struct_connect_expand_notify e1 self parent).bind (fun e2 _ => Run.done e2 none))

/-- `coil_struct_extend(self, parent, error)`: the error it sets, if any. -/
def coil_struct_extend (X : Calls) (e : Engine) (self parent : Nat) : Run (Option CoilError) :=
  match e.structs[self]?, e.structs[parent]? with
  | some s, some ps =>
    if X.COIL_DEBUG && s.is_prototype then Run.done e none
    else if !ps.is_prototype && coil_struct_is_empty ps then Run.done e none
    else if self = parent then Run.done e (some CoilError.COIL_ERROR_STRUCT)
    else if coil_struct_is_root s then Run.done e (some CoilError.COIL_ERROR_STRUCT)
    else if coil_struct_is_root ps then Run.done e (some CoilError.COIL_ERROR_STRUCT)
    else
      (coil_struct_is_ancestor e parent self).bind (fun e1 above =>
        if above then Run.done e1 (some CoilError.COIL_ERROR_STRUCT)
        else
          (coil_struct_is_descendent e1 parent self).bind (fun e2 below =>
            if below then Run.done e2 (some CoilError.COIL_ERROR_STRUCT)
            else
              (coil_struct_get_root e2 self).bind (fun e3 root1 =>
                (coil_struct_get_root e3 parent).bind (fun e4 root2 =>
                  if root1 ≠ root2 then Run.done e4 (some CoilError.COIL_ERROR_STRUCT)
                  else if coil_struct_has_dependency s (Value.struct parent) then
                    Run.done e4 (some CoilError.COIL_ERROR_STRUCT)
                  else if coil_struct_is_empty ps then Run.done e4 none
                  else extend_finish X e4 self parent))))
  | _, _ => Run.undefined

/-- `coil_struct_extend_path(self, path, error)`: the error it sets, if any. -/
def coil_struct_extend_path (X : Calls) (f : Frame) (e : Engine) (self : Nat)
    (_path : List Char) : Run (Option CoilError) :=
  match e.structs[self]? with
  | none => Run.undefined
  | some s =>
    if COIL_PATH_IS_ROOT _path then Run.done e (some CoilError.COIL_ERROR_STRUCT)
    else
      match coil_path_resolve f.after (some s.path) _path (some f.path) with
      | Outcome.undefined => Run.undefined
      | Outcome.precondition => Run.undefined
      | Outcome.pathError _ => Run.done e (some CoilError.COIL_ERROR_PATH)
      | Outcome.success b =>
        let parent_path := (b.path.map cstr).getD []
        if COIL_PATH_IS_ROOT parent_path then Run.done e (some CoilError.COIL_ERROR_STRUCT)
        else if coil_path_is_descendent parent_path s.path then
          Run.done e (some CoilError.COIL_ERROR_STRUCT)
        else if coil_path_is_descendent s.path parent_path then
          Run.done e (some CoilError.COIL_ERROR_STRUCT)
        else if s.path = parent_path then Run.done e (some CoilError.COIL_ERROR_STRUCT)
        else
          let found : Run (Option (Option Nat × Option CoilError)) :=
            match path_table_lookup e s parent_path with
            | some value =>
              match value.holds_struct with
              | none => Run.done e (some (none, some CoilError.COIL_ERROR_STRUCT))
              | some parent =>
                match e.structs[parent]? with
                | none => Run.undefined
                | some ps =>
                  if !ps.is_prototype && coil_struct_is_empty ps then
                    Run.done e (some (none, none))
                  else Run.done e (some (some parent, none))
            | none =>
              (create_containers X e self parent_path true).bind (fun e1 r =>
                Run.done e1 (some r))
          found.bind (fun e1 r =>
            match r with
            | none => Run.done e1 none
            | some (none, err) => Run.done e1 err
            | some (some parent, _) =>
              match e1.structs[self]? with
              | none => Run.undefined
              | some s1 =>
                if coil_struct_has_dependency s1 (Value.struct parent) then
                  Run.done e1 (some CoilError.COIL_ERROR_STRUCT)
                else extend_finish X e1 self parent)

/-- `coil_struct_mark_path_deleted(self, path, NULL, error)`: the error it
sets, if any. -/
def coil_struct_mark_path_deleted (X : Calls) (f : Frame) (e : Engine) (self : Nat)
    (_path : List Char) : Run (Option CoilError) :=
  match e.structs[self]? with
  | none => Run.undefined
  | some s =>
    match coil_path_resolve_full f.after (some s.path) _path
        ⟨some f.path, some f.container_path, some f.key⟩ with
    | Outcome.undefined => Run.undefined
    | Outcome.precondition => Run.done e none
    | Outcome.pathError _ => Run.done e (some CoilError.COIL_ERROR_PATH)
    | Outcome.success b =>
      let path := (b.path.map cstr).getD []
      let container_path := (b.container.map cstr).getD []
      let key := (b.key.map cstr).getD []
      if COIL_PATH_IS_ROOT container_path then Run.done e (some CoilError.COIL_ERROR_STRUCT)
      else if !coil_path_is_descendent path s.path then
        Run.done e (some CoilError.COIL_ERROR_STRUCT)
      else
        let found : Run (Option Nat × Option CoilError) :=
          match path_table_lookup e s container_path with
          | some value =>
            match value.holds_struct with
            | none => Run.undefined
            | some container =>
              match e.structs[container]? with
              | none => Run.undefined
              | some cs =>
                if coil_struct_is_deleted_key cs key then
                  Run.done e (none, some CoilError.COIL_ERROR_STRUCT)
                else if coil_struct_contains_key X.COIL_DEBUG cs key false then
                  Run.done e (none, some CoilError.COIL_ERROR_STRUCT)
                else Run.done e (some container, none)
          | none => create_containers X e self container_path false
        found.bind (fun e1 r =>
          match r.1 with
          | none => Run.done e1 r.2
          | some container =>
            match e1.structs[container]? with
            | none => Run.undefined
            | some cs =>
              Run.done (e1.set_struct container
                { cs with
                  key_table := table_insert cs.key_table key none
                  version := guint_succ cs.version }) none)

/-- The loop `while (coil_struct_iter_next(&it, ...)) body`; a `body` that
yields `some a` leaves the loop and the function with `a`. -/
def iter_while {α : Type} (COIL_DEBUG : Bool) (body : Engine → StructItem → Run (Option α)) :
    Nat → Engine → CoilStructIter → Run (Option α)
  | 0, _, _ => Run.diverge
  | fuel + 1, e, iter =>
    match coil_struct_iter_next COIL_DEBUG e iter with
    | none => Run.undefined
    | some (_, none) => Run.done e none
    | some (iter1, some item) =>
      (body e item).bind (fun e1 r =>
        match r with
        | some a => Run.done e1 (some a)
        | none => iter_while COIL_DEBUG body fuel e1 iter1)

/-- `coil_struct_iter_init(&it, node)` and the loop over
`coil_struct_iter_next` with the given body.  In a debug build the iterator
of a prototype is not initialised. -/
def iterate_with {α : Type} (COIL_DEBUG : Bool) (e : Engine) (node : Nat)
    (body : Engine → StructItem → Run (Option α)) : Run (Option α) :=
  match e.structs[node]? with
  | none => Run.undefined
  | some s =>
    if COIL_DEBUG && s.is_prototype then Run.undefined
    else
      match coil_struct_iter_init COIL_DEBUG e ⟨0, 0, none⟩ node with
      | none => Run.undefined
      | some iter => iter_while COIL_DEBUG body (s.order.length + 1) e iter

/-- The `error:` label of `coil_struct_merge` and the `fail:` label of
`coil_struct_expand_recursive`, which assert that an error is set. -/
def asserted_error {α : Type} (e : Engine) (err : Option CoilError) (a : CoilError → α) :
    Run α :=
  match err with
  | none => Run.abort
  | some code => Run.done e (a code)

/-- One turn of the loop of `coil_struct_merge` for an item of `src`: `some`
of an error leaves the function through its `error:` label.  Notifications
of `is-prototype` are emitted at once, not held back by
`g_object_freeze_notify`. -/
def merge_item (X : Calls) (dest : Nat) (overwrite different_roots : Bool) (e : Engine)
    (item : StructItem) : Run (Option (Option CoilError)) :=
  match e.structs[dest]?, item.value with
  | some ds, some value =>
    let existing := table_lookup ds.key_table item.key
    if existing.isSome && !overwrite then
      match existing.join.bind Value.holds_struct, value.holds_struct with
      | some _dest, some _src =>
        (X.coil_struct_merge e _src _dest overwrite).bind (fun e1 internal_error =>
          (set_is_prototype e1 _dest false).bind (fun e2 _ =>
            match internal_error with
            | some err => Run.done e2 (some (some err))
            | none => Run.done e2 none))
      | _, _ => Run.done e none
    else
      let value_copy : Run (Except (Option CoilError) Value) :=
        match value.holds_struct with
        | some node =>
          (X.coil_struct_copy e node (some dest)).bind (fun e1 r =>
            match r.1 with
            | none => Run.done e1 (Except.error r.2)
            | some node_copy => Run.done e1 (Except.ok (Value.struct node_copy)))
        | none =>
          if different_roots && value.holds_expandable then
            (X.coil_expand_value_internal e value).bind (fun e1 r =>
              match r.1 with
              | none => Run.done e1 (Except.error r.2)
              | some real_value => Run.done e1 (Except.ok real_value))
          else Run.done e (Except.ok value)
      value_copy.bind (fun e1 r =>
        match r with
        | Except.error err => Run.done e1 (some err)
        | Except.ok copy =>
          (coil_struct_set_key_value X e1 dest item.key copy).bind (fun e2 internal_error =>
            match internal_error with
            | some err => Run.done e2 (some (some err))
            | none => Run.done e2 none))
  | _, _ => Run.undefined

/-- `coil_struct_merge(src, dest, overwrite, error)`: the error it sets, if
any. -/
def coil_struct_merge (X : Calls) (e : Engine) (src dest : Nat) (overwrite : Bool) :
    Run (Option CoilError) :=
  if X.COIL_DEBUG && decide (src = dest) then Run.done e none
  else
    match e.structs[src]? with
    | none => Run.undefined
    | some s0 =>
      let expanded : Run (Option (Option CoilError)) :=
        if s0.expanded then Run.done e none
        else (X.coil_expand e src).bind (fun e1 r =>
          if r.1 then Run.done e1 none else Run.done e1 (some r.2))
      expanded.bind (fun e1 failed =>
        match failed with
        | some err => asserted_error e1 err some
        | none =>
          match e1.structs[src]? with
          | none => Run.undefined
          | some s =>
            if coil_struct_is_empty s then Run.done e1 none
            else
              let roots : Run (Bool × Option (Option CoilError)) :=
                if src = dest then Run.done e1 (false, none)
                else
                  (coil_struct_get_root e1 src).bind (fun e2 root1 =>
                    (coil_struct_get_root e2 dest).bind (fun e3 root2 =>
                      if root1 = root2 then Run.done e3 (false, none)
                      else
                        (X.coil_struct_expand_recursive e3 src).bind (fun e4 r =>
                          if r.1 then Run.done e4 (true, none)
                          else Run.done e4 (true, some r.2))))
              roots.bind (fun e2 r =>
                match r.2 with
                | some err => asserted_error e2 err some
                | none =>
                  (iterate_with X.COIL_DEBUG e2 src (merge_item X dest overwrite r.1)).bind
                    (fun e3 left =>
                      match left with
                      | some err => asserted_error e3 err some
                      | none => Run.done e3 none)))

/-- One turn of the loop of `_struct_expand` for the dependency at `index`:
whether the loop goes on, the error otherwise, and the table `visited`. -/
def expand_dependency (X : Calls) (e : Engine) (self : Nat) (visited : List Value)
    (index : Nat) : Run (Bool × Option CoilError × List Value) :=
  match e.structs[self]? with
  | none => Run.undefined
  | some s =>
    match s.dependencies[index]? with
    | none => Run.undefined
    | some dependency =>
      let real : Run (Option Value × Option CoilError × List Value) :=
        match dependency.holds_struct with
        | some _ => Run.done e (some dependency, none, visited)
        | none => X.coil_expand_value_visited e dependency visited
      real.bind (fun e1 r =>
        match r.1 with
        | none => Run.done e1 (false, r.2.1, r.2.2)
        | some (Value.inc _) => Run.done e1 (true, none, r.2.2)
        | some (Value.struct parent) =>
          match e1.structs[parent]? with
          | none => Run.undefined
          | some ps =>
            if ps.is_prototype then
              Run.done e1 (false, some CoilError.COIL_ERROR_STRUCT, r.2.2)
            else
              let expanded : Run (Bool × Option CoilError × List Value) :=
                if ps.expanded then Run.done e1 (true, none, r.2.2)
                else X.coil_expand_visited e1 parent r.2.2
              expanded.bind (fun e2 x =>
                if !x.1 then Run.done e2 (false, x.2.1, x.2.2)
                else
                  match e2.structs[parent]? with
                  | none => Run.undefined
                  | some ps2 =>
                    let merged : Run (Option CoilError) :=
                      if ps2.size != 0 then X.coil_struct_merge e2 parent self false
                      else Run.done e2 none
                    merged.bind (fun e3 internal_error =>
                      match internal_error with
                      | some err => Run.done e3 (false, some err, x.2.2)
                      | none =>
                        match e3.structs[parent]? with
                        | none => Run.undefined
                        | some ps3 =>
                          Run.done (e3.set_struct parent
                            { ps3 with
                              modify_handlers :=
                                ps3.modify_handlers.filter (fun h => h.data != self) })
                            (true, none, x.2.2)))
        | some _ => Run.done e1 (false, some CoilError.COIL_ERROR_STRUCT, r.2.2))

/-- The loop of `_struct_expand` over the dependencies from the one at
`count - 1` to the head of the list. -/
def expand_dependencies (X : Calls) (self : Nat) :
    Nat → Engine → List Value → Run (Bool × Option CoilError × List Value)
  | 0, e, visited => Run.done e (true, none, visited)
  | count + 1, e, visited =>
    (expand_dependency X e self visited count).bind (fun e1 r =>
      if r.1 then expand_dependencies X self count e1 r.2.2 else Run.done e1 r)

/-- `_struct_expand(self, visited, error)`: the return value, the error set
and the table `visited`. -/
def _struct_expand (X : Calls) (e : Engine) (self : Nat) (visited : List Value) :
    Run (Bool × Option CoilError × List Value) :=
  match e.structs[self]? with
  | none => Run.undefined
  | some s =>
    if X.COIL_DEBUG && s.is_prototype then Run.done e (false, none, visited)
    else if s.expanded then Run.done e (true, none, visited)
    else if s.expand_lock then Run.done e (false, some CoilError.COIL_ERROR_STRUCT, visited)
    else
      let expand_ptr :=
        match s.expand_ptr with
        | some i => some i
        | none => if s.dependencies.isEmpty then none else some (s.dependencies.length - 1)
      let e1 := e.set_struct self
        { s with
          expand_lock := true
          modify_handlers := s.modify_handlers.map (fun h => ⟨h.data, h.block_count + 1⟩)
          expand_ptr := expand_ptr }
      (expand_dependencies X self (match expand_ptr with | some i => i + 1 | none => 0)
        e1 visited).bind (fun e2 r =>
        match e2.structs[self]? with
        | none => Run.undefined
        | some s2 =>
          if r.1 then
            Run.done (e2.set_struct self
              { s2 with
                dependencies := if s2.remember_deps then s2.dependencies else []
                expand_ptr :=
                  if s2.remember_deps && !s2.dependencies.isEmpty then some 0 else none
                expanded := true
                version := guint_succ s2.version
                modify_handlers :=
                  s2.modify_handlers.map (fun h => ⟨h.data, h.block_count - 1⟩)
                expand_lock := false }) (true, none, r.2.2)
          else Run.done (e2.set_struct self { s2 with expand_lock := false }) r)

/-- `coil_expand(object, visited, error)` for a struct; `visited` is `none`
for NULL.  The table `visited` is returned as it is left. -/
def coil_expand_struct (X : Calls) (e : Engine) (self : Nat) (visited : Option (List Value)) :
    Run (Bool × Option CoilError × List Value) :=
  match e.structs[self]? with
  | none => Run.undefined
  | some s =>
    if s.expanded then Run.done e (true, none, visited.getD [])
    else if (visited.getD []).contains (Value.struct self) then
      Run.done e (false, some CoilError.COIL_ERROR_STRUCT, visited.getD [])
    else
      (_struct_expand X e self (visited.getD [] ++ [Value.struct self])).bind (fun e1 r =>
        if r.1 then
          match e1.structs[self]? with
          | none => Run.undefined
          | some s1 => Run.done (e1.set_struct self { s1 with expanded := true }) r
        else Run.done e1 r)

/-- One turn of the loop of `coil_struct_expand_recursive`: `some` of an
error leaves through the `fail:` label. -/
def expand_recursive_item (X : Calls) (e : Engine) (item : StructItem) :
    Run (Option (Option CoilError)) :=
  match item.value with
  | none => Run.done e none
  | some (Value.struct node) =>
    (X.coil_struct_expand_recursive e node).bind (fun e1 r =>
      match r.2 with
      | some err => Run.done e1 (some (some err))
      | none => Run.done e1 none)
  | some value =>
    if value.holds_expandable then
      (X.coil_expand_value_internal e value).bind (fun e1 r =>
        match r.1 with
        | none => Run.done e1 (some r.2)
        | some _ => Run.done e1 none)
    else Run.done e none

/-- `coil_struct_expand_recursive(self, error)`. -/
def coil_struct_expand_recursive (X : Calls) (e : Engine) (self : Nat) :
    Run (Bool × Option CoilError) :=
  (X.coil_expand e self).bind (fun e1 r =>
    if !r.1 then asserted_error e1 r.2 (fun code => (false, some code))
    else
      match e1.structs[self]? with
      | none => Run.undefined
      | some s =>
        if s.size = 0 then Run.done e1 (true, none)
        else
          (iterate_with X.COIL_DEBUG e1 self (expand_recursive_item X)).bind (fun e2 left =>
            match left with
            | some err => asserted_error e2 err (fun code => (false, some code))
            | none => Run.done e2 (true, none)))

/-- One turn of the loop of `coil_struct_copy`: `some` of an error leaves the
function with NULL. -/
def copy_item (X : Calls) (copy : Nat) (e : Engine) (item : StructItem) :
    Run (Option (Option CoilError)) :=
  match item.value with
  | none =>
    (coil_struct_mark_key_deleted X.COIL_DEBUG e copy item.key).bind
      (fun e1 _ => Run.done e1 none)
  | some value =>
    let value_copy : Run (Except (Option CoilError) Value) :=
      match value.holds_struct with
      | some node =>
        (X.coil_struct_copy e node (some copy)).bind (fun e1 r =>
          match r.1 with
          | none => Run.done e1 (Except.error r.2)
          | some node_copy => Run.done e1 (Except.ok (Value.struct node_copy)))
      | none => Run.done e (Except.ok value)
    value_copy.bind (fun e1 r =>
      match r with
      | Except.error err => Run.done e1 (some err)
      | Except.ok v =>
        (coil_struct_set_key_value X e1 copy item.key v).bind (fun e2 internal_error =>
          match internal_error with
          | some err => Run.done e2 (some (some err))
          | none => Run.done e2 none))

/-- `coil_struct_copy(self, new_container, error)`: the copy, NULL as `none`,
and the error set. -/
def coil_struct_copy (X : Calls) (e : Engine) (self : Nat) (new_container : Option Nat) :
    Run (Option Nat × Option CoilError) :=
  match e.structs[self]? with
  | none => Run.undefined
  | some s =>
    if X.COIL_DEBUG && s.is_prototype then Run.done e (none, none)
    else if X.COIL_DEBUG && decide (new_container = some self) then Run.done e (none, none)
    else
      (coil_struct_new e new_container s.name none false).bind (fun e1 copy =>
        match new_container with
        | none => Run.done e1 (none, none)
        | some container =>
          (coil_struct_get_root e1 container).bind (fun e2 root1 =>
            (coil_struct_get_root e2 self).bind (fun e3 root2 =>
              let recursive : Run (Bool × Option CoilError) :=
                if root1 ≠ root2 then X.coil_struct_expand_recursive e3 self
                else Run.done e3 (true, none)
              recursive.bind (fun e4 r =>
                if !r.1 then Run.done e4 (none, r.2)
                else
                  match e4.structs[self]? with
                  | none => Run.undefined
                  | some s4 =>
                    (s4.dependencies.reverse.foldl
                      (fun run dep => run.bind (fun e5 _ =>
                        coil_struct_add_dependency e5 copy dep))
                      (Run.done e4 ())).bind (fun e5 _ =>
                      match e5.structs[self]? with
                      | none => Run.undefined
                      | some s5 =>
                        if coil_struct_is_empty s5 then Run.done e5 (some copy, none)
                        else
                          (iterate_with X.COIL_DEBUG e5 self (copy_item X copy)).bind
                            (fun e6 left =>
                              match left with
                              | some err => Run.done e6 (none, err)
                              | none => Run.done e6 (some copy, none)))))))

/-- The calls of the struct engine itself.  `fuel` bounds how deep the
functions may call each other; a call that needs more ends as `diverge`.
Values that hold a link or an include are expanded by `expand_value`, with
the table `visited`. -/
def calls (COIL_DEBUG : Bool)
    (expand_value :
      Engine → Value → List Value → Run (Option Value × Option CoilError × List Value)) :
    Nat → Calls
  | 0 =>
    { COIL_DEBUG := COIL_DEBUG
      coil_expand := fun _ _ => Run.diverge
      coil_struct_merge := fun _ _ _ _ => Run.diverge
      coil_expand_value_internal := fun _ _ => Run.diverge
      coil_expand_visited := fun _ _ _ => Run.diverge
      coil_expand_value_visited := fun _ _ _ => Run.diverge
      coil_struct_copy := fun _ _ _ => Run.diverge
      coil_struct_expand_recursive := fun _ _ => Run.diverge }
  | fuel + 1 =>
    { COIL_DEBUG := COIL_DEBUG
      coil_expand := fun e self =>
        (coil_expand_struct (calls COIL_DEBUG expand_value fuel) e self none).bind
          (fun e1 r => Run.done e1 (r.1, r.2.1))
      coil_struct_merge := coil_struct_merge (calls COIL_DEBUG expand_value fuel)
      coil_expand_value_internal := fun e value =>
        match value with
        | Value.struct self =>
          (coil_expand_struct (calls COIL_DEBUG expand_value fuel) e self none).bind
            (fun e1 r => Run.done e1 (if r.1 then some value else none, r.2.1))
        | _ => (expand_value e value []).bind (fun e1 r => Run.done e1 (r.1, r.2.1))
      coil_expand_visited := fun e self visited =>
        coil_expand_struct (calls COIL_DEBUG expand_value fuel) e self (some visited)
      coil_expand_value_visited := expand_value
      coil_struct_copy := coil_struct_copy (calls COIL_DEBUG expand_value fuel)
      coil_struct_expand_recursive :=
        coil_struct_expand_recursive (calls COIL_DEBUG expand_value fuel) }

/-- No value holds a link or an include: the expansion of one is never
called for. -/
def no_links : Engine → Value → List Value →
    Run (Option Value × Option CoilError × List Value) :=
  fun _ _ _ => Run.undefined

/-- The calls of the struct engine in a build without `COIL_DEBUG`, for
programs without links and includes, with fuel for twelve nested calls. -/
def engine_calls : Calls := calls false no_links 12

/-- The objects after `set_path_value(root, "a.x", 1)`,
`set_path_value(root, "b.y", 2)` and `coil_struct_extend(b, a)` on a new root:
the root is the struct 0, `a` the struct 1 and `b`, which extends `a`, the
struct 2. -/
def extends_scenario : Run (Option CoilError) :=
  (new_root false).bind (fun e0 root =>
    (coil_struct_set_path_value engine_calls zero_frame e0 root ['a', '.', 'x']
      (Value.int 1)).bind (fun e1 _ =>
      (coil_struct_set_path_value engine_calls zero_frame e1 root ['b', '.', 'y']
        (Value.int 2)).bind (fun e2 _ => coil_struct_extend engine_calls e2 2 1)))

/-- The objects after `coil_struct_mark_path_deleted(root, "a.k")` on a new
root: the call makes the struct 1 at `@root.a`, which has no entries and no
dependencies, and marks `k` deleted in it. -/
def marked_scenario : Run (Option CoilError) :=
  (new_root false).bind (fun e0 root =>
    coil_struct_mark_path_deleted engine_calls zero_frame e0 root ['a', '.', 'k'])

/-- The objects after `set_path_value(root, "b.y", 2)`,
`set_path_value(root, "c.z", 3)` and `coil_struct_extend_path(b, "..a")` on a
new root: `b` is the struct 1, `c` the struct 2, and the prototype made at
`@root.a` the struct 3. -/
def siblings_scenario : Run (Option CoilError) :=
  (new_root false).bind (fun e0 root =>
    (coil_struct_set_path_value engine_calls zero_frame e0 root ['b', '.', 'y']
      (Value.int 2)).bind (fun e1 _ =>
      (coil_struct_set_path_value engine_calls zero_frame e1 root ['c', '.', 'z']
        (Value.int 3)).bind (fun e2 _ =>
        coil_struct_extend_path engine_calls zero_frame e2 1 ['.', '.', 'a'])))

/-- The text of a list of keys in a buffer in which the delimiter before each
key has been overwritten by a terminator, as the first loop of
`create_containers` leaves it. -/
def nul_text : List (List Char) → List Char
  | [] => []
  | k :: ks => NUL :: (k ++ nul_text ks)

/-- The second struct is the first but for its entries: order, key table,
version and size. -/
def entries_changed (s t : CoilStruct) : Prop :=
  t = { s with order := t.order, key_table := t.key_table, version := t.version, size := t.size }

/-- What the second loop of `create_containers` leaves when it makes a struct
for each key of `post` below the container `c` at the path `base`: the new
structs follow the old ones, each has the prototype flag asked for and is
entered at its path, the container has changed in its entries only, and
every other struct and every other path is as before. -/
def chain_made (ip : Bool) (e e1 : Engine) (c : Nat) (cs : CoilStruct) (base : List Char)
    (post : List (List Char)) : Prop :=
  e1.structs.length = e.structs.length + post.length ∧
  e1.tables.length = e.tables.length ∧
  (∀ i, i ≠ c → i < e.structs.length → e1.structs[i]? = e.structs[i]?) ∧
  (∃ cs1, e1.structs[c]? = some cs1 ∧ entries_changed cs cs1) ∧
  (∀ j, j < post.length → ∃ ns, e1.structs[e.structs.length + j]? = some ns ∧
    ns.is_prototype = ip ∧ ns.path = base ++ keys_text (post.take (j + 1)) ∧
    ns.path_table = cs.path_table ∧ ns.modify_handlers = [] ∧ ns.dependencies = [] ∧
    table_lookup (e1.table cs.path_table) (base ++ keys_text (post.take (j + 1))) =
      some (Value.struct (e.structs.length + j))) ∧
  (∀ p, (∀ j, j < post.length → p ≠ base ++ keys_text (post.take (j + 1))) →
    table_lookup (e1.table cs.path_table) p = table_lookup (e.table cs.path_table) p) ∧
  (∀ t, t ≠ cs.path_table → e1.table t = e.table t)

/-- The call `set_path_value(root, "a.b", 1)` on a new root that is a
prototype, `coil_struct_new("is-prototype", TRUE, NULL)`: the root is the
struct 0. -/
def prototype_root_scenario (COIL_DEBUG : Bool) : Run (Option CoilError) :=
  (new_root true).bind (fun e0 root =>
    coil_struct_set_path_value (plain_calls COIL_DEBUG) zero_frame e0 root ['a', '.', 'b']
      (Value.int 1))

/-- The root that `coil_struct_new(NULL)` makes in an empty engine. -/
def root_struct : CoilStruct :=
  { container := none, expanded := true, is_prototype := false, always_expand := false,
    remember_deps := false, key_table := [], path_table := 0, name := COIL_ROOT_PATH,
    path := COIL_ROOT_PATH, size := 0, version := 0, order := [], dependencies := [],
    expand_ptr := none, expand_lock := false, modify_handlers := [], prototype_handlers := [] }

/-- The root of `nested_engine`. -/
def nested_root : CoilStruct :=
  { container := none, expanded := true, is_prototype := false, always_expand := false,
    remember_deps := false, key_table := [(['a'], some (Value.struct 1))], path_table := 0,
    name := COIL_ROOT_PATH, path := COIL_ROOT_PATH, size := 1, version := 1,
    order := [⟨['a'], ['@', 'r', 'o', 'o', 't', '.', 'a'], some (Value.struct 1)⟩],
    dependencies := [], expand_ptr := none, expand_lock := false, modify_handlers := [],
    prototype_handlers := [] }

/-- The objects after `set_path_value(root, "a.k", 1)`,
`set_path_value(root, "a.z.q", 5)`, `set_path_value(root, "b.y", 2)`,
`set_path_value(root, "d.w", 3)`, `coil_struct_extend_path(d, "..b.z")`,
`coil_struct_extend(b, a)` and `set_path_value(root, "c.v", 4)` on a new root:
`a` is the struct 1, `a.z` the struct 2, `b` the struct 3, `d` the struct 4,
the prototype made at `@root.b.z` the struct 5, and `c` the struct 6. -/
def inherited_prototype_scenario : Run (Option CoilError) :=
  (new_root false).bind (fun e0 root =>
    (coil_struct_set_path_value engine_calls zero_frame e0 root ['a', '.', 'k']
      (Value.int 1)).bind (fun e1 _ =>
    (coil_struct_set_path_value engine_calls zero_frame e1 root ['a', '.', 'z', '.', 'q']
      (Value.int 5)).bind (fun e2 _ =>
    (coil_struct_set_path_value engine_calls zero_frame e2 root ['b', '.', 'y']
      (Value.int 2)).bind (fun e3 _ =>
    (coil_struct_set_path_value engine_calls zero_frame e3 root ['d', '.', 'w']
      (Value.int 3)).bind (fun e4 _ =>
    (coil_struct_extend_path engine_calls zero_frame e4 4 ['.', '.', 'b', '.', 'z']).bind
      (fun e5 _ =>
    (coil_struct_extend engine_calls e5 3 1).bind (fun e6 _ =>
      coil_struct_set_path_value engine_calls zero_frame e6 root ['c', '.', 'v']
        (Value.int 4))))))))

/-- The call `coil_struct_extend_path(c, "..a.x")` after
`inherited_prototype_scenario`. -/
def extend_beside_dependent : Run (Option CoilError) :=
  inherited_prototype_scenario.bind (fun e _ =>
    coil_struct_extend_path engine_calls zero_frame e 6 ['.', '.', 'a', '.', 'x'])

/-- A struct with one more entry, as `struct_set_value_internal` leaves the
struct in which it sets a value at a path without a value. -/
def with_entry (d : CoilStruct) (key path : List Char) (value : Value) : CoilStruct :=
  { d with
    order := ⟨key, path, some value⟩ :: d.order
    key_table := table_insert d.key_table key (some value)
    version := guint_succ d.version
    size := guint_succ d.size }

/-- The entries of a struct after the items of a source have been merged into
it without overwrite, one after the other: an item whose key is in the key
table, with a value or marked deleted, is passed over, any other is entered
under its key. -/
def merged (items : List StructItem) (d : CoilStruct) : CoilStruct :=
  match items with
  | [] => d
  | item :: rest =>
    if (table_lookup d.key_table item.key).isSome then merged rest d
    else
      match item.value with
      | none => d
      | some value =>
        merged rest (with_entry d item.key (d.path ++ COIL_PATH_DELIM :: item.key) value)

/-- The struct `d` is the struct `dest` of the engine, and a value that is no
expandable can be set at a new key of it by `coil_struct_set_key_value`
without anything else taking place: it has no handler of `modify`, is no
prototype, has a path table, and the path of a key that is not in its key
table has no value. -/
def merge_ready (e : Engine) (dest : Nat) (d : CoilStruct) : Prop :=
  e.structs[dest]? = some d ∧ d.modify_handlers = [] ∧ d.is_prototype = false ∧
    d.path_table < e.tables.length ∧
    ∀ key, table_lookup d.key_table key = none →
      path_table_lookup e d (d.path ++ COIL_PATH_DELIM :: key) = none

/-- The objects after `set_path_value(root, "a.x", 1)`,
`set_path_value(root, "a.y", 3)` and `set_path_value(root, "b.y", 2)` on a new
root: the root is the struct 0, `a` the struct 1 and `b` the struct 2. -/
def merge_engine : Engine :=
  ((new_root false).bind (fun e0 root =>
    (coil_struct_set_path_value engine_calls zero_frame e0 root ['a', '.', 'x']
      (Value.int 1)).bind (fun e1 _ =>
    (coil_struct_set_path_value engine_calls zero_frame e1 root ['a', '.', 'y']
      (Value.int 3)).bind (fun e2 _ =>
      coil_struct_set_path_value engine_calls zero_frame e2 root ['b', '.', 'y']
        (Value.int 2))))).engine

/-- The struct `a` of `merge_engine`. -/
def merge_source : CoilStruct :=
  { container := some 0, expanded := true, is_prototype := false, always_expand := false,
    remember_deps := false,
    key_table := [(['y'], some (Value.int 3)), (['x'], some (Value.int 1))], path_table := 0,
    name := ['a'], path := ['@', 'r', 'o', 'o', 't', '.', 'a'], size := 2, version := 2,
    order := [⟨['y'], ['@', 'r', 'o', 'o', 't', '.', 'a', '.', 'y'], some (Value.int 3)⟩,
      ⟨['x'], ['@', 'r', 'o', 'o', 't', '.', 'a', '.', 'x'], some (Value.int 1)⟩],
    dependencies := [], expand_ptr := none, expand_lock := false, modify_handlers := [],
    prototype_handlers := [] }

/-- The struct `b` of `merge_engine`. -/
def merge_target : CoilStruct :=
  { container := some 0, expanded := true, is_prototype := false, always_expand := false,
    remember_deps := false, key_table := [(['y'], some (Value.int 2))], path_table := 0,
    name := ['b'], path := ['@', 'r', 'o', 'o', 't', '.', 'b'], size := 1, version := 1,
    order := [⟨['y'], ['@', 'r', 'o', 'o', 't', '.', 'b', '.', 'y'], some (Value.int 2)⟩],
    dependencies := [], expand_ptr := none, expand_lock := false, modify_handlers := [],
    prototype_handlers := [] }

/-- The structs of the two engines have the same containers. -/
def same_containers (e e1 : Engine) : Prop :=
  ∀ i : Nat, (e1.structs[i]?).map (fun s => s.container) =
    (e.structs[i]?).map (fun s => s.container)

/-- The call `set_key_value(root, "k", root)` on a new root: the root, the
struct 0, is set as a value of itself. -/
def self_value_scenario : Run (Option CoilError) :=
  (new_root false).bind (fun e0 root =>
    coil_struct_set_key_value engine_calls e0 root ['k'] (Value.struct root))

/-- The call `set_path_value(root, "a.k", root)` on a new root: the root, the
struct 0, is set as a value of the struct made at `@root.a`, the struct 1. -/
def ancestor_value_scenario : Run (Option CoilError) :=
  (new_root false).bind (fun e0 root =>
    coil_struct_set_path_value engine_calls zero_frame e0 root ['a', '.', 'k']
      (Value.struct root))

/-- The objects after `set_path_value(root, "a.x", 1)`,
`set_path_value(root, "b.x", 2)` and `coil_struct_extend(b, a)` on a new root:
`a` is the struct 1 and `b`, which has the key `x` of its own and extends `a`,
the struct 2. -/
def shadow_engine : Engine :=
  ((new_root false).bind (fun e0 root =>
    (coil_struct_set_path_value engine_calls zero_frame e0 root ['a', '.', 'x']
      (Value.int 1)).bind (fun e1 _ =>
    (coil_struct_set_path_value engine_calls zero_frame e1 root ['b', '.', 'x']
      (Value.int 2)).bind (fun e2 _ => coil_struct_extend engine_calls e2 2 1)))).engine

/-- The objects after `set_path_value(root, "p.k", 7)`,
`set_path_value(root, "a.x", 1)`, `coil_struct_extend(a, p)`,
`coil_struct_mark_path_deleted(a, "k")` and `set_path_value(root, "c.z", 0)`
on a new root: `p` is the struct 1, `a`, which extends `p` and has `k` marked
deleted, the struct 2, and `c` the struct 3. -/
def tombstone_engine : Engine :=
  ((new_root false).bind (fun e0 root =>
    (coil_struct_set_path_value engine_calls zero_frame e0 root ['p', '.', 'k']
      (Value.int 7)).bind (fun e1 _ =>
    (coil_struct_set_path_value engine_calls zero_frame e1 root ['a', '.', 'x']
      (Value.int 1)).bind (fun e2 _ =>
    (coil_struct_extend engine_calls e2 2 1).bind (fun e3 _ =>
    (coil_struct_mark_path_deleted engine_calls zero_frame e3 2 ['k']).bind (fun e4 _ =>
      coil_struct_set_path_value engine_calls zero_frame e4 root ['c', '.', 'z']
        (Value.int 0))))))).engine

/-- The call `coil_struct_copy(a, c)` in `tombstone_engine`: the copy is the
struct 4. -/
def tombstone_copy : Run (Option Nat × Option CoilError) :=
  coil_struct_copy engine_calls tombstone_engine 2 (some 3)

/-- The objects after `tombstone_copy`, `coil_expand(a)` and
`coil_expand(copy)`. -/
def tombstone_expanded : Engine :=
  ((tombstone_copy.bind (fun e _ => engine_calls.coil_expand e 2)).bind (fun e _ =>
    engine_calls.coil_expand e 4)).engine

/-! ## Comparison and printing of values: `coil_value.c`, `coil_struct_equals`, `coil_link_equals`

The values compared are two `GValue`s; for one and the same `GValue` the
functions return at once.  The functions that call each other in a circle are
passed in as `Comparisons`. -/

/-- `strcmp(s1, s2)`: the strings are compared as unsigned bytes; the result
is given as -1, 0 or 1, of which the C library fixes the sign only. -/
def strcmp : List Char → List Char → Int
  | [], [] => 0
  | [], _ :: _ => -1
  | _ :: _, [] => 1
  | a :: s1, b :: s2 => if a = b then strcmp s1 s2 else if a.toNat < b.toNat then -1 else 1

/-- The expression `(a > b) ? 1 : (a == b) ? 0 : -1` of `coil_value_compare`. -/
def compare_numbers (a b : Int) : Int :=
  if a > b then 1 else if a = b then 0 else -1

/-- The numbers of the `GType`s of the values.  The fundamental types have the
numbers of `gtype.h`; the types of the library get theirs when they are
registered, each a number of its own above those of the fundamental types. -/
structure GTypes where
  none_object : Nat
  list : Nat
  struct : Nat
  link : Nat
  inc : Nat

/-- `G_VALUE_TYPE(value)` as a number: `G_TYPE_BOOLEAN` is `5 << 2`,
`G_TYPE_INT` is `6 << 2` and `G_TYPE_STRING` is `16 << 2`. -/
def G_VALUE_TYPE (T : GTypes) : Value → Nat
  | Value.none_object => T.none_object
  | Value.boolean _ => 20
  | Value.int _ => 24
  | Value.string _ => 64
  | Value.list _ => T.list
  | Value.struct _ => T.struct
  | Value.link _ => T.link
  | Value.inc _ => T.inc

/-- The functions that are called across the recursion of the comparison,
each with what it returns and the error it sets:
`coil_struct_equals(s1, s2, error)` and `coil_value_compare(v1, v2, error)`.
Neither sets an error when it returns TRUE or 0. -/
structure Comparisons where
  coil_struct_equals : Engine → Nat → Nat → Run (Bool × Option CoilError)
  coil_value_compare : Engine → Value → Value → Run (Int × Option CoilError)

/-- `G_VALUE_HOLDS(v, COIL_TYPE_EXPANDABLE) && !coil_expand_value(v, &v,
&internal_error)`: `none` with the error set when the expansion fails, the
value `v` is left with otherwise. -/
def expand_for_compare (X : Calls) (e : Engine) (v : Value) :
    Run (Option Value × Option CoilError) :=
  if v.holds_expandable then X.coil_expand_value_internal e v
  else Run.done e (some v, none)

/-- The loop of `_compare_value_list` and the test that follows it: the loop
is left when an expansion fails, when two elements compare as different, or
when one of the lists has come to its end; the result is 0 when both lists
have come to their end, 1 when the first has not, and -1 otherwise.  The
error is handed on only when the result is not 0. -/
def _compare_value_list (X : Calls) (C : Comparisons) :
    List Value → List Value → Engine → Run (Int × Option CoilError)
  | [], [], e => Run.done e (0, none)
  | [], _ :: _, e => Run.done e (-1, none)
  | _ :: _, [], e => Run.done e (1, none)
  | v1 :: lp1, v2 :: lp2, e =>
    (expand_for_compare X e v1).bind (fun e1 r1 =>
      match r1.1 with
      | none => Run.done e1 (1, r1.2)
      | some real1 =>
        (expand_for_compare X e1 v2).bind (fun e2 r2 =>
          match r2.1 with
          | none => Run.done e2 (1, r2.2)
          | some real2 =>
            (C.coil_value_compare e2 real1 real2).bind (fun e3 c =>
              if c.1 ≠ 0 then Run.done e3 (1, c.2)
              else _compare_value_list X C lp1 lp2 e3)))

/-- `coil_value_compare(v1, v2, error)` for two values that are not NULL: the
result and the error set.  A link or an include is compared with one of its
kind by `COIL_NOT_IMPLEMENTED`, which ends the program. -/
def coil_value_compare (T : GTypes) (X : Calls) (C : Comparisons) (e : Engine)
    (v1 v2 : Value) : Run (Int × Option CoilError) :=
  match v1, v2 with
  | Value.none_object, Value.none_object => Run.done e (0, none)
  | Value.boolean b1, Value.boolean b2 =>
    Run.done e (compare_numbers (if b1 then 1 else 0) (if b2 then 1 else 0), none)
  | Value.int i1, Value.int i2 => Run.done e (compare_numbers i1 i2, none)
  | Value.string s1, Value.string s2 => Run.done e (strcmp s1 s2, none)
  | Value.struct s1, Value.struct s2 =>
    (C.coil_struct_equals e s1 s2).bind (fun e1 r =>
      if r.1 then Run.done e1 (0, r.2)
      else
        match e1.structs[s1]?, e1.structs[s2]? with
        | some p1, some p2 => Run.done e1 (strcmp p1.path p2.path, r.2)
        | _, _ => Run.undefined)
  | Value.list l1, Value.list l2 => _compare_value_list X C l1 l2 e
  | Value.link _, Value.link _ => Run.abort
  | Value.inc _, Value.inc _ => Run.abort
  | _, _ => Run.done e (if G_VALUE_TYPE T v1 > G_VALUE_TYPE T v2 then 1 else -1, none)

/-- `g_list_sort(g_list_copy(order), _struct_item_cmp)`: a stable sort of the
items by `strcmp` of their keys. -/
def g_list_sort (order : List StructItem) : List StructItem :=
  order.insertionSort (fun n1 n2 => strcmp n1.key n2.key ≤ 0)

/-- The loop of `coil_struct_equals` over the two sorted copies of the order,
and the assertion that follows it.  Two items are taken to hold the same
`GValue` only when both hold NULL. -/
def equals_loop (T : GTypes) (X : Calls) (C : Comparisons) :
    List StructItem → List StructItem → Engine → Run (Bool × Option CoilError)
  | [], [], e => Run.done e (true, none)
  | [], _ :: _, _ => Run.abort
  | _ :: _, [], _ => Run.abort
  | i1 :: lp1, i2 :: lp2, e =>
    if strcmp i1.key i2.key ≠ 0 then Run.done e (false, none)
    else
      match i1.value, i2.value with
      | none, none => equals_loop T X C lp1 lp2 e
      | none, some _ => Run.done e (false, none)
      | some _, none => Run.done e (false, none)
      | some v1, some v2 =>
        (expand_for_compare X e v1).bind (fun e1 r1 =>
          match r1.1 with
          | none => Run.done e1 (false, r1.2)
          | some real1 =>
            (expand_for_compare X e1 v2).bind (fun e2 r2 =>
              match r2.1 with
              | none => Run.done e2 (false, r2.2)
              | some real2 =>
                match real1.holds_struct, real2.holds_struct with
                | some s1, some s2 =>
                  (C.coil_struct_equals e2 s1 s2).bind (fun e3 r =>
                    if r.1 then equals_loop T X C lp1 lp2 e3 else Run.done e3 (false, r.2))
                | _, _ =>
                  (coil_value_compare T X C e2 real1 real2).bind (fun e3 c =>
                    if c.1 ≠ 0 then Run.done e3 (false, c.2)
                    else equals_loop T X C lp1 lp2 e3)))

/-- `coil_struct_equals(e1, e2, error)`: the return value and the error
set. -/
def coil_struct_equals (T : GTypes) (X : Calls) (C : Comparisons) (e : Engine)
    (s1 s2 : Nat) : Run (Bool × Option CoilError) :=
  if s1 = s2 then Run.done e (true, none)
  else
    (coil_struct_is_descendent e s1 s2).bind (fun e1 below1 =>
      if below1 then Run.done e1 (false, none)
      else
        (coil_struct_is_descendent e1 s2 s1).bind (fun e2 below2 =>
          if below2 then Run.done e2 (false, none)
          else
            (coil_struct_expand_recursive X e2 s1).bind (fun e3 r1 =>
              if !r1.1 then Run.done e3 (false, r1.2)
              else
                (coil_struct_expand_recursive X e3 s2).bind (fun e4 r2 =>
                  if !r2.1 then Run.done e4 (false, r2.2)
                  else
                    match e4.structs[s1]?, e4.structs[s2]? with
                    | some p1, some p2 =>
                      if p1.size ≠ p2.size ∨
                          p1.order.length % GUINT_RANGE ≠ p2.order.length % GUINT_RANGE then
                        Run.done e4 (false, none)
                      else equals_loop T X C (g_list_sort p1.order) (g_list_sort p2.order) e4
                    | _, _ => Run.undefined))))

/-- The comparisons of the library itself; `fuel` bounds how deep they may
call each other through struct values and list elements. -/
def comparisons (T : GTypes) (X : Calls) : Nat → Comparisons
  | 0 =>
    { coil_struct_equals := fun _ _ _ => Run.diverge
      coil_value_compare := fun _ _ _ => Run.diverge }
  | fuel + 1 =>
    { coil_struct_equals := coil_struct_equals T X (comparisons T X fuel)
      coil_value_compare := coil_value_compare T X (comparisons T X fuel) }

/-- `coil_link_equals(e1, e2, error)`: the first statement of the function is
`return TRUE;`, and the tests that follow it are never reached. -/
def coil_link_equals (_e : Engine) (_l1 _l2 : Nat) : Bool := true

/-- The number written by `"%d"`. -/
def decimal (n : Nat) : List Char :=
  if n = 0 then ['0'] else (Nat.digits 10 n).reverse.map Nat.digitChar

/-- `g_strdup_printf("%d", i)`, the transformation of an integer value to a
string. -/
def printf_d (i : Int) : List Char :=
  if i < 0 then '-' :: decimal i.natAbs else decimal i.natAbs

/-- `COIL_MULTILINE_LEN`. -/
def COIL_MULTILINE_LEN : Nat := 80

/-- The character of the single quote. -/
def single_quote : Char := Char.ofNat 39

/-- The character of the new line. -/
def new_line : Char := Char.ofNat 10

/-- `COIL_MULTILINE_QUOTE_S`. -/
def COIL_MULTILINE_QUOTE_S : List Char := [single_quote, single_quote, single_quote]

/-- `coil_value_build_string(value, buffer, error)`: the buffer as it is left.
The strings of expandables and of lists are built by
`coil_expandable_build_string` and `coil_list_build_string`, which are passed
in. -/
def coil_value_build_string
    (coil_expandable_build_string coil_list_build_string : Value → List Char → List Char)
    (value : Option Value) (buffer : List Char) : List Char :=
  match value with
  | none => buffer ++ ['(', 'n', 'u', 'l', 'l', ')']
  | some Value.none_object => buffer ++ ['N', 'o', 'n', 'e']
  | some (Value.boolean b) =>
    if b then buffer ++ ['T', 'r', 'u', 'e'] else buffer ++ ['F', 'a', 'l', 's', 'e']
  | some (Value.string s) =>
    if s.length > COIL_MULTILINE_LEN ∨ new_line ∈ s then
      buffer ++ COIL_MULTILINE_QUOTE_S ++ s ++ COIL_MULTILINE_QUOTE_S
    else buffer ++ [single_quote] ++ s ++ [single_quote]
  | some (Value.int i) => buffer ++ printf_d i
  | some (Value.list l) => coil_list_build_string (Value.list l) buffer
  | some v => coil_expandable_build_string v buffer

/-- `coil_value_to_string(value, error)`. -/
def coil_value_to_string
    (coil_expandable_build_string coil_list_build_string : Value → List Char → List Char)
    (value : Option Value) : List Char :=
  match value with
  | none => ['(', 'n', 'u', 'l', 'l', ')']
  | some v => coil_value_build_string coil_expandable_build_string coil_list_build_string
      (some v) []

/-- The number that a string of decimal digits stands for. -/
def digits_value (digits : List Char) : Nat :=
  digits.foldl (fun n c => 10 * n + (c.toNat - '0'.toNat)) 0

/-- Two roots, the structs 0 and 1: the first with `set_key_value(root, "x",
1)` and the second empty. -/
def two_roots : Engine :=
  ((new_root false).bind (fun e0 first =>
    (coil_struct_new e0 none COIL_ROOT_PATH none false).bind (fun e1 _ =>
      coil_struct_set_key_value engine_calls e1 first ['x'] (Value.int 1)))).engine

/-- Two roots, the structs 0 and 1, and two links made with the paths `x` and
`y`, the links 0 and 1: the first link is set at `l` of the first root and the
second at `m` of the second root. -/
def links_engine : Engine :=
  ((new_root false).bind (fun e0 first =>
    (coil_struct_new e0 none COIL_ROOT_PATH none false).bind (fun e1 second =>
      (coil_struct_set_key_value engine_calls
        { e1 with links := [⟨none, false, ['x']⟩, ⟨none, false, ['y']⟩] }
        first ['l'] (Value.link 0)).bind (fun e2 _ =>
        coil_struct_set_key_value engine_calls e2 second ['m'] (Value.link 1))))).engine

/-- The value holds a boolean, an integer, a string or the none object. -/
def Value.is_scalar : Value → Bool
  | Value.none_object => true
  | Value.boolean _ => true
  | Value.int _ => true
  | Value.string _ => true
  | _ => false

/-- The key of an item of the order and the value it holds. -/
def StructItem.entry (item : StructItem) : List Char × Option Value := (item.key, item.value)

/-- The objects after `set_path_value(root, "a.x", 1)`,
`set_path_value(root, "a.y", 3)`, `set_key_value(root, "b", b)` with a new
struct `b`, and `coil_struct_extend(b, a)` on a new root: `a` is the struct 1
and `b`, which has nothing but the dependency `a`, the struct 2. -/
def extends_engine : Engine :=
  ((new_root false).bind (fun e0 root =>
    (coil_struct_set_path_value engine_calls zero_frame e0 root ['a', '.', 'x']
      (Value.int 1)).bind (fun e1 _ =>
    (coil_struct_set_path_value engine_calls zero_frame e1 root ['a', '.', 'y']
      (Value.int 3)).bind (fun e2 _ =>
    (coil_struct_new e2 (some root) ['b'] none false).bind (fun e3 b =>
    (coil_struct_set_key_value engine_calls e3 root ['b'] (Value.struct b)).bind (fun e4 _ =>
      coil_struct_extend engine_calls e4 b 1)))))).engine

/-- The objects after `set_path_value(root, "p.x", 1)`,
`set_path_value(root, "p.y", 3)`, `set_path_value(root, "q.y", 3)` and
`set_path_value(root, "q.x", 1)` on a new root: `p` is the struct 1 and `q`
the struct 2. -/
def orders_engine : Engine :=
  ((new_root false).bind (fun e0 root =>
    (coil_struct_set_path_value engine_calls zero_frame e0 root ['p', '.', 'x']
      (Value.int 1)).bind (fun e1 _ =>
    (coil_struct_set_path_value engine_calls zero_frame e1 root ['p', '.', 'y']
      (Value.int 3)).bind (fun e2 _ =>
    (coil_struct_set_path_value engine_calls zero_frame e2 root ['q', '.', 'y']
      (Value.int 3)).bind (fun e3 _ =>
      coil_struct_set_path_value engine_calls zero_frame e3 root ['q', '.', 'x']
        (Value.int 1)))))).engine

/-- The struct `a` of `extends_engine`. -/
def extends_parent : CoilStruct :=
  { container := some 0, expanded := true, is_prototype := false, always_expand := false,
    remember_deps := false,
    key_table := [(['y'], some (Value.int 3)), (['x'], some (Value.int 1))], path_table := 0,
    name := ['a'], path := ['@', 'r', 'o', 'o', 't', '.', 'a'], size := 2, version := 2,
    order := [⟨['y'], ['@', 'r', 'o', 'o', 't', '.', 'a', '.', 'y'], some (Value.int 3)⟩,
      ⟨['x'], ['@', 'r', 'o', 'o', 't', '.', 'a', '.', 'x'], some (Value.int 1)⟩],
    dependencies := [], expand_ptr := none, expand_lock := false,
    modify_handlers := [⟨2, 0⟩], prototype_handlers := [] }

/-- The struct `b` of `extends_engine`. -/
def extends_child : CoilStruct :=
  { container := some 0, expanded := false, is_prototype := false, always_expand := false,
    remember_deps := false, key_table := [], path_table := 0,
    name := ['b'], path := ['@', 'r', 'o', 'o', 't', '.', 'b'], size := 0, version := 1,
    order := [], dependencies := [Value.struct 1], expand_ptr := none, expand_lock := false,
    modify_handlers := [], prototype_handlers := [] }

/-- The struct `p` of `orders_engine`. -/
def orders_first : CoilStruct :=
  { container := some 0, expanded := true, is_prototype := false, always_expand := false,
    remember_deps := false,
    key_table := [(['y'], some (Value.int 3)), (['x'], some (Value.int 1))], path_table := 0,
    name := ['p'], path := ['@', 'r', 'o', 'o', 't', '.', 'p'], size := 2, version := 2,
    order := [⟨['y'], ['@', 'r', 'o', 'o', 't', '.', 'p', '.', 'y'], some (Value.int 3)⟩,
      ⟨['x'], ['@', 'r', 'o', 'o', 't', '.', 'p', '.', 'x'], some (Value.int 1)⟩],
    dependencies := [], expand_ptr := none, expand_lock := false, modify_handlers := [],
    prototype_handlers := [] }

/-- The struct `q` of `orders_engine`. -/
def orders_second : CoilStruct :=
  { container := some 0, expanded := true, is_prototype := false, always_expand := false,
    remember_deps := false,
    key_table := [(['x'], some (Value.int 1)), (['y'], some (Value.int 3))], path_table := 0,
    name := ['q'], path := ['@', 'r', 'o', 'o', 't', '.', 'q'], size := 2, version := 2,
    order := [⟨['x'], ['@', 'r', 'o', 'o', 't', '.', 'q', '.', 'x'], some (Value.int 1)⟩,
      ⟨['y'], ['@', 'r', 'o', 'o', 't', '.', 'q', '.', 'y'], some (Value.int 3)⟩],
    dependencies := [], expand_ptr := none, expand_lock := false, modify_handlers := [],
    prototype_handlers := [] }

/-- Numbers for the types that the library registers, each above the numbers
of the fundamental types. -/
def registered_types : GTypes := ⟨1024, 1028, 1032, 1036, 1040⟩

/-- The objects after `set_path_value(root, "p.k", 7)`,
`set_path_value(root, "a.c.x", 1)`, `coil_struct_extend(a.c, p)`,
`coil_struct_mark_path_deleted(a.c, "k")`, and a new struct `b` set at the key
`b` of the root with `coil_struct_extend(b, a)`: the root is the struct 0, `p`
the struct 1, `a` the struct 2, `a.c` the struct 3 and `b` the struct 4.  In
text: `p: { k: 7 }  a: { c: { @extends: ...p  ~k  x: 1 } }  b: { @extends: ..a }`. -/
def nested_tombstone_scenario : Run (Option CoilError) :=
  (new_root false).bind (fun e0 root =>
    (coil_struct_set_path_value engine_calls zero_frame e0 root ['p', '.', 'k']
      (Value.int 7)).bind (fun e1 _ =>
    (coil_struct_set_path_value engine_calls zero_frame e1 root ['a', '.', 'c', '.', 'x']
      (Value.int 1)).bind (fun e2 _ =>
    (coil_struct_extend engine_calls e2 3 1).bind (fun e3 _ =>
    (coil_struct_mark_path_deleted engine_calls zero_frame e3 3 ['k']).bind (fun e4 _ =>
    (coil_struct_new e4 (some root) ['b'] none false).bind (fun e5 b =>
    (coil_struct_set_key_value engine_calls e5 root ['b'] (Value.struct b)).bind (fun e6 _ =>
      coil_struct_extend engine_calls e6 b 2)))))))

/-- The call `coil_struct_expand(b)` after `nested_tombstone_scenario`. -/
def nested_tombstone_expanded : Run (Bool × Option CoilError) :=
  nested_tombstone_scenario.bind (fun e _ => engine_calls.coil_expand e 4)

/-- The objects after `set_path_value(root, "p.k2", 7)`,
`set_path_value(root, "p.k1", 8)`, `set_path_value(root, "dst.x", 0)`,
`set_path_value(root, "d.q", 0)`, `set_path_value(root, "src.k1", 1)`,
`set_path_value(root, "src.k2", 2)`, `coil_struct_extend(dst, p)` and
`coil_struct_extend(d, dst)` on a new root: `p` is the struct 1, `dst` the
struct 2, `d` the struct 3 and `src` the struct 4.  In text:
`p: { k2: 7  k1: 8 }  dst: { @extends: ..p  x: 0 }  d: { @extends: ..dst  q: 0 }
src: { k1: 1  k2: 2 }`. -/
def merge_dependent_scenario : Run (Option CoilError) :=
  (new_root false).bind (fun e0 root =>
    (coil_struct_set_path_value engine_calls zero_frame e0 root ['p', '.', 'k', '2']
      (Value.int 7)).bind (fun e1 _ =>
    (coil_struct_set_path_value engine_calls zero_frame e1 root ['p', '.', 'k', '1']
      (Value.int 8)).bind (fun e2 _ =>
    (coil_struct_set_path_value engine_calls zero_frame e2 root ['d', 's', 't', '.', 'x']
      (Value.int 0)).bind (fun e3 _ =>
    (coil_struct_set_path_value engine_calls zero_frame e3 root ['d', '.', 'q']
      (Value.int 0)).bind (fun e4 _ =>
    (coil_struct_set_path_value engine_calls zero_frame e4 root ['s', 'r', 'c', '.', 'k', '1']
      (Value.int 1)).bind (fun e5 _ =>
    (coil_struct_set_path_value engine_calls zero_frame e5 root ['s', 'r', 'c', '.', 'k', '2']
      (Value.int 2)).bind (fun e6 _ =>
    (coil_struct_extend engine_calls e6 2 1).bind (fun e7 _ =>
      coil_struct_extend engine_calls e7 3 2))))))))

/-- The call `coil_struct_merge(src, dst, FALSE, &error)` after
`merge_dependent_scenario`. -/
def merge_dependent_merged : Run (Option CoilError) :=
  merge_dependent_scenario.bind (fun e _ => coil_struct_merge engine_calls e 4 2 false)

/-- The dependency at which the loop of `_struct_expand` starts, as an offset
into the list: `priv->expand_ptr`, or the last link of the list when that is
NULL (`g_list_last(priv->dependencies)`). -/
def expand_start (s : CoilStruct) : Option Nat :=
  match s.expand_ptr with
  | some i => some i
  | none => if s.dependencies.isEmpty then none else some (s.dependencies.length - 1)

/-- The struct as `_struct_expand` has it when its loop starts: locked, the
handlers of `modify` blocked once more, `expand_ptr` at the dependency the
loop starts with. -/
def locked_for_expansion (s : CoilStruct) : CoilStruct :=
  { s with
    expand_lock := true
    modify_handlers := s.modify_handlers.map (fun h => ⟨h.data, h.block_count + 1⟩)
    expand_ptr := expand_start s }

/-- The turns of the loop of `_struct_expand` for the dependencies from the
one at `lo + count - 1` down to the one at `lo`: the turns that
`expand_dependencies` takes before it comes to the dependency at `lo - 1`. -/
def expand_dependencies_from (X : Calls) (self lo : Nat) :
    Nat → Engine → List Value → Run (Bool × Option CoilError × List Value)
  | 0, e, visited => Run.done e (true, none, visited)
  | count + 1, e, visited =>
    (expand_dependency X e self visited (lo + count)).bind (fun e1 r =>
      if r.1 then expand_dependencies_from X self lo count e1 r.2.2 else Run.done e1 r)

/-- The objects after `set_path_value(root, "a.x", 1)`,
`set_path_value(root, "b.y", 2)`, `coil_struct_extend(b, a)` and
`coil_struct_extend_path(b, "..c")` on a new root: `a` is the struct 1, `b`
the struct 2, and the prototype made at `@root.c`, which `b` extends after
`a`, the struct 3. -/
def second_prototype_scenario : Run (Option CoilError) :=
  coil_struct_extend_path engine_calls zero_frame extends_scenario.engine 2 ['.', '.', 'c']

/-- The first turn of the loop of `_struct_expand(b)` after
`second_prototype_scenario`, the one for the dependency `a`. -/
def second_prototype_reached : Run (Bool × Option CoilError × List Value) :=
  expand_dependencies_from engine_calls 2 1 1
    (second_prototype_scenario.engine.set_struct 2
      (locked_for_expansion ((second_prototype_scenario.engine.structs[2]?).getD nested_struct)))
    [Value.struct 2]

/-- A struct of a dependency cycle as the expansion passes through it: the
struct, the place in its dependencies of the dependency that leads on round
the cycle, and the engine and the table `visited` as the turns of the loop of
`_struct_expand` for the dependencies before that place leave them. -/
structure CycleStep where
  member : Nat
  edge : Nat
  engine : Engine
  visited : List Value

/-- The expansion of `step.member`, started in the engine `e` with the table
`visited`, comes to the dependency at `step.edge`: the struct is neither
expanded, nor locked, nor a prototype, nor in the table; the turns of the loop
for the dependencies from where the expansion starts down to the one before
`step.edge` all pass and leave `step.engine` and `step.visited`; and then the
dependency at `step.edge` is the struct `next`, which is neither a prototype
nor expanded, while the structs `entered` before are still there. -/
def reaches_edge (X : Calls) (e : Engine) (visited : List Value) (entered : List Nat)
    (step : CycleStep) (next : Nat) : Prop :=
  ∃ s start s1 ns,
    e.structs[step.member]? = some s ∧ s.expanded = false ∧ s.expand_lock = false ∧
    s.is_prototype = false ∧ Value.struct step.member ∉ visited ∧
    expand_start s = some start ∧ step.edge ≤ start ∧
    expand_dependencies_from X step.member (step.edge + 1) (start - step.edge)
      (e.set_struct step.member (locked_for_expansion s))
      (visited ++ [Value.struct step.member]) = Run.done step.engine (true, none, step.visited) ∧
    step.engine.structs[step.member]? = some s1 ∧
    s1.dependencies[step.edge]? = some (Value.struct next) ∧
    step.engine.structs[next]? = some ns ∧ ns.is_prototype = false ∧ ns.expanded = false ∧
    ∀ x ∈ entered, (step.engine.structs[x]?).isSome = true

/-- The expansion goes round a dependency cycle: it passes through the structs
of `steps` one after the other, each reached as a dependency of the one
before, with one level of calls less, and the dependency the last one comes to
is `target`, whose expansion is still under way (it is locked or in the table
`visited`). -/
def cycle_descent (dbg : Bool)
    (ev : Engine → Value → List Value → Run (Option Value × Option CoilError × List Value)) :
    Nat → Engine → List Value → List Nat → List CycleStep → Nat → Prop
  | _, _, _, _, [], _ => False
  | fuel, e, visited, entered, [step], target =>
    reaches_edge (calls dbg ev fuel) e visited entered step target ∧
    ∃ ts, step.engine.structs[target]? = some ts ∧
      (ts.expand_lock = true ∨ Value.struct target ∈ step.visited)
  | fuel, e, visited, entered, step :: next :: rest, target =>
    reaches_edge (calls dbg ev fuel) e visited entered step next.member ∧
    cycle_descent dbg ev (fuel - 1) step.engine step.visited (step.member :: entered)
      (next :: rest) target

/-- The objects after `set_path_value(root, "a.x", 1)`,
`set_path_value(root, "b.y", 2)`, `set_path_value(root, "p.z", 0)`,
`coil_struct_extend(a, p)`, `coil_struct_extend(a, b)`,
`coil_struct_extend(b, a)` and `coil_struct_extend(b, p)` on a new root: `a`
is the struct 1, `b` the struct 2 and `p` the struct 3.  In text:
`p: { z: 0 }  a: { @extends: ..p, ..b  x: 1 }  b: { @extends: ..a, ..p  y: 2 }`. -/
def branching_cycle_scenario : Run (Option CoilError) :=
  (new_root false).bind (fun e0 root =>
    (coil_struct_set_path_value engine_calls zero_frame e0 root ['a', '.', 'x']
      (Value.int 1)).bind (fun e1 _ =>
    (coil_struct_set_path_value engine_calls zero_frame e1 root ['b', '.', 'y']
      (Value.int 2)).bind (fun e2 _ =>
    (coil_struct_set_path_value engine_calls zero_frame e2 root ['p', '.', 'z']
      (Value.int 0)).bind (fun e3 _ =>
    (coil_struct_extend engine_calls e3 1 3).bind (fun e4 _ =>
    (coil_struct_extend engine_calls e4 1 2).bind (fun e5 _ =>
    (coil_struct_extend engine_calls e5 2 1).bind (fun e6 _ =>
      coil_struct_extend engine_calls e6 2 3)))))))

/-- The first step of `coil_expand(a)` round the cycle of
`branching_cycle_scenario`, from the engine `e`: in `a` the turn for the
dependency `p` comes first, and the dependency `b` is at the head of the
list. -/
def branching_cycle_first (e : Engine) : CycleStep :=
  ⟨1, 0,
    (expand_dependencies_from engine_calls 1 1 1
      (e.set_struct 1 (locked_for_expansion ((e.structs[1]?).getD nested_struct)))
      [Value.struct 1]).engine,
    [Value.struct 1]⟩

/-- The second step: in `b` the dependency `a` is the one the expansion starts
with. -/
def branching_cycle_second (e : Engine) : CycleStep :=
  ⟨2, 1,
    (branching_cycle_first e).engine.set_struct 2
      (locked_for_expansion (((branching_cycle_first e).engine.structs[2]?).getD nested_struct)),
    [Value.struct 1, Value.struct 2]⟩

/-- The call `coil_expand(a)` after `branching_cycle_scenario`. -/
def branching_cycle_failed : Run (Bool × Option CoilError × List Value) :=
  coil_expand_struct engine_calls branching_cycle_scenario.engine 1 none

/-- What of a struct the functions that rebuild paths leave as it is: the keys
and values of its order, its key table, whether it is a prototype, its size
and its dependencies. -/
def CoilStruct.contents (s : CoilStruct) :
    List (List Char × Option Value) × List (List Char × Option Value) × Bool × Nat ×
      List Value :=
  (s.order.map StructItem.entry, s.key_table, s.is_prototype, s.size, s.dependencies)

/-- The engine `e1` has the structs of `e`, and `part` is of each what it is
in `e`. -/
def same_part {α : Type} (part : CoilStruct → α) (e e1 : Engine) : Prop :=
  ∀ i : Nat, (e1.structs[i]?).map part = (e.structs[i]?).map part

/-- The engine `e1` has the structs of `e`, each with the contents it has in
`e`. -/
def same_contents (e e1 : Engine) : Prop := same_part CoilStruct.contents e e1

/-- The keys and values of the order of a struct, from its head. -/
def CoilStruct.entries (s : CoilStruct) : List (List Char × Option Value) :=
  s.order.map StructItem.entry

/-- The objects of `extends_scenario` (the root holds `a` and `b`, `a` holds
`x`, and `b`, which extends `a`, is connected to the `modify` signal of `a`)
with a new struct made by `coil_struct_new("container", root, "name", "c")`,
the struct 3, which is not yet the value of a key. -/
def iteration_engine : Engine :=
  (coil_struct_new extends_scenario.engine (some 0) ['c'] none false).engine

/-- The call `coil_struct_set_key_value(root, "c", c)` in `iteration_engine`. -/
def iteration_new_struct : Run (Option CoilError) :=
  coil_struct_set_key_value engine_calls iteration_engine 0 ['c'] (Value.struct 3)

/-- The call `coil_struct_set_key_value(root, "a", 5)` in `iteration_engine`. -/
def iteration_overwrite : Run (Option CoilError) :=
  coil_struct_set_key_value engine_calls iteration_engine 0 ['a'] (Value.int 5)

/-- The handlers of `modify` of `a` run in `iteration_engine`: `b` is
expanded. -/
def iteration_modified : Run (Option CoilError) :=
  emit_modify engine_calls iteration_engine 1

/-- The call `coil_struct_set_key_value(a, "w", 9)` in `iteration_engine`. -/
def iteration_watched : Run (Option CoilError) :=
  coil_struct_set_key_value engine_calls iteration_engine 1 ['w'] (Value.int 9)

/-! ## Theorems -/

theorem nul_ne_delim : NUL ≠ COIL_PATH_DELIM := by decide

theorem cstr_nul_cons (m : List Char) : cstr (NUL :: m) = [] := by
  simp [cstr]

theorem cstr_eq_self {s : List Char} (h : NUL ∉ s) : cstr s = s := by
  unfold cstr
  rw [List.takeWhile_eq_self_iff]
  intro x hx
  simp only [bne_iff_ne, ne_eq]
  rintro rfl
  exact h hx

theorem cstr_append_nul {s : List Char} (rest : List Char) (h : NUL ∉ s) :
    cstr (s ++ NUL :: rest) = s := by
  induction s with
  | nil => simp [cstr]
  | cons a s ih =>
    have ha : a ≠ NUL := fun e => h (by simp [e])
    have hs : NUL ∉ s := fun e => h (by simp [e])
    have := ih hs
    unfold cstr at this ⊢
    simp [List.takeWhile_cons, ha, this]

theorem on_buffer_put_nul (buf : Option (List Char)) (h : buffer_fits buf = true) :
    ∃ r, on_buffer buf (fun m => put_nul m 0) = some r ∧ r.map cstr = buf.map (fun _ => []) := by
  cases buf with
  | none => exact ⟨none, rfl, rfl⟩
  | some m =>
    cases m with
    | nil => simp [buffer_fits, COIL_PATH_BUFLEN, COIL_PATH_LEN] at h
    | cons a m => exact ⟨some (NUL :: m), by simp [on_buffer, put_nul], by simp [cstr_nul_cons]⟩

theorem resolve_error_spec (bufs : Buffers) (h : bufs.usable = true) :
    ∃ b, resolve_error bufs = Outcome.pathError b ∧ b.strings = bufs.expect [] [] [] := by
  simp only [Buffers.usable, Bool.and_eq_true] at h
  obtain ⟨_, ⟨hp, hc⟩, hk⟩ := h
  obtain ⟨k, hk1, hk2⟩ := on_buffer_put_nul bufs.key hk
  obtain ⟨p, hp1, hp2⟩ := on_buffer_put_nul bufs.path hp
  obtain ⟨c, hc1, hc2⟩ := on_buffer_put_nul bufs.container hc
  refine ⟨⟨p, c, k⟩, ?_, ?_⟩
  · simp [resolve_error, hk1, hp1, hc1]
  · simp [Buffers.strings, Buffers.expect, hk2, hp2, hc2]

theorem strstr_dotdot_iff (l : List Char) :
    strstr_dotdot l = true ↔ [COIL_PATH_DELIM, COIL_PATH_DELIM] <:+: l := by
  induction l with
  | nil => simp [strstr_dotdot]
  | cons a t ih =>
    cases t with
    | nil =>
      simp [strstr_dotdot, List.infix_cons_iff, List.prefix_cons_iff]
    | cons b t =>
      rw [strstr_dotdot, List.infix_cons_iff, Bool.or_eq_true, ih]
      have hp : [COIL_PATH_DELIM, COIL_PATH_DELIM] <+: a :: b :: t ↔
          (a = COIL_PATH_DELIM ∧ b = COIL_PATH_DELIM) := by
        rw [List.cons_prefix_cons, List.cons_prefix_cons]
        constructor
        · rintro ⟨h1, h2, _⟩
          exact ⟨h1.symm, h2.symm⟩
        · rintro ⟨h1, h2⟩
          exact ⟨h1.symm, h2.symm, List.nil_prefix⟩
      rw [hp]
      simp

theorem back_references_fst (base : List Char) (r : List Char) (e : Int) :
    (back_references base r e).1 = r.dropWhile (fun c => c == COIL_PATH_DELIM) := by
  induction r generalizing e with
  | nil => rfl
  | cons c r ih =>
    by_cases hc : c = COIL_PATH_DELIM
    · simp [back_references, hc, ih]
    · simp [back_references, hc]

theorem nul_not_mem_cstr (mem : List Char) : NUL ∉ cstr mem := by
  intro h
  have := List.mem_takeWhile_imp h
  simp at this

theorem buffer_fits_length {m : List Char} (h : buffer_fits (some m) = true) :
    COIL_PATH_BUFLEN ≤ m.length := by
  simpa [buffer_fits] using h

theorem on_buffer_poke_string (buf : Option (List Char)) (s : List Char)
    (h : buffer_fits buf = true) (hs : NUL ∉ s) (hlen : s.length + 1 ≤ COIL_PATH_BUFLEN) :
    ∃ r, on_buffer buf (fun m => poke m (s ++ [NUL])) = some r ∧
      r.map cstr = buf.map (fun _ => s) := by
  cases buf with
  | none => exact ⟨none, rfl, rfl⟩
  | some m =>
    have hm := buffer_fits_length h
    refine ⟨some (s ++ [NUL] ++ m.drop (s ++ [NUL]).length), ?_, ?_⟩
    · have : (s ++ [NUL]).length ≤ m.length := by simp; omega
      simp only [on_buffer, poke, if_pos this, Option.map_some']
    · simp only [Option.map_some', List.append_assoc, List.singleton_append]
      rw [cstr_append_nul _ hs]

theorem on_buffer_strcpy (buf : Option (List Char)) (src : List Char)
    (h : buffer_fits buf = true) (hlen : (cstr src).length + 1 ≤ COIL_PATH_BUFLEN) :
    ∃ r, on_buffer buf (fun m => strcpy m src) = some r ∧
      r.map cstr = buf.map (fun _ => cstr src) :=
  on_buffer_poke_string buf (cstr src) h (nul_not_mem_cstr src) hlen

theorem on_buffer_strncpy_put_nul (buf : Option (List Char)) (src : List Char) (n : Nat)
    (h : buffer_fits buf = true) (hn : n ≤ (cstr src).length) (hlen : n + 1 ≤ COIL_PATH_BUFLEN) :
    ∃ r, on_buffer buf (fun m => (strncpy m src n).bind (fun m1 => put_nul m1 n)) = some r ∧
      r.map cstr = buf.map (fun _ => (cstr src).take n) := by
  cases buf with
  | none => exact ⟨none, rfl, rfl⟩
  | some m =>
    have hm := buffer_fits_length h
    have hpad : n - (cstr src).length = 0 := by omega
    have htake : ((cstr src).take n).length = n := by simp; omega
    have hnm : n < m.length := by omega
    refine ⟨some ((cstr src).take n ++ NUL :: m.drop (n + 1)), ?_, ?_⟩
    · have h1 : strncpy m src n = some ((cstr src).take n ++ m.drop n) := by
        simp only [strncpy, hpad, List.replicate_zero, List.append_nil, poke, htake]
        rw [if_pos (by omega)]
      have h2 : put_nul ((cstr src).take n ++ m.drop n) n =
          some ((cstr src).take n ++ NUL :: m.drop (n + 1)) := by
        unfold put_nul
        rw [if_pos (by simp; omega)]
        congr 1
        have hd : m.drop n = m[n] :: m.drop (n + 1) := List.drop_eq_getElem_cons hnm
        rw [hd]
        rw [List.set_append_right n NUL (by omega), htake, Nat.sub_self, List.set_cons_zero]
      simp only [on_buffer, h1, Option.some_bind, h2, Option.map_some']
    · simp only [Option.map_some']
      rw [cstr_append_nul]
      intro hmem
      exact nul_not_mem_cstr src (List.mem_of_mem_take hmem)

theorem key_ptr_scan_unfold (mem : List Char) (i : Nat) :
    key_ptr_scan mem (i + 1) =
      if mem.getD (i + 1) NUL = COIL_PATH_DELIM then some (i + 1) else key_ptr_scan mem i := by
  rw [key_ptr_scan]

theorem key_ptr_scan_zero (mem : List Char) (h : mem.getD 0 NUL = COIL_PATH_DELIM) :
    key_ptr_scan mem 0 = some 0 := by
  rw [key_ptr_scan, if_pos h]

theorem key_ptr_scan_hit (mem : List Char) (i : Nat) (h : mem.getD i NUL = COIL_PATH_DELIM) :
    key_ptr_scan mem i = some i := by
  cases i with
  | zero => exact key_ptr_scan_zero mem h
  | succ i => rw [key_ptr_scan_unfold, if_pos h]

theorem key_ptr_scan_last (C K : List Char) (hK : COIL_PATH_DELIM ∉ K) (j : Nat)
    (hj : j ≤ K.length + 1) :
    key_ptr_scan (C ++ COIL_PATH_DELIM :: (K ++ [NUL])) (C.length + j) = some C.length := by
  induction j with
  | zero =>
    apply key_ptr_scan_hit
    rw [Nat.add_zero, List.getD_append_right _ _ _ _ (le_refl _)]
    simp
  | succ j ih =>
    rw [← Nat.add_assoc, key_ptr_scan_unfold, if_neg, ih (by omega)]
    rw [List.getD_append_right _ _ _ _ (by omega)]
    have : C.length + j + 1 - C.length = j + 1 := by omega
    rw [this, List.getD_cons_succ]
    by_cases hjk : j < K.length
    · rw [List.getD_append _ _ _ _ hjk, List.getD_eq_getElem _ _ hjk]
      intro heq
      exact hK (heq ▸ List.getElem_mem _)
    · have hjk2 : j = K.length := by omega
      rw [List.getD_append_right _ _ _ _ (by omega), hjk2]
      simp [nul_ne_delim]

theorem leading_back_references_fst (base reference : List Char) :
    (leading_back_references base reference).1 =
      reference.dropWhile (fun c => c == COIL_PATH_DELIM) := by
  cases reference with
  | nil => rfl
  | cons c r =>
    by_cases hc : c = COIL_PATH_DELIM
    · simp [leading_back_references, hc, back_references_fst]
    · simp [leading_back_references, hc]

theorem usable_not_all_null (bufs : Buffers) (h : bufs.usable = true) :
    ¬ (bufs.path.isNone ∧ bufs.container.isNone ∧ bufs.key.isNone) := by
  simp only [Buffers.usable, Bool.and_eq_true, Bool.or_eq_true] at h
  rintro ⟨h1, h2, h3⟩
  rcases h.1 with (h | h) | h
  · cases hp : bufs.path <;> simp_all
  · cases hp : bufs.container <;> simp_all
  · cases hp : bufs.key <;> simp_all

theorem resolve_full_relative (after base reference : List Char) (bufs : Buffers)
    (hb : bufs.usable = true) (hrel : COIL_PATH_IS_ABSOLUTE reference = false) :
    coil_path_resolve_full after (some base) reference bufs =
      resolve_append after base (reference.dropWhile (fun c => c == COIL_PATH_DELIM))
        (leading_back_references base reference).2 bufs := by
  unfold coil_path_resolve_full
  rw [if_neg (usable_not_all_null bufs hb)]
  simp only [hrel, Bool.false_eq_true, if_false, resolve_relative,
    leading_back_references_fst]

theorem resolve_append_mid_path (after base s : List Char) (e : Int) (bufs : Buffers)
    (hs : s.head? ≠ some COIL_PATH_DELIM)
    (hmid : [COIL_PATH_DELIM, COIL_PATH_DELIM] <:+: s) :
    resolve_append after base s e bufs = resolve_error bufs := by
  cases s with
  | nil => simp at hmid
  | cons c t =>
    have hc : c ≠ COIL_PATH_DELIM := by simpa using hs
    rw [List.infix_cons_iff, List.cons_prefix_cons] at hmid
    have ht : strstr_dotdot t = true := by
      rw [strstr_dotdot_iff]
      rcases hmid with h | h
      · exact absurd h.1.symm hc
      · exact h
    simp [resolve_append, mid_path_text, ht]

theorem resolve_append_no_key (after base : List Char) (e : Int) (bufs : Buffers) :
    resolve_append after base [] e bufs = resolve_error bufs := by
  unfold resolve_append
  simp

theorem head_dropWhile_delim (r : List Char) :
    (r.dropWhile (fun c => c == COIL_PATH_DELIM)).head? ≠ some COIL_PATH_DELIM := by
  have h := List.head?_dropWhile_not (fun c => c == COIL_PATH_DELIM) r
  intro hh
  rw [hh] at h
  simp at h

theorem guint_small (n : Nat) (h : n ≤ COIL_PATH_BUFLEN) : n % GUINT_RANGE = n := by
  apply Nat.mod_eq_of_lt
  have : COIL_PATH_BUFLEN < GUINT_RANGE := by decide
  omega

theorem guint_offset_small (e : Nat) (h : e ≤ COIL_PATH_BUFLEN) :
    ((e : Int) % (GUINT_RANGE : Int)).toNat = e := by
  have h1 : COIL_PATH_BUFLEN = 256 := rfl
  have h2 : (GUINT_RANGE : Int) = 4294967296 := by
    norm_num [GUINT_RANGE]
  rw [h2]
  omega

theorem resolve_append_success (after base s C K : List Char) (e : Nat) (bufs : Buffers)
    (hb : bufs.usable = true) (he0 : 0 < e) (hle : e ≤ base.length)
    (hs : s ≠ []) (hmid : ¬ [COIL_PATH_DELIM, COIL_PATH_DELIM] <:+: s)
    (hlen : e + 1 + s.length ≤ COIL_PATH_LEN)
    (hnb : NUL ∉ base.take e) (hns : NUL ∉ s)
    (hsplit : base.take e ++ COIL_PATH_DELIM :: s = C ++ COIL_PATH_DELIM :: K)
    (hK : COIL_PATH_DELIM ∉ K) :
    ∃ b, resolve_append after base s (e : Int) bufs = Outcome.success b ∧
      b.strings = bufs.expect (base.take e ++ COIL_PATH_DELIM :: s) C K := by
  have hP255 : COIL_PATH_LEN = 255 := rfl
  have hB256 : COIL_PATH_BUFLEN = 256 := rfl
  obtain ⟨c, t, rfl⟩ := List.exists_cons_of_ne_nil hs
  -- the mid-path check finds nothing
  have h1 : strstr_dotdot (mid_path_text after (c :: t)) = false := by
    rw [Bool.eq_false_iff, Ne, strstr_dotdot_iff]
    intro h
    exact hmid (List.infix_cons h)
  have hl1 : ((e : Int) % (GUINT_RANGE : Int)).toNat = e := guint_offset_small e (by omega)
  have hl2 : (c :: t).length % GUINT_RANGE = (c :: t).length := guint_small _ (by omega)
  have hpl : (e + (c :: t).length + 1) % GUINT_RANGE = e + (c :: t).length + 1 :=
    guint_small _ (by omega)
  -- the string that is built, and its split at the last delimiter
  have hlenP : (base.take e ++ COIL_PATH_DELIM :: c :: t).length = e + (c :: t).length + 1 := by
    simp [List.length_take, Nat.min_eq_left hle]; omega
  have hlenCK : C.length + 1 + K.length = e + (c :: t).length + 1 := by
    rw [← hlenP, hsplit]; simp; omega
  have hnP : NUL ∉ base.take e ++ COIL_PATH_DELIM :: c :: t := by
    intro h
    rcases List.mem_append.1 h with h | h
    · exact hnb h
    · rcases List.mem_cons.1 h with h | h
      · exact nul_ne_delim h
      · exact hns h
  have hbuf : base.take e ++ COIL_PATH_DELIM :: (c :: t ++ [NUL]) =
      (base.take e ++ COIL_PATH_DELIM :: c :: t) ++ [NUL] := by simp
  have hbuf2 : (base.take e ++ COIL_PATH_DELIM :: c :: t) ++ [NUL] =
      C ++ COIL_PATH_DELIM :: (K ++ [NUL]) := by rw [hsplit]; simp
  have hcs : cstr ((base.take e ++ COIL_PATH_DELIM :: c :: t) ++ [NUL]) =
      base.take e ++ COIL_PATH_DELIM :: c :: t := cstr_append_nul [] hnP
  have hnK : NUL ∉ K := by
    intro h
    apply hnP
    rw [hsplit]
    simp [h]
  simp only [Buffers.usable, Bool.and_eq_true] at hb
  obtain ⟨hsome, ⟨hfp, hfc⟩, hfk⟩ := hb
  obtain ⟨p, hp1, hp2⟩ := on_buffer_poke_string bufs.path
    (base.take e ++ COIL_PATH_DELIM :: c :: t) hfp hnP (by omega)
  obtain ⟨cb, hc1, hc2⟩ := on_buffer_strncpy_put_nul bufs.container
    ((base.take e ++ COIL_PATH_DELIM :: c :: t) ++ [NUL]) C.length hfc
    (by rw [hcs, hlenP]; omega) (by omega)
  obtain ⟨kb, hk1, hk2⟩ := on_buffer_strcpy bufs.key (K ++ [NUL]) hfk
    (by rw [cstr_append_nul [] hnK]; omega)
  have hscan : key_ptr_scan ((base.take e ++ COIL_PATH_DELIM :: c :: t) ++ [NUL])
      (e + (c :: t).length + 1) = some C.length := by
    rw [hbuf2, ← hlenCK, Nat.add_assoc]
    exact key_ptr_scan_last C K hK _ (by omega)
  have hdrop : ((base.take e ++ COIL_PATH_DELIM :: c :: t) ++ [NUL]).drop (C.length + 1) =
      K ++ [NUL] := by
    rw [hbuf2, List.drop_append]
    simp
  have hn : C.length % GUINT_RANGE = C.length := guint_small _ (by omega)
  have htakeC : (base.take e ++ COIL_PATH_DELIM :: c :: t).take C.length = C := by
    rw [hsplit, List.take_left]
  rw [hcs, htakeC] at hc2
  rw [cstr_append_nul [] hnK] at hk2
  unfold resolve_append
  simp only [h1, hl1, hl2, hpl, hbuf, hp1, hscan, hn, hc1, hdrop, hk1]
  rw [if_neg (by simp), if_neg (by omega), if_neg (by omega), if_neg (by simp), if_neg (by omega)]
  by_cases hck : bufs.container.isSome ∨ bufs.key.isSome
  · rw [if_pos hck]
    exact ⟨⟨p, cb, kb⟩, rfl, by simp [Buffers.strings, Buffers.expect, hp2, hc2, hk2]⟩
  · rw [if_neg hck]
    refine ⟨⟨p, none, none⟩, rfl, ?_⟩
    have hcn : bufs.container = none := by
      cases h : bufs.container <;> simp_all
    have hkn : bufs.key = none := by
      cases h : bufs.key <;> simp_all
    simp [Buffers.strings, Buffers.expect, hp2, hcn, hkn]

theorem exists_last_delim (P : List Char) (h : COIL_PATH_DELIM ∈ P) :
    ∃ C K, P = C ++ COIL_PATH_DELIM :: K ∧ COIL_PATH_DELIM ∉ K := by
  obtain ⟨as, bs, hP, has⟩ := List.eq_append_cons_of_mem (List.mem_reverse.2 h)
  refine ⟨bs.reverse, as.reverse, ?_, by simpa using has⟩
  have := congrArg List.reverse hP
  simpa using this

theorem absolute_ne_nil {p : List Char} (h : COIL_PATH_IS_ABSOLUTE p = true) : p ≠ [] := by
  rintro rfl
  simp [COIL_PATH_IS_ABSOLUTE, COIL_ROOT_PATH] at h

theorem dropWhile_of_head {r : List Char} (h : r.head? ≠ some COIL_PATH_DELIM) :
    r.dropWhile (fun c => c == COIL_PATH_DELIM) = r := by
  cases r with
  | nil => rfl
  | cons c r =>
    have hc : c ≠ COIL_PATH_DELIM := by simpa using h
    simp [List.dropWhile_cons, hc]

theorem leading_back_references_none (base : List Char) {r : List Char}
    (h : r.head? ≠ some COIL_PATH_DELIM) :
    (leading_back_references base r).2 = (base.length : Int) := by
  cases r with
  | nil => rfl
  | cons c r =>
    have hc : c ≠ COIL_PATH_DELIM := by simpa using h
    simp [leading_back_references, hc]

theorem keys_text_append (ks : List (List Char)) (k : List Char) :
    keys_text (ks ++ [k]) = keys_text ks ++ COIL_PATH_DELIM :: k := by
  induction ks with
  | nil => simp [keys_text]
  | cons a ks ih => simp [keys_text, ih]

theorem pop_key_from_delim (pre k rest : List Char) (hk : COIL_PATH_DELIM ∉ k) (j : Nat)
    (hj : j ≤ k.length) :
    pop_key_from (pre ++ COIL_PATH_DELIM :: (k ++ rest)) (pre.length + 1 + j) = pre.length := by
  induction j with
  | zero =>
    rw [Nat.add_zero, pop_key_from, if_neg]
    rw [List.getD_append_right _ _ _ _ (le_refl _)]
    simp
  | succ j ih =>
    have hjk : j < k.length := by omega
    rw [← Nat.add_assoc, pop_key_from, if_pos, ih (by omega)]
    refine ⟨?_, by omega⟩
    rw [List.getD_append_right _ _ _ _ (by omega)]
    have : pre.length + 1 + j - pre.length = j + 1 := by omega
    rw [this, List.getD_cons_succ, List.getD_append _ _ _ _ hjk, List.getD_eq_getElem _ _ hjk]
    intro heq
    exact hk (heq ▸ List.getElem_mem _)

theorem pop_key_last (pre k rest : List Char) (hk : COIL_PATH_DELIM ∉ k) :
    pop_key (pre ++ COIL_PATH_DELIM :: (k ++ rest))
      (((pre ++ COIL_PATH_DELIM :: k).length : Nat) : Int) = ((pre.length : Nat) : Int) := by
  have hlen : (pre ++ COIL_PATH_DELIM :: k).length = pre.length + 1 + k.length := by
    simp; omega
  unfold pop_key
  rw [if_pos (by rw [hlen]; omega), Int.toNat_ofNat, hlen,
    pop_key_from_delim pre k rest hk k.length (le_refl _)]

theorem back_references_stop (base s : List Char) (e : Int)
    (hdot : s.head? ≠ some COIL_PATH_DELIM) : back_references base s e = (s, e) := by
  cases s with
  | nil => rfl
  | cons c s =>
    have hc : c ≠ COIL_PATH_DELIM := by simpa using hdot
    simp [back_references, hc]

theorem back_references_pop (kept s : List Char) (hdot : s.head? ≠ some COIL_PATH_DELIM)
    (popped : List (List Char)) :
    ∀ rest : List Char, (∀ k ∈ popped, COIL_PATH_DELIM ∉ k) →
      back_references (kept ++ keys_text popped ++ rest)
          (List.replicate popped.length COIL_PATH_DELIM ++ s)
          (((kept ++ keys_text popped).length : Nat) : Int) =
        (s, ((kept.length : Nat) : Int)) := by
  induction popped using List.reverseRecOn with
  | nil =>
    intro rest _
    simpa [keys_text] using back_references_stop (kept ++ rest) s _ hdot
  | append_singleton init k ih =>
    intro rest hkeys
    have hk : COIL_PATH_DELIM ∉ k := hkeys k (by simp)
    have hinit : ∀ k ∈ init, COIL_PATH_DELIM ∉ k := fun a ha => hkeys a (by simp [ha])
    have hbase : kept ++ keys_text (init ++ [k]) ++ rest =
        (kept ++ keys_text init) ++ COIL_PATH_DELIM :: (k ++ rest) := by
      rw [keys_text_append]; simp
    have he : kept ++ keys_text (init ++ [k]) = (kept ++ keys_text init) ++ COIL_PATH_DELIM :: k := by
      rw [keys_text_append]; simp
    have hrep : List.replicate (init ++ [k]).length COIL_PATH_DELIM ++ s =
        COIL_PATH_DELIM :: (List.replicate init.length COIL_PATH_DELIM ++ s) := by
      simp [List.replicate_succ]
    rw [hrep, hbase, he, back_references, if_pos rfl, pop_key_last _ k rest hk]
    have := ih (COIL_PATH_DELIM :: (k ++ rest)) hinit
    simpa using this

theorem dots_append_not_absolute (n : Nat) (s : List Char) (h : 1 ≤ n) :
    COIL_PATH_IS_ABSOLUTE (List.replicate n COIL_PATH_DELIM ++ s) = false := by
  obtain ⟨m, rfl⟩ : ∃ m, n = m + 1 := ⟨n - 1, by omega⟩
  simp [COIL_PATH_IS_ABSOLUTE, List.replicate_succ, COIL_ROOT_PATH_LEN, COIL_ROOT_PATH,
    COIL_PATH_DELIM]

theorem dropWhile_dots_append (n : Nat) (s : List Char)
    (hdot : s.head? ≠ some COIL_PATH_DELIM) :
    (List.replicate n COIL_PATH_DELIM ++ s).dropWhile (fun c => c == COIL_PATH_DELIM) = s := by
  induction n with
  | zero => simpa using dropWhile_of_head hdot
  | succ n ih => simpa [List.replicate_succ, List.dropWhile_cons] using ih

/-- C6: for every base and every relative reference whose part after the
leading back-reference dots contains `..`, `coil_path_resolve_full` fails with
a PATH error and leaves the empty string in every buffer. -/
theorem resolve_full_mid_path_reference (after base reference : List Char) (bufs : Buffers)
    (hb : bufs.usable = true) (hrel : COIL_PATH_IS_ABSOLUTE reference = false)
    (hmid : [COIL_PATH_DELIM, COIL_PATH_DELIM] <:+:
      reference.dropWhile (fun c => c == COIL_PATH_DELIM)) :
    ∃ b, coil_path_resolve_full after (some base) reference bufs = Outcome.pathError b ∧
      b.strings = bufs.expect [] [] [] := by
  rw [resolve_full_relative after base reference bufs hb hrel,
    resolve_append_mid_path after base _ _ bufs (head_dropWhile_delim reference) hmid]
  exact resolve_error_spec bufs hb

/-- The mid-path case of the test suite: `..some.mid.path..reference` against
`@root.some.path`. -/
theorem resolve_full_mid_path_reference_witness :
    ∃ b, coil_path_resolve_full [] (some "@root.some.path".toList)
        "..some.mid.path..reference".toList ⟨some zero_buffer, none, none⟩ =
          Outcome.pathError b ∧
      b.strings = (⟨some zero_buffer, none, none⟩ : Buffers).expect [] [] [] :=
  resolve_full_mid_path_reference [] "@root.some.path".toList
    "..some.mid.path..reference".toList ⟨some zero_buffer, none, none⟩
    (by rfl) (by decide) (by decide)

theorem dots_not_absolute (n : Nat) (h : 1 ≤ n) :
    COIL_PATH_IS_ABSOLUTE (List.replicate n COIL_PATH_DELIM) = false := by
  obtain ⟨m, rfl⟩ : ∃ m, n = m + 1 := ⟨n - 1, by omega⟩
  simp [COIL_PATH_IS_ABSOLUTE, List.replicate_succ, COIL_ROOT_PATH_LEN, COIL_ROOT_PATH,
    COIL_PATH_DELIM]

theorem dropWhile_dots (n : Nat) :
    (List.replicate n COIL_PATH_DELIM).dropWhile (fun c => c == COIL_PATH_DELIM) = [] := by
  rw [List.dropWhile_eq_nil_iff]
  intro x hx
  simp [List.eq_of_mem_replicate hx]

/-- C8: for every base, absolute or not, and every reference that consists of
two or more dots and no key, `coil_path_resolve_full` fails with a PATH error
and leaves the empty string in every buffer. -/
theorem resolve_full_dots_only (after base : List Char) (n : Nat) (bufs : Buffers)
    (hb : bufs.usable = true) (hn : 2 ≤ n) :
    ∃ b, coil_path_resolve_full after (some base) (List.replicate n COIL_PATH_DELIM) bufs =
        Outcome.pathError b ∧
      b.strings = bufs.expect [] [] [] := by
  rw [resolve_full_relative after base _ bufs hb (dots_not_absolute n (by omega)),
    dropWhile_dots, resolve_append_no_key]
  exact resolve_error_spec bufs hb

/-- The reference `..` against `@root.some.path`, as in the test suite. -/
theorem resolve_full_dots_only_witness :
    ∃ b, coil_path_resolve_full [] (some "@root.some.path".toList)
        (List.replicate 2 COIL_PATH_DELIM) ⟨some zero_buffer, none, none⟩ =
          Outcome.pathError b ∧
      b.strings = (⟨some zero_buffer, none, none⟩ : Buffers).expect [] [] [] :=
  resolve_full_dots_only [] "@root.some.path".toList 2 ⟨some zero_buffer, none, none⟩
    (by rfl) (by decide)

/-- C3, amended: for every absolute base `b` and every non-empty reference `r`
that starts with neither `.` nor `@root`, contains no `..`, and with
`len(b) + 1 + len(r) <= 255`, `coil_path_resolve_full` succeeds with
`path = b + "." + r`, and `path = container + "." + key` where `key` contains
no `.`. -/
theorem resolve_full_append_keys (after base reference : List Char) (bufs : Buffers)
    (hb : bufs.usable = true) (habs : COIL_PATH_IS_ABSOLUTE base = true)
    (hne : reference ≠ []) (hdot : reference.head? ≠ some COIL_PATH_DELIM)
    (hrel : COIL_PATH_IS_ABSOLUTE reference = false)
    (hmid : ¬ [COIL_PATH_DELIM, COIL_PATH_DELIM] <:+: reference)
    (hlen : base.length + 1 + reference.length ≤ COIL_PATH_LEN)
    (hnb : NUL ∉ base) (hnr : NUL ∉ reference) :
    ∃ b C K, coil_path_resolve_full after (some base) reference bufs = Outcome.success b ∧
      b.strings = bufs.expect (base ++ COIL_PATH_DELIM :: reference) C K ∧
      base ++ COIL_PATH_DELIM :: reference = C ++ COIL_PATH_DELIM :: K ∧
      COIL_PATH_DELIM ∉ K := by
  obtain ⟨C, K, hsplit, hK⟩ := exists_last_delim (base ++ COIL_PATH_DELIM :: reference)
    (by simp)
  have hpos : 0 < base.length := List.length_pos.2 (absolute_ne_nil habs)
  have htake : base.take base.length = base := List.take_length base
  obtain ⟨b, h1, h2⟩ := resolve_append_success after base reference C K base.length bufs hb
    hpos (le_refl _) hne hmid hlen (by rw [htake]; exact hnb) hnr (by rw [htake]; exact hsplit) hK
  rw [htake] at h2
  refine ⟨b, C, K, ?_, h2, hsplit, hK⟩
  rw [resolve_full_relative after base reference bufs hb hrel, dropWhile_of_head hdot,
    leading_back_references_none base hdot]
  exact h1

/-- The reference `d.e.f` against `@root.a.b.c`, as in the test suite. -/
theorem resolve_full_append_keys_witness :
    ∃ b C K, coil_path_resolve_full [] (some "@root.a.b.c".toList) "d.e.f".toList
        ⟨some zero_buffer, some zero_buffer, some zero_buffer⟩ = Outcome.success b ∧
      b.strings = (⟨some zero_buffer, some zero_buffer, some zero_buffer⟩ : Buffers).expect
        ("@root.a.b.c".toList ++ COIL_PATH_DELIM :: "d.e.f".toList) C K ∧
      "@root.a.b.c".toList ++ COIL_PATH_DELIM :: "d.e.f".toList = C ++ COIL_PATH_DELIM :: K ∧
      COIL_PATH_DELIM ∉ K :=
  resolve_full_append_keys [] "@root.a.b.c".toList "d.e.f".toList
    ⟨some zero_buffer, some zero_buffer, some zero_buffer⟩
    (by decide) (by decide) (by decide) (by decide) (by decide) (by decide) (by decide)
    (by decide) (by decide)

/-- C3 as stated fails for the empty reference: it starts with neither `.`
nor `@root`, contains no `..` and is short enough, and resolving it against
`@root` is a PATH error. -/
theorem resolve_full_empty_reference :
    COIL_PATH_IS_ABSOLUTE COIL_ROOT_PATH = true ∧
    ([] : List Char).head? ≠ some COIL_PATH_DELIM ∧
    COIL_PATH_IS_ABSOLUTE [] = false ∧
    ¬ [COIL_PATH_DELIM, COIL_PATH_DELIM] <:+: ([] : List Char) ∧
    COIL_ROOT_PATH.length + 1 + ([] : List Char).length ≤ COIL_PATH_LEN ∧
    coil_path_resolve_full [] (some COIL_ROOT_PATH) []
        ⟨some zero_buffer, some zero_buffer, some zero_buffer⟩ =
      Outcome.pathError ⟨some zero_buffer, some zero_buffer, some zero_buffer⟩ := by
  decide

/-- C2, amended: for every absolute base with at least `n - 1` keys after
`@root` (the base is `kept` followed by the `n - 1` keys `popped`) and every
reference made of `n >= 2` leading dots followed by a non-empty suffix `s`
that does not start with a dot and has no `..` inside, such that
`len(kept) + 1 + len(s) <= 255`, `coil_path_resolve_full` succeeds with
`path = kept + "." + s`, `container` = that path up to its last `.` and
`key` = the part after the last `.`. -/
theorem resolve_full_back_references (after kept s : List Char) (popped : List (List Char))
    (n : Nat) (bufs : Buffers)
    (hb : bufs.usable = true) (habs : COIL_PATH_IS_ABSOLUTE kept = true)
    (hkeys : ∀ k ∈ popped, COIL_PATH_DELIM ∉ k) (hn : 2 ≤ n) (hpop : popped.length = n - 1)
    (hne : s ≠ []) (hdot : s.head? ≠ some COIL_PATH_DELIM)
    (hmid : ¬ [COIL_PATH_DELIM, COIL_PATH_DELIM] <:+: s)
    (hlen : kept.length + 1 + s.length ≤ COIL_PATH_LEN)
    (hnb : NUL ∉ kept) (hns : NUL ∉ s) :
    ∃ b C K, coil_path_resolve_full after (some (kept ++ keys_text popped))
        (List.replicate n COIL_PATH_DELIM ++ s) bufs = Outcome.success b ∧
      b.strings = bufs.expect (kept ++ COIL_PATH_DELIM :: s) C K ∧
      kept ++ COIL_PATH_DELIM :: s = C ++ COIL_PATH_DELIM :: K ∧
      COIL_PATH_DELIM ∉ K := by
  obtain ⟨C, K, hsplit, hK⟩ := exists_last_delim (kept ++ COIL_PATH_DELIM :: s) (by simp)
  have hpos : 0 < kept.length := List.length_pos.2 (absolute_ne_nil habs)
  have htake : (kept ++ keys_text popped).take kept.length = kept := List.take_left _ _
  obtain ⟨b, h1, h2⟩ := resolve_append_success after (kept ++ keys_text popped) s C K
    kept.length bufs hb hpos (by simp) hne hmid hlen (by rw [htake]; exact hnb) hns
    (by rw [htake]; exact hsplit) hK
  rw [htake] at h2
  refine ⟨b, C, K, ?_, h2, hsplit, hK⟩
  rw [resolve_full_relative after _ _ bufs hb (dots_append_not_absolute n s (by omega)),
    dropWhile_dots_append n s hdot]
  have hlead : (leading_back_references (kept ++ keys_text popped)
      (List.replicate n COIL_PATH_DELIM ++ s)).2 = ((kept.length : Nat) : Int) := by
    obtain ⟨m, rfl⟩ : ∃ m, n = m + 1 := ⟨n - 1, by omega⟩
    have hm : popped.length = m := by omega
    have := back_references_pop kept s hdot popped [] hkeys
    rw [List.append_nil, hm] at this
    simp only [leading_back_references, List.replicate_succ, List.cons_append, if_true, this]
  rw [hlead]
  exact h1

/-- The reference `....a.b.c` against `@root.x.y.z`: three keys are popped. -/
theorem resolve_full_back_references_witness :
    ∃ b C K, coil_path_resolve_full [] (some ("@root".toList ++
          keys_text ["x".toList, "y".toList, "z".toList]))
        (List.replicate 4 COIL_PATH_DELIM ++ "a.b.c".toList)
        ⟨some zero_buffer, some zero_buffer, some zero_buffer⟩ = Outcome.success b ∧
      b.strings = (⟨some zero_buffer, some zero_buffer, some zero_buffer⟩ : Buffers).expect
        ("@root".toList ++ COIL_PATH_DELIM :: "a.b.c".toList) C K ∧
      "@root".toList ++ COIL_PATH_DELIM :: "a.b.c".toList = C ++ COIL_PATH_DELIM :: K ∧
      COIL_PATH_DELIM ∉ K :=
  resolve_full_back_references [] "@root".toList "a.b.c".toList
    ["x".toList, "y".toList, "z".toList] 4
    ⟨some zero_buffer, some zero_buffer, some zero_buffer⟩
    (by decide) (by decide) (by decide) (by decide) (by decide) (by decide) (by decide)
    (by decide) (by decide) (by decide) (by decide)

/-- C2 as stated fails when the resolved path is too long: the base `@root.a`
has one key, the reference is two dots followed by a key of 250 characters,
and resolving it is a PATH error because `@root.` and the key make 256 bytes. -/
theorem resolve_full_back_reference_too_long :
    COIL_PATH_IS_ABSOLUTE COIL_ROOT_PATH = true ∧
    (∀ k ∈ [['a']], COIL_PATH_DELIM ∉ k) ∧
    List.replicate 250 'x' ≠ [] ∧
    (List.replicate 250 'x').head? ≠ some COIL_PATH_DELIM ∧
    ¬ [COIL_PATH_DELIM, COIL_PATH_DELIM] <:+: List.replicate 250 'x' ∧
    coil_path_resolve_full [] (some (COIL_ROOT_PATH ++ keys_text [['a']]))
        (List.replicate 2 COIL_PATH_DELIM ++ List.replicate 250 'x')
        ⟨some zero_buffer, some zero_buffer, some zero_buffer⟩ =
      Outcome.pathError ⟨some zero_buffer, some zero_buffer, some zero_buffer⟩ := by
  decide

/-- C1: the base `@root.ab` and the path `@root.abc.d` are well-formed,
absolute and not the root; `coil_path_relativize` returns `.d` for them, and
resolving `.d` against the base succeeds with `@root.ab.d`, which is not the
path. -/
theorem relativize_resolve_round_trip_broken :
    coil_path_relativize (some "@root.ab".toList) "@root.abc.d".toList =
      Relativized.returned (some ".d".toList) ∧
    (coil_path_resolve [] (some "@root.ab".toList) ".d".toList (some zero_buffer)).result =
      some (true, some "@root.ab.d".toList, none, none) := by
  decide

/-- C4: the reference `@root` is copied with `strncpy(path, "@root", 5)`, which
writes no terminator: in a buffer that still holds `@root.a.b` the call
succeeds and leaves `@root.a.b` as path and as container. -/
theorem resolve_full_root_not_terminated :
    cstr stale_buffer = "@root.a.b".toList ∧
    coil_path_resolve_full [] (some "@root.x".toList) COIL_ROOT_PATH
        ⟨some stale_buffer, some stale_buffer, some stale_buffer⟩ =
      Outcome.success ⟨some stale_buffer, some stale_buffer, some (NUL :: stale_buffer.tail)⟩ ∧
    (coil_path_resolve_full [] (some "@root.x".toList) COIL_ROOT_PATH
        ⟨some stale_buffer, some stale_buffer, some stale_buffer⟩).result =
      some (true, some "@root.a.b".toList, some "@root.a.b".toList, some []) := by
  decide

/-- C5: resolving `...a` against `@root` pops two keys off a base that has
none.  The second pop leaves `e` one byte in front of the base, the unsigned
length `l1` wraps to `2^32 - 1`, no check fires and `memcpy` is asked to copy
`l1` bytes.  With two dots the same base is rejected with a PATH error. -/
theorem resolve_full_past_root_unchecked :
    leading_back_references COIL_ROOT_PATH "...a".toList = (['a'], -1) ∧
    coil_path_resolve_full [] (some COIL_ROOT_PATH) "...a".toList
        ⟨some zero_buffer, some zero_buffer, some zero_buffer⟩ = Outcome.undefined ∧
    (coil_path_resolve_full [] (some COIL_ROOT_PATH) "..a".toList
        ⟨some zero_buffer, some zero_buffer, some zero_buffer⟩).result =
      some (false, some [], some [], some []) := by
  decide

/-- C7: an absolute reference of 256 bytes is accepted: the call returns TRUE
and leaves the first 255 bytes in the path buffer without a terminator.  The
relative branch rejects the same 256 byte result with a PATH error. -/
theorem resolve_full_long_absolute_accepted :
    (COIL_ROOT_PATH ++ COIL_PATH_DELIM :: List.replicate 250 'x').length = 256 ∧
    coil_path_resolve_full [] (some COIL_ROOT_PATH)
        (COIL_ROOT_PATH ++ COIL_PATH_DELIM :: List.replicate 250 'x')
        ⟨some zero_buffer, none, none⟩ =
      Outcome.success
        ⟨some (COIL_ROOT_PATH ++ COIL_PATH_DELIM :: List.replicate 249 'x' ++ [NUL]),
          none, none⟩ ∧
    (coil_path_resolve_full [] (some COIL_ROOT_PATH) (List.replicate 250 'x')
        ⟨some zero_buffer, none, none⟩).result = some (false, some [], none, none) := by
  decide

/-- C9: the reference `@rootx.y` begins with `@root` and is not `@root`
followed by `.key` segments, yet `coil_path_resolve_full` succeeds on it with
path `@rootx.y`, container `@rootx` and key `y`. -/
theorem resolve_full_invalid_absolute_accepted :
    (coil_path_resolve_full [] (some "@root.something".toList) "@rootx.y".toList
        ⟨some zero_buffer, some zero_buffer, some zero_buffer⟩).result =
      some (true, some "@rootx.y".toList, some "@rootx".toList, some "y".toList) := by
  decide

/-- C10: `@root.ab.` is not a prefix of `@root.abc.d`, the last key boundary
the two paths share is the one after `@root`, and one key of the base follows
it, so the claim asks for `..abc.d`; `coil_path_relativize` returns `.d`. -/
theorem relativize_key_prefix_case :
    ¬ ("@root.ab".toList ++ [COIL_PATH_DELIM]) <+: "@root.abc.d".toList ∧
    coil_path_relativize (some "@root.ab".toList) "@root.abc.d".toList =
      Relativized.returned (some ".d".toList) ∧
    ".d".toList ≠ "..abc.d".toList := by
  decide

theorem strrchr_none_iff (s : List Char) (c : Char) : strrchr s c = none ↔ c ∉ s := by
  induction s with
  | nil => simp [strrchr]
  | cons x xs ih =>
    rw [strrchr]
    cases h : strrchr xs c with
    | none =>
      have hx : c ∉ xs := ih.1 h
      by_cases hxc : x = c
      · simp [hxc]
      · simp [hxc, hx, Ne.symm hxc]
    | some i =>
      have hx : ¬ c ∉ xs := fun hn => by rw [ih.2 hn] at h; cases h
      simp only [not_not] at hx
      simp [hx]

theorem strrchr_split (C K : List Char) (c : Char) (hK : c ∉ K) :
    strrchr (C ++ c :: K) c = some C.length := by
  induction C with
  | nil =>
    have : strrchr K c = none := (strrchr_none_iff K c).2 hK
    simp [strrchr, this]
  | cons x xs ih =>
    simp [strrchr, ih]



theorem keys_text_getLast (ks : List (List Char))
    (hks : ∀ k ∈ ks, k ≠ [] ∧ COIL_PATH_DELIM ∉ k) :
    ∀ pre : List Char, pre.getLast? ≠ some COIL_PATH_DELIM →
      (pre ++ keys_text ks).getLast? ≠ some COIL_PATH_DELIM := by
  induction ks with
  | nil => intro pre h; simpa [keys_text] using h
  | cons k ks ih =>
    intro pre _
    have hk := hks k (by simp)
    have hrest : ∀ k ∈ ks, k ≠ [] ∧ COIL_PATH_DELIM ∉ k := fun a ha => hks a (by simp [ha])
    have hassoc : pre ++ keys_text (k :: ks) = (pre ++ COIL_PATH_DELIM :: k) ++ keys_text ks := by
      simp [keys_text]
    rw [hassoc]
    apply ih hrest
    have hne : COIL_PATH_DELIM :: k ≠ [] := by simp
    have hsplit : COIL_PATH_DELIM :: k = [COIL_PATH_DELIM] ++ k := rfl
    rw [List.getLast?_append_of_ne_nil _ hne, hsplit, List.getLast?_append_of_ne_nil _ hk.1]
    intro h
    obtain ⟨ys, hys⟩ := List.getLast?_eq_some_iff.1 h
    exact hk.2 (by rw [hys]; simp)

theorem absolute_path_getLast {p : List Char} (hp : is_absolute_path p) :
    p.getLast? ≠ some COIL_PATH_DELIM := by
  obtain ⟨ks, hks, rfl⟩ := hp
  exact keys_text_getLast ks hks COIL_ROOT_PATH (by decide)

theorem absolute_path_root_or_key {p : List Char} (hp : is_absolute_path p) :
    p = COIL_ROOT_PATH ∨ ∃ rest, rest ≠ [] ∧ p = COIL_ROOT_PATH ++ COIL_PATH_DELIM :: rest := by
  obtain ⟨ks, hks, rfl⟩ := hp
  cases ks with
  | nil => left; simp [keys_text]
  | cons k ks =>
    right
    have hk := hks k (by simp)
    exact ⟨k ++ keys_text ks, by simp [hk.1], by simp [keys_text]⟩

theorem skip_common_spec (path base : List Char) :
    ((skip_common path base).1.head? = some COIL_PATH_DELIM ∧ (skip_common path base).2 = []) ↔
      base ++ [COIL_PATH_DELIM] <+: path := by
  induction path generalizing base with
  | nil =>
    cases base <;> simp [skip_common]
  | cons c1 p1 ih =>
    cases base with
    | nil =>
      simp [skip_common, List.cons_prefix_cons]
      exact eq_comm
    | cons c2 p2 =>
      by_cases h : c1 = c2
      · subst h
        rw [skip_common, if_pos rfl, ih p2]
        simp [List.cons_prefix_cons]
      · rw [skip_common, if_neg h]
        simp [List.cons_prefix_cons, h, Ne.symm h]

/-- C11: for all absolute paths `p` and `c` of the data model,
`coil_path_is_descendent(p, c)` is true exactly when `c` followed by `.` is a
proper prefix of `p`; no path is a descendent of itself, and two paths of which
neither continues the other at a key boundary are not related. -/
theorem is_descendent_iff_key_prefix (p c : List Char) (hp : is_absolute_path p)
    (hc : is_absolute_path c) :
    (coil_path_is_descendent p c = true ↔
      (c ++ [COIL_PATH_DELIM] <+: p ∧ c ++ [COIL_PATH_DELIM] ≠ p)) ∧
    coil_path_is_descendent p p = false ∧
    (¬ c ++ [COIL_PATH_DELIM] <+: p → ¬ p ++ [COIL_PATH_DELIM] <+: c →
      coil_path_is_descendent p c = false ∧ coil_path_is_descendent c p = false) := by
  have key : ∀ q d : List Char, is_absolute_path q →
      (coil_path_is_descendent q d = true ↔
        (d ++ [COIL_PATH_DELIM] <+: q ∧ d ++ [COIL_PATH_DELIM] ≠ q)) := by
    intro q d hq
    have hlast := absolute_path_getLast hq
    have hne : d ++ [COIL_PATH_DELIM] ≠ q := by
      intro h
      apply hlast
      rw [← h]
      simp
    unfold coil_path_is_descendent _path_has_container
    by_cases hroot : d = COIL_ROOT_PATH
    · subst hroot
      simp only [COIL_PATH_IS_ROOT, beq_self_eq_true, if_true, Bool.not_eq_true', beq_eq_false_iff_ne]
      rcases absolute_path_root_or_key hq with h | ⟨rest, _, h⟩
      · subst h
        simp only [ne_eq, not_true_eq_false, false_iff, not_and]
        intro hpre
        have := hpre.length_le
        simp at this
      · subst h
        constructor
        · intro _
          exact ⟨⟨rest, by simp⟩, hne⟩
        · intro _ h
          have := congrArg List.length h
          simp at this
    · have hr : COIL_PATH_IS_ROOT d = false := by simpa [COIL_PATH_IS_ROOT] using hroot
      simp only [hr, Bool.false_eq_true, if_false, Bool.and_eq_true, beq_iff_eq,
        List.isEmpty_iff]
      rw [skip_common_spec]
      exact ⟨fun h => ⟨h, hne⟩, fun h => h.1⟩
  refine ⟨key p c hp, ?_, ?_⟩
  · have := key p p hp
    cases h : coil_path_is_descendent p p with
    | false => rfl
    | true =>
      have h2 := (this.1 h).1
      have := h2.length_le
      simp at this
  · intro h1 h2
    constructor
    · cases h : coil_path_is_descendent p c with
      | false => rfl
      | true => exact absurd ((key p c hp).1 h).1 h1
    · cases h : coil_path_is_descendent c p with
      | false => rfl
      | true => exact absurd ((key c p hc).1 h).1 h2

/-- The pair `@root.a.b.c.d`, `@root.a.b` of the test suite. -/
theorem is_descendent_iff_key_prefix_witness :
    (coil_path_is_descendent "@root.a.b.c.d".toList "@root.a.b".toList = true ↔
      ("@root.a.b".toList ++ [COIL_PATH_DELIM] <+: "@root.a.b.c.d".toList ∧
        "@root.a.b".toList ++ [COIL_PATH_DELIM] ≠ "@root.a.b.c.d".toList)) ∧
    coil_path_is_descendent "@root.a.b.c.d".toList "@root.a.b.c.d".toList = false ∧
    (¬ "@root.a.b".toList ++ [COIL_PATH_DELIM] <+: "@root.a.b.c.d".toList →
      ¬ "@root.a.b.c.d".toList ++ [COIL_PATH_DELIM] <+: "@root.a.b".toList →
      coil_path_is_descendent "@root.a.b.c.d".toList "@root.a.b".toList = false ∧
        coil_path_is_descendent "@root.a.b".toList "@root.a.b.c.d".toList = false) :=
  is_descendent_iff_key_prefix "@root.a.b.c.d".toList "@root.a.b".toList
    ⟨["a".toList, "b".toList, "c".toList, "d".toList], by decide, by decide⟩
    ⟨["a".toList, "b".toList], by decide, by decide⟩

theorem keys_text_single (k : List Char) : keys_text [k] = COIL_PATH_DELIM :: k := by
  simp [keys_text]

/-- C12, amended: `coil_path_get_container(p)` is none iff `p` contains no `.`,
otherwise it is `p` up to its last `.`; `coil_path_get_key(p)` is the part after
the last `.` (the whole of `p` when it has no `.`), except that it is none when
`p` ends with `.` and, in a build with `COIL_DEBUG`, when `p` is empty; and
whenever `p` contains a `.`, does not end with one and is at most 255 bytes
long, `coil_path_build(get_container(p), get_key(p)) == p`. -/
theorem get_container_get_key_split (COIL_DEBUG : Bool) (p : List Char) :
    (coil_path_get_container p = none ↔ COIL_PATH_DELIM ∉ p) ∧
    (∀ C K : List Char, p = C ++ COIL_PATH_DELIM :: K → COIL_PATH_DELIM ∉ K →
      coil_path_get_container p = some C ∧
      coil_path_get_key COIL_DEBUG p = if K = [] then none else some K) ∧
    (COIL_PATH_DELIM ∉ p →
      coil_path_get_key COIL_DEBUG p = if COIL_DEBUG = true ∧ p = [] then none else some p) ∧
    (COIL_PATH_DELIM ∈ p → p.getLast? ≠ some COIL_PATH_DELIM → p.length ≤ COIL_PATH_LEN →
      coil_path_build (coil_path_get_container p) (coil_path_get_key COIL_DEBUG p).toList =
        Built.string p) := by
  have hsplit : ∀ C K : List Char, p = C ++ COIL_PATH_DELIM :: K → COIL_PATH_DELIM ∉ K →
      coil_path_get_container p = some C ∧
      coil_path_get_key COIL_DEBUG p = if K = [] then none else some K := by
    intro C K hp hK
    subst hp
    have hs := strrchr_split C K COIL_PATH_DELIM hK
    constructor
    · simp [coil_path_get_container, hs]
    · have hdrop : (C ++ COIL_PATH_DELIM :: K).drop (C.length + 1) = K := by
        rw [List.drop_append]; rfl
      simp [coil_path_get_key, hs, hdrop]
  refine ⟨?_, hsplit, ?_, ?_⟩
  · unfold coil_path_get_container
    rw [← strrchr_none_iff]
    cases strrchr p COIL_PATH_DELIM <;> simp
  · intro h
    have hs := (strrchr_none_iff p COIL_PATH_DELIM).2 h
    simp only [coil_path_get_key, hs]
  · intro hmem hlast hlen
    obtain ⟨C, K, hp, hK⟩ := exists_last_delim p hmem
    obtain ⟨h1, h2⟩ := hsplit C K hp hK
    have hKne : K ≠ [] := by
      rintro rfl
      apply hlast
      rw [hp]
      simp
    rw [h1, h2, if_neg hKne]
    have hl : C.length + (K.length + 1) ≤ COIL_PATH_LEN := by
      have := congrArg List.length hp
      simp at this
      omega
    simp [coil_path_build, hl, keys_text_single, hp]

/-- The path `@root.some.container.with.key` of the test suite. -/
theorem get_container_get_key_split_witness :
    coil_path_get_container "@root.some.container.with.key".toList =
        some "@root.some.container.with".toList ∧
    coil_path_get_key true "@root.some.container.with.key".toList = some "key".toList ∧
    coil_path_build (coil_path_get_container "@root.some.container.with.key".toList)
        (coil_path_get_key true "@root.some.container.with.key".toList).toList =
      Built.string "@root.some.container.with.key".toList := by
  have h := get_container_get_key_split true "@root.some.container.with.key".toList
  have h2 := h.2.1 "@root.some.container.with".toList "key".toList (by decide) (by decide)
  exact ⟨h2.1, by simpa using h2.2, h.2.2.2 (by decide) (by decide) (by decide)⟩

/-- C12 as stated fails in two places: for `a.` the part after the last `.` is
the empty string but `coil_path_get_key` returns NULL, and for a path of 256
bytes with a `.` in it `coil_path_build` stops at its assertion on the length. -/
theorem get_key_none_and_build_abort :
    coil_path_get_key false ['a', '.'] = none ∧
    coil_path_get_key true ['a', '.'] = none ∧
    COIL_PATH_DELIM ∈ 'a' :: COIL_PATH_DELIM :: List.replicate 254 'b' ∧
    ('a' :: COIL_PATH_DELIM :: List.replicate 254 'b').getLast? ≠ some COIL_PATH_DELIM ∧
    coil_path_build
        (coil_path_get_container ('a' :: COIL_PATH_DELIM :: List.replicate 254 'b'))
        (coil_path_get_key false ('a' :: COIL_PATH_DELIM :: List.replicate 254 'b')).toList =
      Built.abort := by
  decide

theorem rmatch_nothing (s : List Char) : Regex.nothing.rmatch s = false := by
  induction s with
  | nil => rfl
  | cons c s ih => simpa [Regex.rmatch, Regex.deriv] using ih

theorem rmatch_empty (s : List Char) : Regex.empty.rmatch s = true ↔ s = [] := by
  cases s with
  | nil => simp [Regex.rmatch, Regex.nullable]
  | cons c s => simp [Regex.rmatch, Regex.deriv, rmatch_nothing]

theorem rmatch_set (p : Char → Bool) (s : List Char) :
    (Regex.set p).rmatch s = true ↔ ∃ c, s = [c] ∧ p c = true := by
  cases s with
  | nil => simp [Regex.rmatch, Regex.nullable]
  | cons c s =>
    by_cases h : p c = true
    · simp only [Regex.rmatch, Regex.deriv, h, if_true, rmatch_empty]
      constructor
      · rintro rfl
        exact ⟨c, rfl, h⟩
      · rintro ⟨d, hd, _⟩
        simp only [List.cons.injEq] at hd
        exact hd.2
    · have hf : p c = false := by simpa using h
      simp only [Regex.rmatch, Regex.deriv, hf, Bool.false_eq_true, if_false, rmatch_nothing]
      constructor
      · intro hf
        cases hf
      · rintro ⟨d, hd, hp⟩
        simp only [List.cons.injEq] at hd
        rw [← hd.1] at hp
        exact absurd hp h

theorem rmatch_alt (a b : Regex) (s : List Char) :
    (Regex.alt a b).rmatch s = (a.rmatch s || b.rmatch s) := by
  induction s generalizing a b with
  | nil => rfl
  | cons c s ih => simp only [Regex.rmatch, Regex.deriv, ih]

theorem rmatch_seq (a b : Regex) (s : List Char) :
    (Regex.seq a b).rmatch s = true ↔
      ∃ x y, s = x ++ y ∧ a.rmatch x = true ∧ b.rmatch y = true := by
  induction s generalizing a b with
  | nil =>
    simp only [Regex.rmatch, Regex.nullable, Bool.and_eq_true]
    constructor
    · rintro ⟨h1, h2⟩
      exact ⟨[], [], rfl, h1, h2⟩
    · rintro ⟨x, y, hxy, h1, h2⟩
      have hnil := List.append_eq_nil.1 hxy.symm
      rw [hnil.1] at h1
      rw [hnil.2] at h2
      exact ⟨h1, h2⟩
  | cons c s ih =>
    have step : (Regex.seq (a.deriv c) b).rmatch s = true ↔
        ∃ x y, c :: s = (c :: x) ++ y ∧ a.rmatch (c :: x) = true ∧ b.rmatch y = true := by
      rw [ih]
      constructor
      · rintro ⟨x, y, hs, h1, h2⟩
        exact ⟨x, y, by simp [hs], h1, h2⟩
      · rintro ⟨x, y, hs, h1, h2⟩
        exact ⟨x, y, by simpa using hs, h1, h2⟩
    by_cases hn : a.nullable = true
    · simp only [Regex.rmatch, Regex.deriv, hn, if_true, rmatch_alt, Bool.or_eq_true]
      constructor
      · rintro (h | h)
        · obtain ⟨x, y, hs, h1, h2⟩ := step.1 h
          exact ⟨c :: x, y, hs, h1, h2⟩
        · exact ⟨[], c :: s, rfl, hn, h⟩
      · rintro ⟨x, y, hs, h1, h2⟩
        cases x with
        | nil =>
          right
          simp only [List.nil_append] at hs
          subst hs
          exact h2
        | cons d x =>
          left
          have hd : d = c := by simp at hs; exact hs.1.symm
          subst hd
          exact step.2 ⟨x, y, hs, h1, h2⟩
    · simp only [Regex.rmatch, Regex.deriv, hn, if_false]
      constructor
      · intro h
        obtain ⟨x, y, hs, h1, h2⟩ := step.1 h
        exact ⟨c :: x, y, hs, h1, h2⟩
      · rintro ⟨x, y, hs, h1, h2⟩
        cases x with
        | nil => exact absurd h1 hn
        | cons d x =>
          have hd : d = c := by simp at hs; exact hs.1.symm
          subst hd
          exact step.2 ⟨x, y, hs, h1, h2⟩

theorem rmatch_cons (r : Regex) (c : Char) (s : List Char) :
    r.rmatch (c :: s) = (r.deriv c).rmatch s := rfl

theorem rmatch_star_aux (a : Regex) (n : Nat) :
    ∀ s : List Char, s.length ≤ n →
      ((Regex.star a).rmatch s = true ↔
        ∃ parts : List (List Char), s = parts.flatten ∧
          ∀ t ∈ parts, t ≠ [] ∧ a.rmatch t = true) := by
  induction n with
  | zero =>
    intro s hs
    have : s = [] := List.length_eq_zero.1 (Nat.le_zero.1 hs)
    subst this
    simp only [Regex.rmatch, Regex.nullable, true_iff]
    exact ⟨[], rfl, by simp⟩
  | succ n ih =>
    intro s hs
    cases s with
    | nil =>
      simp only [Regex.rmatch, Regex.nullable, true_iff]
      exact ⟨[], rfl, by simp⟩
    | cons c s =>
      have hlen : s.length ≤ n := by simpa using hs
      rw [rmatch_cons, Regex.deriv, rmatch_seq]
      constructor
      · rintro ⟨x, y, hxy, h1, h2⟩
        have hy : y.length ≤ n := by
          have := congrArg List.length hxy
          simp at this
          omega
        obtain ⟨parts, hp, hall⟩ := (ih y hy).1 h2
        refine ⟨(c :: x) :: parts, by simp [hxy, hp], ?_⟩
        intro t ht
        rcases List.mem_cons.1 ht with rfl | ht
        · exact ⟨by simp, h1⟩
        · exact hall t ht
      · rintro ⟨parts, hp, hall⟩
        cases parts with
        | nil => simp at hp
        | cons t ps =>
          have ht := hall t (by simp)
          obtain ⟨d, x, rfl⟩ := List.exists_cons_of_ne_nil ht.1
          simp only [List.flatten_cons, List.cons_append, List.cons.injEq] at hp
          obtain ⟨hd, hs'⟩ := hp
          subst hd
          have hy : ps.flatten.length ≤ n := by
            have := congrArg List.length hs'
            rw [List.length_append] at this
            omega
          refine ⟨x, ps.flatten, hs', ht.2, (ih _ hy).2 ⟨ps, rfl, ?_⟩⟩
          intro u hu
          exact hall u (by simp [hu])

theorem rmatch_star (a : Regex) (s : List Char) :
    (Regex.star a).rmatch s = true ↔
      ∃ parts : List (List Char), s = parts.flatten ∧
        ∀ t ∈ parts, t ≠ [] ∧ a.rmatch t = true :=
  rmatch_star_aux a s.length s (le_refl _)

theorem rmatch_star_set (p : Char → Bool) (s : List Char) :
    (Regex.star (Regex.set p)).rmatch s = true ↔ ∀ x ∈ s, p x = true := by
  rw [rmatch_star]
  constructor
  · rintro ⟨parts, rfl, hall⟩ x hx
    obtain ⟨t, ht, hxt⟩ := List.mem_flatten.1 hx
    obtain ⟨c, hc, hpc⟩ := (rmatch_set p t).1 (hall t ht).2
    subst hc
    simp only [List.mem_singleton] at hxt
    subst hxt
    exact hpc
  · intro h
    refine ⟨s.map (fun c => [c]), ?_, ?_⟩
    · induction s with
      | nil => rfl
      | cons c s ih =>
        simp only [List.map_cons, List.flatten_cons, List.singleton_append, List.cons.injEq,
          true_and]
        exact ih (fun x hx => h x (by simp [hx]))
    · intro t ht
      obtain ⟨c, hc, rfl⟩ := List.mem_map.1 ht
      exact ⟨by simp, (rmatch_set p [c]).2 ⟨c, rfl, h c hc⟩⟩

theorem rmatch_chr (c : Char) (s : List Char) : (Regex.chr c).rmatch s = true ↔ s = [c] := by
  unfold Regex.chr
  rw [rmatch_set]
  constructor
  · rintro ⟨d, rfl, hd⟩
    simp only [beq_iff_eq] at hd
    rw [hd]
  · rintro rfl
    exact ⟨c, rfl, by simp⟩

theorem rmatch_star_chr (c : Char) (s : List Char) :
    (Regex.star (Regex.chr c)).rmatch s = true ↔ s = List.replicate s.length c := by
  unfold Regex.chr
  rw [rmatch_star_set, List.eq_replicate_iff]
  simp

theorem rmatch_key (k : List Char) : COIL_KEY_REGEX.rmatch k = true ↔ is_key k := by
  unfold COIL_KEY_REGEX is_key
  rw [rmatch_seq]
  constructor
  · rintro ⟨x, y, rfl, hx, hy⟩
    rw [rmatch_seq] at hy
    obtain ⟨a, rest, rfl, ha, hrest⟩ := hy
    obtain ⟨c, rfl, hc⟩ := (rmatch_set _ a).1 ha
    rw [rmatch_star_chr] at hx
    exact ⟨x.length, c, rest, by rw [← hx]; simp, hc, (rmatch_star_set _ rest).1 hrest⟩
  · rintro ⟨n, c, rest, rfl, hc, hrest⟩
    refine ⟨List.replicate n '-', c :: rest, rfl, ?_, ?_⟩
    · rw [rmatch_star_chr]; simp
    · rw [rmatch_seq]
      exact ⟨[c], rest, rfl, (rmatch_set _ _).2 ⟨c, rfl, hc⟩, (rmatch_star_set _ rest).2 hrest⟩

theorem keys_text_eq_flatten (ks : List (List Char)) :
    keys_text ks = (ks.map (fun k => COIL_PATH_DELIM :: k)).flatten := by
  induction ks with
  | nil => rfl
  | cons k ks ih => simp [keys_text, ih]

theorem rmatch_key_segments (tail : List Char) :
    (Regex.star (Regex.seq (Regex.chr '.') COIL_KEY_REGEX)).rmatch tail = true ↔
      ∃ ks : List (List Char), (∀ k ∈ ks, is_key k) ∧ tail = keys_text ks := by
  rw [rmatch_star]
  constructor
  · rintro ⟨parts, rfl, hall⟩
    have hpart : ∀ t ∈ parts, ∃ k, is_key k ∧ t = COIL_PATH_DELIM :: k := by
      intro t ht
      obtain ⟨x, y, rfl, hx, hy⟩ := (rmatch_seq _ _ t).1 (hall t ht).2
      rw [rmatch_chr] at hx
      subst hx
      exact ⟨y, (rmatch_key y).1 hy, rfl⟩
    clear hall
    induction parts with
    | nil => exact ⟨[], by simp, rfl⟩
    | cons t ps ih =>
      obtain ⟨k, hk, rfl⟩ := hpart t (by simp)
      obtain ⟨ks, hks, hflat⟩ := ih (fun u hu => hpart u (by simp [hu]))
      refine ⟨k :: ks, ?_, ?_⟩
      · intro j hj
        rcases List.mem_cons.1 hj with rfl | hj
        · exact hk
        · exact hks j hj
      · simp [keys_text, hflat]
  · rintro ⟨ks, hks, rfl⟩
    refine ⟨ks.map (fun k => COIL_PATH_DELIM :: k), keys_text_eq_flatten ks, ?_⟩
    intro t ht
    obtain ⟨k, hk, rfl⟩ := List.mem_map.1 ht
    refine ⟨by simp, (rmatch_seq _ _ _).2 ⟨[COIL_PATH_DELIM], k, rfl, ?_, (rmatch_key k).2 (hks k hk)⟩⟩
    exact (rmatch_chr _ _).2 rfl

theorem rmatch_path_head (pre : List Char) :
    (Regex.opt (Regex.alt (Regex.chr '@')
      (Regex.seq (Regex.chr '.') (Regex.plus (Regex.chr '.'))))).rmatch pre = true ↔
      (pre = [] ∨ pre = ['@'] ∨ ∃ n : Nat, pre = List.replicate (n + 2) '.') := by
  unfold Regex.opt Regex.plus
  rw [rmatch_alt, rmatch_alt, Bool.or_eq_true, Bool.or_eq_true, rmatch_empty, rmatch_chr,
    rmatch_seq]
  constructor
  · rintro ((h | ⟨x, y, rfl, hx, hy⟩) | h)
    · exact Or.inr (Or.inl h)
    · rw [rmatch_chr] at hx
      obtain ⟨a, b, rfl, ha, hb⟩ := (rmatch_seq _ _ y).1 hy
      rw [rmatch_chr] at ha
      rw [rmatch_star_chr] at hb
      subst hx ha
      exact Or.inr (Or.inr ⟨b.length, by rw [hb]; simp [List.replicate_succ]⟩)
    · exact Or.inl h
  · rintro (h | h | ⟨n, rfl⟩)
    · exact Or.inr h
    · exact Or.inl (Or.inl h)
    · refine Or.inl (Or.inr ⟨['.'], List.replicate (n + 1) '.', by simp [List.replicate_succ],
        (rmatch_chr _ _).2 rfl, (rmatch_seq _ _ _).2 ⟨['.'], List.replicate n '.',
          by simp [List.replicate_succ], (rmatch_chr _ _).2 rfl, ?_⟩⟩)
      rw [rmatch_star_chr]; simp

theorem rmatch_path (p : List Char) : COIL_PATH_REGEX.rmatch p = true ↔ is_pattern_path p := by
  unfold COIL_PATH_REGEX is_pattern_path
  rw [rmatch_seq]
  constructor
  · rintro ⟨pre, body, rfl, hpre, hbody⟩
    obtain ⟨k, tail, rfl, hk, htail⟩ := (rmatch_seq _ _ body).1 hbody
    obtain ⟨ks, hks, rfl⟩ := (rmatch_key_segments tail).1 htail
    exact ⟨pre, k, ks, (rmatch_path_head pre).1 hpre, (rmatch_key k).1 hk, hks,
      by simp⟩
  · rintro ⟨pre, k, ks, hpre, hk, hks, rfl⟩
    exact ⟨pre, k ++ keys_text ks, by simp, (rmatch_path_head pre).2 hpre,
      (rmatch_seq _ _ _).2 ⟨k, keys_text ks, rfl, (rmatch_key k).2 hk,
        (rmatch_key_segments _).2 ⟨ks, hks, rfl⟩⟩⟩

theorem is_key_no_delim (k : List Char) (hk : is_key k) :
    (∀ x ∈ k, x ≠ COIL_PATH_DELIM) ∧ k ≠ [] := by
  obtain ⟨n, c, rest, rfl, hc, hrest⟩ := hk
  refine ⟨?_, by simp⟩
  intro x hx hdot
  subst hdot
  rcases List.mem_append.1 hx with h | h
  · exact absurd (List.eq_of_mem_replicate h) (by decide)
  · rcases List.mem_cons.1 h with h | h
    · rw [← h] at hc
      exact absurd hc (by decide)
    · exact absurd (hrest _ h) (by decide)

theorem keys_no_double_delim (ks : List (List Char)) :
    ∀ (k a b : List Char), (∀ x ∈ k, x ≠ COIL_PATH_DELIM) → k ≠ [] →
      (∀ j ∈ ks, (∀ x ∈ j, x ≠ COIL_PATH_DELIM) ∧ j ≠ []) →
      k ++ keys_text ks ≠ a ++ COIL_PATH_DELIM :: COIL_PATH_DELIM :: b := by
  induction ks with
  | nil =>
    intro k a b hk _ _ h
    have hmem : COIL_PATH_DELIM ∈ k := by
      have : COIL_PATH_DELIM ∈ k ++ keys_text [] := by rw [h]; simp
      simpa [keys_text] using this
    exact hk _ hmem rfl
  | cons k2 ks ih =>
    intro k a b hk hne hks h
    have hk2 := hks k2 (by simp)
    have hrest : ∃ a2, keys_text (k2 :: ks) = a2 ++ COIL_PATH_DELIM :: COIL_PATH_DELIM :: b := by
      rcases List.append_eq_append_iff.1 h with ⟨a2, _, h2⟩ | ⟨c2, h1, h2⟩
      · exact ⟨a2, h2⟩
      · cases c2 with
        | nil => exact ⟨[], by simpa using h2.symm⟩
        | cons x c3 =>
          simp only [List.cons_append, List.cons.injEq] at h2
          exact absurd h2.1.symm (hk x (by rw [h1]; simp))
    obtain ⟨a2, h2⟩ := hrest
    simp only [keys_text] at h2
    cases a2 with
    | nil =>
      simp only [List.nil_append, List.cons.injEq, true_and] at h2
      cases k2 with
      | nil => exact hk2.2 rfl
      | cons y k3 =>
        simp only [List.cons_append, List.cons.injEq] at h2
        exact hk2.1 y (by simp) h2.1
    | cons x a3 =>
      simp only [List.cons_append, List.cons.injEq] at h2
      exact ih k2 a3 b hk2.1 hk2.2 (fun j hj => hks j (by simp [hj])) h2.2

theorem pattern_path_no_mid_dots (u v : List Char) (hu : ∃ c ∈ u, c ≠ COIL_PATH_DELIM)
    (h : is_pattern_path (u ++ COIL_PATH_DELIM :: COIL_PATH_DELIM :: v)) : False := by
  obtain ⟨pre, k, ks, hpre, hk, hks, hp⟩ := h
  have hkd := is_key_no_delim k hk
  have hksd : ∀ j ∈ ks, (∀ x ∈ j, x ≠ COIL_PATH_DELIM) ∧ j ≠ [] :=
    fun j hj => is_key_no_delim j (hks j hj)
  rw [List.append_assoc] at hp
  rcases List.append_eq_append_iff.1 hp.symm with ⟨a2, _, h2⟩ | ⟨c2, h1, h2⟩
  · exact keys_no_double_delim ks k a2 v hkd.1 hkd.2 hksd h2
  · obtain ⟨c, hc, hcd⟩ := hu
    rcases hpre with rfl | rfl | ⟨n, rfl⟩
    · have := List.append_eq_nil.1 h1.symm
      rw [this.1] at hc
      simp at hc
    · cases u with
      | nil => simp at hc
      | cons x u2 =>
        simp only [List.cons_append, List.cons.injEq] at h1
        obtain ⟨hu2, hc2⟩ := List.append_eq_nil.1 h1.2.symm
        subst hc2
        exact keys_no_double_delim ks k [] v hkd.1 hkd.2 hksd (by simpa using h2.symm)
    · have : c ∈ List.replicate (n + 2) '.' := by rw [h1]; simp [hc]
      exact hcd (List.eq_of_mem_replicate this)

theorem newline_suffix_after_dots (nl u v : List Char) (hnl : nl ∈ NEWLINES)
    (h : nl <:+ u ++ COIL_PATH_DELIM :: COIL_PATH_DELIM :: v) :
    ∃ w, (u ++ COIL_PATH_DELIM :: COIL_PATH_DELIM :: v).take
      ((u ++ COIL_PATH_DELIM :: COIL_PATH_DELIM :: v).length - nl.length) =
        u ++ COIL_PATH_DELIM :: COIL_PATH_DELIM :: w := by
  have hdot : ∀ nl ∈ NEWLINES, COIL_PATH_DELIM ∉ nl := by decide
  obtain ⟨t, ht⟩ := h
  have htake : (u ++ COIL_PATH_DELIM :: COIL_PATH_DELIM :: v).take
      ((u ++ COIL_PATH_DELIM :: COIL_PATH_DELIM :: v).length - nl.length) = t := by
    rw [← ht]
    exact List.take_left' (by simp)
  rw [htake]
  rcases List.append_eq_append_iff.1 ht with ⟨a2, _, h2⟩ | ⟨c2, h1, h2⟩
  · exact absurd (by rw [h2]; simp) (hdot nl hnl)
  · cases c2 with
    | nil => exact absurd (by rw [show nl = _ from by simpa using h2.symm]; simp) (hdot nl hnl)
    | cons x c3 =>
      cases c3 with
      | nil =>
        simp only [List.cons_append, List.nil_append, List.cons.injEq] at h2
        exact absurd (by rw [← h2.2]; simp) (hdot nl hnl)
      | cons y c4 =>
        simp only [List.cons_append, List.cons.injEq] at h2
        exact ⟨c4, by rw [h1, ← h2.1, ← h2.2.1]⟩

theorem match_line_no_newline (r : Regex) (s : List Char) (h : ends_with_newline s = false) :
    g_regex_match_line r s = (r.rmatch s && !s.isEmpty) := by
  unfold ends_with_newline at h
  rw [List.any_eq_false] at h
  have : NEWLINES.any (fun nl => nl.isSuffixOf s &&
      (r.rmatch (s.take (s.length - nl.length)) &&
        !(s.take (s.length - nl.length)).isEmpty)) = false := by
    rw [List.any_eq_false]
    intro nl hnl
    have := h nl hnl
    simp only [Bool.not_eq_true] at this
    simp [this]
  unfold g_regex_match_line
  rw [this, Bool.or_false]

theorem pattern_path_ne_nil (p : List Char) (h : is_pattern_path p) : p ≠ [] := by
  obtain ⟨pre, k, ks, _, hk, _, rfl⟩ := h
  have := (is_key_no_delim k hk).2
  simp [this]

/-- C13 (amended): on strings that do not end with a newline,
`coil_validate_path` accepts exactly the strings made of nothing, `@`, or two
or more dots, followed by one or more keys joined by single dots; and it
rejects every string that has `..` after a character other than a dot. -/
theorem validate_path_iff_pattern :
    (∀ p : List Char, ends_with_newline p = false →
      (coil_validate_path p = true ↔ is_pattern_path p)) ∧
    (∀ u v : List Char, (∃ c ∈ u, c ≠ COIL_PATH_DELIM) →
      coil_validate_path (u ++ COIL_PATH_DELIM :: COIL_PATH_DELIM :: v) = false) := by
  constructor
  · intro p hp
    unfold coil_validate_path
    rw [match_line_no_newline _ _ hp, Bool.and_eq_true, rmatch_path]
    constructor
    · exact fun h => h.1
    · intro h
      refine ⟨h, ?_⟩
      have := pattern_path_ne_nil p h
      cases p with
      | nil => exact absurd rfl this
      | cons _ _ => rfl
  · intro u v hu
    unfold coil_validate_path g_regex_match_line
    rw [Bool.or_eq_false_iff]
    constructor
    · rw [Bool.and_eq_false_iff]
      left
      rw [← Bool.not_eq_true, rmatch_path]
      exact pattern_path_no_mid_dots u v hu
    · rw [List.any_eq_false]
      intro nl hnl h
      simp only [Bool.and_eq_true, List.isSuffixOf_iff_suffix] at h
      obtain ⟨w, hw⟩ := newline_suffix_after_dots nl u v hnl h.1
      rw [hw, rmatch_path] at h
      exact pattern_path_no_mid_dots u w hu h.2.1

/-- C13 (counterexample): the path `.a`, one back-reference dot and a key, is
rejected, and `@foo.bar`, which does not begin with `@root`, is accepted. -/
theorem validate_path_differs_from_data_model :
    is_data_model_path ['.', 'a'] ∧ coil_validate_path ['.', 'a'] = false ∧
    ¬ is_data_model_path ['@', 'f', 'o', 'o', '.', 'b', 'a', 'r'] ∧
    coil_validate_path ['@', 'f', 'o', 'o', '.', 'b', 'a', 'r'] = true := by
  refine ⟨Or.inr ⟨1, ['a'], [], ⟨0, 'a', [], rfl, by decide, by simp⟩, by simp, rfl⟩,
    by decide, ?_, by decide⟩
  rintro (⟨ks, _, h⟩ | ⟨n, k, ks, hk, _, h⟩)
  · simp [COIL_ROOT_PATH] at h
  · cases n with
    | zero =>
      obtain ⟨m, c, rest, rfl, hc, _⟩ := hk
      cases m with
      | zero =>
        simp only [List.replicate_zero, List.nil_append, List.cons_append, List.cons.injEq] at h
        rw [← h.1] at hc
        exact absurd hc (by decide)
      | succ m => simp [List.replicate_succ] at h
    | succ n => simp [List.replicate_succ] at h

/-- C14 (failing input): `coil_validate_key` accepts the four characters
`foo` and line feed, which are not a key. -/
theorem validate_key_accepts_trailing_newline :
    coil_validate_key ['f', 'o', 'o', Char.ofNat 10] = true ∧
    ¬ is_key ['f', 'o', 'o', Char.ofNat 10] := by
  refine ⟨by decide, ?_⟩
  rw [← rmatch_key]
  decide

/-- C15 (failing input): after `set_path_value(root, "a.b", 1)`,
`set_key_value(root, "x", a)` for the struct `a` at `@root.a`, and
`set_path_value(root, "a.c", 2)`, every call having succeeded, the struct has
the path `@root.x` and an item with key `c` and path `@root.a.c`: its tables
are not consistent. -/
theorem table_consistency_broken_by_alias :
    alias_scenario.result.map (fun r => r.2) = some none ∧
    (alias_scenario.result.bind (fun r => (r.1.structs[1]?).map (fun s => s.path)))
      = some ['@', 'r', 'o', 'o', 't', '.', 'x'] ∧
    (alias_scenario.result.bind (fun r =>
      (r.1.structs[1]?).map (fun s => s.order.map (fun item => (item.key, item.path)))))
      = some [(['c'], ['@', 'r', 'o', 'o', 't', '.', 'a', '.', 'c']),
          (['b'], ['@', 'r', 'o', 'o', 't', '.', 'x', '.', 'b'])] ∧
    (alias_scenario.result.bind (fun r =>
      (r.1.structs[1]?).map (fun s => table_consistent r.1 s))) = some false := by
  decide

/-- C17 (failing input): a root struct has version 1 after one
`set_key_value`, and `coil_struct_clear` leaves it with version 0. -/
theorem clear_resets_version :
    (((new_root false).bind (fun e0 root =>
      (coil_struct_set_key_value (plain_calls false) e0 root ['a'] (Value.int 1)).bind
        (fun e1 _ =>
          (coil_struct_clear e1 root).bind (fun e2 _ =>
            Run.done e2 ((e1.structs[root]?).map (fun s => s.version),
              (e2.structs[root]?).map (fun s => s.version)))))).result.map
      (fun r => r.2))
    = some (some 1, some 0) := by
  decide

theorem table_lookup_remove_self {β : Type} (t : List (List Char × β)) (k : List Char) :
    table_lookup (table_remove t k) k = none := by
  induction t with
  | nil => rfl
  | cons kv rest ih =>
    obtain ⟨k1, v⟩ := kv
    by_cases h : k1 = k
    · simp only [table_remove, h, if_true, ih]
    · simp only [table_remove, h, if_false, table_lookup, ih]

theorem table_lookup_remove_ne {β : Type} (t : List (List Char × β)) (k j : List Char)
    (h : j ≠ k) : table_lookup (table_remove t k) j = table_lookup t j := by
  induction t with
  | nil => rfl
  | cons kv rest ih =>
    obtain ⟨k1, v⟩ := kv
    by_cases h1 : k1 = k
    · have h2 : k1 ≠ j := fun h2 => h (h2 ▸ h1)
      simp only [table_remove, h1, if_true, ih, table_lookup]
      rw [if_neg (h1 ▸ h2)]
    · simp only [table_remove, h1, if_false, table_lookup, ih]

theorem table_lookup_insert_self {β : Type} (t : List (List Char × β)) (k : List Char) (v : β) :
    table_lookup (table_insert t k v) k = some v := by
  simp [table_insert, table_lookup]

theorem table_lookup_insert_ne {β : Type} (t : List (List Char × β)) (k j : List Char) (v : β)
    (h : j ≠ k) : table_lookup (table_insert t k v) j = table_lookup t j := by
  simp only [table_insert, table_lookup]
  rw [if_neg (fun h1 => h h1.symm), table_lookup_remove_ne t k j h]

theorem struct_lt_of_some (e : Engine) (i : Nat) (s : CoilStruct)
    (h : e.structs[i]? = some s) : i < e.structs.length := by
  by_contra hlt
  rw [List.getElem?_eq_none (by omega)] at h
  exact absurd h (by simp)

theorem set_struct_self (e : Engine) (i : Nat) (s : CoilStruct) (h : i < e.structs.length) :
    (e.set_struct i s).structs[i]? = some s := by
  simp [Engine.set_struct, List.getElem?_set, h]

theorem set_struct_ne (e : Engine) (i j : Nat) (s : CoilStruct) (h : j ≠ i) :
    (e.set_struct i s).structs[j]? = e.structs[j]? := by
  simp only [Engine.set_struct]
  exact List.getElem?_set_ne (fun h1 => h h1.symm)

theorem set_struct_tables (e : Engine) (i : Nat) (s : CoilStruct) :
    (e.set_struct i s).tables = e.tables := rfl

theorem set_table_structs (e : Engine) (t : Nat) (tbl : List (List Char × Value)) :
    (e.set_table t tbl).structs = e.structs := rfl

theorem guint_pred_small (n : Nat) (h0 : n ≠ 0) (h : n < GUINT_RANGE) :
    guint_pred n = n - 1 := by
  unfold guint_pred
  have : n + GUINT_RANGE - 1 = (n - 1) + GUINT_RANGE := by omega
  rw [this, Nat.add_mod_right, Nat.mod_eq_of_lt (by omega)]

theorem get_size_expanded (e : Engine) (self : Nat) (s : CoilStruct)
    (hs : e.structs[self]? = some s) (h : (s.expanded || s.dependencies.isEmpty) = true) :
    coil_struct_get_size e self = Run.done e s.size := by
  unfold coil_struct_get_size
  simp only [get_size_loop, hs, h, if_true]

theorem mark_key_deleted_absent (COIL_DEBUG : Bool) (e : Engine) (self : Nat) (s : CoilStruct)
    (k : List Char) (hs : e.structs[self]? = some s) (hroot : coil_struct_is_root s = false)
    (habsent : table_lookup s.key_table k = none) :
    coil_struct_mark_key_deleted COIL_DEBUG e self k =
      Run.done (e.set_struct self
        { s with
          key_table := table_insert s.key_table k none
          version := guint_succ s.version }) none := by
  have h1 : coil_struct_is_deleted_key s k = false := by
    unfold coil_struct_is_deleted_key
    rw [habsent]
    split <;> rfl
  have h2 : coil_struct_contains_key COIL_DEBUG s k false = false := by
    unfold coil_struct_contains_key
    rw [habsent]
    split
    · rfl
    · split <;> rfl
  simp only [coil_struct_mark_key_deleted, hs, hroot, h1, h2, Bool.false_eq_true, if_false]

theorem delete_internal_absent (COIL_DEBUG : Bool) (e : Engine) (self : Nat) (s : CoilStruct)
    (k p : List Char) (hs : e.structs[self]? = some s)
    (hguard : (COIL_DEBUG && s.is_prototype) = false)
    (habsent : table_lookup s.key_table k = none) :
    struct_delete_internal COIL_DEBUG e self k p false false =
      Run.done (if coil_struct_is_root s = true then e
        else e.set_struct self
          { s with
            key_table := table_insert s.key_table k none
            version := guint_succ s.version }) (false, none) := by
  unfold struct_delete_internal
  simp only [hs, hguard, habsent, Bool.false_eq_true, if_false, Bool.not_false,
    Option.isSome_none, Bool.and_false, Bool.false_and, Bool.true_and, Bool.and_self,
    if_true, Bool.false_or]
  cases hroot : coil_struct_is_root s
  · simp only [Bool.not_false, if_true, Bool.false_eq_true, if_false]
    rw [mark_key_deleted_absent COIL_DEBUG e self s k hs hroot habsent]
    rfl
  · simp only [Bool.not_true, Bool.false_eq_true, if_false, if_true]

theorem delete_key_absent_aux (COIL_DEBUG : Bool) (e : Engine) (self : Nat) (s : CoilStruct)
    (k : List Char) (hs : e.structs[self]? = some s)
    (hguard : (COIL_DEBUG && s.is_prototype) = false)
    (hfit : (coil_path_build_buffer s.path k).length ≤ COIL_PATH_BUFLEN)
    (habsent : table_lookup s.key_table k = none) :
    ∃ e1, coil_struct_delete_key COIL_DEBUG e self k = Run.done e1 false ∧
      (coil_struct_is_root s = true → e1 = e) ∧
      (coil_struct_is_root s = false →
        ∃ s1, e1.structs[self]? = some s1 ∧ table_lookup s1.key_table k = some none ∧
          s1.order = s.order ∧ s1.size = s.size ∧ e1.tables = e.tables ∧
          ∀ j, j ≠ self → e1.structs[j]? = e.structs[j]?) := by
  refine ⟨if coil_struct_is_root s = true then e
    else e.set_struct self
      { s with
        key_table := table_insert s.key_table k none
        version := guint_succ s.version }, ?_, ?_, ?_⟩
  · unfold coil_struct_delete_key
    simp only [hs]
    rw [if_neg (by omega), delete_internal_absent COIL_DEBUG e self s k _ hs hguard habsent]
    rfl
  · intro hroot
    rw [if_pos hroot]
  · intro hroot
    rw [if_neg (by simp [hroot])]
    refine ⟨_, set_struct_self e self _ (struct_lt_of_some e self s hs), ?_, rfl, rfl, rfl, ?_⟩
    · exact table_lookup_insert_self _ _ _
    · intro j hj
      exact set_struct_ne e self j _ hj

/-- C20 (amended): for a key that is absent from the key table of `s` and
fits the path buffer, in a build without `COIL_DEBUG` or for a struct that is
no prototype, `coil_struct_delete_key` returns FALSE; when `s` is the root
nothing changes, and otherwise the key is marked deleted in the key table of
`s` while its order, its size, the path tables and all other structs stay as
they were. -/
theorem delete_key_absent (COIL_DEBUG : Bool) (e : Engine) (self : Nat) (s : CoilStruct)
    (k : List Char) (hs : e.structs[self]? = some s)
    (hguard : (COIL_DEBUG && s.is_prototype) = false)
    (hfit : (coil_path_build_buffer s.path k).length ≤ COIL_PATH_BUFLEN)
    (habsent : table_lookup s.key_table k = none) :
    ∃ e1, coil_struct_delete_key COIL_DEBUG e self k = Run.done e1 false ∧
      (coil_struct_is_root s = true → e1 = e) ∧
      (coil_struct_is_root s = false →
        ∃ s1, e1.structs[self]? = some s1 ∧ table_lookup s1.key_table k = some none ∧
          s1.order = s.order ∧ s1.size = s.size ∧ e1.tables = e.tables ∧
          ∀ j, j ≠ self → e1.structs[j]? = e.structs[j]?) :=
  delete_key_absent_aux COIL_DEBUG e self s k hs hguard hfit habsent
theorem delete_internal_present (COIL_DEBUG : Bool) (e : Engine) (self : Nat) (s : CoilStruct)
    (k p : List Char) (v : Value) (index : Nat) (skip preserve : Bool)
    (hs : e.structs[self]? = some s)
    (hguard : (COIL_DEBUG && s.is_prototype) = false)
    (hv : skip = false → table_lookup s.key_table k = some (some v))
    (hsize : s.size ≠ 0) (hitem : find_item s.order k = some index) :
    struct_delete_internal COIL_DEBUG e self k p skip preserve =
      Run.done ((e.set_table s.path_table (table_remove (e.table s.path_table) p)).set_struct
        self
        { s with
          order := if preserve = true then s.order.set index ⟨k, p, none⟩
            else s.order.eraseIdx index
          key_table := table_remove s.key_table k
          size := guint_pred s.size
          version := guint_succ s.version })
        (true, if preserve = true then some index else none) := by
  have hne : (s.size != 0) = true := by simp [hsize]
  have hempty : coil_struct_is_empty s = false := by simp [coil_struct_is_empty, hne]
  unfold struct_delete_internal
  simp only [hs, hguard, Bool.false_eq_true, if_false, hne, hempty, hitem, Bool.true_and]
  cases skip
  · rw [hv rfl]
    simp
  · simp

theorem get_key_value_present (X : Calls) (e : Engine) (self : Nat) (s : CoilStruct)
    (j : List Char) (w : Option Value) (hs : e.structs[self]? = some s)
    (hguard : (X.COIL_DEBUG && s.is_prototype) = false)
    (hw : table_lookup s.key_table j = some w) :
    coil_struct_get_key_value X e self j false = Run.done e (w, none) := by
  unfold coil_struct_get_key_value
  simp only [hs, hguard, Bool.false_eq_true, if_false, hw]

theorem get_key_value_absent (X : Calls) (e : Engine) (self : Nat) (s : CoilStruct)
    (k : List Char) (hs : e.structs[self]? = some s)
    (hguard : (X.COIL_DEBUG && s.is_prototype) = false)
    (hk : table_lookup s.key_table k = none) :
    (s.expanded = true → coil_struct_get_key_value X e self k false = Run.done e (none, none)) ∧
    (∀ e2 err, s.expanded = false → X.coil_expand e self = Run.done e2 (true, err) →
      coil_struct_get_key_value X e self k false = Run.done e2 (none, none)) := by
  constructor
  · intro hx
    unfold coil_struct_get_key_value
    simp only [hs, hguard, Bool.false_eq_true, if_false, hk, hx, if_true]
  · intro e2 err hx hex
    unfold coil_struct_get_key_value
    simp only [hs, hguard, Bool.false_eq_true, if_false, hk, hx, hex, Run.bind, if_true]

/-- C19 (amended): for a key `k` that has a value in `s` (an entry of the key
table with its item in the order, the size not zero), in a build without
`COIL_DEBUG` or for a struct that is no prototype, `coil_struct_delete_key`
returns TRUE; afterwards the size field is one less, every other key of the
key table is returned as before, and a second `coil_struct_delete_key`
returns FALSE; for an expanded `s`, `coil_struct_get_size` is one less than
before and `get_key_value(s, k)` returns NULL. -/
theorem delete_key_present (X : Calls) (e : Engine) (self : Nat) (s : CoilStruct)
    (k : List Char) (v : Value) (hs : e.structs[self]? = some s)
    (hguard : (X.COIL_DEBUG && s.is_prototype) = false)
    (hfit : (coil_path_build_buffer s.path k).length ≤ COIL_PATH_BUFLEN)
    (hv : table_lookup s.key_table k = some (some v))
    (hsize : s.size ≠ 0) (hrange : s.size < GUINT_RANGE)
    (hitem : (find_item s.order k).isSome = true) :
    ∃ e1 s1, coil_struct_delete_key X.COIL_DEBUG e self k = Run.done e1 true ∧
      e1.structs[self]? = some s1 ∧ s1.size = s.size - 1 ∧
      ((s.expanded || s.dependencies.isEmpty) = true →
        coil_struct_get_size e self = Run.done e s.size ∧
        coil_struct_get_size e1 self = Run.done e1 (s.size - 1)) ∧
      (s.expanded = true →
        coil_struct_get_key_value X e1 self k false = Run.done e1 (none, none)) ∧
      (∀ j w, j ≠ k → table_lookup s.key_table j = some w →
        coil_struct_get_key_value X e1 self j false = Run.done e1 (w, none)) ∧
      ∃ e2, coil_struct_delete_key X.COIL_DEBUG e1 self k = Run.done e2 false := by
  obtain ⟨index, hindex⟩ := Option.isSome_iff_exists.1 hitem
  have hlt := struct_lt_of_some e self s hs
  have hdel := delete_internal_present X.COIL_DEBUG e self s k (s.path ++ COIL_PATH_DELIM :: k) v
    index false false hs hguard (fun _ => hv) hsize hindex
  simp only [Bool.false_eq_true, if_false] at hdel
  generalize hs1def : ({ s with
      order := s.order.eraseIdx index
      key_table := table_remove s.key_table k
      size := guint_pred s.size
      version := guint_succ s.version } : CoilStruct) = s1 at hdel
  generalize he1def : (e.set_table s.path_table
      (table_remove (e.table s.path_table) (s.path ++ COIL_PATH_DELIM :: k))).set_struct
        self s1 = e1 at hdel
  have hs1 : e1.structs[self]? = some s1 := by
    rw [← he1def]
    exact set_struct_self _ self _ (by rw [set_table_structs]; exact hlt)
  have hkt : s1.key_table = table_remove s.key_table k := by rw [← hs1def]
  have hsz : s1.size = s.size - 1 := by
    rw [← hs1def]; exact guint_pred_small s.size hsize hrange
  have hpr : s1.is_prototype = s.is_prototype := by rw [← hs1def]
  have hex : s1.expanded = s.expanded := by rw [← hs1def]
  have hdp : s1.dependencies = s.dependencies := by rw [← hs1def]
  have hpa : s1.path = s.path := by rw [← hs1def]
  have hguard1 : (X.COIL_DEBUG && s1.is_prototype) = false := by rw [hpr]; exact hguard
  have hk1 : table_lookup s1.key_table k = none := by
    rw [hkt]; exact table_lookup_remove_self _ _
  refine ⟨e1, s1, ?_, hs1, hsz, ?_, ?_, ?_, ?_⟩
  · unfold coil_struct_delete_key
    simp only [hs]
    rw [if_neg (by omega), hdel]
    rfl
  · intro hx
    refine ⟨get_size_expanded e self s hs hx, ?_⟩
    rw [get_size_expanded e1 self s1 hs1 (by rw [hex, hdp]; exact hx), hsz]
  · intro hx
    exact (get_key_value_absent X e1 self s1 k hs1 hguard1 hk1).1 (by rw [hex]; exact hx)
  · intro j w hj hw
    exact get_key_value_present X e1 self s1 j w hs1 hguard1
      (by rw [hkt, ← hw]; exact table_lookup_remove_ne _ _ _ hj)
  · obtain ⟨e2, h2, _⟩ := delete_key_absent_aux X.COIL_DEBUG e1 self s1 k hs1 hguard1
      (by rw [hpa]; exact hfit) hk1
    exact ⟨e2, h2⟩

theorem delete_key_absent_witness :
    nested_engine.structs[1]? = some nested_struct ∧
    table_lookup nested_struct.key_table ['k'] = none ∧
    ∃ e1, coil_struct_delete_key false nested_engine 1 ['k'] = Run.done e1 false ∧
      ∃ s1, e1.structs[1]? = some s1 ∧ table_lookup s1.key_table ['k'] = some none ∧
        s1.order = nested_struct.order :=
  ⟨rfl, rfl,
    (delete_key_absent false nested_engine 1 nested_struct ['k'] rfl rfl
      (by decide) rfl).imp
      (fun _ h => ⟨h.1, (h.2.2 rfl).imp (fun _ h1 => ⟨h1.1, h1.2.1, h1.2.2.1⟩)⟩)⟩

/-- C20 (counterexample): in a debug build `coil_struct_delete_key` on the
prototype at `@root.a`, which is not the root, returns FALSE for the absent key
`k` without marking it deleted; and for a key of 256 bytes the path does not
fit the local buffer of the function. -/
theorem delete_key_absent_guarded :
    (((prototype_scenario true).engine.structs[1]?).map
      (fun s => (s.is_prototype, s.container, table_lookup s.key_table ['k'])))
      = some (true, some 0, none) ∧
    coil_struct_delete_key true (prototype_scenario true).engine 1 ['k']
      = Run.done (prototype_scenario true).engine false ∧
    coil_struct_delete_key false (new_root false).engine 0 (List.replicate 256 'k')
      = Run.undefined :=
  ⟨rfl, rfl, rfl⟩

theorem delete_key_present_witness :
    nested_engine.structs[1]? = some nested_struct ∧
    table_lookup nested_struct.key_table ['b'] = some (some (Value.int 1)) ∧
    ∃ e1, coil_struct_delete_key false nested_engine 1 ['b'] = Run.done e1 true ∧
      coil_struct_get_key_value (plain_calls false) e1 1 ['b'] false = Run.done e1 (none, none) :=
  ⟨rfl, rfl,
    (delete_key_present (plain_calls false) nested_engine 1 nested_struct ['b'] (Value.int 1)
      rfl rfl (by decide) rfl (by decide) (by decide) rfl).elim
      (fun e1 h => h.elim (fun _ h1 => ⟨e1, h1.1, h1.2.2.2.2.1 rfl⟩))⟩

/-- C19 (counterexample): in a debug build the prototype at `@root.a` holds the
key `b` with a value, and `coil_struct_delete_key` returns FALSE for it and
changes nothing. -/
theorem delete_key_present_guarded :
    (((prototype_scenario true).engine.structs[1]?).map
      (fun s => (s.is_prototype, s.size, table_lookup s.key_table ['b'],
        find_item s.order ['b'])))
      = some (true, 1, some (some (Value.struct 2)), some 0) ∧
    coil_struct_delete_key true (prototype_scenario true).engine 1 ['b']
      = Run.done (prototype_scenario true).engine false :=
  ⟨rfl, rfl⟩

theorem emit_modify_no_handlers (X : Calls) (e : Engine) (self : Nat) (s : CoilStruct)
    (hs : e.structs[self]? = some s) (hh : s.modify_handlers = []) :
    emit_modify X e self = Run.done e none := by
  simp only [emit_modify, hs, hh, List.foldl_nil]

theorem set_value_attach_plain (e : Engine) (self : Nat) (key path : List Char) (value : Value)
    (hv : value.holds_expandable = false) :
    set_value_attach e self key path value = Run.done e () := by
  cases value <;> first | rfl | simp [Value.holds_expandable] at hv

theorem holds_struct_of_plain (value : Value) (hv : value.holds_expandable = false) :
    value.holds_struct = none := by
  cases value <;> first | rfl | simp [Value.holds_expandable] at hv

theorem set_table_table_structs (e : Engine) (t : Nat) (tbl : List (List Char × Value))
    (i : Nat) : (e.set_table t tbl).structs[i]? = e.structs[i]? := rfl

theorem set_struct_set_struct (e : Engine) (i : Nat) (s t : CoilStruct) :
    (e.set_struct i s).set_struct i t = e.set_struct i t := by
  simp [Engine.set_struct]

/-- What `struct_set_value_internal` leaves of `self` when it sets a value
that is no expandable at a path without a value. -/
theorem set_value_internal_new (X : Calls) (e : Engine) (self : Nat) (s : CoilStruct)
    (key path : List Char) (value : Value) (cast : Bool)
    (hs : e.structs[self]? = some s) (hh : s.modify_handlers = [])
    (hnone : path_table_lookup e s path = none)
    (hv : value.holds_expandable = false) (hcast : (cast && s.is_prototype) = false) :
    struct_set_value_internal X e self key path value cast =
      Run.done (((e.set_struct self { s with order := ⟨key, path, some value⟩ :: s.order }).set_table
          s.path_table (table_insert (e.table s.path_table) path value)).set_struct self
        { s with
          order := ⟨key, path, some value⟩ :: s.order
          key_table := table_insert s.key_table key (some value)
          version := guint_succ s.version
          size := guint_succ s.size }) none := by
  have hlt := struct_lt_of_some e self s hs
  unfold struct_set_value_internal
  rw [emit_modify_no_handlers X e self s hs hh]
  simp only [Run.bind, set_value_order, hs, hnone]
  rw [set_value_attach_plain _ _ _ _ _ hv]
  simp only [Run.bind, set_struct_self e self _ hlt, hcast, Bool.false_eq_true, if_false]
  rfl

/-- What `struct_set_value_internal` leaves of `self` when it sets a value
that is no expandable at a path that has a value in `self`. -/
theorem set_value_internal_overwrite (X : Calls) (e : Engine) (self : Nat) (s : CoilStruct)
    (key path : List Char) (value old : Value) (index : Nat) (cast : Bool)
    (hs : e.structs[self]? = some s) (hh : s.modify_handlers = [])
    (hguard : (X.COIL_DEBUG && s.is_prototype) = false)
    (hold : path_table_lookup e s path = some old)
    (hvalid : ∀ node, old.holds_struct = some node → (e.structs[node]?).isSome = true)
    (hsize : s.size ≠ 0) (hitem : find_item s.order key = some index)
    (hv : value.holds_expandable = false) (hcast : (cast && s.is_prototype) = false) :
    ∃ e1 s1, struct_set_value_internal X e self key path value cast = Run.done e1 none ∧
      e1.structs[self]? = some s1 ∧
      s1.order = s.order.set index ⟨key, path, some value⟩ ∧
      s1.is_prototype = s.is_prototype ∧ s1.version = guint_succ (guint_succ s.version) := by
  have hlt := struct_lt_of_some e self s hs
  have hidx : index < s.order.length := by
    clear hold hvalid
    revert index
    induction s.order with
    | nil => intro index h; simp [find_item] at h
    | cons item rest ih =>
      intro index h
      simp only [find_item] at h
      split at h
      · cases h; simp
      · cases hr : find_item rest key with
        | none => rw [hr] at h; simp at h
        | some j =>
          rw [hr] at h
          simp only [Option.map_some', Option.some.injEq] at h
          have := ih j hr
          rw [← h]
          simp only [List.length_cons]
          omega
  have hdel := delete_internal_present X.COIL_DEBUG e self s key path value
    index true true hs hguard (fun h => absurd h (by simp)) hsize hitem
  simp only [if_true] at hdel
  have hover : set_value_order X e self key path value =
      Run.done ((e.set_table s.path_table (table_remove (e.table s.path_table) path)).set_struct
        self
        { s with
          order := s.order.set index ⟨key, path, some value⟩
          key_table := table_remove s.key_table key
          size := guint_pred s.size
          version := guint_succ s.version }) none := by
    have hnostruct := holds_struct_of_plain value hv
    have hproto : overwritten_prototype e old value = some none := by
      unfold overwritten_prototype
      cases hn : old.holds_struct with
      | none => rfl
      | some node =>
        obtain ⟨ns, hns⟩ := Option.isSome_iff_exists.1 (hvalid node hn)
        simp only [hns, hnostruct, Option.map_none']
        split <;> rfl
    have hs1 := set_struct_self (e.set_table s.path_table
      (table_remove (e.table s.path_table) path)) self
      { s with
        order := s.order.set index ⟨key, path, none⟩
        key_table := table_remove s.key_table key
        size := guint_pred s.size
        version := guint_succ s.version } (by rw [set_table_structs]; exact hlt)
    unfold set_value_order
    simp only [hs, hold, hproto, set_value_overwrite, hdel, Run.bind, hs1, List.getElem?_set,
      hidx, if_true, List.length_set]
    simp [set_struct_set_struct]
  unfold struct_set_value_internal
  rw [emit_modify_no_handlers X e self s hs hh]
  simp only [Run.bind, hover]
  rw [set_value_attach_plain _ _ _ _ _ hv]
  simp only [Run.bind, set_struct_self _ self _
    (show self < (e.set_table s.path_table
      (table_remove (e.table s.path_table) path)).structs.length from hlt), hcast,
    Bool.false_eq_true, if_false]
  refine ⟨_, _, rfl, set_struct_self _ self _ (by
    simp only [Engine.set_table, Engine.set_struct, List.length_set]; exact hlt), rfl, rfl, rfl⟩

theorem iter_loop_take (COIL_DEBUG : Bool) (e : Engine) (node : Nat) (s : CoilStruct)
    (hs : e.structs[node]? = some s) :
    ∀ (index fuel : Nat), index < s.order.length → index + 2 ≤ fuel →
      iter_loop COIL_DEBUG e fuel ⟨node, s.version, some index⟩ =
        some ((s.order.take (index + 1)).reverse) := by
  intro index
  induction index with
  | zero =>
    intro fuel hlt hfuel
    obtain ⟨f1, rfl⟩ : ∃ f1, fuel = f1 + 2 := ⟨fuel - 2, by omega⟩
    obtain ⟨item, hitem⟩ : ∃ item, s.order[0]? = some item := by
      rw [List.getElem?_eq_getElem hlt]; exact ⟨_, rfl⟩
    have htake : s.order.take 1 = [item] := by
      cases hso : s.order with
      | nil => rw [hso] at hlt; simp at hlt
      | cons a rest => rw [hso] at hitem; simp at hitem; simp [hitem]
    simp only [iter_loop, coil_struct_iter_next, hs, hitem, bne_self_eq_false, Bool.and_false,
      Bool.false_eq_true, if_false, if_true, Option.map_some', htake, List.reverse_singleton,
      zero_add]
  | succ i ih =>
    intro fuel hlt hfuel
    obtain ⟨f1, rfl⟩ : ∃ f1, fuel = f1 + 1 := ⟨fuel - 1, by omega⟩
    obtain ⟨item, hitem⟩ : ∃ item, s.order[i + 1]? = some item := by
      rw [List.getElem?_eq_getElem hlt]; exact ⟨_, rfl⟩
    have htake : s.order.take (i + 1 + 1) = s.order.take (i + 1) ++ [item] := by
      rw [List.take_succ, hitem]; rfl
    simp only [iter_loop, coil_struct_iter_next, hs, hitem, bne_self_eq_false, Bool.and_false,
      Bool.false_eq_true, if_false, Nat.add_one_ne_zero, Nat.add_sub_cancel]
    rw [ih f1 (by omega) (by omega), htake]
    simp

theorem iterate_eq_reverse (COIL_DEBUG : Bool) (e : Engine) (node : Nat) (s : CoilStruct)
    (hs : e.structs[node]? = some s) (hguard : (COIL_DEBUG && s.is_prototype) = false) :
    coil_struct_iterate COIL_DEBUG e node = some s.order.reverse := by
  unfold coil_struct_iterate coil_struct_iter_init
  simp only [hs, hguard, Bool.false_eq_true, if_false, Option.some_bind]
  cases hso : s.order with
  | nil => simp [iter_loop, coil_struct_iter_next]
  | cons a rest =>
    simp only [List.isEmpty_cons, Bool.false_eq_true, if_false]
    have := iter_loop_take COIL_DEBUG e node s hs (s.order.length - 1) (s.order.length + 1)
      (by rw [hso]; simp) (by rw [hso]; simp)
    rw [hso] at this
    simp only [List.length_cons, Nat.add_sub_cancel] at this ⊢
    rw [this, List.take_of_length_le (by simp)]

theorem find_item_split (order : List StructItem) (key : List Char) (index : Nat)
    (h : find_item order key = some index) :
    ∃ l1 item l2, order = l1 ++ item :: l2 ∧ item.key = key ∧ l1.length = index ∧
      order.eraseIdx index = l1 ++ l2 := by
  induction order generalizing index with
  | nil => simp [find_item] at h
  | cons a rest ih =>
    simp only [find_item] at h
    split at h
    · rename_i hk
      cases h
      exact ⟨[], a, rest, rfl, hk, rfl, rfl⟩
    · cases hr : find_item rest key with
      | none => rw [hr] at h; simp at h
      | some j =>
        rw [hr] at h
        simp only [Option.map_some', Option.some.injEq] at h
        obtain ⟨l1, item, l2, hsplit, hk, hlen, herase⟩ := ih j hr
        refine ⟨a :: l1, item, l2, by rw [hsplit]; rfl, hk, by rw [← h]; simp [hlen], ?_⟩
        rw [← h]
        simp [herase]

/-- C21 (failing input): after `coil_struct_mark_path_deleted(root, "a.k")`
has marked `k` deleted in the struct at `@root.a`, which has no entries and no
dependencies, marking the same key again with either function sets no error
and changes the version of the struct. -/
theorem mark_deleted_twice_accepted :
    marked_scenario.result.map (fun r => r.2) = some none ∧
    ((marked_scenario.engine.structs[1]?).map
      (fun s => (s.size, s.dependencies, table_lookup s.key_table ['k'], s.version)))
      = some (0, [], some none, 1) ∧
    ((coil_struct_mark_path_deleted engine_calls zero_frame marked_scenario.engine 0
        ['a', '.', 'k']).result.map
      (fun r => (r.2, (r.1.structs[1]?).map (fun s => s.version)))) = some (none, some 2) ∧
    ((coil_struct_mark_key_deleted false marked_scenario.engine 1 ['k']).result.map
      (fun r => (r.2, (r.1.structs[1]?).map (fun s => s.version)))) = some (none, some 2) :=
  ⟨rfl, rfl, rfl, rfl⟩

/-- C29 (failing input): `b` extends `a`, which defines `x`, and does not
define `x` itself; the first `coil_struct_get_key_value(b, "x", FALSE)`
expands `b`, so that `b` holds `x`, but returns NULL without an error; only a
second call returns the value. -/
theorem get_key_value_misses_inherited :
    extends_scenario.result.map (fun r => r.2) = some none ∧
    ((extends_scenario.engine.structs[2]?).map
      (fun s => (s.is_prototype, s.expanded, s.dependencies, table_lookup s.key_table ['x'])))
      = some (false, false, [Value.struct 1], none) ∧
    ((extends_scenario.engine.structs[1]?).map (fun s => table_lookup s.key_table ['x']))
      = some (some (some (Value.int 1))) ∧
    ((coil_struct_get_key_value engine_calls extends_scenario.engine 2 ['x'] false).result.map
      (fun r => (r.2, (r.1.structs[2]?).map
        (fun s => (s.expanded, table_lookup s.key_table ['x'])))))
      = some ((none, none), some (true, some (some (Value.int 1)))) ∧
    (((coil_struct_get_key_value engine_calls extends_scenario.engine 2 ['x'] false).bind
      (fun e1 _ => coil_struct_get_key_value engine_calls e1 2 ['x'] false)).result.map
      (fun r => r.2)) = some (some (Value.int 1), none) :=
  ⟨rfl, rfl, rfl, rfl, rfl⟩

/-- C30 (failing input): the root is expanded and its child `b` extends `a`,
which defines `x`.  `coil_struct_get_path_value(root, "b.x", FALSE)` does not
return: it reaches `coil_struct_is_deleted_path`, which takes the `GValue` at
`@root.b` for a struct.  With the absolute path `@root.b.x` the call returns
NULL and leaves `b` unexpanded. -/
theorem get_path_value_does_not_expand_child :
    ((extends_scenario.engine.structs[0]?).map (fun s => s.expanded)) = some true ∧
    coil_struct_get_path_value engine_calls zero_frame extends_scenario.engine 0
      ['b', '.', 'x'] false = Run.undefined ∧
    ((coil_struct_get_path_value engine_calls zero_frame extends_scenario.engine 0
        ['@', 'r', 'o', 'o', 't', '.', 'b', '.', 'x'] false).result.map
      (fun r => (r.2, (r.1.structs[2]?).map (fun s => s.expanded))))
      = some ((none, none), some false) :=
  ⟨rfl, rfl, rfl⟩

theorem struct_expand_success (X : Calls) (e : Engine) (self : Nat) (s : CoilStruct)
    (visited : List Value) (e1 : Engine) (r : Bool × Option CoilError × List Value)
    (hs : e.structs[self]? = some s) (hx : s.expanded = false)
    (hrun : _struct_expand X e self visited = Run.done e1 r) (hok : r.1 = true) :
    ∃ s1, e1.structs[self]? = some s1 ∧ s1.expanded = true ∧
      (s1.remember_deps = false → s1.dependencies = []) := by
  unfold _struct_expand at hrun
  simp only [hs, hx, Bool.false_eq_true, if_false] at hrun
  split at hrun
  · cases hrun; simp at hok
  · split at hrun
    · cases hrun; simp at hok
    · revert hrun
      generalize (expand_dependencies X self _ _ visited) = loop
      intro hrun
      cases loop with
      | done e2 r2 =>
        simp only [Run.bind] at hrun
        cases hs2 : e2.structs[self]? with
        | none => rw [hs2] at hrun; cases hrun
        | some s2 =>
          rw [hs2] at hrun
          simp only at hrun
          split at hrun
          · cases hrun
            refine ⟨_, set_struct_self e2 self _ (struct_lt_of_some e2 self s2 hs2), rfl, ?_⟩
            intro hr
            simp only at hr
            simp only [hr, Bool.false_eq_true, if_false]
          · rename_i hr2
            cases hrun
            exact absurd hok hr2
      | abort => cases hrun
      | undefined => cases hrun
      | diverge => cases hrun

theorem expand_struct_success (X : Calls) (e : Engine) (self : Nat) (s : CoilStruct)
    (visited : Option (List Value)) (e1 : Engine) (r : Bool × Option CoilError × List Value)
    (hs : e.structs[self]? = some s) (hx : s.expanded = false)
    (hrun : coil_expand_struct X e self visited = Run.done e1 r) (hok : r.1 = true) :
    ∃ s1, e1.structs[self]? = some s1 ∧ s1.expanded = true ∧
      (s1.remember_deps = false → s1.dependencies = []) := by
  unfold coil_expand_struct at hrun
  simp only [hs, hx, Bool.false_eq_true, if_false] at hrun
  split at hrun
  · cases hrun; simp at hok
  · cases hrun2 : _struct_expand X e self (visited.getD [] ++ [Value.struct self]) with
    | done e2 r2 =>
      rw [hrun2] at hrun
      simp only [Run.bind] at hrun
      split at hrun
      · rename_i hr2
        obtain ⟨s2, hs2, hx2, hd2⟩ := struct_expand_success X e self s _ e2 r2 hs hx hrun2 hr2
        rw [hs2] at hrun
        cases hrun
        exact ⟨_, set_struct_self e2 self _ (struct_lt_of_some e2 self s2 hs2), rfl, hd2⟩
      · rename_i hr2
        cases hrun
        exact absurd hok hr2
    | abort => rw [hrun2] at hrun; cases hrun
    | undefined => rw [hrun2] at hrun; cases hrun
    | diverge => rw [hrun2] at hrun; cases hrun

/-- C28: for a struct whose expanded flag is set, `coil_struct_expand` and
`coil_struct_get_key_value` without `expand_value` return and leave every
object as it was; and a struct that `coil_struct_expand` has expanded with
success is marked expanded and, unless it has `remember_deps`, has no
dependencies left. -/
theorem expansion_memoised (X : Calls) (e : Engine) (self : Nat) (s : CoilStruct)
    (hs : e.structs[self]? = some s) (hx : s.expanded = true) :
    coil_expand_struct X e self none = Run.done e (true, none, []) ∧
    (∀ k, ∃ r, coil_struct_get_key_value X e self k false = Run.done e r) ∧
    (∀ (e0 : Engine) (self0 : Nat) (s0 : CoilStruct) (e1 : Engine)
      (r : Bool × Option CoilError × List Value),
      e0.structs[self0]? = some s0 → s0.expanded = false →
      coil_expand_struct X e0 self0 none = Run.done e1 r → r.1 = true →
      ∃ s1, e1.structs[self0]? = some s1 ∧ s1.expanded = true ∧
        (s1.remember_deps = false → s1.dependencies = [])) := by
  refine ⟨?_, ?_, ?_⟩
  · unfold coil_expand_struct
    simp only [hs, hx, if_true, Option.getD_none]
  · intro k
    unfold coil_struct_get_key_value
    simp only [hs, hx, if_true, Bool.false_eq_true, if_false]
    split
    · exact ⟨_, rfl⟩
    · split
      · exact ⟨_, rfl⟩
      · exact ⟨_, rfl⟩
  · intro e0 self0 s0 e1 r hs0 hx0 hrun hok
    exact expand_struct_success X e0 self0 s0 none e1 r hs0 hx0 hrun hok

theorem expansion_memoised_witness :
    nested_engine.structs[1]? = some nested_struct ∧
    coil_expand_struct engine_calls nested_engine 1 none = Run.done nested_engine (true, none, []) :=
  ⟨rfl, (expansion_memoised engine_calls nested_engine 1 nested_struct rfl rfl).1⟩

theorem extend_finish_connects (X : Calls) (e : Engine) (self parent : Nat) (s ps : CoilStruct)
    (hs : e.structs[self]? = some s) (hp : e.structs[parent]? = some ps)
    (hne : self ≠ parent) (halways : s.always_expand = false) :
    ∃ e1 s1, extend_finish X e self parent = Run.done e1 none ∧
      e1.structs[self]? = some s1 ∧
      s1.dependencies = Value.struct parent :: s.dependencies ∧ s1.expanded = false ∧
      s1.order = s.order ∧ s1.key_table = s.key_table := by
  have hlt := struct_lt_of_some e self s hs
  generalize hs1def : ({ s with
      dependencies := Value.struct parent :: s.dependencies
      expand_ptr := s.expand_ptr.map (fun i => i + 1)
      version := guint_succ s.version
      expanded := false } : CoilStruct) = s1
  have hs1 : (e.set_struct self s1).structs[self]? = some s1 := set_struct_self e self s1 hlt
  have hp1 : (e.set_struct self s1).structs[parent]? = some ps := by
    rw [set_struct_ne e self parent s1 (fun h => hne h.symm)]; exact hp
  have ha1 : s1.always_expand = false := by rw [← hs1def]; exact halways
  have hfin : ∀ ps2 : CoilStruct,
      (((e.set_struct self s1).set_struct parent ps2).structs[self]? = some s1) := by
    intro ps2
    rw [set_struct_ne _ parent self ps2 hne]; exact hs1
  unfold extend_finish coil_struct_add_dependency
  cases hpp : ps.is_prototype
  · simp only [hs, Run.bind, hs1def, hs1, ha1, Bool.false_eq_true, if_false,
      struct_connect_expand_notify, hp1, hpp]
    exact ⟨_, s1, rfl, hfin _, by rw [← hs1def], by rw [← hs1def], by rw [← hs1def],
      by rw [← hs1def]⟩
  · simp only [hs, Run.bind, hs1def, hs1, ha1, Bool.false_eq_true, if_false,
      struct_connect_expand_notify, hp1, hpp, if_true]
    exact ⟨_, s1, rfl, hfin _, by rw [← hs1def], by rw [← hs1def], by rw [← hs1def],
      by rw [← hs1def]⟩

theorem extend_normal_form (X : Calls) (e : Engine) (self parent : Nat) (s ps : CoilStruct)
    (above below : Bool) (root1 root2 : Nat)
    (hs : e.structs[self]? = some s) (hp : e.structs[parent]? = some ps)
    (hguard : (X.COIL_DEBUG && s.is_prototype) = false)
    (hfull : (!ps.is_prototype && coil_struct_is_empty ps) = false)
    (habove : coil_struct_is_ancestor e parent self = Run.done e above)
    (hbelow : coil_struct_is_descendent e parent self = Run.done e below)
    (hr1 : coil_struct_get_root e self = Run.done e root1)
    (hr2 : coil_struct_get_root e parent = Run.done e root2) :
    coil_struct_extend X e self parent =
      if self = parent then Run.done e (some CoilError.COIL_ERROR_STRUCT)
      else if coil_struct_is_root s = true then Run.done e (some CoilError.COIL_ERROR_STRUCT)
      else if coil_struct_is_root ps = true then Run.done e (some CoilError.COIL_ERROR_STRUCT)
      else if above = true then Run.done e (some CoilError.COIL_ERROR_STRUCT)
      else if below = true then Run.done e (some CoilError.COIL_ERROR_STRUCT)
      else if root1 ≠ root2 then Run.done e (some CoilError.COIL_ERROR_STRUCT)
      else if coil_struct_has_dependency s (Value.struct parent) = true then
        Run.done e (some CoilError.COIL_ERROR_STRUCT)
      else if coil_struct_is_empty ps = true then Run.done e none
      else extend_finish X e self parent := by
  unfold coil_struct_extend
  simp only [hs, hp, hguard, hfull, Bool.false_eq_true, if_false, habove, hbelow, hr1, hr2,
    Run.bind]

/-- The checks of `coil_struct_extend` past its first return: for a parent
that is a prototype or is not empty (and a `self` that passes the guard of a
debug build), `coil_struct_extend` sets a
STRUCT error and changes nothing when parent is self, self or parent is a
root, parent is an ancestor or a descendent of self, the roots differ, or
parent is a dependency of self already; otherwise a parent that is empty is
not added, and a parent that is not empty is put at the head of the
dependencies of self, which is marked unexpanded. -/
theorem extend_checks (X : Calls) (e : Engine) (self parent : Nat) (s ps : CoilStruct)
    (above below : Bool) (root1 root2 : Nat)
    (hs : e.structs[self]? = some s) (hp : e.structs[parent]? = some ps)
    (hguard : (X.COIL_DEBUG && s.is_prototype) = false)
    (hfull : (!ps.is_prototype && coil_struct_is_empty ps) = false)
    (habove : coil_struct_is_ancestor e parent self = Run.done e above)
    (hbelow : coil_struct_is_descendent e parent self = Run.done e below)
    (hr1 : coil_struct_get_root e self = Run.done e root1)
    (hr2 : coil_struct_get_root e parent = Run.done e root2) :
    ((self = parent ∨ coil_struct_is_root s = true ∨ coil_struct_is_root ps = true ∨
        above = true ∨ below = true ∨ root1 ≠ root2 ∨
        coil_struct_has_dependency s (Value.struct parent) = true) →
      coil_struct_extend X e self parent = Run.done e (some CoilError.COIL_ERROR_STRUCT)) ∧
    (¬ (self = parent ∨ coil_struct_is_root s = true ∨ coil_struct_is_root ps = true ∨
        above = true ∨ below = true ∨ root1 ≠ root2 ∨
        coil_struct_has_dependency s (Value.struct parent) = true) →
      (coil_struct_is_empty ps = true → coil_struct_extend X e self parent = Run.done e none) ∧
      (coil_struct_is_empty ps = false → s.always_expand = false →
        ∃ e1 s1, coil_struct_extend X e self parent = Run.done e1 none ∧
          e1.structs[self]? = some s1 ∧
          s1.dependencies = Value.struct parent :: s.dependencies ∧ s1.expanded = false)) := by
  have hnf := extend_normal_form X e self parent s ps above below root1 root2 hs hp hguard hfull
    habove hbelow hr1 hr2
  constructor
  · intro h
    rw [hnf]
    split_ifs <;> first | rfl | (exfalso; tauto)
  · intro h
    simp only [not_or] at h
    obtain ⟨h1, h2, h3, h4, h5, h6, h7⟩ := h
    rw [hnf, if_neg h1, if_neg h2, if_neg h3, if_neg h4, if_neg h5, if_neg h6, if_neg h7]
    constructor
    · intro hempty
      rw [if_pos hempty]
    · intro hempty halways
      rw [if_neg (by rw [hempty]; simp)]
      obtain ⟨e1, s1, hrun, hs1, hd, hx, _, _⟩ :=
        extend_finish_connects X e self parent s ps hs hp h1 halways
      exact ⟨e1, s1, hrun, hs1, hd, hx⟩

theorem extend_checks_witness :
    coil_struct_extend engine_calls nested_engine 1 0 =
      Run.done nested_engine (some CoilError.COIL_ERROR_STRUCT) :=
  (extend_checks engine_calls nested_engine 1 0 nested_struct
    ((nested_engine.structs[0]?).getD nested_struct) true false 0 0
    (by rfl) (by rfl) (by rfl) (by rfl) (by rfl) (by rfl) (by rfl) (by rfl)).1
    (Or.inr (Or.inr (Or.inl (by rfl))))

/-- C22 (failing input): `coil_struct_extend(a, a)` for the struct `a` that
has no entries and no dependencies sets no error, although the parent is
`self`; and `coil_struct_extend(c, p)` for the prototype `p` at `@root.a`,
which `b` extends already, and which is neither `c`, nor a root, nor above or
below `c`, nor a dependency of `c`, does not add `p` to the dependencies of
`c`: both calls return without an error and without a change. -/
theorem extend_of_empty_parent_is_silent :
    coil_struct_extend engine_calls marked_scenario.engine 1 1
      = Run.done marked_scenario.engine none ∧
    ((siblings_scenario.engine.structs.map
      (fun s => (s.path, s.is_prototype, s.size, s.dependencies)))
      = [(['@', 'r', 'o', 'o', 't'], false, 3, []),
         (['@', 'r', 'o', 'o', 't', '.', 'b'], false, 1, [Value.struct 3]),
         (['@', 'r', 'o', 'o', 't', '.', 'c'], false, 1, []),
         (['@', 'r', 'o', 'o', 't', '.', 'a'], true, 0, [])]) ∧
    coil_struct_extend engine_calls siblings_scenario.engine 2 3
      = Run.done siblings_scenario.engine none :=
  ⟨rfl, rfl, rfl⟩

theorem calls_debug (dbg : Bool)
    (ev : Engine → Value → List Value → Run (Option Value × Option CoilError × List Value))
    (fuel : Nat) : (calls dbg ev fuel).COIL_DEBUG = dbg := by
  cases fuel <;> rfl

theorem nul_text_append (ks : List (List Char)) (k : List Char) :
    nul_text (ks ++ [k]) = nul_text ks ++ NUL :: k := by
  induction ks with
  | nil => simp [nul_text]
  | cons a ks ih => simp [nul_text, ih]

theorem nul_not_mem_keys_text (ks : List (List Char)) (h : ∀ k ∈ ks, NUL ∉ k) :
    NUL ∉ keys_text ks := by
  induction ks with
  | nil => simp [keys_text]
  | cons a ks ih =>
    have ha : NUL ∉ a := h a (by simp)
    have hks : NUL ∉ keys_text ks := ih (fun k hk => h k (by simp [hk]))
    have hd : NUL ≠ COIL_PATH_DELIM := by decide
    simp [keys_text, ha, hks, hd]

theorem keys_text_length_take (ks : List (List Char)) (i : Nat) (hi : i < ks.length) :
    (keys_text (ks.take i)).length < (keys_text ks).length := by
  induction ks generalizing i with
  | nil => simp at hi
  | cons a ks ih =>
    cases i with
    | zero => simp [keys_text]
    | succ i =>
      have := ih i (by simpa using hi)
      simp [keys_text]
      omega

theorem create_containers_find_pop (is_prototype : Bool) (e : Engine) (self : Nat)
    (s : CoilStruct) (hs : e.structs[self]? = some s) (pre k rest : List Char)
    (hpre : NUL ∉ pre) (hlen : COIL_ROOT_PATH_LEN ≤ pre.length)
    (hk : COIL_PATH_DELIM ∉ k) (hkn : NUL ∉ k)
    (habsent : path_table_lookup e s (pre ++ COIL_PATH_DELIM :: k) = none)
    (m : Nat) (val : Option (Option Value)) (fuel : Nat) :
    create_containers_find is_prototype (fuel + 1) e self
        ⟨pre ++ COIL_PATH_DELIM :: (k ++ NUL :: rest), (pre ++ COIL_PATH_DELIM :: k).length, m,
          val⟩ =
      create_containers_find is_prototype fuel e self
        ⟨pre ++ NUL :: (k ++ NUL :: rest), pre.length, m + 1, some none⟩ := by
  have hd : NUL ≠ COIL_PATH_DELIM := by decide
  have hcstr : cstr (pre ++ COIL_PATH_DELIM :: (k ++ NUL :: rest)) = pre ++ COIL_PATH_DELIM :: k := by
    have : pre ++ COIL_PATH_DELIM :: (k ++ NUL :: rest) =
        (pre ++ COIL_PATH_DELIM :: k) ++ NUL :: rest := by simp
    rw [this]
    exact cstr_append_nul rest (by simp [hpre, hkn, hd])
  have hset : (pre ++ COIL_PATH_DELIM :: (k ++ NUL :: rest)).set pre.length NUL =
      pre ++ NUL :: (k ++ NUL :: rest) := by
    simp [List.set_append]
  rw [create_containers_find]
  rw [if_neg (by simp; omega)]
  simp only [hs, hcstr, habsent, strrchr_split pre k COIL_PATH_DELIM hk, hset]

theorem create_containers_find_pops (is_prototype : Bool) (e : Engine) (self : Nat)
    (s : CoilStruct) (hs : e.structs[self]? = some s) (base : List Char)
    (hbase : NUL ∉ base) (hlen : COIL_ROOT_PATH_LEN ≤ base.length) (post : List (List Char)) :
    ∀ (rest : List Char) (m : Nat) (val : Option (Option Value)) (fuel : Nat),
      (∀ k ∈ post, COIL_PATH_DELIM ∉ k ∧ NUL ∉ k) →
      (∀ i, 0 < i → i ≤ post.length →
        path_table_lookup e s (base ++ keys_text (post.take i)) = none) →
      create_containers_find is_prototype (fuel + post.length) e self
          ⟨base ++ keys_text post ++ NUL :: rest, (base ++ keys_text post).length, m, val⟩ =
        create_containers_find is_prototype fuel e self
          ⟨base ++ nul_text post ++ NUL :: rest, base.length, m + post.length,
            if post = [] then val else some none⟩ := by
  induction post using List.reverseRecOn with
  | nil => intro rest m val fuel _ _; simp [keys_text, nul_text]
  | append_singleton init k ih =>
    intro rest m val fuel hkeys habsent
    have hk := hkeys k (by simp)
    have hinit : ∀ a ∈ init, COIL_PATH_DELIM ∉ a ∧ NUL ∉ a := fun a ha => hkeys a (by simp [ha])
    have hpre : NUL ∉ base ++ keys_text init := by
      have := nul_not_mem_keys_text init (fun a ha => (hinit a ha).2)
      simp [hbase, this]
    have hfull : path_table_lookup e s ((base ++ keys_text init) ++ COIL_PATH_DELIM :: k) = none := by
      have := habsent (init ++ [k]).length (by simp) (le_refl _)
      rw [List.take_length, keys_text_append] at this
      simpa using this
    have hstep := create_containers_find_pop is_prototype e self s hs (base ++ keys_text init) k
      rest hpre (by simp; omega) hk.1 hk.2 hfull m val (fuel + init.length)
    have hb1 : base ++ keys_text (init ++ [k]) ++ NUL :: rest =
        (base ++ keys_text init) ++ COIL_PATH_DELIM :: (k ++ NUL :: rest) := by
      rw [keys_text_append]; simp
    have hb2 : base ++ keys_text (init ++ [k]) = (base ++ keys_text init) ++ COIL_PATH_DELIM :: k := by
      rw [keys_text_append]; simp
    have hf : fuel + (init ++ [k]).length = fuel + init.length + 1 := by simp; omega
    rw [hb1, hb2, hf, hstep]
    have hih := ih (k ++ NUL :: rest) (m + 1) (some none) fuel hinit (by
      intro i h0 hi
      have := habsent i h0 (by simp; omega)
      rwa [List.take_append_of_le_length hi] at this)
    have hb3 : base ++ keys_text init ++ NUL :: (k ++ NUL :: rest) =
        (base ++ keys_text init) ++ NUL :: (k ++ NUL :: rest) := rfl
    have hb4 : (base ++ keys_text init).length = (base ++ keys_text init).length := rfl
    rw [hih]
    have hb5 : base ++ nul_text (init ++ [k]) ++ NUL :: rest =
        base ++ nul_text init ++ NUL :: (k ++ NUL :: rest) := by
      rw [nul_text_append]; simp
    rw [hb5]
    have hm : m + 1 + init.length = m + (init ++ [k]).length := by simp; omega
    rw [hm]
    simp

theorem list_set_same {α : Type} (l : List α) (i : Nat) (a : α) (h : l[i]? = some a) :
    l.set i a = l := by
  apply List.ext_getElem?
  intro j
  by_cases hij : i = j
  · subst hij
    have hlt : i < l.length := by
      by_contra hlt
      rw [List.getElem?_eq_none (by omega)] at h
      exact absurd h (by simp)
    rw [List.getElem?_set, if_pos rfl, if_pos hlt, h]
  · rw [List.getElem?_set_ne hij]

theorem set_struct_same (e : Engine) (i : Nat) (s : CoilStruct) (h : e.structs[i]? = some s) :
    e.set_struct i s = e := by
  cases e with
  | mk structs tables links includes =>
    simp only [Engine.set_struct, Engine.mk.injEq, and_true]
    exact list_set_same structs i s h

/-- `set_value_attach` for a struct that is below `self` already, under the
key and at the path it is set at, and has no entries: nothing changes. -/
theorem set_value_attach_fresh (e : Engine) (self next : Nat) (key path : List Char)
    (s ns : CoilStruct) (hs : e.structs[self]? = some s) (hn : e.structs[next]? = some ns)
    (hc : ns.container = some self) (hname : ns.name = key) (hpath : ns.path = path)
    (hsize : ns.size = 0) :
    set_value_attach e self key path (Value.struct next) = Run.done e () := by
  have hanc : coil_struct_is_descendent e next self = Run.done e true := by
    simp only [coil_struct_is_descendent, coil_struct_is_ancestor, is_ancestor_loop, hn, hc,
      if_true]
  have heta : ({ ns with
      path_table := ns.path_table
      container := some self
      name := key
      path := path } : CoilStruct) = ns := by
    cases ns
    simp only at hc hname hpath
    subst hc hname hpath
    rfl
  unfold set_value_attach
  simp only [hanc, Run.bind, hs, hn, if_true]
  rw [heta, set_struct_same e next ns hn]
  simp only [struct_rebuild_path_data, hn, hsize, if_true]

/-- What `struct_set_value_internal` leaves of `self` when it sets, at a path
without a value, a struct without entries that is below `self` already. -/
theorem set_value_internal_fresh (X : Calls) (e : Engine) (self next : Nat) (s ns : CoilStruct)
    (key path : List Char) (cast : Bool)
    (hs : e.structs[self]? = some s) (hh : s.modify_handlers = [])
    (hnone : path_table_lookup e s path = none)
    (hn : e.structs[next]? = some ns) (hne : self ≠ next)
    (hc : ns.container = some self) (hname : ns.name = key) (hpath : ns.path = path)
    (hsize : ns.size = 0) (hcast : (cast && s.is_prototype) = false) :
    struct_set_value_internal X e self key path (Value.struct next) cast =
      Run.done (((e.set_struct self
            { s with order := ⟨key, path, some (Value.struct next)⟩ :: s.order }).set_table
          s.path_table (table_insert (e.table s.path_table) path (Value.struct next))).set_struct
            self
        { s with
          order := ⟨key, path, some (Value.struct next)⟩ :: s.order
          key_table := table_insert s.key_table key (some (Value.struct next))
          version := guint_succ s.version
          size := guint_succ s.size }) none := by
  have hlt := struct_lt_of_some e self s hs
  unfold struct_set_value_internal
  rw [emit_modify_no_handlers X e self s hs hh]
  simp only [Run.bind, set_value_order, hs, hnone]
  rw [set_value_attach_fresh _ self next key path _ ns (set_struct_self e self _ hlt)
    (by rw [set_struct_ne _ _ _ _ (Ne.symm hne)]; exact hn) hc hname hpath hsize]
  simp only [Run.bind, set_struct_self e self _ hlt, hcast, Bool.false_eq_true, if_false]
  rfl

theorem table_set_table_self (e : Engine) (t : Nat) (tbl : List (List Char × Value))
    (h : t < e.tables.length) : (e.set_table t tbl).table t = tbl := by
  simp [Engine.set_table, Engine.table, List.getElem?_set, h]

theorem table_set_table_ne (e : Engine) (t u : Nat) (tbl : List (List Char × Value))
    (h : u ≠ t) : (e.set_table t tbl).table u = e.table u := by
  simp only [Engine.set_table, Engine.table]
  rw [List.getElem?_set_ne (fun h1 => h h1.symm)]

theorem table_set_struct (e : Engine) (i : Nat) (s : CoilStruct) (t : Nat) :
    (e.set_struct i s).table t = e.table t := rfl

theorem cstr_nul_head (k tail : List Char) (hk : NUL ∉ k) (htail : tail.head? = some NUL) :
    cstr (k ++ tail) = k := by
  cases tail with
  | nil => simp at htail
  | cons a tail =>
    have : a = NUL := by simpa using htail
    rw [this]
    exact cstr_append_nul tail hk

/-- One turn of the second loop of `create_containers` below a container
without handlers of `modify`, at a path that has no value: the struct made
and what is changed for it. -/
theorem create_containers_add_step (X : Calls) (ip : Bool) (e : Engine) (c : Nat)
    (cs : CoilStruct) (base k tail : List Char) (missing : Nat)
    (hc : e.structs[c]? = some cs) (hh : cs.modify_handlers = []) (hpath : cs.path = base)
    (hT : cs.path_table < e.tables.length)
    (hbase : NUL ∉ base) (hk : NUL ∉ k) (htail : tail.head? = some NUL)
    (hlen : base.length + (k.length + 1) ≤ COIL_PATH_LEN)
    (habsent : path_table_lookup e cs (base ++ COIL_PATH_DELIM :: k) = none) :
    ∃ e2 : Engine,
      create_containers_add X ip (missing + 1) e (base ++ NUL :: (k ++ tail)) base.length
          (some c) =
        create_containers_add X ip missing e2 (base ++ COIL_PATH_DELIM :: (k ++ tail))
          (base ++ COIL_PATH_DELIM :: k).length (some e.structs.length) ∧
      e2.structs.length = e.structs.length + 1 ∧
      e2.tables.length = e.tables.length ∧
      (∀ i, i ≠ c → i < e.structs.length → e2.structs[i]? = e.structs[i]?) ∧
      e2.structs[c]? = some
        { cs with
          order := ⟨k, base ++ COIL_PATH_DELIM :: k, some (Value.struct e.structs.length)⟩ ::
            cs.order
          key_table := table_insert cs.key_table k (some (Value.struct e.structs.length))
          version := guint_succ cs.version
          size := guint_succ cs.size } ∧
      e2.structs[e.structs.length]? = some
        { container := some c, expanded := true, is_prototype := ip,
          always_expand := false, remember_deps := false, key_table := [],
          path_table := cs.path_table, name := k, path := base ++ COIL_PATH_DELIM :: k,
          size := 0, version := 0, order := [], dependencies := [], expand_ptr := none,
          expand_lock := false, modify_handlers := [], prototype_handlers := [] } ∧
      e2.table cs.path_table =
        table_insert (e.table cs.path_table) (base ++ COIL_PATH_DELIM :: k)
          (Value.struct e.structs.length) ∧
      (∀ t, t ≠ cs.path_table → e2.table t = e.table t) := by
  have hd : NUL ≠ COIL_PATH_DELIM := by decide
  have hclt := struct_lt_of_some e c cs hc
  have hne : c ≠ e.structs.length := by omega
  have hset : (base ++ NUL :: (k ++ tail)).set base.length COIL_PATH_DELIM =
      base ++ COIL_PATH_DELIM :: (k ++ tail) := by simp [List.set_append]
  have hname : cstr ((base ++ COIL_PATH_DELIM :: (k ++ tail)).drop (base.length + 1)) = k := by
    have : (base ++ COIL_PATH_DELIM :: (k ++ tail)).drop (base.length + 1) = k ++ tail := by
      simp [List.drop_append_eq_append_drop]
    rw [this, cstr_nul_head k tail hk htail]
  have hcp : cstr (base ++ COIL_PATH_DELIM :: (k ++ tail)) = base ++ COIL_PATH_DELIM :: k := by
    have h1 : base ++ COIL_PATH_DELIM :: (k ++ tail) = (base ++ COIL_PATH_DELIM :: k) ++ tail := by
      simp
    rw [h1]
    exact cstr_nul_head _ tail (by simp [hbase, hk, hd]) htail
  have hbuild : coil_path_build (some cs.path) [k] =
      Built.string (cs.path ++ keys_text [k]) := by
    simp only [coil_path_build, List.map_cons, List.map_nil, List.sum_cons, List.sum_nil]
    rw [if_pos (by rw [hpath]; omega)]
  generalize hfdef :
    ({ container := some c, expanded := true, is_prototype := ip,
       always_expand := false, remember_deps := false, key_table := [],
       path_table := cs.path_table, name := k, path := base ++ COIL_PATH_DELIM :: k,
       size := 0, version := 0, order := [], dependencies := [], expand_ptr := none,
       expand_lock := false, modify_handlers := [],
       prototype_handlers := [] } : CoilStruct) = fresh
  have hnew : coil_struct_new e (some c) k (some (base ++ COIL_PATH_DELIM :: k)) ip =
      Run.done { e with structs := e.structs ++ [fresh] } e.structs.length := by
    simp only [coil_struct_new, hc, hbuild, Option.getD_some, hfdef]
  generalize he1def : ({ e with structs := e.structs ++ [fresh] } : Engine) = e1 at hnew
  have he1len : e1.structs.length = e.structs.length + 1 := by rw [← he1def]; simp
  have he1c : e1.structs[c]? = some cs := by
    rw [← he1def]; simp only; rw [List.getElem?_append_left hclt]; exact hc
  have he1n : e1.structs[e.structs.length]? = some fresh := by
    rw [← he1def]; simp
  have he1t : e1.tables = e.tables := by rw [← he1def]
  have he1old : ∀ i, i < e.structs.length → e1.structs[i]? = e.structs[i]? := by
    intro i hi; rw [← he1def]; simp only; rw [List.getElem?_append_left hi]
  have hlook1 : path_table_lookup e1 cs (base ++ COIL_PATH_DELIM :: k) = none := by
    simpa [path_table_lookup, Engine.table, he1t] using habsent
  have hset1 := set_value_internal_fresh X e1 c e.structs.length cs fresh k
    (base ++ COIL_PATH_DELIM :: k) false he1c hh hlook1 he1n hne (by rw [← hfdef])
    (by rw [← hfdef]) (by rw [← hfdef]) (by rw [← hfdef]) rfl
  have htbl1 : e1.table cs.path_table = e.table cs.path_table := by
    simp only [Engine.table, he1t]
  rw [htbl1] at hset1
  generalize hcs1def : ({ cs with
      order := ⟨k, base ++ COIL_PATH_DELIM :: k, some (Value.struct e.structs.length)⟩ ::
        cs.order } : CoilStruct) = cs1 at hset1
  generalize hcs2def : ({ cs with
      order := ⟨k, base ++ COIL_PATH_DELIM :: k, some (Value.struct e.structs.length)⟩ ::
        cs.order
      key_table := table_insert cs.key_table k (some (Value.struct e.structs.length))
      version := guint_succ cs.version
      size := guint_succ cs.size } : CoilStruct) = cs2 at hset1
  have hkey : (base ++ COIL_PATH_DELIM :: k).length = base.length + 1 + k.length := by
    simp; omega
  have hlt1 : c < e1.structs.length := by omega
  refine ⟨((e1.set_struct c cs1).set_table cs.path_table
      (table_insert (e.table cs.path_table) (base ++ COIL_PATH_DELIM :: k)
        (Value.struct e.structs.length))).set_struct c cs2, ?_, ?_, ?_, ?_, ?_, ?_, ?_, ?_⟩
  · rw [create_containers_add, if_neg (by simp)]
    simp only [hset, hname, hcp, hnew, Run.bind, hset1, hkey]
  · simp [Engine.set_struct, Engine.set_table, he1len]
  · simp [Engine.set_struct, Engine.set_table, he1t]
  · intro i hic hi
    rw [set_struct_ne _ _ _ _ hic, set_table_table_structs, set_struct_ne _ _ _ _ hic,
      he1old i hi]
  · rw [set_struct_self _ _ _ (by simp [Engine.set_struct, Engine.set_table, he1len]; omega)]
  · rw [set_struct_ne _ _ _ _ (Ne.symm hne), set_table_table_structs,
      set_struct_ne _ _ _ _ (Ne.symm hne), he1n]
  · rw [table_set_struct, table_set_table_self _ _ _ (by
      simp only [Engine.set_struct]; rw [he1t]; exact hT)]
  · intro t ht
    rw [table_set_struct, table_set_table_ne _ _ _ _ ht, table_set_struct]
    simp only [Engine.table, he1t]

theorem entries_changed_refl (s : CoilStruct) : entries_changed s s := by
  cases s; rfl

theorem keys_text_ne_nil (ks : List (List Char)) (h : ks ≠ []) : keys_text ks ≠ [] := by
  cases ks with
  | nil => exact absurd rfl h
  | cons a ks => simp [keys_text]

theorem nul_text_tail_head (post : List (List Char)) (rest : List Char) :
    (nul_text post ++ NUL :: rest).head? = some NUL := by
  cases post <;> simp [nul_text]

theorem path_ne_longer (p : List Char) (ks : List (List Char)) (i : Nat) (h0 : 0 < i)
    (hi : i ≤ ks.length) : p ++ keys_text (ks.take i) ≠ p := by
  intro heq
  have hnil : keys_text (ks.take i) = [] := by simpa using heq
  refine keys_text_ne_nil _ ?_ hnil
  cases ks with
  | nil => simp at hi; omega
  | cons a ks =>
    cases i with
    | zero => omega
    | succ i => simp

/-- The second loop of `create_containers` below a container without handlers
of `modify`, along paths that have no value: a struct is made for each key, is
entered at its path, and nothing else changes but the entries of the
container. -/
theorem create_containers_add_chain (X : Calls) (ip : Bool) (post : List (List Char)) :
    ∀ (e : Engine) (c : Nat) (cs : CoilStruct) (base rest : List Char),
      e.structs[c]? = some cs → cs.modify_handlers = [] → cs.path = base →
      cs.path_table < e.tables.length → NUL ∉ base → (∀ k ∈ post, NUL ∉ k) →
      base.length + (keys_text post).length ≤ COIL_PATH_LEN →
      (∀ i, 0 < i → i ≤ post.length →
        path_table_lookup e cs (base ++ keys_text (post.take i)) = none) →
      ∃ e1 : Engine,
        create_containers_add X ip post.length e (base ++ nul_text post ++ NUL :: rest)
            base.length (some c) =
          Run.done e1 (some (if post = [] then c else e.structs.length + post.length - 1)) ∧
        e1.structs.length = e.structs.length + post.length ∧
        e1.tables.length = e.tables.length ∧
        (∀ i, i ≠ c → i < e.structs.length → e1.structs[i]? = e.structs[i]?) ∧
        (∃ cs1, e1.structs[c]? = some cs1 ∧ entries_changed cs cs1) ∧
        (∀ j, j < post.length → ∃ ns, e1.structs[e.structs.length + j]? = some ns ∧
          ns.is_prototype = ip ∧ ns.path = base ++ keys_text (post.take (j + 1)) ∧
          ns.path_table = cs.path_table ∧ ns.modify_handlers = [] ∧ ns.dependencies = [] ∧
          table_lookup (e1.table cs.path_table) (base ++ keys_text (post.take (j + 1))) =
            some (Value.struct (e.structs.length + j))) ∧
        (∀ p, (∀ j, j < post.length → p ≠ base ++ keys_text (post.take (j + 1))) →
          table_lookup (e1.table cs.path_table) p = table_lookup (e.table cs.path_table) p) ∧
        (∀ t, t ≠ cs.path_table → e1.table t = e.table t) := by
  induction post with
  | nil =>
    intro e c cs base rest hc _ _ _ _ _ _ _
    refine ⟨e, ?_, by simp, rfl, fun _ _ _ => rfl, ⟨cs, hc, entries_changed_refl cs⟩,
      fun j hj => absurd hj (by simp), fun _ _ => rfl, fun _ _ => rfl⟩
    simp [create_containers_add]
  | cons k post ih =>
    intro e c cs base rest hc hh hpath hT hbase hkeys hlen habsent
    have hd : NUL ≠ COIL_PATH_DELIM := by decide
    have hk : NUL ∉ k := hkeys k (by simp)
    have hclt := struct_lt_of_some e c cs hc
    have hlen1 : base.length + (k.length + 1) ≤ COIL_PATH_LEN := by
      simp only [keys_text, List.length_cons, List.length_append] at hlen; omega
    have hab0 : path_table_lookup e cs (base ++ COIL_PATH_DELIM :: k) = none := by
      have := habsent 1 (by omega) (by simp)
      simpa [keys_text] using this
    obtain ⟨e2, hrun, h2len, h2tl, h2old, h2c, h2n, h2tbl, h2oth⟩ :=
      create_containers_add_step X ip e c cs base k (nul_text post ++ NUL :: rest) post.length
        hc hh hpath hT hbase hk (nul_text_tail_head post rest) hlen1 hab0
    have hbuf : base ++ nul_text (k :: post) ++ NUL :: rest =
        base ++ NUL :: (k ++ (nul_text post ++ NUL :: rest)) := by simp [nul_text]
    have hbuf2 : base ++ COIL_PATH_DELIM :: (k ++ (nul_text post ++ NUL :: rest)) =
        (base ++ COIL_PATH_DELIM :: k) ++ nul_text post ++ NUL :: rest := by simp
    obtain ⟨e1, hrun1, h1len, h1tl, h1old, ⟨ns0, h1c, h1ch⟩, h1new, h1tbl, h1oth⟩ :=
      ih e2 e.structs.length _ (base ++ COIL_PATH_DELIM :: k) rest h2n rfl rfl
        (by rw [h2tl]; exact hT) (by simp [hbase, hk, hd])
        (fun a ha => hkeys a (by simp [ha]))
        (by simp only [keys_text, List.length_cons, List.length_append] at hlen ⊢; omega)
        (by
          intro i h0 hi
          have h3 := habsent (i + 1) (by omega) (by simp; omega)
          simp only [path_table_lookup] at h3 ⊢
          rw [h2tbl, table_lookup_insert_ne]
          · simpa [keys_text] using h3
          · exact path_ne_longer _ post i h0 hi)
    simp only at h1new h1tbl h1oth
    refine ⟨e1, ?_, ?_, ?_, ?_, ?_, ?_, ?_, ?_⟩
    · rw [List.length_cons, hbuf, hrun, hbuf2, hrun1, h2len]
      congr 2
      by_cases hp : post = []
      · simp [hp]
      · have := List.length_pos.2 hp
        simp [hp]
    · rw [h1len, h2len, List.length_cons]; omega
    · rw [h1tl, h2tl]
    · intro i hic hi
      rw [h1old i (by omega) (by omega), h2old i hic hi]
    · have h3 : e1.structs[c]? = _ := (h1old c (by omega) (by omega)).trans h2c
      exact ⟨_, h3, rfl⟩
    · intro j hj
      cases j with
      | zero =>
        refine ⟨ns0, h1c, ?_, ?_, ?_, ?_, ?_, ?_⟩
        · rw [h1ch]
        · rw [h1ch]; simp [keys_text]
        · rw [h1ch]
        · rw [h1ch]
        · rw [h1ch]
        · have hp0 : base ++ keys_text ((k :: post).take (0 + 1)) =
              base ++ COIL_PATH_DELIM :: k := by simp [keys_text]
          rw [hp0, h1tbl, h2tbl]
          · simpa [keys_text] using table_lookup_insert_self _ _ _
          · intro j hj heq
            exact path_ne_longer _ post (j + 1) (by omega) (by omega) heq.symm
      | succ j =>
        obtain ⟨ns, hn1, hn2, hn3, hn4, hn5, hn6, hn7⟩ := h1new j (by simpa using hj)
        refine ⟨ns, ?_, hn2, ?_, hn4, hn5, hn6, ?_⟩
        · rw [← hn1, h2len]; congr 1; omega
        · rw [hn3]; simp [keys_text]
        · have : base ++ keys_text ((k :: post).take (j + 1 + 1)) =
              base ++ COIL_PATH_DELIM :: k ++ keys_text (post.take (j + 1)) := by
            simp [keys_text]
          rw [this, hn7, h2len]; congr 2; omega
    · intro p hp
      rw [h1tbl, h2tbl, table_lookup_insert_ne]
      · have := hp 0 (by simp)
        simpa [keys_text] using this
      · intro j hj
        have := hp (j + 1) (by simpa using hj)
        simpa [keys_text] using this
    · intro t ht
      rw [h1oth t ht, h2oth t ht]

theorem keys_text_length_ge (ks : List (List Char)) : ks.length ≤ (keys_text ks).length := by
  induction ks with
  | nil => simp [keys_text]
  | cons a ks ih => simp [keys_text]; omega

/-- `create_containers` for a path of which the part `base` is the root path,
or has a struct that needs no cast, and nothing exists below it: the structs
for the keys of `post` are made below that struct, and the last is
returned. -/
theorem create_containers_chain (X : Calls) (ip : Bool) (e : Engine) (self c : Nat)
    (s cs : CoilStruct) (base : List Char) (post : List (List Char))
    (hs : e.structs[self]? = some s) (hc : e.structs[c]? = some cs)
    (hh : cs.modify_handlers = []) (hpath : cs.path = base)
    (htable : cs.path_table = s.path_table) (hT : cs.path_table < e.tables.length)
    (hbase : NUL ∉ base) (hkeys : ∀ k ∈ post, COIL_PATH_DELIM ∉ k ∧ NUL ∉ k)
    (hpost : post ≠ []) (hlen : base.length + (keys_text post).length ≤ COIL_PATH_LEN)
    (habsent : ∀ i, 0 < i → i ≤ post.length →
      path_table_lookup e s (base ++ keys_text (post.take i)) = none)
    (hcase : (base = COIL_ROOT_PATH ∧ coil_struct_get_root e self = Run.done e c) ∨
      (COIL_ROOT_PATH_LEN < base.length ∧ path_table_lookup e s base = some (Value.struct c) ∧
        (!ip && cs.is_prototype) = false)) :
    ∃ e1 : Engine,
      create_containers X e self (base ++ keys_text post) ip =
        Run.done e1 (some (e.structs.length + post.length - 1), none) ∧
      chain_made ip e e1 c cs base post := by
  have hd : NUL ≠ COIL_PATH_DELIM := by decide
  have hge : COIL_ROOT_PATH_LEN ≤ base.length := by
    rcases hcase with ⟨h, _⟩ | ⟨h, _⟩
    · rw [h]; exact le_refl _
    · omega
  have hpos : 0 < post.length := List.length_pos.2 hpost
  have hkl := keys_text_length_ge post
  have hnotroot : COIL_PATH_IS_ROOT (base ++ keys_text post) = false := by
    simp only [COIL_PATH_IS_ROOT, beq_eq_false_iff_ne, ne_eq]
    intro h
    have := congrArg List.length h
    simp only [List.length_append] at this
    have h5 : COIL_ROOT_PATH.length = COIL_ROOT_PATH_LEN := rfl
    omega
  have hfuel : (base ++ keys_text post).length + 1 =
      (base.length + (keys_text post).length - post.length + 1) + post.length := by
    simp only [List.length_append]; omega
  have hpops := create_containers_find_pops ip e self s hs base hbase hge post [] 0 none
    (base.length + (keys_text post).length - post.length + 1) hkeys habsent
  obtain ⟨e1, hrun, hmade⟩ := create_containers_add_chain X ip post e c cs base [] hc hh hpath hT
    hbase (fun k hk => (hkeys k hk).2) hlen (by
      intro i h0 hi
      have := habsent i h0 hi
      simpa [path_table_lookup, htable] using this)
  refine ⟨e1, ?_, hmade⟩
  unfold create_containers
  rw [if_neg (by simp [hnotroot]), if_neg (by
    simp only [List.length_append, COIL_PATH_BUFLEN]; omega)]
  have hbuf : base ++ keys_text post ++ [NUL] = base ++ keys_text post ++ NUL :: [] := rfl
  rw [hfuel, hbuf, hpops, if_neg hpost, Nat.zero_add]
  have hcstr : cstr (base ++ nul_text post ++ [NUL]) = base := by
    have hh2 := nul_text_tail_head post []
    rw [List.append_assoc]
    exact cstr_nul_head base _ hbase hh2
  rcases hcase with ⟨hroot, hgr⟩ | ⟨hlong, hlook, hnocast⟩
  · rw [create_containers_find, if_pos (by rw [hroot]; exact le_refl _)]
    simp only [Run.bind]
    rw [if_pos (by rw [hroot]; rfl)]
    simp only [hgr, Run.bind, hrun, if_neg hpost]
  · rw [create_containers_find, if_neg (show ¬ base.length ≤ COIL_ROOT_PATH_LEN by omega)]
    simp only [hs, hcstr, hlook, Value.holds_struct, hc, hnocast, Bool.false_eq_true, if_false,
      Run.bind]
    rw [if_neg (show ¬ base.length = COIL_ROOT_PATH_LEN by omega)]
    simp only [Value.holds_struct, Run.bind, hrun, if_neg hpost]

theorem is_key_char_ne_nul (c : Char) (h : is_key_char c = true) : c ≠ NUL := by
  rintro rfl
  exact absurd h (by decide)

theorem is_key_start_char (c : Char) (h : is_key_start c = true) : is_key_char c = true := by
  simp only [is_key_start, is_key_char, Bool.or_eq_true, Bool.and_eq_true] at h ⊢
  rcases h with (h | h) | h
  · exact Or.inl (Or.inl (Or.inl (Or.inl h)))
  · exact Or.inl (Or.inl (Or.inl (Or.inr h)))
  · exact Or.inl (Or.inr h)

theorem is_key_chars (k : List Char) (hk : is_key k) : ∀ x ∈ k, is_key_char x = true := by
  obtain ⟨n, c, rest, rfl, hc, hrest⟩ := hk
  intro x hx
  rcases List.mem_append.1 hx with h | h
  · rw [List.eq_of_mem_replicate h]; decide
  · rcases List.mem_cons.1 h with h | h
    · rw [h]; exact is_key_start_char c hc
    · exact hrest x h

theorem is_key_no_nul (k : List Char) (hk : is_key k) : NUL ∉ k :=
  fun h => is_key_char_ne_nul NUL (is_key_chars k hk NUL h) rfl

theorem is_key_head (k tail : List Char) (hk : is_key k) :
    ∃ c rest, k ++ tail = c :: rest ∧ is_key_char c = true := by
  have hne := (is_key_no_delim k hk).2
  obtain ⟨c, r, rfl⟩ := List.exists_cons_of_ne_nil hne
  exact ⟨c, r ++ tail, rfl, is_key_chars _ hk c (by simp)⟩

theorem is_key_not_absolute (k tail : List Char) (hk : is_key k) :
    COIL_PATH_IS_ABSOLUTE (k ++ tail) = false := by
  obtain ⟨c, rest, h, hc⟩ := is_key_head k tail hk
  rw [h]
  have hca : c ≠ '@' := by
    rintro rfl
    exact absurd hc (by decide)
  simp [COIL_PATH_IS_ABSOLUTE, COIL_ROOT_PATH_LEN, COIL_ROOT_PATH, hca]

theorem is_key_head_not_delim (k tail : List Char) (hk : is_key k) :
    (k ++ tail).head? ≠ some COIL_PATH_DELIM := by
  obtain ⟨c, rest, h, hc⟩ := is_key_head k tail hk
  rw [h]
  have hca : c ≠ COIL_PATH_DELIM := by
    rintro rfl
    exact absurd hc (by decide)
  simpa using hca

/-- `coil_path_resolve_full` for an absolute base and a reference made of
keys: the path is the base followed by the keys, split at its last
delimiter. -/
theorem resolve_keys (after base k1 : List Char) (more : List (List Char)) (bufs : Buffers)
    (C K : List Char)
    (hb : bufs.usable = true) (habs : COIL_PATH_IS_ABSOLUTE base = true) (hnb : NUL ∉ base)
    (hk1 : is_key k1) (hmore : ∀ j ∈ more, is_key j)
    (hlen : base.length + (keys_text (k1 :: more)).length ≤ COIL_PATH_LEN)
    (hsplit : base ++ keys_text (k1 :: more) = C ++ COIL_PATH_DELIM :: K)
    (hK : COIL_PATH_DELIM ∉ K) :
    ∃ b, coil_path_resolve_full after (some base) (k1 ++ keys_text more) bufs =
        Outcome.success b ∧
      b.strings = bufs.expect (base ++ keys_text (k1 :: more)) C K := by
  have hpos : 0 < base.length := List.length_pos.2 (absolute_ne_nil habs)
  have htake : base.take base.length = base := List.take_length base
  have hdot := is_key_head_not_delim k1 (keys_text more) hk1
  have hrel := is_key_not_absolute k1 (keys_text more) hk1
  have hne : k1 ++ keys_text more ≠ [] := by
    have := (is_key_no_delim k1 hk1).2
    simp [this]
  have hmid : ¬ [COIL_PATH_DELIM, COIL_PATH_DELIM] <:+: k1 ++ keys_text more := by
    rintro ⟨a, b, h⟩
    exact keys_no_double_delim more k1 a b (is_key_no_delim k1 hk1).1 (is_key_no_delim k1 hk1).2
      (fun j hj => is_key_no_delim j (hmore j hj)) (by rw [← h]; simp)
  have hnr : NUL ∉ k1 ++ keys_text more := by
    have h1 := is_key_no_nul k1 hk1
    have h2 := nul_not_mem_keys_text more (fun j hj => is_key_no_nul j (hmore j hj))
    simp [h1, h2]
  have hkt : keys_text (k1 :: more) = COIL_PATH_DELIM :: (k1 ++ keys_text more) := rfl
  obtain ⟨b, h1, h2⟩ := resolve_append_success after base (k1 ++ keys_text more) C K base.length
    bufs hb hpos (le_refl _) hne hmid (by
      rw [hkt] at hlen
      simp only [List.length_cons] at hlen
      omega) (by rw [htake]; exact hnb) hnr (by rw [htake, ← hsplit, hkt]) hK
  rw [htake] at h2
  refine ⟨b, ?_, by rw [hkt]; exact h2⟩
  rw [resolve_full_relative after base _ bufs hb hrel, dropWhile_of_head hdot,
    leading_back_references_none base hdot]
  exact h1

theorem get_root_of_root (e : Engine) (r : Nat) (s : CoilStruct) (hs : e.structs[r]? = some s)
    (hroot : s.container = none) : coil_struct_get_root e r = Run.done e r := by
  simp only [coil_struct_get_root, get_root_loop, hs, hroot]

theorem maybe_expand_plain (X : Calls) (e : Engine) (v : Value)
    (hv : v.holds_expandable = false) :
    _maybe_expand_value X e (some v) = Run.done e (some v, none) := by
  cases v <;> first | rfl | simp [Value.holds_expandable] at hv

/-- `coil_struct_get_path_value` for a path of keys that has a value which is
no expandable in the path table of a root. -/
theorem get_path_value_keys (X : Calls) (g : Frame) (e : Engine) (r : Nat) (s : CoilStruct)
    (k1 : List Char) (more : List (List Char)) (v : Value) (expand_value : Bool)
    (hs : e.structs[r]? = some s) (hpath : s.path = COIL_ROOT_PATH)
    (hg : COIL_PATH_BUFLEN ≤ g.path.length)
    (hk1 : is_key k1) (hmore : ∀ j ∈ more, is_key j)
    (hlen : COIL_ROOT_PATH.length + (keys_text (k1 :: more)).length ≤ COIL_PATH_LEN)
    (hguard : (X.COIL_DEBUG && s.is_prototype) = false)
    (hv : v.holds_expandable = false)
    (hlook : path_table_lookup e s (COIL_ROOT_PATH ++ keys_text (k1 :: more)) = some v) :
    coil_struct_get_path_value X g e r (k1 ++ keys_text more) expand_value =
      Run.done e (some v, none) := by
  obtain ⟨C, K, hsplit, hK⟩ := exists_last_delim (COIL_ROOT_PATH ++ keys_text (k1 :: more))
    (by simp [keys_text])
  obtain ⟨b, hres, hstr⟩ := resolve_keys g.after COIL_ROOT_PATH k1 more ⟨some g.path, none, none⟩
    C K (by simp [Buffers.usable, buffer_fits, hg]) (by decide) (by decide) hk1 hmore hlen
    hsplit hK
  have hP : b.path.map cstr = some (COIL_ROOT_PATH ++ keys_text (k1 :: more)) := by
    have := congrArg Prod.fst hstr
    simpa [Buffers.strings, Buffers.expect] using this
  unfold coil_struct_get_path_value
  simp only [hs, hguard, Bool.false_eq_true, if_false, is_key_not_absolute k1 _ hk1,
    Bool.false_and, hpath, hres, hP, Option.getD_some, hlook]
  cases expand_value
  · simp
  · simp [maybe_expand_plain X e v hv]

/-- The containers `coil_struct_set_path_value` makes: for every root `r`
without handlers of `modify`, every path `k1.k2...kn` of keys (`n >= 2`) that fits a path buffer and none of whose
prefixes has a value, and every value `v` that holds no struct, link or
include, `coil_struct_set_path_value(r, path, v)` succeeds; afterwards each
intermediate path `@root.k1`, ..., `@root.k1...k(n-1)` holds a struct with
`is_prototype = false`, `coil_struct_get_path_value(r, path)` returns `v`
(unless `r` is a prototype in a build with `COIL_DEBUG`), and the prototype
flag of `r` is what it was before the call. -/
theorem set_path_value_makes_containers (X : Calls) (f g : Frame) (e : Engine) (r : Nat)
    (s : CoilStruct) (k1 : List Char) (mid : List (List Char)) (kn : List Char) (v : Value)
    (expand_value : Bool)
    (hs : e.structs[r]? = some s) (hroot : s.container = none)
    (hpath : s.path = COIL_ROOT_PATH) (hh : s.modify_handlers = [])
    (hT : s.path_table < e.tables.length)
    (hf : COIL_PATH_BUFLEN ≤ f.path.length ∧ COIL_PATH_BUFLEN ≤ f.container_path.length ∧
      COIL_PATH_BUFLEN ≤ f.key.length)
    (hg : COIL_PATH_BUFLEN ≤ g.path.length)
    (hk1 : is_key k1) (hmid : ∀ j ∈ mid, is_key j) (hkn : is_key kn)
    (hlen : COIL_ROOT_PATH.length + (keys_text (k1 :: (mid ++ [kn]))).length ≤ COIL_PATH_LEN)
    (habsent : ∀ i, 0 < i → i ≤ mid.length + 2 →
      path_table_lookup e s (COIL_ROOT_PATH ++ keys_text ((k1 :: (mid ++ [kn])).take i)) = none)
    (hv : v.holds_expandable = false)
    (hguard : (X.COIL_DEBUG && s.is_prototype) = false) :
    ∃ e1 s1,
      coil_struct_set_path_value X f e r (k1 ++ keys_text (mid ++ [kn])) v = Run.done e1 none ∧
      e1.structs[r]? = some s1 ∧ s1.is_prototype = s.is_prototype ∧
      (∀ i, 0 < i → i ≤ mid.length + 1 → ∃ id cs,
        path_table_lookup e1 s1 (COIL_ROOT_PATH ++ keys_text ((k1 :: mid).take i)) =
          some (Value.struct id) ∧
        e1.structs[id]? = some cs ∧ cs.is_prototype = false) ∧
      coil_struct_get_path_value X g e1 r (k1 ++ keys_text (mid ++ [kn])) expand_value =
        Run.done e1 (some v, none) := by
  have hmore : ∀ j ∈ mid ++ [kn], is_key j := by
    intro j hj
    rcases List.mem_append.1 hj with h | h
    · exact hmid j h
    · rw [List.mem_singleton.1 h]; exact hkn
  have hpostkeys : ∀ j ∈ k1 :: mid, is_key j := by
    intro j hj
    rcases List.mem_cons.1 hj with h | h
    · rw [h]; exact hk1
    · exact hmid j h
  have hkt : keys_text (k1 :: (mid ++ [kn])) =
      keys_text (k1 :: mid) ++ COIL_PATH_DELIM :: kn := by
    rw [← List.cons_append, keys_text_append]
  have hsplit : COIL_ROOT_PATH ++ keys_text (k1 :: (mid ++ [kn])) =
      (COIL_ROOT_PATH ++ keys_text (k1 :: mid)) ++ COIL_PATH_DELIM :: kn := by
    rw [hkt, List.append_assoc]
  have hKn : COIL_PATH_DELIM ∉ kn := fun h => (is_key_no_delim kn hkn).1 _ h rfl
  obtain ⟨b, hres, hstr⟩ := resolve_keys f.after COIL_ROOT_PATH k1 (mid ++ [kn])
    ⟨some f.path, some f.container_path, some f.key⟩ _ kn
    (by simp [Buffers.usable, buffer_fits, hf.1, hf.2.1, hf.2.2]) (by decide) (by decide) hk1
    hmore hlen hsplit hKn
  have hP : b.path.map cstr = some (COIL_ROOT_PATH ++ keys_text (k1 :: (mid ++ [kn]))) := by
    have := congrArg Prod.fst hstr
    simpa [Buffers.strings, Buffers.expect] using this
  have hC : b.container.map cstr = some (COIL_ROOT_PATH ++ keys_text (k1 :: mid)) := by
    have := congrArg (fun x => x.2.1) hstr
    simpa [Buffers.strings, Buffers.expect] using this
  have hK : b.key.map cstr = some kn := by
    have := congrArg (fun x => x.2.2) hstr
    simpa [Buffers.strings, Buffers.expect] using this
  -- the containers
  have hlenpost : COIL_ROOT_PATH.length + (keys_text (k1 :: mid)).length ≤ COIL_PATH_LEN := by
    rw [hkt] at hlen
    simp only [List.length_append, List.length_cons] at hlen
    omega
  obtain ⟨e1, hcc, hl1, ht1, hold1, ⟨s1, hr1, hch1⟩, hnew1, htbl1, _⟩ :=
    create_containers_chain X false e r r s s COIL_ROOT_PATH (k1 :: mid) hs hs hh hpath rfl hT
      (by decide)
      (fun k hk => ⟨fun h => (is_key_no_delim k (hpostkeys k hk)).1 _ h rfl,
        is_key_no_nul k (hpostkeys k hk)⟩)
      (by simp) hlenpost
      (by
        intro i h0 hi
        have := habsent i h0 (by simp at hi; omega)
        rw [← List.cons_append, List.take_append_of_le_length hi] at this
        exact this)
      (Or.inl ⟨rfl, get_root_of_root e r s hs hroot⟩)
  -- the last container
  have hlast : e.structs.length + (k1 :: mid).length - 1 = e.structs.length + mid.length := by
    simp
  obtain ⟨ns, hns, hnsp, hnspath, hnst, hnsh, _, hnslook⟩ := hnew1 mid.length (by simp)
  have hfullne : ∀ j, j < (k1 :: mid).length →
      COIL_ROOT_PATH ++ keys_text (k1 :: (mid ++ [kn])) ≠
        COIL_ROOT_PATH ++ keys_text ((k1 :: mid).take (j + 1)) := by
    intro j hj heq
    have h1 := congrArg List.length heq
    have h2 : (keys_text ((k1 :: mid).take (j + 1))).length ≤ (keys_text (k1 :: mid)).length := by
      by_cases hjj : j + 1 < (k1 :: mid).length
      · exact Nat.le_of_lt (keys_text_length_take _ _ hjj)
      · rw [List.take_of_length_le (by omega)]
    rw [hkt] at h1
    simp only [List.length_append, List.length_cons] at h1
    omega
  have hnone : path_table_lookup e1 ns (COIL_ROOT_PATH ++ keys_text (k1 :: (mid ++ [kn]))) =
      none := by
    simp only [path_table_lookup, hnst]
    rw [htbl1 _ hfullne]
    have := habsent (mid.length + 2) (by omega) (le_refl _)
    rw [List.take_of_length_le (by simp)] at this
    exact this
  have hset := set_value_internal_new X e1 (e.structs.length + mid.length) ns kn
    (COIL_ROOT_PATH ++ keys_text (k1 :: (mid ++ [kn]))) v true hns hnsh hnone hv
    (by rw [hnsp]; rfl)
  generalize hns1def : ({ ns with
      order := ⟨kn, COIL_ROOT_PATH ++ keys_text (k1 :: (mid ++ [kn])), some v⟩ :: ns.order } :
        CoilStruct) = ns1 at hset
  generalize hns2def : ({ ns with
      order := ⟨kn, COIL_ROOT_PATH ++ keys_text (k1 :: (mid ++ [kn])), some v⟩ :: ns.order
      key_table := table_insert ns.key_table kn (some v)
      version := guint_succ ns.version
      size := guint_succ ns.size } : CoilStruct) = ns2 at hset
  have hns2p : ns2.is_prototype = false := by rw [← hns2def]; exact hnsp
  generalize he2def : ((e1.set_struct (e.structs.length + mid.length) ns1).set_table
      ns.path_table (table_insert (e1.table ns.path_table)
        (COIL_ROOT_PATH ++ keys_text (k1 :: (mid ++ [kn]))) v)).set_struct
          (e.structs.length + mid.length) ns2 = e2 at hset
  have hrlt := struct_lt_of_some e r s hs
  have hrne : r ≠ e.structs.length + mid.length := by omega
  have hlastlt : e.structs.length + mid.length < e1.structs.length := by
    rw [hl1]; simp
  have h2old : ∀ i, i ≠ e.structs.length + mid.length → e2.structs[i]? = e1.structs[i]? := by
    intro i hi
    rw [← he2def, set_struct_ne _ _ _ _ hi, set_table_table_structs, set_struct_ne _ _ _ _ hi]
  have h2last : e2.structs[e.structs.length + mid.length]? = some ns2 := by
    rw [← he2def]
    exact set_struct_self _ _ _ (by simpa [Engine.set_struct, Engine.set_table] using hlastlt)
  have h2tbl : e2.table s.path_table = table_insert (e1.table s.path_table)
      (COIL_ROOT_PATH ++ keys_text (k1 :: (mid ++ [kn]))) v := by
    rw [← he2def, table_set_struct, hnst, table_set_table_self _ _ _ (by
      simp only [Engine.set_struct]; rw [ht1]; exact hT)]
  have hs1t : s1.path_table = s.path_table := by rw [hch1]
  have hs1p : s1.is_prototype = s.is_prototype := by rw [hch1]
  have hs1path : s1.path = COIL_ROOT_PATH := by rw [hch1]; exact hpath
  have h2r : e2.structs[r]? = some s1 := by rw [h2old r hrne]; exact hr1
  refine ⟨e2, s1, ?_, h2r, hs1p, ?_, ?_⟩
  · unfold coil_struct_set_path_value
    simp only [hs, hpath, hres, hP, hC, hK, Option.getD_some, hcc, Run.bind, hlast, hset]
  · intro i h0 hi
    obtain ⟨j, rfl⟩ : ∃ j, i = j + 1 := ⟨i - 1, by omega⟩
    obtain ⟨cs, hcs, hcsp, _, _, _, _, hcslook⟩ := hnew1 j (by simp; omega)
    have hlook2 : path_table_lookup e2 s1
        (COIL_ROOT_PATH ++ keys_text ((k1 :: mid).take (j + 1))) =
        some (Value.struct (e.structs.length + j)) := by
      simp only [path_table_lookup, hs1t]
      rw [h2tbl, table_lookup_insert_ne _ _ _ _ (Ne.symm (hfullne j (by simp; omega)))]
      exact hcslook
    by_cases hj : j = mid.length
    · subst hj
      exact ⟨_, ns2, hlook2, h2last, hns2p⟩
    · exact ⟨_, cs, hlook2, by rw [h2old _ (by omega)]; exact hcs, hcsp⟩
  · refine get_path_value_keys X g e2 r s1 k1 (mid ++ [kn]) v expand_value h2r hs1path hg hk1
      hmore hlen (by rw [hs1p]; exact hguard) hv ?_
    simp only [path_table_lookup, hs1t]
    rw [h2tbl]
    exact table_lookup_insert_self _ _ _

/-- The path `a.b` set to 1 on a new root. -/
theorem set_path_value_makes_containers_witness :
    ∃ e1 s1,
      coil_struct_set_path_value (plain_calls false) zero_frame (new_root false).engine 0
          (['a'] ++ keys_text ([] ++ [['b']])) (Value.int 1) = Run.done e1 none ∧
      e1.structs[0]? = some s1 ∧ s1.is_prototype = root_struct.is_prototype ∧
      (∀ i, 0 < i → i ≤ ([] : List (List Char)).length + 1 → ∃ id cs,
        path_table_lookup e1 s1 (COIL_ROOT_PATH ++ keys_text ((['a'] :: []).take i)) =
          some (Value.struct id) ∧
        e1.structs[id]? = some cs ∧ cs.is_prototype = false) ∧
      coil_struct_get_path_value (plain_calls false) zero_frame e1 0
          (['a'] ++ keys_text ([] ++ [['b']])) true = Run.done e1 (some (Value.int 1), none) :=
  set_path_value_makes_containers (plain_calls false) zero_frame zero_frame
    (new_root false).engine 0 root_struct ['a'] [] ['b'] (Value.int 1) true
    (by rfl) (by rfl) (by rfl) (by rfl) (by decide) (by decide) (by decide)
    ⟨0, 'a', [], rfl, by decide, by simp⟩ (by simp) ⟨0, 'b', [], rfl, by decide, by simp⟩
    (by decide) (fun _ _ _ => rfl) (by rfl) (by rfl)

/-- C18 (failing input): `set_path_value(root, "a.b", 1)` succeeds on a new
root that is a prototype and below which nothing exists, and the root, a
struct of the container chain, is a prototype afterwards as before; in a
build with `COIL_DEBUG` `get_path_value(root, "a.b")` then returns NULL. -/
theorem set_path_value_keeps_prototype_root :
    ((new_root true).engine.structs[0]?).map (fun s => (s.container, s.is_prototype)) =
      some (none, true) ∧
    (prototype_root_scenario false).result.map (fun x => x.2) = some none ∧
    ((prototype_root_scenario false).engine.structs[0]?).map (fun s => s.is_prototype) =
      some true ∧
    (prototype_root_scenario true).result.map (fun x => x.2) = some none ∧
    ((prototype_root_scenario true).bind (fun e _ =>
      coil_struct_get_path_value (plain_calls true) zero_frame e 0 ['a', '.', 'b']
        false)).result.map (fun x => x.2) = some (none, none) :=
  ⟨by rfl, by rfl, by rfl, by rfl, by rfl⟩

theorem descendent_of_keys (base : List Char) (post : List (List Char)) (hpost : post ≠ [])
    (hlen : COIL_ROOT_PATH_LEN ≤ base.length) :
    coil_path_is_descendent (base ++ keys_text post) base = true := by
  obtain ⟨k, rest, rfl⟩ := List.exists_cons_of_ne_nil hpost
  unfold coil_path_is_descendent _path_has_container
  by_cases hroot : COIL_PATH_IS_ROOT base = true
  · rw [if_pos hroot]
    simp only [COIL_PATH_IS_ROOT, Bool.not_eq_true', beq_eq_false_iff_ne, ne_eq]
    intro h
    have := congrArg List.length h
    have h5 : COIL_ROOT_PATH.length = COIL_ROOT_PATH_LEN := rfl
    simp only [List.length_append, keys_text, List.length_cons] at this
    omega
  · rw [if_neg hroot]
    simp only [Bool.false_eq_true, if_false, Bool.and_eq_true, beq_iff_eq, List.isEmpty_iff]
    rw [skip_common_spec]
    exact ⟨k ++ keys_text rest, by simp [keys_text]⟩

/-- The end of `coil_struct_extend_path` for a parent that is a prototype and
a struct without `always_expand`: the dependency is added, and the struct is
connected to `notify::is-prototype` of the parent. -/
theorem extend_finish_prototype (X : Calls) (e : Engine) (self parent : Nat)
    (s ps : CoilStruct)
    (hs : e.structs[self]? = some s) (hp : e.structs[parent]? = some ps)
    (hne : self ≠ parent) (halways : s.always_expand = false)
    (hproto : ps.is_prototype = true) :
    extend_finish X e self parent =
      Run.done ((e.set_struct self
          { s with
            dependencies := Value.struct parent :: s.dependencies
            expand_ptr := s.expand_ptr.map (fun i => i + 1)
            version := guint_succ s.version
            expanded := false }).set_struct parent
        { ps with prototype_handlers := ps.prototype_handlers ++ [self] }) none := by
  have hlt := struct_lt_of_some e self s hs
  generalize hs1def : ({ s with
      dependencies := Value.struct parent :: s.dependencies
      expand_ptr := s.expand_ptr.map (fun i => i + 1)
      version := guint_succ s.version
      expanded := false } : CoilStruct) = s1
  have hs1 : (e.set_struct self s1).structs[self]? = some s1 := set_struct_self e self s1 hlt
  have hp1 : (e.set_struct self s1).structs[parent]? = some ps := by
    rw [set_struct_ne e self parent s1 (fun h => hne h.symm)]; exact hp
  have ha1 : s1.always_expand = false := by rw [← hs1def]; exact halways
  unfold extend_finish coil_struct_add_dependency
  simp only [hs, Run.bind, hs1def, hs1, ha1, Bool.false_eq_true, if_false,
    struct_connect_expand_notify, hp1, hproto, if_true]

theorem resolve_result_success (o : Outcome)
    (x : Option (List Char) × Option (List Char) × Option (List Char))
    (h : o.result = some (true, x)) : ∃ b, o = Outcome.success b ∧ b.strings = x := by
  cases o with
  | success b =>
    refine ⟨b, rfl, ?_⟩
    simpa [Outcome.result] using h
  | pathError b => simp [Outcome.result] at h
  | undefined => simp [Outcome.result] at h
  | precondition => simp [Outcome.result] at h

/-- C23, amended: let the target of `coil_struct_extend_path(self, path)`
resolve to `base.k1...kn` where nothing exists below `base`, and `base` is
`@root` or holds a struct `c`, which has no handler connected to `modify`.
If the target is neither `self` nor above nor below it, the call succeeds:
each of the paths `base.k1`, ..., `base.k1...kn` then holds a new struct with
`is_prototype = true`, every struct that existed is as it was but for `c`,
which has changed in its entries only, and `self`, which keeps its prototype
flag and its entries and has the struct at the target as its first
dependency.  And whenever the target resolves to `@root`, to the path of
`self`, or to a path above or below it, the call sets a STRUCT error and
changes nothing. -/
theorem extend_path_makes_prototypes (X : Calls) (f : Frame) (e : Engine) (self c : Nat)
    (s cs : CoilStruct) (_path base : List Char) (post : List (List Char))
    (hs : e.structs[self]? = some s) (hc : e.structs[c]? = some cs)
    (halways : s.always_expand = false)
    (hdeps : ∀ id, Value.struct id ∈ s.dependencies → id < e.structs.length)
    (hnr : COIL_PATH_IS_ROOT _path = false)
    (hres : (coil_path_resolve f.after (some s.path) _path (some f.path)).result =
      some (true, some (base ++ keys_text post), none, none))
    (hdesc1 : coil_path_is_descendent (base ++ keys_text post) s.path = false)
    (hdesc2 : coil_path_is_descendent s.path (base ++ keys_text post) = false)
    (hself : s.path ≠ base ++ keys_text post)
    (hh : cs.modify_handlers = []) (hpath : cs.path = base)
    (htable : cs.path_table = s.path_table) (hT : cs.path_table < e.tables.length)
    (hbase : NUL ∉ base) (hkeys : ∀ k ∈ post, COIL_PATH_DELIM ∉ k ∧ NUL ∉ k)
    (hpost : post ≠ []) (hlen : base.length + (keys_text post).length ≤ COIL_PATH_LEN)
    (habsent : ∀ i, 0 < i → i ≤ post.length →
      path_table_lookup e s (base ++ keys_text (post.take i)) = none)
    (hcase : (base = COIL_ROOT_PATH ∧ coil_struct_get_root e self = Run.done e c) ∨
      (COIL_ROOT_PATH_LEN < base.length ∧
        path_table_lookup e s base = some (Value.struct c))) :
    (∃ e1 s1, coil_struct_extend_path X f e self _path = Run.done e1 none ∧
      (∀ j, j < post.length → ∃ ns, e1.structs[e.structs.length + j]? = some ns ∧
        ns.is_prototype = true ∧
        path_table_lookup e1 s1 (base ++ keys_text (post.take (j + 1))) =
          some (Value.struct (e.structs.length + j))) ∧
      (∀ i, i < e.structs.length → i ≠ c → i ≠ self → e1.structs[i]? = e.structs[i]?) ∧
      (∃ cs1, e1.structs[c]? = some cs1 ∧ entries_changed cs cs1) ∧
      e1.structs[self]? = some s1 ∧ s1.is_prototype = s.is_prototype ∧
      s1.order = s.order ∧ s1.key_table = s.key_table ∧
      s1.dependencies = Value.struct (e.structs.length + post.length - 1) :: s.dependencies) ∧
    (∀ (g : Frame) (reference target : List Char)
        (rest : Option (List Char) × Option (List Char)),
      COIL_PATH_IS_ROOT reference = true ∨
        ((coil_path_resolve g.after (some s.path) reference (some g.path)).result =
            some (true, some target, rest) ∧
          (COIL_PATH_IS_ROOT target = true ∨ target = s.path ∨
            coil_path_is_descendent target s.path = true ∨
            coil_path_is_descendent s.path target = true)) →
      coil_struct_extend_path X g e self reference =
        Run.done e (some CoilError.COIL_ERROR_STRUCT)) := by
  constructor
  · have hge : COIL_ROOT_PATH_LEN ≤ base.length := by
      rcases hcase with ⟨h, _⟩ | ⟨h, _⟩
      · rw [h]; exact le_refl _
      · omega
    have hsc : self ≠ c := by
      rintro rfl
      rw [hs] at hc
      have : s = cs := Option.some.inj hc
      rw [this, hpath, descendent_of_keys base post hpost hge] at hdesc1
      exact absurd hdesc1 (by simp)
    have hslt := struct_lt_of_some e self s hs
    have hclt := struct_lt_of_some e c cs hc
    obtain ⟨b, hb, hbs⟩ := resolve_result_success _ _ hres
    have hP : b.path.map cstr = some (base ++ keys_text post) := by
      have := congrArg Prod.fst hbs
      simpa [Buffers.strings] using this
    have hnotroot : COIL_PATH_IS_ROOT (base ++ keys_text post) = false := by
      simp only [COIL_PATH_IS_ROOT, beq_eq_false_iff_ne, ne_eq]
      intro h
      have := congrArg List.length h
      have h5 : COIL_ROOT_PATH.length = COIL_ROOT_PATH_LEN := rfl
      have h6 := List.length_pos.2 (keys_text_ne_nil post hpost)
      simp only [List.length_append] at this
      omega
    have hnone : path_table_lookup e s (base ++ keys_text post) = none := by
      have := habsent post.length (List.length_pos.2 hpost) (le_refl _)
      rwa [List.take_length] at this
    obtain ⟨e1, hcc, hl1, ht1, hold1, ⟨cs1, hc1, hch1⟩, hnew1, htbl1, _⟩ :=
      create_containers_chain X true e self c s cs base post hs hc hh hpath htable hT hbase
        hkeys hpost hlen habsent
        (by
          rcases hcase with h | ⟨h1, h2⟩
          · exact Or.inl h
          · exact Or.inr ⟨h1, h2, rfl⟩)
    have hpos := List.length_pos.2 hpost
    obtain ⟨ns, hns, hnsp, _, _, _, _, _⟩ := hnew1 (post.length - 1) (by omega)
    have hlasteq : e.structs.length + (post.length - 1) = e.structs.length + post.length - 1 := by
      omega
    rw [hlasteq] at hns
    have hs1 : e1.structs[self]? = some s := by
      rw [hold1 self hsc hslt]; exact hs
    have hnodep : coil_struct_has_dependency s
        (Value.struct (e.structs.length + post.length - 1)) = false := by
      simp only [coil_struct_has_dependency, List.any_eq_false, decide_eq_true_eq]
      intro d hd heq
      rw [heq] at hd
      have := hdeps _ hd
      omega
    have hsl : self ≠ e.structs.length + post.length - 1 := by omega
    have hfin := extend_finish_prototype X e1 self (e.structs.length + post.length - 1) s ns hs1
      hns hsl halways hnsp
    generalize hs2def : ({ s with
        dependencies := Value.struct (e.structs.length + post.length - 1) :: s.dependencies
        expand_ptr := s.expand_ptr.map (fun i => i + 1)
        version := guint_succ s.version
        expanded := false } : CoilStruct) = s2 at hfin
    generalize hns2def : ({ ns with prototype_handlers := ns.prototype_handlers ++ [self] } :
        CoilStruct) = ns2 at hfin
    have hns2p : ns2.is_prototype = true := by rw [← hns2def]; exact hnsp
    have hs2t : s2.path_table = cs.path_table := by rw [← hs2def]; exact htable.symm
    have hlastlt : e.structs.length + post.length - 1 < e1.structs.length := by omega
    refine ⟨(e1.set_struct self s2).set_struct (e.structs.length + post.length - 1) ns2, s2,
      ?_, ?_, ?_, ?_, ?_, by rw [← hs2def], by rw [← hs2def], by rw [← hs2def],
      by rw [← hs2def]⟩
    · unfold coil_struct_extend_path
      simp only [hs, hnr, Bool.false_eq_true, if_false, hb, hP, Option.getD_some, hnotroot,
        hdesc1, hdesc2, hself, hnone, hcc, Run.bind, hs1, hnodep, hfin]
    · intro j hj
      obtain ⟨nj, hnj, hnjp, _, _, _, _, hnjl⟩ := hnew1 j hj
      have hlook : path_table_lookup ((e1.set_struct self s2).set_struct
          (e.structs.length + post.length - 1) ns2) s2
          (base ++ keys_text (post.take (j + 1))) = some (Value.struct (e.structs.length + j)) := by
        simp only [path_table_lookup, table_set_struct, hs2t]
        exact hnjl
      by_cases hjl : e.structs.length + j = e.structs.length + post.length - 1
      · refine ⟨ns2, ?_, hns2p, hlook⟩
        rw [hjl]
        exact set_struct_self _ _ _ (by simpa [Engine.set_struct] using hlastlt)
      · refine ⟨nj, ?_, hnjp, hlook⟩
        rw [set_struct_ne _ _ _ _ hjl, set_struct_ne _ _ _ _ (by omega)]
        exact hnj
    · intro i hi hic his
      rw [set_struct_ne _ _ _ _ (by omega), set_struct_ne _ _ _ _ his, hold1 i hic hi]
    · refine ⟨cs1, ?_, hch1⟩
      rw [set_struct_ne _ _ _ _ (by omega), set_struct_ne _ _ _ _ (Ne.symm hsc)]
      exact hc1
    · rw [set_struct_ne _ _ _ _ hsl]
      exact set_struct_self _ _ _ (by rw [hl1]; omega)
  · intro g reference target rest h
    unfold coil_struct_extend_path
    simp only [hs]
    rcases h with h | ⟨hr, h⟩
    · rw [if_pos h]
    · obtain ⟨b, hb, hbs⟩ := resolve_result_success _ _ hr
      have hP : b.path.map cstr = some target := by
        have := congrArg Prod.fst hbs
        simpa [Buffers.strings] using this
      simp only [hb, hP, Option.getD_some]
      by_cases h0 : COIL_PATH_IS_ROOT reference = true
      · rw [if_pos h0]
      · rw [if_neg h0]
        by_cases h1 : COIL_PATH_IS_ROOT target = true
        · rw [if_pos h1]
        · rw [if_neg h1]
          by_cases h2 : coil_path_is_descendent target s.path = true
          · rw [if_pos h2]
          · rw [if_neg h2]
            by_cases h3 : coil_path_is_descendent s.path target = true
            · rw [if_pos h3]
            · rw [if_neg h3]
              rcases h with h | h | h | h
              · exact absurd h h1
              · rw [if_pos h.symm]
              · exact absurd h h2
              · exact absurd h h3

/-- C23 as stated fails when the struct that receives the new prototype has a
dependent: in `inherited_prototype_scenario` nothing exists at `@root.a.x`,
`b` extends `a`, and the struct at `@root.b.z` is a prototype.  The call
`coil_struct_extend_path(c, "..a.x")` succeeds; entering the prototype in `a`
emits `modify` on `a`, `b` is expanded, and the struct at `@root.b.z`, which
existed before the call, is no prototype afterwards; the size of `a` has gone
from 2 to 3. -/
theorem extend_path_expands_dependents :
    (inherited_prototype_scenario.engine.structs[5]?).map (fun s => (s.path, s.is_prototype)) =
      some (['@', 'r', 'o', 'o', 't', '.', 'b', '.', 'z'], true) ∧
    (inherited_prototype_scenario.engine.structs[1]?).map
      (fun s => (s.path, s.size, s.modify_handlers)) =
      some (['@', 'r', 'o', 'o', 't', '.', 'a'], 2, [⟨3, 0⟩]) ∧
    (inherited_prototype_scenario.engine.structs[3]?).map (fun s => s.dependencies) =
      some [Value.struct 1] ∧
    table_lookup (inherited_prototype_scenario.engine.table 0)
      ['@', 'r', 'o', 'o', 't', '.', 'a', '.', 'x'] = none ∧
    extend_beside_dependent.result.map (fun x => x.2) = some none ∧
    (extend_beside_dependent.engine.structs[5]?).map (fun s => (s.path, s.is_prototype)) =
      some (['@', 'r', 'o', 'o', 't', '.', 'b', '.', 'z'], false) ∧
    (extend_beside_dependent.engine.structs[1]?).map (fun s => (s.path, s.size)) =
      some (['@', 'r', 'o', 'o', 't', '.', 'a'], 3) ∧
    (extend_beside_dependent.engine.structs[7]?).map (fun s => (s.path, s.is_prototype)) =
      some (['@', 'r', 'o', 'o', 't', '.', 'a', '.', 'x'], true) :=
  ⟨by rfl, by rfl, by rfl, by rfl, by rfl, by rfl, by rfl, by rfl⟩

/-- The call `coil_struct_extend_path(a, "..c.x")` in `nested_engine`, where
`a` is the struct 1 and nothing exists at `@root.c`. -/
theorem extend_path_makes_prototypes_witness :
    (∃ e1 s1,
      coil_struct_extend_path (plain_calls false) zero_frame nested_engine 1
          ['.', '.', 'c', '.', 'x'] = Run.done e1 none ∧
      (∀ j, j < [['c'], ['x']].length → ∃ ns,
        e1.structs[nested_engine.structs.length + j]? = some ns ∧
        ns.is_prototype = true ∧
        path_table_lookup e1 s1 (COIL_ROOT_PATH ++ keys_text ([['c'], ['x']].take (j + 1))) =
          some (Value.struct (nested_engine.structs.length + j))) ∧
      (∀ i, i < nested_engine.structs.length → i ≠ 0 → i ≠ 1 →
        e1.structs[i]? = nested_engine.structs[i]?) ∧
      (∃ cs1, e1.structs[0]? = some cs1 ∧ entries_changed nested_root cs1) ∧
      e1.structs[1]? = some s1 ∧ s1.is_prototype = nested_struct.is_prototype ∧
      s1.order = nested_struct.order ∧ s1.key_table = nested_struct.key_table ∧
      s1.dependencies =
        Value.struct (nested_engine.structs.length + [['c'], ['x']].length - 1) ::
          nested_struct.dependencies) ∧
    (∀ (g : Frame) (reference target : List Char)
        (rest : Option (List Char) × Option (List Char)),
      COIL_PATH_IS_ROOT reference = true ∨
        ((coil_path_resolve g.after (some nested_struct.path) reference (some g.path)).result =
            some (true, some target, rest) ∧
          (COIL_PATH_IS_ROOT target = true ∨ target = nested_struct.path ∨
            coil_path_is_descendent target nested_struct.path = true ∨
            coil_path_is_descendent nested_struct.path target = true)) →
      coil_struct_extend_path (plain_calls false) g nested_engine 1 reference =
        Run.done nested_engine (some CoilError.COIL_ERROR_STRUCT)) :=
  extend_path_makes_prototypes (plain_calls false) zero_frame nested_engine 1 0 nested_struct
    nested_root ['.', '.', 'c', '.', 'x'] COIL_ROOT_PATH [['c'], ['x']]
    (by rfl) (by rfl) (by rfl) (by intro id h; cases h) (by rfl) (by rfl) (by rfl) (by rfl)
    (by decide) (by rfl) (by rfl) (by rfl) (by decide) (by decide) (by decide) (by decide)
    (by decide)
    (by
      intro i h0 hi
      have hi2 : i ≤ 2 := hi
      interval_cases i <;> rfl)
    (Or.inl ⟨rfl, by rfl⟩)

theorem table_insert_none {β : Type} (t : List (List Char × β)) (k j : List Char) (v : β)
    (h : table_lookup (table_insert t k v) j = none) : table_lookup t j = none ∧ j ≠ k := by
  by_cases hjk : j = k
  · rw [hjk, table_lookup_insert_self] at h
    exact absurd h (by simp)
  · rw [table_lookup_insert_ne t k j v hjk] at h
    exact ⟨h, hjk⟩

theorem merged_entries_changed (items : List StructItem) :
    ∀ d : CoilStruct, entries_changed d (merged items d) := by
  induction items with
  | nil => intro d; exact entries_changed_refl d
  | cons item rest ih =>
    intro d
    unfold merged
    split
    · exact ih d
    · cases hv : item.value with
      | none => exact entries_changed_refl d
      | some value =>
        simp only
        have h := ih (with_entry d item.key (d.path ++ COIL_PATH_DELIM :: item.key) value)
        unfold entries_changed at h ⊢
        rw [h]
        rfl

/-- A key that is in the key table, with a value or marked deleted, has there
after the merge what it had. -/
theorem merged_keeps (items : List StructItem) :
    ∀ (d : CoilStruct) (key : List Char) (x : Option Value),
      table_lookup d.key_table key = some x →
      table_lookup (merged items d).key_table key = some x := by
  induction items with
  | nil => intro d key x h; exact h
  | cons item rest ih =>
    intro d key x h
    unfold merged
    split
    · exact ih d key x h
    · rename_i habs
      cases hv : item.value with
      | none => exact h
      | some value =>
        simp only
        apply ih
        have hne : key ≠ item.key := by
          rintro rfl
          rw [h] at habs
          exact habs rfl
        simp only [with_entry]
        rw [table_lookup_insert_ne _ _ _ _ hne]
        exact h

/-- The order after the merge: the items entered come before the old order in
the list, that is after it in the iteration, in the order of the items merged;
each has a key that was not in the key table and the value of an item merged,
and each key merged that was not in the key table is among them. -/
theorem merged_order (items : List StructItem)
    (hvalues : ∀ item ∈ items, item.value.isSome = true) :
    ∀ d : CoilStruct, ∃ added : List StructItem,
      (merged items d).order = added.reverse ++ d.order ∧
      (∀ a ∈ added, table_lookup d.key_table a.key = none ∧
        ∃ item ∈ items, item.key = a.key ∧ item.value = a.value) ∧
      (added.map (fun a => a.key)).Sublist (items.map (fun item => item.key)) ∧
      (∀ item ∈ items, table_lookup d.key_table item.key = none →
        item.key ∈ added.map (fun a => a.key)) := by
  induction items with
  | nil => intro d; exact ⟨[], by simp [merged], by simp, by simp, by simp⟩
  | cons item rest ih =>
    intro d
    have hrest : ∀ i ∈ rest, i.value.isSome = true := fun i hi => hvalues i (by simp [hi])
    unfold merged
    split
    · rename_i hpres
      obtain ⟨added, h1, h2, h3, h4⟩ := ih hrest d
      refine ⟨added, h1, ?_, ?_, ?_⟩
      · intro a ha
        obtain ⟨h5, i, hi, h6⟩ := h2 a ha
        exact ⟨h5, i, by simp [hi], h6⟩
      · simpa using List.Sublist.cons item.key h3
      · intro i hi hnone
        rcases List.mem_cons.1 hi with h | h
        · rw [h] at hnone; rw [hnone] at hpres; simp at hpres
        · exact h4 i h hnone
    · rename_i habs
      have habs2 : table_lookup d.key_table item.key = none := by
        cases h : table_lookup d.key_table item.key with
        | none => rfl
        | some x => rw [h] at habs; simp at habs
      have hsome := hvalues item (by simp)
      cases hv : item.value with
      | none => rw [hv] at hsome; simp at hsome
      | some value =>
        simp only
        obtain ⟨added, h1, h2, h3, h4⟩ :=
          ih hrest (with_entry d item.key (d.path ++ COIL_PATH_DELIM :: item.key) value)
        refine ⟨⟨item.key, d.path ++ COIL_PATH_DELIM :: item.key, some value⟩ :: added,
          ?_, ?_, ?_, ?_⟩
        · rw [h1]; simp [with_entry]
        · intro a ha
          rcases List.mem_cons.1 ha with h | h
          · rw [h]
            exact ⟨habs2, item, by simp, rfl, hv⟩
          · obtain ⟨h5, i, hi, h6⟩ := h2 a h
            exact ⟨(table_insert_none _ _ _ _ h5).1, i, by simp [hi], h6⟩
        · simpa using List.Sublist.cons₂ item.key h3
        · intro i hi hnone
          rcases List.mem_cons.1 hi with h | h
          · rw [h]; simp
          · by_cases hk : i.key = item.key
            · simp [hk]
            · have := h4 i h (by
                simp only [with_entry]
                rw [table_lookup_insert_ne _ _ _ _ hk]
                exact hnone)
              simp only [List.map_cons, List.mem_cons]
              exact Or.inr this

theorem merged_cons (item : StructItem) (rest : List StructItem) (d : CoilStruct)
    (hv : item.value.isSome = true) :
    merged (item :: rest) d = merged rest (merged [item] d) := by
  cases h : item.value with
  | none => rw [h] at hv; simp at hv
  | some v =>
    by_cases hp : (table_lookup d.key_table item.key).isSome = true
    · simp only [merged, hp, if_true]
    · simp only [merged, hp, if_false, h, Bool.false_eq_true]

theorem merged_path (items : List StructItem) (d : CoilStruct) :
    (merged items d).path = d.path := by
  have h := merged_entries_changed items d
  unfold entries_changed at h
  rw [h]

/-- What `struct_set_value_internal` changes when it sets a value that is no
expandable at a path without a value. -/
theorem set_value_internal_new_facts (X : Calls) (e : Engine) (self : Nat) (s : CoilStruct)
    (key path : List Char) (value : Value) (cast : Bool)
    (hs : e.structs[self]? = some s) (hh : s.modify_handlers = [])
    (hT : s.path_table < e.tables.length)
    (hnone : path_table_lookup e s path = none)
    (hv : value.holds_expandable = false) (hcast : (cast && s.is_prototype) = false) :
    ∃ e1, struct_set_value_internal X e self key path value cast = Run.done e1 none ∧
      e1.structs[self]? = some (with_entry s key path value) ∧
      e1.tables.length = e.tables.length ∧
      e1.table s.path_table = table_insert (e.table s.path_table) path value ∧
      (∀ t, t ≠ s.path_table → e1.table t = e.table t) ∧
      (∀ i, i ≠ self → e1.structs[i]? = e.structs[i]?) := by
  have hlt := struct_lt_of_some e self s hs
  refine ⟨_, set_value_internal_new X e self s key path value cast hs hh hnone hv hcast,
    ?_, ?_, ?_, ?_, ?_⟩
  · exact set_struct_self _ _ _ (by simpa [Engine.set_struct, Engine.set_table] using hlt)
  · simp [Engine.set_struct, Engine.set_table]
  · rw [table_set_struct, table_set_table_self _ _ _ (by simpa [Engine.set_struct] using hT)]
  · intro t ht
    rw [table_set_struct, table_set_table_ne _ _ _ _ ht, table_set_struct]
  · intro i hi
    rw [set_struct_ne _ _ _ _ hi, set_table_table_structs, set_struct_ne _ _ _ _ hi]

/-- One turn of the loop of `coil_struct_merge` without overwrite in one root,
for an item with a value that is no expandable. -/
theorem merge_item_plain (X : Calls) (e : Engine) (dest : Nat) (d : CoilStruct)
    (item : StructItem) (v : Value) (hready : merge_ready e dest d)
    (hv : item.value = some v) (hplain : v.holds_expandable = false)
    (hfit : d.path.length + (item.key.length + 1) ≤ COIL_PATH_LEN) :
    ∃ e1, merge_item X dest false false e item = Run.done e1 none ∧
      merge_ready e1 dest (merged [item] d) ∧
      (∀ i, i ≠ dest → e1.structs[i]? = e.structs[i]?) := by
  obtain ⟨hd, hh, hproto, hT, hcons⟩ := hready
  have hlt := struct_lt_of_some e dest d hd
  have hvs := holds_struct_of_plain v hplain
  unfold merge_item
  simp only [hd, hv]
  cases hex : table_lookup d.key_table item.key with
  | some x =>
    have hm : merged [item] d = d := by simp [merged, hex]
    rw [hm]
    refine ⟨e, ?_, ⟨hd, hh, hproto, hT, hcons⟩, fun _ _ => rfl⟩
    simp only [Option.isSome_some, Bool.not_false, Bool.and_self, if_true, hvs]
    cases (Option.join (some x)).bind Value.holds_struct <;> rfl
  | none =>
    have hm : merged [item] d =
        with_entry d item.key (d.path ++ COIL_PATH_DELIM :: item.key) v := by
      simp [merged, hex, hv]
    have hbuild : coil_path_build (some d.path) [item.key] =
        Built.string (d.path ++ COIL_PATH_DELIM :: item.key) := by
      simp only [coil_path_build, List.map_cons, List.map_nil, List.sum_cons, List.sum_nil,
        keys_text, List.append_nil]
      rw [if_pos (by omega)]
    obtain ⟨e1, hset, h1d, h1l, h1t, _, h1o⟩ := set_value_internal_new_facts X e dest d item.key
      (d.path ++ COIL_PATH_DELIM :: item.key) v true hd hh hT (hcons _ hex) hplain
      (by rw [hproto]; rfl)
    rw [hm]
    refine ⟨e1, ?_, ⟨h1d, hh, hproto, ?_, ?_⟩, h1o⟩
    · simp only [Option.isSome_none, Bool.false_and, Bool.false_eq_true, if_false, hvs,
        Run.bind, coil_struct_set_key_value, hd, hbuild, hset]
    · rw [h1l]; exact hT
    · intro key hkey
      simp only [with_entry] at hkey ⊢
      obtain ⟨h1, h2⟩ := table_insert_none _ _ _ _ hkey
      simp only [path_table_lookup]
      rw [h1t, table_lookup_insert_ne _ _ _ _ (by simpa using h2)]
      exact hcons key h1

/-- The loop of `coil_struct_merge` without overwrite in one root from the
item at `index` of the order of the source on, when all values of the source
are no expandables: the items are merged one after the other. -/
theorem merge_iter_plain (X : Calls) (src dest : Nat) (ss : CoilStruct) (hne : src ≠ dest)
    (hvalues : ∀ item ∈ ss.order, ∃ v, item.value = some v ∧ v.holds_expandable = false) :
    ∀ (index fuel : Nat) (e : Engine) (d : CoilStruct), e.structs[src]? = some ss →
      merge_ready e dest d → index < ss.order.length → index + 2 ≤ fuel →
      (∀ item ∈ ss.order, d.path.length + (item.key.length + 1) ≤ COIL_PATH_LEN) →
      ∃ e1, iter_while X.COIL_DEBUG (merge_item X dest false false) fuel e
            ⟨src, ss.version, some index⟩ = Run.done e1 none ∧
        merge_ready e1 dest (merged ((ss.order.take (index + 1)).reverse) d) ∧
        (∀ i, i ≠ dest → e1.structs[i]? = e.structs[i]?) := by
  intro index
  induction index with
  | zero =>
    intro fuel e d hs hready hlt hfuel hfit
    obtain ⟨f1, rfl⟩ : ∃ f1, fuel = f1 + 2 := ⟨fuel - 2, by omega⟩
    obtain ⟨item, hitem⟩ : ∃ item, ss.order[0]? = some item := by
      rw [List.getElem?_eq_getElem hlt]; exact ⟨_, rfl⟩
    have hmem : item ∈ ss.order := List.getElem?_mem hitem
    have htake : ss.order.take 1 = [item] := by
      cases hso : ss.order with
      | nil => rw [hso] at hlt; simp at hlt
      | cons a rest => rw [hso] at hitem; simp at hitem; simp [hitem]
    obtain ⟨v, hv, hplain⟩ := hvalues item hmem
    obtain ⟨e1, hrun, hready1, hold1⟩ := merge_item_plain X e dest d item v hready hv hplain
      (hfit item hmem)
    refine ⟨e1, ?_, by simpa [htake] using hready1, hold1⟩
    simp only [iter_while, coil_struct_iter_next, hs, hitem, bne_self_eq_false, Bool.and_false,
      Bool.false_eq_true, if_false, if_true, hrun, Run.bind]
  | succ i ih =>
    intro fuel e d hs hready hlt hfuel hfit
    obtain ⟨f1, rfl⟩ : ∃ f1, fuel = f1 + 1 := ⟨fuel - 1, by omega⟩
    obtain ⟨item, hitem⟩ : ∃ item, ss.order[i + 1]? = some item := by
      rw [List.getElem?_eq_getElem hlt]; exact ⟨_, rfl⟩
    have hmem : item ∈ ss.order := List.getElem?_mem hitem
    have htake : ss.order.take (i + 1 + 1) = ss.order.take (i + 1) ++ [item] := by
      rw [List.take_succ, hitem]; rfl
    obtain ⟨v, hv, hplain⟩ := hvalues item hmem
    obtain ⟨e1, hrun, hready1, hold1⟩ := merge_item_plain X e dest d item v hready hv hplain
      (hfit item hmem)
    have hs1 : e1.structs[src]? = some ss := by rw [hold1 src hne]; exact hs
    obtain ⟨e2, hrun2, hready2, hold2⟩ := ih f1 e1 (merged [item] d) hs1 hready1 (by omega)
      (by omega) (by rw [merged_path]; exact hfit)
    refine ⟨e2, ?_, ?_, fun j hj => (hold2 j hj).trans (hold1 j hj)⟩
    · simp only [iter_while, coil_struct_iter_next, hs, hitem, bne_self_eq_false,
        Bool.and_false, Bool.false_eq_true, if_false, hrun, Run.bind, Nat.add_sub_cancel,
        Nat.succ_ne_zero, Nat.add_one_ne_zero]
      exact hrun2
    · rw [htake, List.reverse_append, List.reverse_singleton, List.singleton_append,
        merged_cons item _ d (by rw [hv]; rfl)]
      exact hready2

/-- `coil_struct_merge` without overwrite of an expanded source, all of whose
values are no expandables, into another struct of the same root: the items of
the source are merged in the order of its iteration, and no other struct
changes. -/
theorem merge_plain (X : Calls) (e : Engine) (src dest root : Nat) (ss ds : CoilStruct)
    (hs : e.structs[src]? = some ss) (hne : src ≠ dest)
    (hroot1 : coil_struct_get_root e src = Run.done e root)
    (hroot2 : coil_struct_get_root e dest = Run.done e root)
    (hexp : ss.expanded = true) (hguard : (X.COIL_DEBUG && ss.is_prototype) = false)
    (hsize : ss.size = 0 → ss.order = [])
    (hvalues : ∀ item ∈ ss.order, ∃ v, item.value = some v ∧ v.holds_expandable = false)
    (hready : merge_ready e dest ds)
    (hfit : ∀ item ∈ ss.order, ds.path.length + (item.key.length + 1) ≤ COIL_PATH_LEN) :
    ∃ e1, coil_struct_merge X e src dest false = Run.done e1 none ∧
      merge_ready e1 dest (merged ss.order.reverse ds) ∧
      (∀ i, i ≠ dest → e1.structs[i]? = e.structs[i]?) := by
  unfold coil_struct_merge
  rw [if_neg (by simp [hne])]
  simp only [hs, hexp, if_true, Run.bind]
  by_cases hempty : coil_struct_is_empty ss = true
  · have h0 : ss.size = 0 := by
      simp only [coil_struct_is_empty, Bool.not_eq_true', Bool.or_eq_false_iff, bne_eq_false_iff_eq]
        at hempty
      exact hempty.1
    rw [if_pos hempty, hsize h0]
    exact ⟨e, rfl, by simpa [merged] using hready, fun _ _ => rfl⟩
  · rw [if_neg hempty, if_neg hne]
    simp only [hroot1, hroot2, Run.bind, if_true]
    unfold iterate_with
    simp only [hs, hguard, Bool.false_eq_true, if_false, coil_struct_iter_init]
    cases hso : ss.order with
    | nil =>
      refine ⟨e, ?_, by simpa [merged] using hready, fun _ _ => rfl⟩
      simp [iter_while, coil_struct_iter_next, Run.bind]
    | cons a rest =>
      obtain ⟨e1, hrun, hready1, hold1⟩ := merge_iter_plain X src dest ss hne hvalues
        (ss.order.length - 1) (ss.order.length + 1) e ds hs hready (by rw [hso]; simp)
        (by rw [hso]; simp) hfit
      rw [hso] at hrun hready1
      simp only [List.length_cons, Nat.add_sub_cancel] at hrun hready1
      rw [List.take_of_length_le (by simp)] at hready1
      refine ⟨e1, ?_, hready1, hold1⟩
      simp only [List.isEmpty_cons, Bool.false_eq_true, if_false, List.length_cons,
        Nat.add_sub_cancel, hrun, Run.bind]

/-- A merge of plain values into a struct that no handler watches: let `src`
and `dst` be two structs of one root, `src` expanded with
values that hold no struct, link or include, `dst` no prototype and without
handlers of `modify`, with room for the paths of the keys of `src` and with no
value in the path table at the path of a key that is not in its key table.
Then `coil_struct_merge(src, dst, FALSE)` succeeds, and afterwards every key
of the key table of `dst`, whether it had a value or was marked deleted, has
what it had; a key marked deleted that was in no item of the order of `dst` is
in none afterwards; the order of `dst` is the old order followed in the
iteration by the items `added`, whose keys were not in the key table of `dst`,
follow each other as in the iteration of `src`, carry the values `src` has for
them, and include every key of `src` that was not in the key table of
`dst`. -/
theorem merge_keeps_and_appends (X : Calls) (e : Engine) (src dst root : Nat)
    (ss ds : CoilStruct)
    (hs : e.structs[src]? = some ss) (hd : e.structs[dst]? = some ds) (hne : src ≠ dst)
    (hroot1 : coil_struct_get_root e src = Run.done e root)
    (hroot2 : coil_struct_get_root e dst = Run.done e root)
    (hexp : ss.expanded = true) (hguard : (X.COIL_DEBUG && ss.is_prototype) = false)
    (hsize : ss.size = 0 → ss.order = [])
    (hvalues : ∀ item ∈ ss.order, ∃ v, item.value = some v ∧ v.holds_expandable = false)
    (hh : ds.modify_handlers = []) (hproto : ds.is_prototype = false)
    (hT : ds.path_table < e.tables.length)
    (hfit : ∀ item ∈ ss.order, ds.path.length + (item.key.length + 1) ≤ COIL_PATH_LEN)
    (hcons : ∀ key, table_lookup ds.key_table key = none →
      path_table_lookup e ds (ds.path ++ COIL_PATH_DELIM :: key) = none) :
    ∃ (e1 : Engine) (d1 : CoilStruct) (added : List StructItem),
      coil_struct_merge X e src dst false = Run.done e1 none ∧
      e1.structs[dst]? = some d1 ∧
      (∀ key x, table_lookup ds.key_table key = some x →
        table_lookup d1.key_table key = some x) ∧
      (∀ key, table_lookup ds.key_table key = some none →
        (∀ item ∈ ds.order, item.key ≠ key) → ∀ item ∈ d1.order, item.key ≠ key) ∧
      d1.order.reverse = ds.order.reverse ++ added ∧
      (∀ a ∈ added, table_lookup ds.key_table a.key = none ∧
        ∃ item ∈ ss.order, item.key = a.key ∧ item.value = a.value) ∧
      (added.map (fun a => a.key)).Sublist (ss.order.reverse.map (fun item => item.key)) ∧
      (∀ item ∈ ss.order, table_lookup ds.key_table item.key = none →
        item.key ∈ added.map (fun a => a.key)) := by
  obtain ⟨e1, hrun, ⟨hd1, _⟩, _⟩ := merge_plain X e src dst root ss ds hs hne hroot1 hroot2 hexp
    hguard hsize hvalues ⟨hd, hh, hproto, hT, hcons⟩ hfit
  have hsome : ∀ item ∈ ss.order.reverse, item.value.isSome = true := by
    intro item hitem
    obtain ⟨v, hv, _⟩ := hvalues item (List.mem_reverse.1 hitem)
    rw [hv]; rfl
  obtain ⟨added, h1, h2, h3, h4⟩ := merged_order ss.order.reverse hsome ds
  refine ⟨e1, _, added, hrun, hd1, merged_keeps _ ds, ?_, ?_, ?_, h3, ?_⟩
  · intro key hkey hold item hitem
    rw [h1] at hitem
    rcases List.mem_append.1 hitem with h | h
    · intro heq
      have := (h2 item (List.mem_reverse.1 h)).1
      rw [heq, hkey] at this
      exact absurd this (by simp)
    · exact hold item h
  · rw [h1]; simp
  · intro a ha
    obtain ⟨h5, item, hitem, h6⟩ := h2 a ha
    exact ⟨h5, item, List.mem_reverse.1 hitem, h6⟩
  · intro item hitem hnone
    exact h4 item (List.mem_reverse.2 hitem) hnone

/-- The merge of `a`, with `x` and `y`, into `b`, with `y`, in
`merge_engine`. -/
theorem merge_keeps_and_appends_witness :
    ∃ (e1 : Engine) (d1 : CoilStruct) (added : List StructItem),
      coil_struct_merge engine_calls merge_engine 1 2 false = Run.done e1 none ∧
      e1.structs[2]? = some d1 ∧
      (∀ key x, table_lookup merge_target.key_table key = some x →
        table_lookup d1.key_table key = some x) ∧
      (∀ key, table_lookup merge_target.key_table key = some none →
        (∀ item ∈ merge_target.order, item.key ≠ key) → ∀ item ∈ d1.order, item.key ≠ key) ∧
      d1.order.reverse = merge_target.order.reverse ++ added ∧
      (∀ a ∈ added, table_lookup merge_target.key_table a.key = none ∧
        ∃ item ∈ merge_source.order, item.key = a.key ∧ item.value = a.value) ∧
      (added.map (fun a => a.key)).Sublist
        (merge_source.order.reverse.map (fun item => item.key)) ∧
      (∀ item ∈ merge_source.order, table_lookup merge_target.key_table item.key = none →
        item.key ∈ added.map (fun a => a.key)) :=
  merge_keeps_and_appends engine_calls merge_engine 1 2 0 merge_source merge_target
    (by rfl) (by rfl) (by decide) (by rfl) (by rfl) (by rfl) (by rfl)
    (fun h => absurd h (by decide))
    (by
      intro item hitem
      simp only [merge_source, List.mem_cons, List.mem_singleton, List.not_mem_nil,
        or_false] at hitem
      rcases hitem with rfl | rfl
      · exact ⟨Value.int 3, rfl, rfl⟩
      · exact ⟨Value.int 1, rfl, rfl⟩)
    (by rfl) (by rfl) (by decide) (by decide)
    (by
      intro key hkey
      have hk : key ≠ ['y'] := by
        rintro rfl
        simp [merge_target, table_lookup] at hkey
      have htable : merge_engine.table merge_target.path_table =
          [(['@', 'r', 'o', 'o', 't', '.', 'b', '.', 'y'], Value.int 2),
            (['@', 'r', 'o', 'o', 't', '.', 'b'], Value.struct 2),
            (['@', 'r', 'o', 'o', 't', '.', 'a', '.', 'y'], Value.int 3),
            (['@', 'r', 'o', 'o', 't', '.', 'a', '.', 'x'], Value.int 1),
            (['@', 'r', 'o', 'o', 't', '.', 'a'], Value.struct 1)] := by rfl
      simp only [path_table_lookup, htable]
      simp [table_lookup, merge_target, COIL_PATH_DELIM, Ne.symm hk])

theorem get_root_loop_congr (e e1 : Engine)
    (hsame : same_containers e e1) :
    ∀ (fuel i root : Nat), get_root_loop fuel e i = Run.done e root →
      get_root_loop fuel e1 i = Run.done e1 root := by
  intro fuel
  induction fuel with
  | zero => intro i root h; simp [get_root_loop] at h
  | succ n ih =>
    intro i root h
    have hi := hsame i
    unfold get_root_loop at h ⊢
    cases hs : e.structs[i]? with
    | none => rw [hs] at h; cases h
    | some s =>
      rw [hs] at h hi
      cases hs1 : e1.structs[i]? with
      | none => rw [hs1] at hi; simp at hi
      | some s1 =>
        rw [hs1] at hi
        have hc : s1.container = s.container := by simpa using hi
        simp only [hc] at h ⊢
        cases hcont : s.container with
        | none =>
          rw [hcont] at h
          simp only at h ⊢
          cases h
          rfl
        | some c =>
          rw [hcont] at h
          exact ih c root h

theorem length_of_containers (e e1 : Engine)
    (hsame : same_containers e e1) :
    e1.structs.length = e.structs.length := by
  have h1 := hsame e.structs.length
  have h2 := hsame e1.structs.length
  rw [List.getElem?_eq_none (le_refl _)] at h1
  rw [List.getElem?_eq_none (le_refl _)] at h2
  simp only [Option.map_none', Option.map_eq_none'] at h1
  have h2s := h2.symm
  simp only [Option.map_none', Option.map_eq_none'] at h2s
  have h3 := List.getElem?_eq_none_iff.1 h1
  have h4 := List.getElem?_eq_none_iff.1 h2s
  omega

theorem get_root_congr (e e1 : Engine) (i root : Nat)
    (hsame : same_containers e e1)
    (h : coil_struct_get_root e i = Run.done e root) :
    coil_struct_get_root e1 i = Run.done e1 root := by
  unfold coil_struct_get_root at h ⊢
  rw [length_of_containers e e1 hsame]
  exact get_root_loop_congr e e1 hsame _ i root h

theorem merge_ready_set_other (e : Engine) (dest other : Nat) (d s : CoilStruct)
    (hne : other ≠ dest) (h : merge_ready e dest d) :
    merge_ready (e.set_struct other s) dest d := by
  obtain ⟨h1, h2, h3, h4, h5⟩ := h
  exact ⟨by rw [set_struct_ne _ _ _ _ (Ne.symm hne)]; exact h1, h2, h3, h4, h5⟩

theorem same_containers_set (e : Engine) (i : Nat) (s t : CoilStruct)
    (hs : e.structs[i]? = some s) (hc : t.container = s.container) :
    same_containers e (e.set_struct i t) := by
  intro j
  by_cases h : j = i
  · subst h
    rw [set_struct_self _ _ _ (struct_lt_of_some e j s hs), hs]
    simp [hc]
  · rw [set_struct_ne _ _ _ _ h]

/-- C40 fails on the code: `coil_path_has_container(path, base)` is true only
when `base` is `@root` and `path` is not.  For any other base the function
looks for a delimiter with `strchr` from the delimiter that follows the base,
finds that one, and returns FALSE: also for `@root.a.b` in `@root.a`, which
`coil_path_is_descendent` accepts. -/
theorem has_container_false_below_root :
    (∀ path base : List Char,
      coil_path_has_container path base =
        (COIL_PATH_IS_ROOT base && !COIL_PATH_IS_ROOT path)) ∧
    coil_path_has_container ['@', 'r', 'o', 'o', 't', '.', 'a', '.', 'b']
      ['@', 'r', 'o', 'o', 't', '.', 'a'] = false ∧
    coil_path_is_descendent ['@', 'r', 'o', 'o', 't', '.', 'a', '.', 'b']
      ['@', 'r', 'o', 'o', 't', '.', 'a'] = true := by
  refine ⟨?_, by decide, by decide⟩
  intro path base
  unfold coil_path_has_container _path_has_container
  cases hroot : COIL_PATH_IS_ROOT base
  · simp only [Bool.false_eq_true, if_false, if_true, Bool.false_and]
    cases hrest : (skip_common path base).1 with
    | nil => simp
    | cons c rest =>
      by_cases hc : c = COIL_PATH_DELIM
      · subst hc
        simp
      · simp [hc]
  · simp

/-- C36 fails on the code: `struct_set_value_internal` makes `self` the
container of a struct it is given as value without looking whether that
struct is `self` or one of its containers.  `set_key_value(root, "k", root)`
on a new root succeeds and leaves the root as its own container;
`set_path_value(root, "a.k", root)` on a new root succeeds and leaves the root
in the struct at `a` and that struct in the root.  In both,
`coil_struct_get_root` does not return, and after the first
`coil_struct_is_ancestor(root, root)` is TRUE. -/
theorem set_value_makes_container_cycle :
    self_value_scenario.result.map (fun x => x.2) = some none ∧
    (self_value_scenario.engine.structs[0]?).map (fun s => s.container) = some (some 0) ∧
    coil_struct_is_ancestor self_value_scenario.engine 0 0 =
      Run.done self_value_scenario.engine true ∧
    coil_struct_get_root self_value_scenario.engine 0 = Run.diverge ∧
    ancestor_value_scenario.result.map (fun x => x.2) = some none ∧
    (ancestor_value_scenario.engine.structs[0]?).map (fun s => s.container) =
      some (some 1) ∧
    (ancestor_value_scenario.engine.structs[1]?).map (fun s => s.container) =
      some (some 0) ∧
    coil_struct_get_root ancestor_value_scenario.engine 0 = Run.diverge ∧
    coil_struct_is_ancestor ancestor_value_scenario.engine 0 0 =
      Run.done ancestor_value_scenario.engine true :=
  ⟨by rfl, by rfl, by rfl, by rfl, by rfl, by rfl, by rfl, by rfl, by rfl⟩

/-- C37 fails on the code: `coil_struct_get_size` adds the sizes of the
dependencies to the size of the struct, whether or not their keys are keys of
the struct.  In `shadow_engine`, where `b` has `x` and extends `a`, which has
`x`, `get_size(b)` is 2 and leaves `b` not expanded; after `coil_expand(b)`,
which succeeds, `b` is expanded, has the one key `x`, and `get_size(b)` is
1. -/
theorem get_size_counts_shadowed_keys :
    (shadow_engine.structs[2]?).map (fun s => (s.expanded, s.dependencies)) =
      some (false, [Value.struct 1]) ∧
    coil_struct_get_size shadow_engine 2 = Run.done shadow_engine 2 ∧
    (engine_calls.coil_expand shadow_engine 2).result.map (fun x => x.2) =
      some (true, none) ∧
    ((engine_calls.coil_expand shadow_engine 2).engine.structs[2]?).map
      (fun s => (s.expanded, s.key_table)) = some (true, [(['x'], some (Value.int 2))]) ∧
    (coil_struct_get_size (engine_calls.coil_expand shadow_engine 2).engine 2).result.map
      (fun x => x.2) = some 1 :=
  ⟨by rfl, by rfl, by rfl, by rfl, by rfl⟩

/-- C38 fails on the code: with NULL for `new_container` `coil_struct_copy`
makes the new root and returns NULL without an error, for every struct; the
struct `a` of `merge_engine` is an instance. -/
theorem copy_without_container_is_null :
    (∀ (X : Calls) (e : Engine) (self : Nat),
      (coil_struct_copy X e self none).result.map (fun x => x.2) =
        (e.structs[self]?).map (fun _ => (none, none))) ∧
    (merge_engine.structs[1]?).map (fun s => s.is_prototype) = some false ∧
    (coil_struct_copy engine_calls merge_engine 1 none).result.map (fun x => x.2) =
      some (none, none) := by
  refine ⟨?_, by rfl, by rfl⟩
  intro X e self
  unfold coil_struct_copy
  cases hs : e.structs[self]? with
  | none => rfl
  | some s =>
    simp only [Option.map_some']
    split
    · rfl
    · split
      · rfl
      · simp [coil_struct_new, Run.bind, Run.result]

/-- C39 fails on the code: a key marked deleted is in the key table only, and
`coil_struct_copy` copies the items of the order.  In `tombstone_engine` `a`
has `k` marked deleted and extends `p`, which has `k`; the copy of `a` made
in `c` has the dependency `p` and `x`, and `k` is not in its key table; after
both are expanded `a` has no value for `k` and the copy has the 7 of `p`. -/
theorem copy_drops_deleted_keys :
    (tombstone_engine.structs[2]?).map (fun s => (s.dependencies, s.key_table)) =
      some ([Value.struct 1], [(['k'], none), (['x'], some (Value.int 1))]) ∧
    tombstone_copy.result.map (fun x => x.2) = some (some 4, none) ∧
    (tombstone_copy.engine.structs[4]?).map (fun s => (s.dependencies, s.key_table)) =
      some ([Value.struct 1], [(['x'], some (Value.int 1))]) ∧
    (tombstone_expanded.structs[2]?).map (fun s => (s.expanded, s.key_table)) =
      some (true, [(['k'], none), (['x'], some (Value.int 1))]) ∧
    (tombstone_expanded.structs[4]?).map (fun s => (s.expanded, s.key_table)) =
      some (true, [(['k'], some (Value.int 7)), (['x'], some (Value.int 1))]) :=
  ⟨by rfl, by rfl, by rfl, by rfl, by rfl⟩

/-! ## Comparison and printing of values -/

theorem digitChar_value (d : Nat) (h : d < 10) :
    (Nat.digitChar d).toNat - '0'.toNat = d ∧ (Nat.digitChar d).isDigit = true := by
  interval_cases d <;> exact ⟨by rfl, by rfl⟩

theorem digits_value_reverse (l : List Nat) (h : ∀ d ∈ l, d < 10) :
    digits_value (l.reverse.map Nat.digitChar) = Nat.ofDigits 10 l := by
  induction l with
  | nil => rfl
  | cons d l ih =>
    have hl : ∀ x ∈ l, x < 10 := fun x hx => h x (by simp [hx])
    have ih1 := ih hl
    unfold digits_value at ih1 ⊢
    rw [List.reverse_cons, List.map_append, List.foldl_append, ih1, Nat.ofDigits_cons]
    simp only [List.map_cons, List.map_nil, List.foldl_cons, List.foldl_nil]
    rw [(digitChar_value d (h d (by simp))).1]
    omega

theorem decimal_value (n : Nat) :
    digits_value (decimal n) = n ∧ (decimal n).all Char.isDigit = true := by
  unfold decimal
  by_cases h0 : n = 0
  · rw [if_pos h0, h0]
    exact ⟨by rfl, by rfl⟩
  · rw [if_neg h0]
    have hlt : ∀ d ∈ Nat.digits 10 n, d < 10 := fun d hd => Nat.digits_lt_base (by omega) hd
    refine ⟨by rw [digits_value_reverse _ hlt, Nat.ofDigits_digits], ?_⟩
    rw [List.all_eq_true]
    intro c hc
    rw [List.mem_map] at hc
    obtain ⟨d, hd, rfl⟩ := hc
    exact (digitChar_value d (hlt d (List.mem_reverse.1 hd))).2

/-- C32: the root 0 of `two_roots` holds `x` and the root 1 holds nothing, and
`coil_struct_equals` returns FALSE for the two; the path of both is `@root`,
and `coil_value_compare` returns 0 for the two values that hold them, in
either order. -/
theorem compare_zero_for_unequal_roots (T : GTypes) (fuel : Nat) :
    coil_struct_equals T engine_calls (comparisons T engine_calls fuel) two_roots 0 1 =
      Run.done two_roots (false, none) ∧
    coil_value_compare T engine_calls (comparisons T engine_calls (fuel + 1)) two_roots
      (Value.struct 0) (Value.struct 1) = Run.done two_roots (0, none) ∧
    coil_value_compare T engine_calls (comparisons T engine_calls (fuel + 1)) two_roots
      (Value.struct 1) (Value.struct 0) = Run.done two_roots (0, none) :=
  ⟨by rfl, by rfl, by rfl⟩

/-- C33: `coil_value_compare` returns 1 for the lists `[1]` and `[2]` and 1
for the lists `[2]` and `[1]`: the loop of `_compare_value_list` is left at
the first pair of elements that differ, with both lists not at their end. -/
theorem list_compare_same_sign_both_ways (T : GTypes) (X : Calls) (fuel : Nat) (e : Engine) :
    coil_value_compare T X (comparisons T X (fuel + 1)) e
      (Value.list [Value.int 1]) (Value.list [Value.int 2]) = Run.done e (1, none) ∧
    coil_value_compare T X (comparisons T X (fuel + 1)) e
      (Value.list [Value.int 2]) (Value.list [Value.int 1]) = Run.done e (1, none) :=
  ⟨by rfl, by rfl⟩

/-- C34: `coil_link_equals` returns TRUE for every two links.  In
`links_engine` the link 0 has the path `x` and the root 0 as container, the
link 1 has the path `y` and the root 1 as container, the paths resolve to
`@root.x` and `@root.y`, and the two links are equal for `coil_link_equals`. -/
theorem link_equals_always_true :
    (∀ (e : Engine) (l1 l2 : Nat), coil_link_equals e l1 l2 = true) ∧
    links_engine.links = [⟨some 0, false, ['x']⟩, ⟨some 1, false, ['y']⟩] ∧
    coil_struct_get_root links_engine 0 = Run.done links_engine 0 ∧
    coil_struct_get_root links_engine 1 = Run.done links_engine 1 ∧
    (coil_path_resolve [] (some "@root".toList) ['x'] (some zero_buffer)).result =
      some (true, some "@root.x".toList, none, none) ∧
    (coil_path_resolve [] (some "@root".toList) ['y'] (some zero_buffer)).result =
      some (true, some "@root.y".toList, none, none) ∧
    coil_link_equals links_engine 0 1 = true :=
  ⟨fun _ _ _ => rfl, by rfl, by rfl, by rfl, by rfl, by rfl, by rfl⟩

/-- C35: `coil_value_to_string` gives `True` and `False` for the booleans,
`None` for the none object, for an integer the decimal digits of its absolute
value, after a `-` when it is negative, and for a string `s` the string
between three single quotes on each side when `s` is longer than 80
characters or contains a new line, and between one single quote on each side
otherwise, as for a string of 80 characters without a new line. -/
theorem to_string_renders_values
    (coil_expandable_build_string coil_list_build_string : Value → List Char → List Char) :
    coil_value_to_string coil_expandable_build_string coil_list_build_string
      (some (Value.boolean true)) = ['T', 'r', 'u', 'e'] ∧
    coil_value_to_string coil_expandable_build_string coil_list_build_string
      (some (Value.boolean false)) = ['F', 'a', 'l', 's', 'e'] ∧
    coil_value_to_string coil_expandable_build_string coil_list_build_string
      (some Value.none_object) = ['N', 'o', 'n', 'e'] ∧
    (∀ i : Int, ∃ digits : List Char,
      coil_value_to_string coil_expandable_build_string coil_list_build_string
        (some (Value.int i)) = (if i < 0 then '-' :: digits else digits) ∧
      digits.all Char.isDigit = true ∧ digits ≠ [] ∧ digits_value digits = i.natAbs) ∧
    (∀ s : List Char,
      coil_value_to_string coil_expandable_build_string coil_list_build_string
        (some (Value.string s)) =
        if 80 < s.length ∨ new_line ∈ s then
          [single_quote, single_quote, single_quote] ++ s ++
            [single_quote, single_quote, single_quote]
        else [single_quote] ++ s ++ [single_quote]) ∧
    coil_value_to_string coil_expandable_build_string coil_list_build_string
      (some (Value.string (List.replicate 80 'a'))) =
      [single_quote] ++ List.replicate 80 'a' ++ [single_quote] ∧
    coil_value_to_string coil_expandable_build_string coil_list_build_string
      (some (Value.string (List.replicate 81 'a'))) =
      [single_quote, single_quote, single_quote] ++ List.replicate 81 'a' ++
        [single_quote, single_quote, single_quote] := by
  refine ⟨rfl, rfl, rfl, ?_, ?_, by rfl, by rfl⟩
  · intro i
    refine ⟨decimal i.natAbs, ?_, (decimal_value _).2, ?_, (decimal_value _).1⟩
    · rfl
    · unfold decimal
      split
      · exact List.cons_ne_nil _ _
      · rename_i h0
        simp only [ne_eq, List.map_eq_nil_iff, List.reverse_eq_nil_iff]
        exact fun h => h0 (Nat.digits_eq_nil_iff_eq_zero.1 h)
  · intro s
    rfl

/-! ## `coil_struct_equals` -/

theorem char_toNat_inj (c d : Char) (h : c.toNat = d.toNat) : c = d := by
  have := congrArg Char.ofNat h
  simpa using this

theorem strcmp_self (a : List Char) : strcmp a a = 0 := by
  induction a with
  | nil => rfl
  | cons c a ih => simp [strcmp, ih]

theorem strcmp_swap (a : List Char) : ∀ b : List Char, strcmp b a = - strcmp a b := by
  induction a with
  | nil =>
    intro b
    cases b <;> simp [strcmp]
  | cons c a ih =>
    intro b
    cases b with
    | nil => simp [strcmp]
    | cons d b =>
      by_cases hcd : c = d
      · subst hcd
        simp [strcmp, ih b]
      · have hdc : ¬ d = c := fun h => hcd h.symm
        have hne : c.toNat ≠ d.toNat := fun h => hcd (char_toNat_inj c d h)
        simp only [strcmp, if_neg hcd, if_neg hdc]
        by_cases hlt : c.toNat < d.toNat
        · rw [if_pos hlt, if_neg (by omega)]; rfl
        · rw [if_neg hlt, if_pos (by omega)]

theorem strcmp_eq_zero (a : List Char) : ∀ b : List Char, strcmp a b = 0 → a = b := by
  induction a with
  | nil =>
    intro b h
    cases b with
    | nil => rfl
    | cons d b => simp [strcmp] at h
  | cons c a ih =>
    intro b h
    cases b with
    | nil => simp [strcmp] at h
    | cons d b =>
      by_cases hcd : c = d
      · subst hcd
        simp only [strcmp, if_true] at h
        rw [ih b h]
      · simp only [strcmp, if_neg hcd] at h
        split at h <;> simp at h

theorem strcmp_trans (a : List Char) :
    ∀ b c : List Char, strcmp a b ≤ 0 → strcmp b c ≤ 0 → strcmp a c ≤ 0 := by
  induction a with
  | nil =>
    intro b c _ _
    cases c <;> simp [strcmp]
  | cons x a ih =>
    intro b c h1 h2
    cases b with
    | nil => simp [strcmp] at h1
    | cons y b =>
      cases c with
      | nil => simp [strcmp] at h2
      | cons z c =>
        simp only [strcmp] at h1 h2 ⊢
        by_cases hxy : x = y
        · subst hxy
          rw [if_pos rfl] at h1
          by_cases hxz : x = z
          · subst hxz
            rw [if_pos rfl] at h2 ⊢
            exact ih b c h1 h2
          · rw [if_neg hxz] at h2 ⊢
            exact h2
        · rw [if_neg hxy] at h1
          have hlt1 : x.toNat < y.toNat := by
            by_contra hge
            rw [if_neg hge] at h1
            omega
          by_cases hyz : y = z
          · subst hyz
            rw [if_neg hxy, if_pos hlt1]
            omega
          · rw [if_neg hyz] at h2
            have hlt2 : y.toNat < z.toNat := by
              by_contra hge
              rw [if_neg hge] at h2
              omega
            have hxz : ¬ x = z := by
              intro h
              subst h
              omega
            rw [if_neg hxz, if_pos (by omega)]
            omega

theorem sort_map_entry (l : List StructItem) :
    (g_list_sort l).map StructItem.entry =
      (l.map StructItem.entry).insertionSort (fun p q => strcmp p.1 q.1 ≤ 0) := by
  unfold g_list_sort
  exact List.map_insertionSort (fun n1 n2 : StructItem => strcmp n1.key n2.key ≤ 0)
    (fun p q : List Char × Option Value => strcmp p.1 q.1 ≤ 0) StructItem.entry l
    (fun _ _ _ _ => Iff.rfl)

theorem sorted_strictly (m : List (List Char × Option Value))
    (hnodup : (m.map Prod.fst).Nodup) :
    List.Sorted (fun p q : List Char × Option Value => strcmp p.1 q.1 < 0)
      (m.insertionSort (fun p q => strcmp p.1 q.1 ≤ 0)) := by
  haveI : IsTotal (List Char × Option Value) (fun p q => strcmp p.1 q.1 ≤ 0) :=
    ⟨fun p q => by
      have h := strcmp_swap p.1 q.1
      by_cases hle : strcmp p.1 q.1 ≤ 0
      · exact Or.inl hle
      · exact Or.inr (by omega)⟩
  haveI : IsTrans (List Char × Option Value) (fun p q => strcmp p.1 q.1 ≤ 0) :=
    ⟨fun p q t h1 h2 => strcmp_trans p.1 q.1 t.1 h1 h2⟩
  have hsorted := List.sorted_insertionSort (fun p q : List Char × Option Value =>
    strcmp p.1 q.1 ≤ 0) m
  have hperm := List.perm_insertionSort (fun p q : List Char × Option Value =>
    strcmp p.1 q.1 ≤ 0) m
  have hnd : ((m.insertionSort (fun p q => strcmp p.1 q.1 ≤ 0)).map Prod.fst).Nodup :=
    (List.Perm.nodup_iff (hperm.map Prod.fst)).2 hnodup
  have hne : List.Pairwise (fun p q : List Char × Option Value => p.1 ≠ q.1)
      (m.insertionSort (fun p q => strcmp p.1 q.1 ≤ 0)) := List.pairwise_map.1 hnd
  unfold List.Sorted at hsorted ⊢
  refine (hsorted.and hne).imp ?_
  intro p q h
  have h0 : strcmp p.1 q.1 ≠ 0 := fun h0 => h.2 (strcmp_eq_zero p.1 q.1 h0)
  have h1 := h.1
  omega

/-- The sorted copies of two orders with the same keys and values, each key
once, have the same keys and values at each place. -/
theorem sorted_entries_unique (l1 l2 : List StructItem)
    (hperm : (l1.map StructItem.entry).Perm (l2.map StructItem.entry))
    (hnodup : (l1.map (fun item => item.key)).Nodup) :
    (g_list_sort l1).map StructItem.entry = (g_list_sort l2).map StructItem.entry := by
  rw [sort_map_entry, sort_map_entry]
  have hnd1 : ((l1.map StructItem.entry).map Prod.fst).Nodup := by
    rw [List.map_map]; exact hnodup
  have hnd2 : ((l2.map StructItem.entry).map Prod.fst).Nodup :=
    (List.Perm.nodup_iff (hperm.map Prod.fst)).1 hnd1
  have hp : ((l1.map StructItem.entry).insertionSort (fun p q => strcmp p.1 q.1 ≤ 0)).Perm
      ((l2.map StructItem.entry).insertionSort (fun p q => strcmp p.1 q.1 ≤ 0)) :=
    ((List.perm_insertionSort _ _).trans hperm).trans (List.perm_insertionSort _ _).symm
  haveI : IsAntisymm (List Char × Option Value) (fun p q => strcmp p.1 q.1 < 0) :=
    ⟨fun p q h1 h2 => by
      have h := strcmp_swap p.1 q.1
      omega⟩
  exact List.eq_of_perm_of_sorted hp (sorted_strictly _ hnd1) (sorted_strictly _ hnd2)

theorem compare_scalar_self (T : GTypes) (X : Calls) (C : Comparisons) (e : Engine)
    (v : Value) (h : v.is_scalar = true) :
    coil_value_compare T X C e v v = Run.done e (0, none) := by
  cases v <;> simp [Value.is_scalar] at h <;>
    simp [coil_value_compare, compare_numbers, strcmp_self]

theorem scalar_not_expandable (v : Value) (h : v.is_scalar = true) :
    v.holds_expandable = false ∧ v.holds_struct = none := by
  cases v <;> simp [Value.is_scalar] at h <;> exact ⟨rfl, rfl⟩

/-- The loop of `coil_struct_equals` over two lists of items with the same
keys and scalar values at each place finds no difference. -/
theorem equals_loop_same_entries (T : GTypes) (X : Calls) (C : Comparisons) :
    ∀ (l1 l2 : List StructItem) (e : Engine),
      l1.map StructItem.entry = l2.map StructItem.entry →
      (∀ item ∈ l1, ∃ v, item.value = some v ∧ v.is_scalar = true) →
      equals_loop T X C l1 l2 e = Run.done e (true, none) := by
  intro l1
  induction l1 with
  | nil =>
    intro l2 e h _
    cases l2 with
    | nil => rfl
    | cons b l2 => simp at h
  | cons i1 l1 ih =>
    intro l2 e h hvalues
    cases l2 with
    | nil => simp at h
    | cons i2 l2 =>
      simp only [List.map_cons, List.cons.injEq, StructItem.entry, Prod.mk.injEq] at h
      obtain ⟨⟨hkey, hvalue⟩, hrest⟩ := h
      obtain ⟨v, hv, hscalar⟩ := hvalues i1 (by simp)
      have hv2 : i2.value = some v := by rw [← hvalue]; exact hv
      obtain ⟨hx, hstruct⟩ := scalar_not_expandable v hscalar
      have hloop := ih l2 e hrest (fun item hitem => hvalues item (by simp [hitem]))
      unfold equals_loop
      rw [if_neg (by rw [hkey, strcmp_self]; simp)]
      simp only [hv, hv2, expand_for_compare, hx, Bool.false_eq_true, if_false, Run.bind,
        hstruct, compare_scalar_self T X C e v hscalar, ne_eq, not_true_eq_false]
      exact hloop

/-- The loop of `coil_struct_expand_recursive` over the items of a struct with
scalar values changes nothing. -/
theorem expand_recursive_items_scalar (X : Calls) (self : Nat) (s : CoilStruct)
    (hvalues : ∀ item ∈ s.order, ∃ v, item.value = some v ∧ v.is_scalar = true) :
    ∀ (index fuel : Nat) (e : Engine), e.structs[self]? = some s →
      index < s.order.length → index + 2 ≤ fuel →
      iter_while X.COIL_DEBUG (expand_recursive_item X) fuel e ⟨self, s.version, some index⟩ =
        Run.done e none := by
  intro index
  induction index with
  | zero =>
    intro fuel e hs hlt hfuel
    obtain ⟨f1, rfl⟩ : ∃ f1, fuel = f1 + 2 := ⟨fuel - 2, by omega⟩
    obtain ⟨item, hitem⟩ : ∃ item, s.order[0]? = some item := by
      rw [List.getElem?_eq_getElem hlt]; exact ⟨_, rfl⟩
    obtain ⟨v, hv, hscalar⟩ := hvalues item (List.getElem?_mem hitem)
    have hbody : expand_recursive_item X e item = Run.done e none := by
      cases v <;> simp [Value.is_scalar] at hscalar <;>
        simp [expand_recursive_item, hv, Value.holds_expandable]
    simp only [iter_while, coil_struct_iter_next, hs, hitem, bne_self_eq_false, Bool.and_false,
      Bool.false_eq_true, if_false, if_true, hbody, Run.bind]
  | succ i ih =>
    intro fuel e hs hlt hfuel
    obtain ⟨f1, rfl⟩ : ∃ f1, fuel = f1 + 1 := ⟨fuel - 1, by omega⟩
    obtain ⟨item, hitem⟩ : ∃ item, s.order[i + 1]? = some item := by
      rw [List.getElem?_eq_getElem hlt]; exact ⟨_, rfl⟩
    obtain ⟨v, hv, hscalar⟩ := hvalues item (List.getElem?_mem hitem)
    have hbody : expand_recursive_item X e item = Run.done e none := by
      cases v <;> simp [Value.is_scalar] at hscalar <;>
        simp [expand_recursive_item, hv, Value.holds_expandable]
    simp only [iter_while, coil_struct_iter_next, hs, hitem, bne_self_eq_false,
      Bool.and_false, Bool.false_eq_true, if_false, hbody, Run.bind, Nat.add_sub_cancel,
      Nat.succ_ne_zero, Nat.add_one_ne_zero]
    exact ih f1 e hs (by omega) (by omega)

/-- The second half of `coil_struct_expand_recursive`, after `coil_expand`, for
a struct with scalar values. -/
theorem expand_recursive_walk_scalar (X : Calls) (e : Engine) (self : Nat) (s : CoilStruct)
    (hs : e.structs[self]? = some s) (hproto : s.is_prototype = false)
    (hvalues : ∀ item ∈ s.order, ∃ v, item.value = some v ∧ v.is_scalar = true) :
    iterate_with X.COIL_DEBUG e self (expand_recursive_item X) = Run.done e none := by
  unfold iterate_with
  simp only [hs, hproto, Bool.and_false, Bool.false_eq_true, if_false, coil_struct_iter_init]
  cases hso : s.order with
  | nil =>
    simp [iter_while, coil_struct_iter_next]
  | cons a rest =>
    have h := expand_recursive_items_scalar X self s hvalues (s.order.length - 1)
      (s.order.length + 1) e hs (by rw [hso]; simp) (by rw [hso]; simp)
    rw [hso] at h
    simpa using h

theorem calls_coil_expand (dbg : Bool)
    (ev : Engine → Value → List Value → Run (Option Value × Option CoilError × List Value))
    (fuel : Nat) (e : Engine) (self : Nat) :
    (calls dbg ev (fuel + 1)).coil_expand e self =
      (coil_expand_struct (calls dbg ev fuel) e self none).bind
        (fun e1 r => Run.done e1 (r.1, r.2.1)) := rfl

/-- `coil_struct_expand_recursive` changes nothing for an expanded struct with
scalar values. -/
theorem expand_recursive_scalar (dbg : Bool)
    (ev : Engine → Value → List Value → Run (Option Value × Option CoilError × List Value))
    (fuel : Nat) (e : Engine) (self : Nat) (s : CoilStruct)
    (hs : e.structs[self]? = some s) (hexp : s.expanded = true)
    (hproto : s.is_prototype = false)
    (hvalues : ∀ item ∈ s.order, ∃ v, item.value = some v ∧ v.is_scalar = true) :
    coil_struct_expand_recursive (calls dbg ev (fuel + 1)) e self = Run.done e (true, none) := by
  have hwalk := expand_recursive_walk_scalar (calls dbg ev (fuel + 1)) e self s hs hproto hvalues
  have hx : coil_expand_struct (calls dbg ev fuel) e self none = Run.done e (true, none, []) := by
    unfold coil_expand_struct
    simp only [hs, hexp, if_true]
    rfl
  unfold coil_struct_expand_recursive
  rw [calls_coil_expand, hx]
  simp only [Run.bind, Bool.not_true, Bool.false_eq_true, if_false, hs]
  by_cases h0 : s.size = 0
  · rw [if_pos h0]
  · rw [if_neg h0, hwalk]

theorem iterate_guint_succ (n : Nat) : Nat.iterate guint_succ n 0 = n % GUINT_RANGE := by
  induction n with
  | zero => rfl
  | succ k ih =>
    rw [Function.iterate_succ_apply', ih]
    simp only [guint_succ, GUINT_RANGE]
    omega

/-- The order and the size of a struct after items with keys that are not in
its key table, each key once, have been merged into it. -/
theorem merged_fresh (items : List StructItem) :
    ∀ d : CoilStruct, (items.map (fun item => item.key)).Nodup →
      (∀ item ∈ items, ∃ v, item.value = some v) →
      (∀ item ∈ items, table_lookup d.key_table item.key = none) →
      (merged items d).order.map StructItem.entry =
        (items.map StructItem.entry).reverse ++ d.order.map StructItem.entry ∧
      (merged items d).size = Nat.iterate guint_succ items.length d.size := by
  induction items with
  | nil => intro d _ _ _; exact ⟨by simp [merged], rfl⟩
  | cons item rest ih =>
    intro d hnodup hvalues hfresh
    obtain ⟨v, hv⟩ := hvalues item (by simp)
    have hnone := hfresh item (by simp)
    rw [List.map_cons, List.nodup_cons] at hnodup
    have hrest : ∀ it ∈ rest,
        table_lookup (with_entry d item.key (d.path ++ COIL_PATH_DELIM :: item.key) v).key_table
          it.key = none := by
      intro it hit
      have hne : it.key ≠ item.key := by
        intro h
        exact hnodup.1 (by rw [← h]; exact List.mem_map_of_mem (fun i => i.key) hit)
      simp only [with_entry]
      rw [table_lookup_insert_ne _ _ _ _ hne]
      exact hfresh it (by simp [hit])
    obtain ⟨h1, h2⟩ := ih (with_entry d item.key (d.path ++ COIL_PATH_DELIM :: item.key) v)
      hnodup.2 (fun it hit => hvalues it (by simp [hit])) hrest
    unfold merged
    rw [if_neg (by rw [hnone]; simp)]
    simp only [hv]
    refine ⟨?_, ?_⟩
    · rw [h1]
      simp [with_entry, StructItem.entry, hv]
    · rw [h2]
      simp [with_entry, Function.iterate_succ_apply]

/-- One turn of the loop of `_struct_expand` for a dependency that is an
expanded struct of the same root, no prototype, with values that are no
expandables: the dependency is merged into the struct, and loses nothing but
the handler of the struct among its handlers of `modify`. -/
theorem expand_dependency_plain_dep (dbg : Bool)
    (ev : Engine → Value → List Value → Run (Option Value × Option CoilError × List Value))
    (fuel : Nat) (e : Engine) (self dep root index : Nat) (d sd : CoilStruct)
    (visited : List Value)
    (hready : merge_ready e self d)
    (hdep : d.dependencies[index]? = some (Value.struct dep))
    (hsd : e.structs[dep]? = some sd) (hne : dep ≠ self)
    (hproto : sd.is_prototype = false) (hexp : sd.expanded = true)
    (hsize : sd.size = 0 → sd.order = [])
    (hvalues : ∀ item ∈ sd.order, ∃ v, item.value = some v ∧ v.holds_expandable = false)
    (hroot1 : coil_struct_get_root e dep = Run.done e root)
    (hroot2 : coil_struct_get_root e self = Run.done e root)
    (hfit : ∀ item ∈ sd.order, d.path.length + (item.key.length + 1) ≤ COIL_PATH_LEN) :
    ∃ e1, expand_dependency (calls dbg ev (fuel + 1)) e self visited index =
        Run.done e1 (true, none, visited) ∧
      merge_ready e1 self (merged sd.order.reverse d) ∧
      e1.structs[dep]? = some
        { sd with modify_handlers := sd.modify_handlers.filter (fun h => h.data != self) } := by
  have hd := hready.1
  have hmerge : ∃ e1, (if sd.size != 0
        then (calls dbg ev (fuel + 1)).coil_struct_merge e dep self false
        else Run.done e none) = Run.done e1 none ∧
      merge_ready e1 self (merged sd.order.reverse d) ∧
      (∀ i, i ≠ self → e1.structs[i]? = e.structs[i]?) := by
    by_cases h0 : sd.size = 0
    · rw [if_neg (by simp [h0]), hsize h0]
      exact ⟨e, rfl, by simpa [merged] using hready, fun _ _ => rfl⟩
    · rw [if_pos (by simpa using h0)]
      exact merge_plain (calls dbg ev fuel) e dep self root sd d hsd hne hroot1 hroot2 hexp
        (by rw [hproto]; simp) hsize hvalues hready hfit
  obtain ⟨e1, hrun, hready1, hold1⟩ := hmerge
  have hsd1 : e1.structs[dep]? = some sd := by rw [hold1 dep hne]; exact hsd
  have hlt1 := struct_lt_of_some e1 dep sd hsd1
  refine ⟨e1.set_struct dep
      { sd with modify_handlers := sd.modify_handlers.filter (fun h => h.data != self) },
    ?_, merge_ready_set_other e1 self dep _ _ hne hready1, set_struct_self _ _ _ hlt1⟩
  unfold expand_dependency
  simp only [hd, hdep, Value.holds_struct, Run.bind, hsd, hproto, Bool.false_eq_true, if_false,
    hexp, if_true, Bool.not_true, hrun, hsd1]

/-- `coil_expand` of a struct that has nothing but one dependency, an expanded
struct of its root with scalar values, each key once: afterwards the struct
is expanded and has the keys and values of the dependency in its order, and
the dependency has the order and the size it had. -/
theorem expand_one_dependency (dbg : Bool)
    (ev : Engine → Value → List Value → Run (Option Value × Option CoilError × List Value))
    (fuel : Nat) (e : Engine) (self A root : Nat) (s sa : CoilStruct)
    (hs : e.structs[self]? = some s) (ha : e.structs[A]? = some sa)
    (hdeps : s.dependencies = [Value.struct A])
    (horder : s.order = []) (htable : s.key_table = []) (hsize : s.size = 0)
    (hx : s.expanded = false) (hlock : s.expand_lock = false) (hptr : s.expand_ptr = none)
    (hproto : s.is_prototype = false) (hh : s.modify_handlers = [])
    (hT : s.path_table < e.tables.length)
    (hcons : ∀ key, path_table_lookup e s (s.path ++ COIL_PATH_DELIM :: key) = none)
    (hAs : A ≠ self)
    (haproto : sa.is_prototype = false) (haexp : sa.expanded = true)
    (hasize : sa.size = sa.order.length) (haguint : sa.size < GUINT_RANGE)
    (havalues : ∀ item ∈ sa.order, ∃ v, item.value = some v ∧ v.is_scalar = true)
    (hanodup : (sa.order.map (fun item => item.key)).Nodup)
    (hafit : ∀ item ∈ sa.order, s.path.length + (item.key.length + 1) ≤ COIL_PATH_LEN)
    (hroot : coil_struct_get_root e self = Run.done e root)
    (haroot : coil_struct_get_root e A = Run.done e root) :
    ∃ (e1 : Engine) (s1 sa1 : CoilStruct),
      coil_expand_struct (calls dbg ev (fuel + 1)) e self none =
        Run.done e1 (true, none, [Value.struct self]) ∧
      e1.structs[self]? = some s1 ∧ s1.expanded = true ∧ s1.is_prototype = false ∧
      s1.order.map StructItem.entry = sa.order.map StructItem.entry ∧
      s1.size = sa.size ∧
      e1.structs[A]? = some sa1 ∧ sa1.order = sa.order ∧ sa1.size = sa.size := by
  have hlt := struct_lt_of_some e self s hs
  generalize hsldef : ({ s with
      expand_lock := true
      modify_handlers := s.modify_handlers.map (fun h => ⟨h.data, h.block_count + 1⟩)
      expand_ptr := some 0 } : CoilStruct) = sl
  have hslk : sl.key_table = [] := by rw [← hsldef]; exact htable
  have hslo : sl.order = [] := by rw [← hsldef]; exact horder
  have hsls : sl.size = 0 := by rw [← hsldef]; exact hsize
  have hslpath : sl.path = s.path := by rw [← hsldef]
  have hslproto : sl.is_prototype = false := by rw [← hsldef]; exact hproto
  have hsldeps : sl.dependencies = [Value.struct A] := by
    rw [← hsldef]; exact hdeps
  have hc0 : same_containers e (e.set_struct self sl) :=
    same_containers_set e self s sl hs (by rw [← hsldef])
  have hready0 : merge_ready (e.set_struct self sl) self sl := by
    refine ⟨set_struct_self e self sl hlt, by rw [← hsldef]; simp [hh],
      by rw [← hsldef]; exact hproto, by rw [← hsldef]; exact hT, ?_⟩
    intro key _
    have := hcons key
    rw [← hsldef]
    exact this
  have hplain : ∀ item ∈ sa.order, ∃ v, item.value = some v ∧ v.holds_expandable = false := by
    intro item hitem
    obtain ⟨v, hv, hscalar⟩ := havalues item hitem
    exact ⟨v, hv, (scalar_not_expandable v hscalar).1⟩
  have hasize0 : sa.size = 0 → sa.order = [] := by
    intro h0
    rw [hasize] at h0
    exact List.length_eq_zero.1 h0
  obtain ⟨e2, hrun2, hready2, hdep2⟩ := expand_dependency_plain_dep dbg ev fuel
    (e.set_struct self sl) self A root 0 sl sa [Value.struct self] hready0
    (by rw [hsldeps]; rfl) (by rw [set_struct_ne _ _ _ _ hAs]; exact ha) hAs haproto haexp
    hasize0 hplain (get_root_congr _ _ _ _ hc0 haroot) (get_root_congr _ _ _ _ hc0 hroot)
    (by rw [hslpath]; exact hafit)
  generalize hs3def : merged sa.order.reverse sl = s3 at hready2
  have hs3 := hready2.1
  have hlt3 := struct_lt_of_some e2 self s3 hs3
  obtain ⟨hfresh1, hfresh2⟩ := merged_fresh sa.order.reverse sl
    (by rw [List.map_reverse]; exact List.nodup_reverse.2 hanodup)
    (fun item hitem => by
      obtain ⟨v, hv, _⟩ := havalues item (List.mem_reverse.1 hitem)
      exact ⟨v, hv⟩)
    (fun item _ => by rw [hslk]; rfl)
  rw [hs3def] at hfresh1 hfresh2
  have hrun : _struct_expand (calls dbg ev (fuel + 1)) e self [Value.struct self] =
      Run.done (e2.set_struct self
        { s3 with
          dependencies := if s3.remember_deps then s3.dependencies else []
          expand_ptr := if s3.remember_deps && !s3.dependencies.isEmpty then some 0 else none
          expanded := true
          version := guint_succ s3.version
          modify_handlers := s3.modify_handlers.map (fun h => ⟨h.data, h.block_count - 1⟩)
          expand_lock := false }) (true, none, [Value.struct self]) := by
    have hif : (if s.dependencies.isEmpty = true then none
        else some (s.dependencies.length - 1)) = some 0 := by
      rw [hdeps]; rfl
    unfold _struct_expand
    simp only [hs]
    rw [if_neg (by rw [hproto]; simp), if_neg (by rw [hx]; simp), if_neg (by rw [hlock]; simp)]
    rw [hptr]
    simp only [hif, hsldef]
    simp only [expand_dependencies, hrun2, Run.bind, if_true, hs3]
  generalize hs4def : ({ s3 with
      dependencies := if s3.remember_deps then s3.dependencies else []
      expand_ptr := if s3.remember_deps && !s3.dependencies.isEmpty then some 0 else none
      expanded := true
      version := guint_succ s3.version
      modify_handlers := s3.modify_handlers.map (fun h => ⟨h.data, h.block_count - 1⟩)
      expand_lock := false } : CoilStruct) = s4 at hrun
  have hs4o : s4.order = s3.order := by rw [← hs4def]
  have hs4s : s4.size = s3.size := by rw [← hs4def]
  have hs3p : (merged sa.order.reverse sl).is_prototype = sl.is_prototype := by
    have h := merged_entries_changed sa.order.reverse sl
    unfold entries_changed at h
    rw [h]
  have hs4p : s4.is_prototype = false := by
    rw [← hs4def]
    show s3.is_prototype = false
    rw [← hs3def, hs3p]
    exact hslproto
  have h34 : (e2.set_struct self s4).structs[self]? = some s4 := set_struct_self e2 self s4 hlt3
  refine ⟨(e2.set_struct self s4).set_struct self { s4 with expanded := true },
    { s4 with expanded := true },
    { sa with modify_handlers := sa.modify_handlers.filter (fun h => h.data != self) }, ?_,
    set_struct_self _ self _ (by simpa [Engine.set_struct] using hlt3), rfl, hs4p, ?_, ?_, ?_,
    rfl, rfl⟩
  · unfold coil_expand_struct
    simp only [hs]
    rw [if_neg (by rw [hx]; simp)]
    simp only [Option.getD_none, List.contains_nil, Bool.false_eq_true, if_false,
      List.nil_append, hrun, Run.bind, if_true, h34]
  · show s4.order.map StructItem.entry = _
    rw [hs4o, hfresh1, hslo]
    simp
  · show s4.size = _
    rw [hs4s, hfresh2, hsls, List.length_reverse, iterate_guint_succ, ← hasize]
    exact Nat.mod_eq_of_lt haguint
  · rw [set_struct_ne _ _ _ _ hAs, set_struct_ne _ _ _ _ hAs]
    exact hdep2

/-- The end of `coil_struct_equals`, after the two calls of
`coil_struct_expand_recursive` have succeeded: two structs of the same size
whose orders hold the same keys with the same scalar values, each key once,
are equal. -/
theorem equals_after_expansion (T : GTypes) (X : Calls) (C : Comparisons)
    (e e3 e4 : Engine) (a b : Nat) (p1 p2 : CoilStruct) (hne : a ≠ b)
    (hd1 : coil_struct_is_descendent e a b = Run.done e false)
    (hd2 : coil_struct_is_descendent e b a = Run.done e false)
    (hx1 : coil_struct_expand_recursive X e a = Run.done e3 (true, none))
    (hx2 : coil_struct_expand_recursive X e3 b = Run.done e4 (true, none))
    (h1 : e4.structs[a]? = some p1) (h2 : e4.structs[b]? = some p2)
    (hsize : p1.size = p2.size)
    (hvalues : ∀ item ∈ p1.order, ∃ v, item.value = some v ∧ v.is_scalar = true)
    (hperm : (p1.order.map StructItem.entry).Perm (p2.order.map StructItem.entry))
    (hnodup : (p1.order.map (fun item => item.key)).Nodup) :
    coil_struct_equals T X C e a b = Run.done e4 (true, none) := by
  have hlen : p1.order.length = p2.order.length := by
    have := hperm.length_eq
    simpa using this
  have hsorted : ∀ item ∈ g_list_sort p1.order,
      ∃ v, item.value = some v ∧ v.is_scalar = true := by
    intro item hitem
    unfold g_list_sort at hitem
    exact hvalues item ((List.mem_insertionSort _).1 hitem)
  unfold coil_struct_equals
  rw [if_neg hne]
  simp only [hd1, hd2, hx1, hx2, Run.bind, Bool.false_eq_true, if_false, Bool.not_true, h1, h2]
  rw [if_neg (by rw [hsize, hlen]; simp)]
  exact equals_loop_same_entries T X C _ _ e4 (sorted_entries_unique _ _ hperm hnodup) hsorted

/-- `coil_struct_equals` for two expanded structs of the same size whose
orders hold the same keys with the same scalar values, each key once. -/
theorem equals_same_entries (T : GTypes) (dbg : Bool)
    (ev : Engine → Value → List Value → Run (Option Value × Option CoilError × List Value))
    (fuel : Nat) (C : Comparisons) (e : Engine) (a b : Nat) (sa sb : CoilStruct)
    (ha : e.structs[a]? = some sa) (hb : e.structs[b]? = some sb) (hne : a ≠ b)
    (hd1 : coil_struct_is_descendent e a b = Run.done e false)
    (hd2 : coil_struct_is_descendent e b a = Run.done e false)
    (haexp : sa.expanded = true) (haproto : sa.is_prototype = false)
    (hbexp : sb.expanded = true) (hbproto : sb.is_prototype = false)
    (hsize : sa.size = sb.size)
    (hvalues : ∀ item ∈ sa.order, ∃ v, item.value = some v ∧ v.is_scalar = true)
    (hperm : (sa.order.map StructItem.entry).Perm (sb.order.map StructItem.entry))
    (hnodup : (sa.order.map (fun item => item.key)).Nodup) :
    coil_struct_equals T (calls dbg ev (fuel + 1)) C e a b = Run.done e (true, none) := by
  have hbvalues : ∀ item ∈ sb.order, ∃ v, item.value = some v ∧ v.is_scalar = true := by
    intro item hitem
    have hmem : item.entry ∈ sa.order.map StructItem.entry :=
      hperm.symm.subset (List.mem_map_of_mem StructItem.entry hitem)
    obtain ⟨other, hother, heq⟩ := List.mem_map.1 hmem
    obtain ⟨v, hv, hscalar⟩ := hvalues other hother
    have hvalue : other.value = item.value := congrArg Prod.snd heq
    exact ⟨v, by rw [← hvalue]; exact hv, hscalar⟩
  exact equals_after_expansion T _ C e e e a b sa sb hne hd1 hd2
    (expand_recursive_scalar dbg ev fuel e a sa ha haexp haproto hvalues)
    (expand_recursive_scalar dbg ev fuel e b sb hb hbexp hbproto hbvalues)
    ha hb hsize hvalues hperm hnodup

/-- `coil_struct_equals(a, b)` for a struct `b` that has nothing but the
dependency `a`, an expanded struct of its root with scalar values: `b` is
expanded and the two are equal. -/
theorem equals_of_extends (T : GTypes) (dbg : Bool)
    (ev : Engine → Value → List Value → Run (Option Value × Option CoilError × List Value))
    (fuel : Nat) (C : Comparisons) (e : Engine) (a b root : Nat) (sa sb : CoilStruct)
    (ha : e.structs[a]? = some sa) (hb : e.structs[b]? = some sb) (hne : a ≠ b)
    (hd1 : coil_struct_is_descendent e a b = Run.done e false)
    (hd2 : coil_struct_is_descendent e b a = Run.done e false)
    (haexp : sa.expanded = true) (haproto : sa.is_prototype = false)
    (hasize : sa.size = sa.order.length) (haguint : sa.size < GUINT_RANGE)
    (havalues : ∀ item ∈ sa.order, ∃ v, item.value = some v ∧ v.is_scalar = true)
    (hanodup : (sa.order.map (fun item => item.key)).Nodup)
    (hdeps : sb.dependencies = [Value.struct a])
    (horder : sb.order = []) (htable : sb.key_table = []) (hsize : sb.size = 0)
    (hx : sb.expanded = false) (hlock : sb.expand_lock = false) (hptr : sb.expand_ptr = none)
    (hproto : sb.is_prototype = false) (hh : sb.modify_handlers = [])
    (hT : sb.path_table < e.tables.length)
    (hcons : ∀ key, path_table_lookup e sb (sb.path ++ COIL_PATH_DELIM :: key) = none)
    (hafit : ∀ item ∈ sa.order, sb.path.length + (item.key.length + 1) ≤ COIL_PATH_LEN)
    (haroot : coil_struct_get_root e a = Run.done e root)
    (hroot : coil_struct_get_root e b = Run.done e root) :
    ∃ (e1 : Engine) (s1 : CoilStruct),
      coil_struct_equals T (calls dbg ev (fuel + 2)) C e a b = Run.done e1 (true, none) ∧
      e1.structs[b]? = some s1 ∧ s1.expanded = true ∧
      s1.order.map StructItem.entry = sa.order.map StructItem.entry := by
  obtain ⟨e1, s1, sa1, hrun, hs1, hexp1, hproto1, horder1, hsize1, hsa1, hsao, hsas⟩ :=
    expand_one_dependency dbg ev fuel e b a root sb sa hb ha hdeps horder htable hsize hx hlock
      hptr hproto hh hT hcons hne haproto haexp hasize haguint havalues hanodup hafit hroot haroot
  have hvalues1 : ∀ item ∈ s1.order, ∃ v, item.value = some v ∧ v.is_scalar = true := by
    intro item hitem
    have hmem : item.entry ∈ sa.order.map StructItem.entry := by
      rw [← horder1]; exact List.mem_map_of_mem StructItem.entry hitem
    obtain ⟨other, hother, heq⟩ := List.mem_map.1 hmem
    obtain ⟨v, hv, hscalar⟩ := havalues other hother
    have hvalue : other.value = item.value := congrArg Prod.snd heq
    exact ⟨v, by rw [← hvalue]; exact hv, hscalar⟩
  have hx2 : coil_struct_expand_recursive (calls dbg ev (fuel + 2)) e b =
      Run.done e1 (true, none) := by
    have hwalk := expand_recursive_walk_scalar (calls dbg ev (fuel + 2)) e1 b s1 hs1 hproto1
      hvalues1
    unfold coil_struct_expand_recursive
    rw [calls_coil_expand, hrun]
    simp only [Run.bind, Bool.not_true, Bool.false_eq_true, if_false, hs1]
    by_cases h0 : s1.size = 0
    · rw [if_pos h0]
    · rw [if_neg h0, hwalk]
  refine ⟨e1, s1, ?_, hs1, hexp1, horder1⟩
  exact equals_after_expansion T _ C e e e1 a b sa1 s1 hne hd1 hd2
    (expand_recursive_scalar dbg ev (fuel + 1) e a sa ha haexp haproto havalues) hx2
    hsa1 hs1 (by rw [hsas, hsize1]) (by rw [hsao]; exact havalues)
    (by rw [hsao, horder1]) (by rw [hsao]; exact hanodup)

/-- Equality of structs of scalars: `coil_struct_equals` with the expansion
functions of the struct engine, for two different structs `a` and `b` neither of which is a descendant
of the other, where `a` is expanded, no prototype, and holds scalar values
(booleans, integers, strings, none), each key once in its order, with its
size the number of its items.  First, let `b` have nothing but the dependency
`a`, as after `@extends: ..a`, with `a` in the root of `b`: then the call
returns TRUE without error, and afterwards `b` is expanded and its order holds
the keys and values of the order of `a`.  Second, let `b` be expanded, no
prototype, of the size of `a`, with an order that holds the keys and values of
`a` in any order: then the call returns TRUE without error and changes
nothing. -/
theorem struct_equals_ignores_order (T : GTypes) (dbg : Bool)
    (ev : Engine → Value → List Value → Run (Option Value × Option CoilError × List Value))
    (fuel : Nat) (C : Comparisons) :
    (∀ (e : Engine) (a b root : Nat) (sa sb : CoilStruct),
      e.structs[a]? = some sa → e.structs[b]? = some sb → a ≠ b →
      coil_struct_is_descendent e a b = Run.done e false →
      coil_struct_is_descendent e b a = Run.done e false →
      sa.expanded = true → sa.is_prototype = false →
      sa.size = sa.order.length → sa.size < GUINT_RANGE →
      (∀ item ∈ sa.order, ∃ v, item.value = some v ∧ v.is_scalar = true) →
      (sa.order.map (fun item => item.key)).Nodup →
      sb.dependencies = [Value.struct a] →
      sb.order = [] → sb.key_table = [] → sb.size = 0 →
      sb.expanded = false → sb.expand_lock = false → sb.expand_ptr = none →
      sb.is_prototype = false → sb.modify_handlers = [] →
      sb.path_table < e.tables.length →
      (∀ key, path_table_lookup e sb (sb.path ++ COIL_PATH_DELIM :: key) = none) →
      (∀ item ∈ sa.order, sb.path.length + (item.key.length + 1) ≤ COIL_PATH_LEN) →
      coil_struct_get_root e a = Run.done e root →
      coil_struct_get_root e b = Run.done e root →
      ∃ (e1 : Engine) (s1 : CoilStruct),
        coil_struct_equals T (calls dbg ev (fuel + 2)) C e a b = Run.done e1 (true, none) ∧
        e1.structs[b]? = some s1 ∧ s1.expanded = true ∧
        s1.order.map StructItem.entry = sa.order.map StructItem.entry) ∧
    (∀ (e : Engine) (a b : Nat) (sa sb : CoilStruct),
      e.structs[a]? = some sa → e.structs[b]? = some sb → a ≠ b →
      coil_struct_is_descendent e a b = Run.done e false →
      coil_struct_is_descendent e b a = Run.done e false →
      sa.expanded = true → sa.is_prototype = false →
      sb.expanded = true → sb.is_prototype = false →
      sa.size = sb.size →
      (∀ item ∈ sa.order, ∃ v, item.value = some v ∧ v.is_scalar = true) →
      (sa.order.map StructItem.entry).Perm (sb.order.map StructItem.entry) →
      (sa.order.map (fun item => item.key)).Nodup →
      coil_struct_equals T (calls dbg ev (fuel + 1)) C e a b = Run.done e (true, none)) :=
  ⟨fun e a b root sa sb ha hb hne hd1 hd2 haexp haproto hasize haguint havalues hanodup hdeps
      horder htable hsize hx hlock hptr hproto hh hT hcons hafit haroot hroot =>
    equals_of_extends T dbg ev fuel C e a b root sa sb ha hb hne hd1 hd2 haexp haproto hasize
      haguint havalues hanodup hdeps horder htable hsize hx hlock hptr hproto hh hT hcons hafit
      haroot hroot,
   fun e a b sa sb ha hb hne hd1 hd2 haexp haproto hbexp hbproto hsize hvalues hperm hnodup =>
    equals_same_entries T dbg ev fuel C e a b sa sb ha hb hne hd1 hd2 haexp haproto hbexp
      hbproto hsize hvalues hperm hnodup⟩

/-- The structs `a` and `b` of `extends_engine`, where `b` extends `a`, and
the structs `p` and `q` of `orders_engine`, which hold `x` and `y` in the two
orders. -/
theorem struct_equals_ignores_order_witness :
    (∃ (e1 : Engine) (s1 : CoilStruct),
      coil_struct_equals registered_types engine_calls
        (comparisons registered_types engine_calls 1) extends_engine 1 2 =
          Run.done e1 (true, none) ∧
      e1.structs[2]? = some s1 ∧ s1.expanded = true ∧
      s1.order.map StructItem.entry = extends_parent.order.map StructItem.entry) ∧
    coil_struct_equals registered_types engine_calls
      (comparisons registered_types engine_calls 1) orders_engine 1 2 =
        Run.done orders_engine (true, none) :=
  ⟨(struct_equals_ignores_order registered_types false no_links 10
      (comparisons registered_types engine_calls 1)).1 extends_engine 1 2 0
      extends_parent extends_child (by rfl) (by rfl) (by decide) (by rfl) (by rfl) (by rfl)
      (by rfl) (by rfl) (by decide)
      (by
        intro item hitem
        simp only [extends_parent, List.mem_cons, List.mem_singleton, List.not_mem_nil,
          or_false] at hitem
        rcases hitem with h | h <;> subst h
        · exact ⟨Value.int 3, rfl, rfl⟩
        · exact ⟨Value.int 1, rfl, rfl⟩)
      (by decide) (by rfl) (by rfl) (by rfl) (by rfl) (by rfl) (by rfl) (by rfl) (by rfl)
      (by rfl) (by decide)
      (by
        intro key
        have htable : extends_engine.table extends_child.path_table =
            [(['@', 'r', 'o', 'o', 't', '.', 'b'], Value.struct 2),
              (['@', 'r', 'o', 'o', 't', '.', 'a', '.', 'y'], Value.int 3),
              (['@', 'r', 'o', 'o', 't', '.', 'a', '.', 'x'], Value.int 1),
              (['@', 'r', 'o', 'o', 't', '.', 'a'], Value.struct 1)] := by rfl
        simp only [path_table_lookup, htable]
        simp [table_lookup, extends_child, COIL_PATH_DELIM])
      (by decide) (by rfl) (by rfl),
   (struct_equals_ignores_order registered_types false no_links 11
      (comparisons registered_types engine_calls 1)).2 orders_engine 1 2
      orders_first orders_second (by rfl) (by rfl) (by decide) (by rfl) (by rfl) (by rfl)
      (by rfl) (by rfl) (by rfl) (by rfl)
      (by
        intro item hitem
        simp only [orders_first, List.mem_cons, List.mem_singleton, List.not_mem_nil,
          or_false] at hitem
        rcases hitem with h | h <;> subst h
        · exact ⟨Value.int 3, rfl, rfl⟩
        · exact ⟨Value.int 1, rfl, rfl⟩)
      (by
        simp only [orders_first, orders_second, List.map_cons, List.map_nil, StructItem.entry]
        exact List.Perm.swap _ _ _)
      (by decide)⟩

/-- C31 (failing input): `a` holds the struct `c`, which extends `p`, deletes
the key `k` it would inherit and defines `x`; `b` is a sibling of `a` whose
only content is the dependency `a`.  `coil_struct_expand(b)` succeeds, and
`coil_struct_equals(a, b)` is FALSE afterwards, without an error: the copy of
`a.c` in `b` (the struct 5) has the dependency `p` without the mark on `k`,
so that it ends with `x` and `k` while `a.c` ends with `x` alone.  Before any
expansion `coil_struct_equals(b, a)` is FALSE and `coil_struct_equals(a, b)`
is TRUE. -/
theorem struct_equals_fails_for_nested_tombstone :
    nested_tombstone_scenario.result.map (fun r => r.2) = some none ∧
    (nested_tombstone_scenario.engine.structs.map
      (fun s => (s.path, s.dependencies, s.key_table)))
      = [(['@', 'r', 'o', 'o', 't'], [],
          [(['b'], some (Value.struct 4)), (['a'], some (Value.struct 2)),
           (['p'], some (Value.struct 1))]),
         (['@', 'r', 'o', 'o', 't', '.', 'p'], [], [(['k'], some (Value.int 7))]),
         (['@', 'r', 'o', 'o', 't', '.', 'a'], [], [(['c'], some (Value.struct 3))]),
         (['@', 'r', 'o', 'o', 't', '.', 'a', '.', 'c'], [Value.struct 1],
          [(['k'], none), (['x'], some (Value.int 1))]),
         (['@', 'r', 'o', 'o', 't', '.', 'b'], [Value.struct 2], [])] ∧
    nested_tombstone_expanded.result.map (fun r => r.2) = some (true, none) ∧
    (nested_tombstone_expanded.engine.structs.map
      (fun s => (s.path, s.dependencies, s.key_table)))
      = [(['@', 'r', 'o', 'o', 't'], [],
          [(['b'], some (Value.struct 4)), (['a'], some (Value.struct 2)),
           (['p'], some (Value.struct 1))]),
         (['@', 'r', 'o', 'o', 't', '.', 'p'], [], [(['k'], some (Value.int 7))]),
         (['@', 'r', 'o', 'o', 't', '.', 'a'], [], [(['c'], some (Value.struct 3))]),
         (['@', 'r', 'o', 'o', 't', '.', 'a', '.', 'c'], [Value.struct 1],
          [(['k'], none), (['x'], some (Value.int 1))]),
         (['@', 'r', 'o', 'o', 't', '.', 'b'], [], [(['c'], some (Value.struct 5))]),
         (['@', 'r', 'o', 'o', 't', '.', 'b', '.', 'c'], [Value.struct 1],
          [(['x'], some (Value.int 1))])] ∧
    (nested_tombstone_expanded.bind (fun e _ =>
      coil_struct_equals registered_types engine_calls
        (comparisons registered_types engine_calls 5) e 2 4)).result.map
          (fun r => (r.2, (r.1.structs[3]?).map (fun s => s.order.map StructItem.entry),
            (r.1.structs[5]?).map (fun s => s.order.map StructItem.entry)))
      = some ((false, none), some [(['x'], some (Value.int 1))],
          some [(['k'], some (Value.int 7)), (['x'], some (Value.int 1))]) ∧
    (coil_struct_equals registered_types engine_calls
      (comparisons registered_types engine_calls 5)
      nested_tombstone_scenario.engine 4 2).result.map (fun r => r.2) = some (false, none) ∧
    (coil_struct_equals registered_types engine_calls
      (comparisons registered_types engine_calls 5)
      nested_tombstone_scenario.engine 2 4).result.map (fun r => r.2) = some (true, none) :=
  ⟨by rfl, by rfl, by rfl, by rfl, by rfl, by rfl, by rfl⟩

/-- C24 (failing input): `dst` holds `x`, extends `p` (which holds `k2 = 7`
and `k1 = 8`) and is not expanded; `d` extends `dst` and is connected to its
`modify` signal; `src` holds `k1 = 1` and `k2 = 2`, in that order, and neither
key is in the key table of `dst`.  `coil_struct_merge(src, dst, FALSE)`
succeeds; afterwards the iteration of `dst` hands out `x = 0`, `k2 = 7`,
`k1 = 1`: the key `k2` comes before `k1` and has the value of `p`, while the
value 8 that `dst` had inherited for `k1` by the time of the write has been
overwritten; `d` has been expanded in between and holds `k1 = 8`. -/
theorem merge_overwrites_inherited_key :
    merge_dependent_scenario.result.map (fun r => r.2) = some none ∧
    (merge_dependent_scenario.engine.structs.map
      (fun s => (s.path, s.expanded, s.dependencies,
        s.modify_handlers.map (fun h => (h.data, h.block_count)), s.key_table)))
      = [(['@', 'r', 'o', 'o', 't'], true, [], [],
          [(['s', 'r', 'c'], some (Value.struct 4)), (['d'], some (Value.struct 3)),
           (['d', 's', 't'], some (Value.struct 2)), (['p'], some (Value.struct 1))]),
         (['@', 'r', 'o', 'o', 't', '.', 'p'], true, [], [(2, 0)],
          [(['k', '1'], some (Value.int 8)), (['k', '2'], some (Value.int 7))]),
         (['@', 'r', 'o', 'o', 't', '.', 'd', 's', 't'], false, [Value.struct 1], [(3, 0)],
          [(['x'], some (Value.int 0))]),
         (['@', 'r', 'o', 'o', 't', '.', 'd'], false, [Value.struct 2], [],
          [(['q'], some (Value.int 0))]),
         (['@', 'r', 'o', 'o', 't', '.', 's', 'r', 'c'], true, [], [],
          [(['k', '2'], some (Value.int 2)), (['k', '1'], some (Value.int 1))])] ∧
    (coil_struct_iterate false merge_dependent_scenario.engine 4).map
      (fun items => items.map StructItem.entry)
      = some [(['k', '1'], some (Value.int 1)), (['k', '2'], some (Value.int 2))] ∧
    (coil_struct_iterate false merge_dependent_scenario.engine 2).map
      (fun items => items.map StructItem.entry)
      = some [(['x'], some (Value.int 0))] ∧
    merge_dependent_merged.result.map (fun r => r.2) = some none ∧
    (coil_struct_iterate false merge_dependent_merged.engine 2).map
      (fun items => items.map StructItem.entry)
      = some [(['x'], some (Value.int 0)), (['k', '2'], some (Value.int 7)),
          (['k', '1'], some (Value.int 1))] ∧
    (coil_struct_iterate false merge_dependent_merged.engine 3).map
      (fun items => items.map StructItem.entry)
      = some [(['q'], some (Value.int 0)), (['x'], some (Value.int 0)),
          (['k', '2'], some (Value.int 7)), (['k', '1'], some (Value.int 8))] :=
  ⟨by rfl, by rfl, by rfl, by rfl, by rfl, by rfl, by rfl⟩

theorem expand_dependencies_split (X : Calls) (self lo : Nat) :
    ∀ (n : Nat) (e : Engine) (visited : List Value),
      expand_dependencies X self (lo + n) e visited =
        (expand_dependencies_from X self lo n e visited).bind (fun e1 r =>
          if r.1 then expand_dependencies X self lo e1 r.2.2 else Run.done e1 r) := by
  intro n
  induction n with
  | zero => intro e visited; simp [expand_dependencies_from, Run.bind]
  | succ n ih =>
    intro e visited
    show expand_dependencies X self (lo + n + 1) e visited = _
    simp only [expand_dependencies, expand_dependencies_from]
    cases hstep : expand_dependency X e self visited (lo + n) with
    | done e1 r =>
      simp only [Run.bind]
      by_cases hr : r.1 = true
      · simp only [hr, if_true]
        exact ih e1 r.2.2
      · simp only [hr, Bool.false_eq_true, if_false, Run.bind]
    | abort => rfl
    | undefined => rfl
    | diverge => rfl

theorem struct_expand_enters (X : Calls) (e : Engine) (self : Nat) (s : CoilStruct)
    (visited : List Value) (count : Nat)
    (hs : e.structs[self]? = some s) (hguard : (X.COIL_DEBUG && s.is_prototype) = false)
    (hx : s.expanded = false) (hlock : s.expand_lock = false)
    (hcount : count = match expand_start s with | some i => i + 1 | none => 0) :
    _struct_expand X e self visited =
      (expand_dependencies X self count (e.set_struct self (locked_for_expansion s))
        visited).bind (fun e2 r =>
        match e2.structs[self]? with
        | none => Run.undefined
        | some s2 =>
          if r.1 then
            Run.done (e2.set_struct self
              { s2 with
                dependencies := if s2.remember_deps then s2.dependencies else []
                expand_ptr :=
                  if s2.remember_deps && !s2.dependencies.isEmpty then some 0 else none
                expanded := true
                version := guint_succ s2.version
                modify_handlers :=
                  s2.modify_handlers.map (fun h => ⟨h.data, h.block_count - 1⟩)
                expand_lock := false }) (true, none, r.2.2)
          else Run.done (e2.set_struct self { s2 with expand_lock := false }) r) := by
  subst hcount
  unfold _struct_expand
  simp only [hs]
  rw [if_neg (by rw [hguard]; simp), if_neg (by rw [hx]; simp), if_neg (by rw [hlock]; simp)]
  rfl

theorem expand_dependency_prototype (X : Calls) (e : Engine) (self p i : Nat)
    (s ps : CoilStruct) (visited : List Value)
    (hs : e.structs[self]? = some s) (hdep : s.dependencies[i]? = some (Value.struct p))
    (hp : e.structs[p]? = some ps) (hproto : ps.is_prototype = true) :
    expand_dependency X e self visited i =
      Run.done e (false, some CoilError.COIL_ERROR_STRUCT, visited) := by
  unfold expand_dependency
  simp only [hs, hdep, Value.holds_struct, Run.bind, hp, hproto, if_true]

/-- C27: let a struct that is neither expanded nor locked have, at any place
`i` of its dependencies from where the expansion starts on, a struct `p`, and
let the turns of the loop for the dependencies that come before `p` return.
If one of them fails, `coil_expand` returns FALSE with its error; if they all
pass and `p` is a prototype when its turn comes, `coil_expand` returns FALSE
with a STRUCT error.  Either way nothing is changed after those turns but the
lock, which is released: the struct is not marked expanded and keeps its
dependencies. -/
theorem expand_fails_on_prototype_dependency (X : Calls) (e : Engine) (self : Nat)
    (s : CoilStruct) (start i p : Nat) (e1 : Engine)
    (r1 : Bool × Option CoilError × List Value) (s1 ps : CoilStruct)
    (hs : e.structs[self]? = some s) (hguard : (X.COIL_DEBUG && s.is_prototype) = false)
    (hx : s.expanded = false) (hlock : s.expand_lock = false)
    (hstart : expand_start s = some start) (hi : i ≤ start)
    (hbefore : expand_dependencies_from X self (i + 1) (start - i)
      (e.set_struct self (locked_for_expansion s)) [Value.struct self] = Run.done e1 r1)
    (hs1 : e1.structs[self]? = some s1)
    (hdep : s1.dependencies[i]? = some (Value.struct p))
    (hp : e1.structs[p]? = some ps) (hproto : ps.is_prototype = true) :
    ∃ e2 s2 err, coil_expand_struct X e self none = Run.done e2 (false, err, r1.2.2) ∧
      (r1.1 = true → err = some CoilError.COIL_ERROR_STRUCT) ∧
      (r1.1 = false → err = r1.2.1) ∧
      e2 = e1.set_struct self { s1 with expand_lock := false } ∧
      e2.structs[self]? = some s2 ∧ s2.expand_lock = false ∧
      s2.expanded = s1.expanded ∧ s2.dependencies = s1.dependencies ∧
      (i = start → s2.expanded = false ∧ s2.dependencies = s.dependencies) := by
  have hlt1 := struct_lt_of_some e1 self s1 hs1
  have hs2 : (e1.set_struct self { s1 with expand_lock := false }).structs[self]? =
      some { s1 with expand_lock := false } := set_struct_self e1 self _ hlt1
  have hloop : expand_dependencies X self (start + 1)
      (e.set_struct self (locked_for_expansion s)) [Value.struct self] =
      Run.done e1 (false, if r1.1 then some CoilError.COIL_ERROR_STRUCT else r1.2.1, r1.2.2) := by
    have hsplit := expand_dependencies_split X self (i + 1) (start - i)
      (e.set_struct self (locked_for_expansion s)) [Value.struct self]
    rw [show i + 1 + (start - i) = start + 1 by omega, hbefore] at hsplit
    rw [hsplit]
    simp only [Run.bind]
    by_cases hr : r1.1 = true
    · simp only [hr, if_true, expand_dependencies,
        expand_dependency_prototype X e1 self p i s1 ps r1.2.2 hs1 hdep hp hproto, Run.bind,
        Bool.false_eq_true, if_false]
    · have hf : r1.1 = false := by simpa using hr
      obtain ⟨a, b, c⟩ := r1
      simp only at hf
      subst hf
      simp
  have hinner : _struct_expand X e self [Value.struct self] =
      Run.done (e1.set_struct self { s1 with expand_lock := false })
        (false, if r1.1 then some CoilError.COIL_ERROR_STRUCT else r1.2.1, r1.2.2) := by
    rw [struct_expand_enters X e self s [Value.struct self] (start + 1) hs hguard hx hlock
      (by rw [hstart]), hloop]
    simp only [Run.bind, hs1, Bool.false_eq_true, if_false]
  refine ⟨_, { s1 with expand_lock := false },
    if r1.1 then some CoilError.COIL_ERROR_STRUCT else r1.2.1, ?_, ?_, ?_, rfl, hs2, rfl, rfl,
    rfl, ?_⟩
  · unfold coil_expand_struct
    simp only [hs, hx, Bool.false_eq_true, if_false, Option.getD_none, List.contains_nil,
      List.nil_append, hinner, Run.bind]
  · intro h; simp [h]
  · intro h; simp [h]
  · intro hie
    subst hie
    simp only [Nat.sub_self, expand_dependencies_from, Run.done.injEq] at hbefore
    obtain ⟨he1, _⟩ := hbefore
    subst he1
    rw [set_struct_self e self _ (struct_lt_of_some e self s hs)] at hs1
    cases hs1
    exact ⟨hx, rfl⟩

theorem expand_fails_on_prototype_dependency_witness :
    ((second_prototype_scenario.engine.structs.map
      (fun s => (s.path, s.is_prototype, s.expanded, s.dependencies)))
      = [(['@', 'r', 'o', 'o', 't'], false, true, []),
         (['@', 'r', 'o', 'o', 't', '.', 'a'], false, true, []),
         (['@', 'r', 'o', 'o', 't', '.', 'b'], false, false,
          [Value.struct 3, Value.struct 1]),
         (['@', 'r', 'o', 'o', 't', '.', 'c'], true, true, [])]) ∧
    second_prototype_reached.result.map (fun r => r.2) = some (true, none, [Value.struct 2]) ∧
    ∃ e2 s2, coil_expand_struct engine_calls second_prototype_scenario.engine 2 none =
        Run.done e2 (false, some CoilError.COIL_ERROR_STRUCT, [Value.struct 2]) ∧
      e2.structs[2]? = some s2 ∧ s2.expand_lock = false ∧ s2.expanded = false ∧
      s2.dependencies = [Value.struct 3, Value.struct 1] ∧
      s2.order.map StructItem.entry =
        [(['x'], some (Value.int 1)), (['y'], some (Value.int 2))] :=
  ⟨by rfl, by rfl,
    (expand_fails_on_prototype_dependency engine_calls second_prototype_scenario.engine 2
      ((second_prototype_scenario.engine.structs[2]?).getD nested_struct) 1 0 3
      second_prototype_reached.engine (true, none, [Value.struct 2])
      ((second_prototype_reached.engine.structs[2]?).getD nested_struct)
      ((second_prototype_reached.engine.structs[3]?).getD nested_struct)
      (by rfl) (by rfl) (by rfl) (by rfl) (by rfl) (by decide) (by rfl) (by rfl) (by rfl)
      (by rfl) (by rfl)).elim
      (fun e2 h => h.elim (fun s2 h1 => h1.elim (fun err h2 =>
        ⟨e2, s2, by rw [← h2.2.1 rfl]; exact h2.1, h2.2.2.2.2.1, h2.2.2.2.2.2.1,
          by rw [h2.2.2.2.2.2.2.1]; rfl, by rw [h2.2.2.2.2.2.2.2.1]; rfl,
          by
            have h3 := h2.2.2.2.2.1
            rw [h2.2.2.2.1, set_struct_self _ 2 _ (by decide)] at h3
            cases h3
            rfl⟩)))⟩

theorem expand_struct_fails_at (X : Calls) (e : Engine) (c : Nat) (s : CoilStruct)
    (visited : List Value) (start j : Nat) (e1 : Engine) (v1 : List Value) (s1 : CoilStruct)
    (next : Nat) (ns : CoilStruct) (e2 : Engine) (err : Option CoilError) (v2 : List Value)
    (s2 : CoilStruct)
    (hs : e.structs[c]? = some s) (hx : s.expanded = false) (hlock : s.expand_lock = false)
    (hproto : s.is_prototype = false) (hvis : Value.struct c ∉ visited)
    (hstart : expand_start s = some start) (hj : j ≤ start)
    (hbefore : expand_dependencies_from X c (j + 1) (start - j)
      (e.set_struct c (locked_for_expansion s)) (visited ++ [Value.struct c]) =
        Run.done e1 (true, none, v1))
    (hs1 : e1.structs[c]? = some s1) (hdep : s1.dependencies[j]? = some (Value.struct next))
    (hn : e1.structs[next]? = some ns) (hnp : ns.is_prototype = false)
    (hnx : ns.expanded = false)
    (hrec : X.coil_expand_visited e1 next v1 = Run.done e2 (false, err, v2))
    (hs2 : e2.structs[c]? = some s2) :
    coil_expand_struct X e c (some visited) =
      Run.done (e2.set_struct c { s2 with expand_lock := false }) (false, err, v2) := by
  have hguard : (X.COIL_DEBUG && s.is_prototype) = false := by rw [hproto]; simp
  have hstep : expand_dependency X e1 c v1 j = Run.done e2 (false, err, v2) := by
    unfold expand_dependency
    simp only [hs1, hdep, Value.holds_struct, Run.bind, hn, hnp, hnx, Bool.false_eq_true,
      if_false, hrec, Bool.not_false, if_true]
  have hloop : expand_dependencies X c (start + 1) (e.set_struct c (locked_for_expansion s))
      (visited ++ [Value.struct c]) = Run.done e2 (false, err, v2) := by
    have hsplit := expand_dependencies_split X c (j + 1) (start - j)
      (e.set_struct c (locked_for_expansion s)) (visited ++ [Value.struct c])
    rw [show j + 1 + (start - j) = start + 1 by omega, hbefore] at hsplit
    rw [hsplit]
    simp only [Run.bind, if_true, expand_dependencies, hstep, Bool.false_eq_true, if_false]
  have hinner : _struct_expand X e c (visited ++ [Value.struct c]) =
      Run.done (e2.set_struct c { s2 with expand_lock := false }) (false, err, v2) := by
    rw [struct_expand_enters X e c s (visited ++ [Value.struct c]) (start + 1) hs hguard hx
      hlock (by rw [hstart]), hloop]
    simp only [Run.bind, hs2, Bool.false_eq_true, if_false]
  have hcont : visited.contains (Value.struct c) = false := by simpa using hvis
  unfold coil_expand_struct
  simp only [hs, hx, Bool.false_eq_true, if_false, Option.getD_some, hcont, hinner, Run.bind]

theorem expand_struct_detects (X : Calls) (e : Engine) (t : Nat) (ts : CoilStruct)
    (visited : List Value) (ht : e.structs[t]? = some ts) (hp : ts.is_prototype = false)
    (hx : ts.expanded = false)
    (hway : ts.expand_lock = true ∨ Value.struct t ∈ visited) :
    ∃ v1, coil_expand_struct X e t (some visited) =
      Run.done e (false, some CoilError.COIL_ERROR_STRUCT, v1) := by
  unfold coil_expand_struct
  simp only [ht, hx, Bool.false_eq_true, if_false, Option.getD_some]
  by_cases hmem : Value.struct t ∈ visited
  · have hcont : visited.contains (Value.struct t) = true := by simpa using hmem
    exact ⟨visited, by simp only [hcont, if_true]⟩
  · have hcont : visited.contains (Value.struct t) = false := by simpa using hmem
    have hl : ts.expand_lock = true := by
      rcases hway with h | h
      · exact h
      · exact absurd h hmem
    refine ⟨visited ++ [Value.struct t], ?_⟩
    simp only [hcont, Bool.false_eq_true, if_false]
    unfold _struct_expand
    simp only [ht, hp, hx, hl, Bool.and_false, Bool.false_eq_true, if_false, if_true, Run.bind]

theorem descent_entered (dbg : Bool)
    (ev : Engine → Value → List Value → Run (Option Value × Option CoilError × List Value)) :
    ∀ (steps : List CycleStep) (fuel : Nat) (e : Engine) (visited : List Value)
      (entered : List Nat) (target : Nat) (last : CycleStep),
      cycle_descent dbg ev fuel e visited entered steps target →
      steps.getLast? = some last →
      ∀ x ∈ entered, (last.engine.structs[x]?).isSome = true := by
  intro steps
  induction steps with
  | nil => intro _ _ _ _ _ _ h; exact absurd h (by simp [cycle_descent])
  | cons step rest ih =>
    intro fuel e visited entered target last h hlast
    cases rest with
    | nil =>
      simp only [List.getLast?_singleton, Option.some.injEq] at hlast
      subst hlast
      obtain ⟨⟨_, _, _, _, _, _, _, _, _, _, _, _, _, _, _, _, _, hent⟩, _⟩ := h
      exact hent
    | cons next rest2 =>
      rw [List.getLast?_cons_cons] at hlast
      obtain ⟨_, hdesc⟩ := h
      intro x hx
      exact ih _ _ _ _ _ last hdesc hlast x (List.mem_cons_of_mem _ hx)

theorem descent_fails (dbg : Bool)
    (ev : Engine → Value → List Value → Run (Option Value × Option CoilError × List Value)) :
    ∀ (rest : List CycleStep) (step : CycleStep) (fuel : Nat) (e : Engine)
      (visited : List Value) (entered : List Nat) (target : Nat) (last : CycleStep),
      (step :: rest).length ≤ fuel →
      cycle_descent dbg ev fuel e visited entered (step :: rest) target →
      ((step :: rest).map (fun st => st.member)).Nodup →
      (step :: rest).getLast? = some last →
      ∃ e1 v1, coil_expand_struct (calls dbg ev fuel) e step.member (some visited) =
          Run.done e1 (false, some CoilError.COIL_ERROR_STRUCT, v1) ∧
        (∀ x, x ∉ (step :: rest).map (fun st => st.member) →
          e1.structs[x]? = last.engine.structs[x]?) ∧
        (∀ x ∈ (step :: rest).map (fun st => st.member), ∃ sx,
          last.engine.structs[x]? = some sx ∧
          e1.structs[x]? = some { sx with expand_lock := false }) := by
  intro rest
  induction rest with
  | nil =>
    intro step fuel e visited entered target last hfuel h _ hlast
    simp only [List.getLast?_singleton, Option.some.injEq] at hlast
    subst hlast
    obtain ⟨f, rfl⟩ : ∃ f, fuel = f + 1 := ⟨fuel - 1, by simp at hfuel; omega⟩
    obtain ⟨⟨s, start, s1, ns, hs, hx, hl, hp, hvis, hstart, hj, hbefore, hs1, hdep, hn, hnp,
      hnx, _⟩, ts, hts, hway⟩ := h
    rw [hn] at hts
    cases hts
    obtain ⟨v1, hdet⟩ := expand_struct_detects (calls dbg ev f) step.engine target ns
      step.visited hn hnp hnx hway
    have hrec : (calls dbg ev (f + 1)).coil_expand_visited step.engine target step.visited =
        Run.done step.engine (false, some CoilError.COIL_ERROR_STRUCT, v1) := hdet
    have hmain := expand_struct_fails_at (calls dbg ev (f + 1)) e step.member s visited start
      step.edge step.engine step.visited s1 target ns step.engine
      (some CoilError.COIL_ERROR_STRUCT) v1 s1 hs hx hl hp hvis hstart hj hbefore hs1 hdep hn
      hnp hnx hrec hs1
    refine ⟨_, v1, hmain, ?_, ?_⟩
    · intro x hx
      simp only [List.map_cons, List.map_nil, List.mem_singleton] at hx
      exact set_struct_ne _ step.member x _ hx
    · intro x hx
      simp only [List.map_cons, List.map_nil, List.mem_singleton] at hx
      subst hx
      exact ⟨s1, hs1, set_struct_self _ _ _ (struct_lt_of_some _ _ _ hs1)⟩
  | cons next rest2 ih =>
    intro step fuel e visited entered target last hfuel h hnodup hlast
    rw [List.getLast?_cons_cons] at hlast
    obtain ⟨f, rfl⟩ : ∃ f, fuel = f + 1 := ⟨fuel - 1, by simp at hfuel; omega⟩
    obtain ⟨⟨s, start, s1, ns, hs, hx, hl, hp, hvis, hstart, hj, hbefore, hs1, hdep, hn, hnp,
      hnx, _⟩, hdesc⟩ := h
    simp only [Nat.add_sub_cancel] at hdesc
    have hnot : step.member ∉ (next :: rest2).map (fun st => st.member) := by
      simp only [List.map_cons, List.nodup_cons] at hnodup
      simpa using hnodup.1
    have hnodup2 : ((next :: rest2).map (fun st => st.member)).Nodup := by
      simp only [List.map_cons, List.nodup_cons] at hnodup
      simpa using hnodup.2
    obtain ⟨e2, v2, hrun2, hframe2, hmem2⟩ := ih next f step.engine step.visited
      (step.member :: entered) target last (by simp at hfuel ⊢; omega) hdesc hnodup2 hlast
    have hkept := descent_entered dbg ev (next :: rest2) f step.engine step.visited
      (step.member :: entered) target last hdesc hlast step.member (List.mem_cons_self _ _)
    obtain ⟨s2, hs2l⟩ := Option.isSome_iff_exists.1 hkept
    have hs2 : e2.structs[step.member]? = some s2 := by rw [hframe2 _ hnot]; exact hs2l
    have hrec : (calls dbg ev (f + 1)).coil_expand_visited step.engine next.member
        step.visited = Run.done e2 (false, some CoilError.COIL_ERROR_STRUCT, v2) := hrun2
    have hmain := expand_struct_fails_at (calls dbg ev (f + 1)) e step.member s visited start
      step.edge step.engine step.visited s1 next.member ns e2
      (some CoilError.COIL_ERROR_STRUCT) v2 s2 hs hx hl hp hvis hstart hj hbefore hs1 hdep hn
      hnp hnx hrec hs2
    refine ⟨_, v2, hmain, ?_, ?_⟩
    · intro x hx
      have hxs : x ≠ step.member := fun h => hx (by rw [h]; simp)
      have hxr : x ∉ (next :: rest2).map (fun st => st.member) :=
        fun h => hx (List.mem_cons_of_mem _ h)
      rw [set_struct_ne _ step.member x _ hxs]
      exact hframe2 x hxr
    · intro x hx
      rcases List.mem_cons.1 hx with hxs | hxr
      · subst hxs
        exact ⟨s2, hs2l, set_struct_self _ _ _ (struct_lt_of_some _ _ _ hs2)⟩
      · have hxs : x ≠ step.member := fun h => hnot (h ▸ hxr)
        rw [set_struct_ne _ step.member x _ hxs]
        exact hmem2 x hxr

/-- C26: let the expansion of a struct go round a dependency cycle: through
structs that are neither expanded nor locked nor prototypes, each reached as a
dependency of the one before, at any place of its list, after the turns for
the dependencies before that place have passed, and back to the struct it
started with.  Then `coil_expand` returns (given fuel for the length of the
cycle) FALSE with a STRUCT error; the structs of the cycle are left as the
turns before the cycle was closed left them, with their locks released, and
no other struct is changed after those turns; and a later `coil_expand` that
comes round the cycle again returns FALSE with a STRUCT error as well. -/
theorem cycle_expansion_fails (dbg : Bool)
    (ev : Engine → Value → List Value → Run (Option Value × Option CoilError × List Value))
    (e : Engine) (step : CycleStep) (rest : List CycleStep) (fuel : Nat)
    (hfuel : (step :: rest).length ≤ fuel)
    (hnodup : ((step :: rest).map (fun st => st.member)).Nodup)
    (hcycle : cycle_descent dbg ev fuel e [] [] (step :: rest) step.member) :
    ∃ e1 v1, coil_expand_struct (calls dbg ev fuel) e step.member none =
        Run.done e1 (false, some CoilError.COIL_ERROR_STRUCT, v1) ∧
      (∀ x ∈ (step :: rest).map (fun st => st.member), ∃ sx,
        ((step :: rest).getLast (List.cons_ne_nil step rest)).engine.structs[x]? = some sx ∧
        e1.structs[x]? = some { sx with expand_lock := false }) ∧
      (∀ x, x ∉ (step :: rest).map (fun st => st.member) →
        e1.structs[x]? =
          ((step :: rest).getLast (List.cons_ne_nil step rest)).engine.structs[x]?) ∧
      (∀ (step2 : CycleStep) (rest2 : List CycleStep), step2.member = step.member →
        (step2 :: rest2).length ≤ fuel →
        ((step2 :: rest2).map (fun st => st.member)).Nodup →
        cycle_descent dbg ev fuel e1 [] [] (step2 :: rest2) step.member →
        ∃ e2 v2, coil_expand_struct (calls dbg ev fuel) e1 step.member none =
          Run.done e2 (false, some CoilError.COIL_ERROR_STRUCT, v2)) := by
  have hnone : ∀ e0 : Engine, coil_expand_struct (calls dbg ev fuel) e0 step.member none =
      coil_expand_struct (calls dbg ev fuel) e0 step.member (some []) := fun _ => rfl
  obtain ⟨e1, v1, hrun, hframe, hmem⟩ := descent_fails dbg ev rest step fuel e [] []
    step.member ((step :: rest).getLast (List.cons_ne_nil step rest)) hfuel hcycle hnodup
    (List.getLast?_eq_getLast _ _)
  refine ⟨e1, v1, by rw [hnone]; exact hrun, hmem, hframe, ?_⟩
  intro step2 rest2 hsame hfuel2 hnodup2 hcycle2
  rw [← hsame] at hcycle2
  obtain ⟨e2, v2, hrun2, _, _⟩ := descent_fails dbg ev rest2 step2 fuel e1 [] []
    step2.member ((step2 :: rest2).getLast (List.cons_ne_nil step2 rest2)) hfuel2 hcycle2
    hnodup2 (List.getLast?_eq_getLast _ _)
  exact ⟨e2, v2, by rw [hnone, ← hsame]; exact hrun2⟩

theorem cycle_expansion_fails_witness :
    ((branching_cycle_scenario.engine.structs.map (fun s => (s.path, s.dependencies)))
      = [(['@', 'r', 'o', 'o', 't'], []),
         (['@', 'r', 'o', 'o', 't', '.', 'a'], [Value.struct 2, Value.struct 3]),
         (['@', 'r', 'o', 'o', 't', '.', 'b'], [Value.struct 3, Value.struct 1]),
         (['@', 'r', 'o', 'o', 't', '.', 'p'], [])]) ∧
    ∃ e1 v1, coil_expand_struct engine_calls branching_cycle_scenario.engine 1 none =
        Run.done e1 (false, some CoilError.COIL_ERROR_STRUCT, v1) ∧
      (∀ x ∈ [1, 2], ∃ s1, e1.structs[x]? = some s1 ∧ s1.expand_lock = false ∧
        s1.expanded = false) ∧
      ∃ e2 v2, coil_expand_struct engine_calls e1 1 none =
        Run.done e2 (false, some CoilError.COIL_ERROR_STRUCT, v2) := by
  refine ⟨by rfl, ?_⟩
  have hfirst : cycle_descent false no_links 12 branching_cycle_scenario.engine [] []
      [branching_cycle_first branching_cycle_scenario.engine,
       branching_cycle_second branching_cycle_scenario.engine] 1 :=
    ⟨⟨(branching_cycle_scenario.engine.structs[1]?).getD nested_struct, 1,
        (((branching_cycle_first branching_cycle_scenario.engine).engine.structs[1]?).getD
          nested_struct),
        (((branching_cycle_first branching_cycle_scenario.engine).engine.structs[2]?).getD
          nested_struct),
        by rfl, by rfl, by rfl, by rfl, by simp, by rfl, by decide, by rfl, by rfl, by rfl,
        by rfl, by rfl, by rfl, by simp⟩,
      ⟨((branching_cycle_first branching_cycle_scenario.engine).engine.structs[2]?).getD
          nested_struct, 1,
        (((branching_cycle_second branching_cycle_scenario.engine).engine.structs[2]?).getD
          nested_struct),
        (((branching_cycle_second branching_cycle_scenario.engine).engine.structs[1]?).getD
          nested_struct),
        by rfl, by rfl, by rfl, by rfl, by decide, by rfl, by decide, by rfl, by rfl, by rfl,
        by rfl, by rfl, by rfl,
        by intro x hx; simp only [List.mem_singleton] at hx; subst hx; rfl⟩,
      ⟨_, by rfl, Or.inl (by rfl)⟩⟩
  have hsecond : cycle_descent false no_links 12 branching_cycle_failed.engine [] []
      [branching_cycle_first branching_cycle_failed.engine,
       branching_cycle_second branching_cycle_failed.engine] 1 :=
    ⟨⟨(branching_cycle_failed.engine.structs[1]?).getD nested_struct, 1,
        (((branching_cycle_first branching_cycle_failed.engine).engine.structs[1]?).getD
          nested_struct),
        (((branching_cycle_first branching_cycle_failed.engine).engine.structs[2]?).getD
          nested_struct),
        by rfl, by rfl, by rfl, by rfl, by simp, by rfl, by decide, by rfl, by rfl, by rfl,
        by rfl, by rfl, by rfl, by simp⟩,
      ⟨((branching_cycle_first branching_cycle_failed.engine).engine.structs[2]?).getD
          nested_struct, 1,
        (((branching_cycle_second branching_cycle_failed.engine).engine.structs[2]?).getD
          nested_struct),
        (((branching_cycle_second branching_cycle_failed.engine).engine.structs[1]?).getD
          nested_struct),
        by rfl, by rfl, by rfl, by rfl, by decide, by rfl, by decide, by rfl, by rfl, by rfl,
        by rfl, by rfl, by rfl,
        by intro x hx; simp only [List.mem_singleton] at hx; subst hx; rfl⟩,
      ⟨_, by rfl, Or.inl (by rfl)⟩⟩
  obtain ⟨e1, v1, hrun, _, _, hagain⟩ := cycle_expansion_fails false no_links
    branching_cycle_scenario.engine (branching_cycle_first branching_cycle_scenario.engine)
    [branching_cycle_second branching_cycle_scenario.engine] 12 (by decide) (by decide) hfirst
  have he1 : e1 = branching_cycle_failed.engine := (congrArg Run.engine hrun).symm
  subst he1
  refine ⟨_, v1, hrun, ?_, hagain (branching_cycle_first branching_cycle_failed.engine)
    [branching_cycle_second branching_cycle_failed.engine] rfl (by decide) (by decide) hsecond⟩
  intro x hx
  simp only [List.mem_cons, List.mem_singleton, List.not_mem_nil, or_false] at hx
  rcases hx with rfl | rfl
  · exact ⟨(branching_cycle_failed.engine.structs[1]?).getD nested_struct, by rfl, by rfl,
      by rfl⟩
  · exact ⟨(branching_cycle_failed.engine.structs[2]?).getD nested_struct, by rfl, by rfl,
      by rfl⟩

theorem same_part_refl {α : Type} (part : CoilStruct → α) (e : Engine) :
    same_part part e e := fun _ => rfl

theorem same_part_trans {α : Type} (part : CoilStruct → α) (e e1 e2 : Engine)
    (h1 : same_part part e e1) (h2 : same_part part e1 e2) : same_part part e e2 :=
  fun i => (h2 i).trans (h1 i)

theorem same_part_set_table {α : Type} (part : CoilStruct → α) (e : Engine) (t : Nat)
    (tbl : List (List Char × Value)) : same_part part e (e.set_table t tbl) := fun _ => rfl

theorem same_part_set_struct {α : Type} (part : CoilStruct → α) (e : Engine) (i : Nat)
    (s s1 : CoilStruct) (hs : e.structs[i]? = some s) (h : part s1 = part s) :
    same_part part e (e.set_struct i s1) := by
  intro j
  by_cases hj : j = i
  · subst hj
    rw [set_struct_self e j s1 (struct_lt_of_some e j s hs), hs]
    simp [h]
  · rw [set_struct_ne e i j s1 hj]

theorem same_part_struct {α : Type} (part : CoilStruct → α) (e e1 : Engine) (i : Nat)
    (s : CoilStruct) (h : same_part part e e1) (hs : e.structs[i]? = some s) :
    ∃ s1, e1.structs[i]? = some s1 ∧ part s1 = part s := by
  have := h i
  rw [hs] at this
  cases h1 : e1.structs[i]? with
  | none => rw [h1] at this; simp at this
  | some s1 => rw [h1] at this; exact ⟨s1, rfl, by simpa using this⟩

theorem same_part_struct_back {α : Type} (part : CoilStruct → α) (e e1 : Engine) (i : Nat)
    (s1 : CoilStruct) (h : same_part part e e1) (hs : e1.structs[i]? = some s1) :
    ∃ s, e.structs[i]? = some s ∧ part s1 = part s := by
  have := h i
  rw [hs] at this
  cases h1 : e.structs[i]? with
  | none => rw [h1] at this; simp at this
  | some s => rw [h1] at this; exact ⟨s, rfl, by simpa using this⟩

theorem same_contents_refl (e : Engine) : same_contents e e := fun _ => rfl

theorem same_contents_trans (e e1 e2 : Engine) (h1 : same_contents e e1)
    (h2 : same_contents e1 e2) : same_contents e e2 := fun i => (h2 i).trans (h1 i)

theorem same_contents_set_table (e : Engine) (t : Nat) (tbl : List (List Char × Value)) :
    same_contents e (e.set_table t tbl) := fun _ => rfl

theorem same_contents_set_struct (e : Engine) (i : Nat) (s s1 : CoilStruct)
    (hs : e.structs[i]? = some s) (h : s1.contents = s.contents) :
    same_contents e (e.set_struct i s1) :=
  same_part_set_struct CoilStruct.contents e i s s1 hs h

theorem same_contents_struct (e e1 : Engine) (i : Nat) (s : CoilStruct)
    (h : same_contents e e1) (hs : e.structs[i]? = some s) :
    ∃ s1, e1.structs[i]? = some s1 ∧ s1.contents = s.contents :=
  same_part_struct CoilStruct.contents e e1 i s h hs

theorem run_foldl_not_done {α β : Type} (f : Engine → α → β → Run α) (xs : List β)
    (r : Run α) (hr : ∀ e a, r ≠ Run.done e a) :
    ∀ e a, xs.foldl (fun r x => r.bind (fun e1 a1 => f e1 a1 x)) r ≠ Run.done e a := by
  induction xs generalizing r with
  | nil => exact hr
  | cons x rest ih =>
    intro e a
    simp only [List.foldl_cons]
    apply ih
    intro e1 a1
    cases r with
    | done e0 a0 => exact absurd rfl (hr e0 a0)
    | abort => simp [Run.bind]
    | undefined => simp [Run.bind]
    | diverge => simp [Run.bind]

theorem run_foldl_invariant {α β : Type} (f : Engine → α → β → Run α) (P : Engine → Prop)
    (hstep : ∀ e a x e1 a1, P e → f e a x = Run.done e1 a1 → P e1) :
    ∀ (xs : List β) (e : Engine) (a : α) (e1 : Engine) (a1 : α), P e →
      xs.foldl (fun r x => r.bind (fun e2 a2 => f e2 a2 x)) (Run.done e a) = Run.done e1 a1 →
      P e1 := by
  intro xs
  induction xs with
  | nil =>
    intro e a e1 a1 hp h
    simp only [List.foldl_nil, Run.done.injEq] at h
    rw [← h.1]; exact hp
  | cons x rest ih =>
    intro e a e1 a1 hp h
    simp only [List.foldl_cons, Run.bind] at h
    cases hfx : f e a x with
    | done e2 a2 =>
      rw [hfx] at h
      exact ih e2 a2 e1 a1 (hstep e a x e2 a2 hp hfx) h
    | abort =>
      rw [hfx] at h
      exact absurd h (run_foldl_not_done f rest _ (by simp) e1 a1)
    | undefined =>
      rw [hfx] at h
      exact absurd h (run_foldl_not_done f rest _ (by simp) e1 a1)
    | diverge =>
      rw [hfx] at h
      exact absurd h (run_foldl_not_done f rest _ (by simp) e1 a1)

theorem entry_set_path (order : List StructItem) (index : Nat) (item : StructItem)
    (path : List Char) (h : order[index]? = some item) :
    (order.set index { item with path := path }).map StructItem.entry =
      order.map StructItem.entry := by
  induction order generalizing index with
  | nil => simp
  | cons a rest ih =>
    cases index with
    | zero =>
      simp only [List.getElem?_cons_zero, Option.some.injEq] at h
      subst h
      simp [StructItem.entry]
    | succ n =>
      simp only [List.getElem?_cons_succ] at h
      simp only [List.set_cons_succ, List.map_cons, ih n h]

theorem rebuild_item_contents (recur : Engine → Nat → Run Unit)
    (hrec : ∀ e c e1, recur e c = Run.done e1 () → same_contents e e1)
    (e : Engine) (self index : Nat) (e1 : Engine)
    (h : rebuild_item recur e self index = Run.done e1 ()) : same_contents e e1 := by
  unfold rebuild_item at h
  cases hs : e.structs[self]? with
  | none => simp [hs] at h
  | some s =>
    simp only [hs] at h
    cases hitem : s.order[index]? with
    | none => simp [hitem] at h
    | some item =>
      simp only [hitem] at h
      cases hb : coil_path_build (some s.path) [item.key] with
      | null => simp [hb] at h
      | abort => simp [hb] at h
      | string new_path =>
        simp only [hb] at h
        cases hv : item.value with
        | none => simp [hv] at h
        | some value =>
          simp only [hv] at h
          generalize het : e.set_table s.path_table
            (table_insert (table_remove (e.table s.path_table) item.path) new_path value) = et
            at h
          have hc0 : same_contents e et := by
            rw [← het]; exact same_contents_set_table _ _ _
          have hfin : ∀ e3, same_contents e e3 →
              (match e3.structs[self]? with
              | none => Run.undefined
              | some s3 =>
                match s3.order[index]? with
                | none => Run.undefined
                | some item3 =>
                  Run.done (e3.set_struct self
                    { s3 with order := s3.order.set index { item3 with path := new_path } })
                    ()) = Run.done e1 () → same_contents e e1 := by
            intro e3 hc3 h3
            cases hs3 : e3.structs[self]? with
            | none => simp [hs3] at h3
            | some s3 =>
              simp only [hs3] at h3
              cases hi3 : s3.order[index]? with
              | none => simp [hi3] at h3
              | some item3 =>
                simp only [hi3, Run.done.injEq, and_true] at h3
                rw [← h3]
                refine same_contents_trans _ _ _ hc3
                  (same_contents_set_struct e3 self s3 _ hs3 ?_)
                simp only [CoilStruct.contents, entry_set_path s3.order index item3 new_path hi3]
          cases hh : value.holds_struct with
          | none =>
            simp only [hh, Run.bind] at h
            exact hfin et hc0 h
          | some child =>
            simp only [hh] at h
            cases hcs : et.structs[child]? with
            | none => simp [hcs, Run.bind] at h
            | some cs =>
              simp only [hcs] at h
              have hc1 : same_contents et (et.set_struct child { cs with path := new_path }) :=
                same_contents_set_struct et child cs _ hcs rfl
              by_cases hsz : (cs.size != 0) = true
              · simp only [hsz, if_true] at h
                cases hr : recur (et.set_struct child { cs with path := new_path }) child with
                | done e3 u =>
                  rw [hr] at h
                  simp only [Run.bind] at h
                  exact hfin e3 (same_contents_trans _ _ _ hc0
                    (same_contents_trans _ _ _ hc1 (hrec _ _ _ hr))) h
                | abort => rw [hr] at h; simp [Run.bind] at h
                | undefined => rw [hr] at h; simp [Run.bind] at h
                | diverge => rw [hr] at h; simp [Run.bind] at h
              · simp only [hsz, Bool.false_eq_true, if_false, Run.bind] at h
                exact hfin _ (same_contents_trans _ _ _ hc0 hc1) h

theorem rebuild_path_data_contents :
    ∀ (fuel : Nat) (e : Engine) (self : Nat) (e1 : Engine),
      _struct_rebuild_path_data fuel e self = Run.done e1 () → same_contents e e1 := by
  intro fuel
  induction fuel with
  | zero => intro e self e1 h; simp [_struct_rebuild_path_data] at h
  | succ fuel ih =>
    intro e self e1 h
    unfold _struct_rebuild_path_data at h
    cases hs : e.structs[self]? with
    | none => simp [hs] at h
    | some s =>
      simp only [hs] at h
      by_cases hempty : s.order.isEmpty = true
      · simp [hempty] at h
      · simp only [hempty, Bool.false_eq_true, if_false] at h
        exact run_foldl_invariant
          (fun e1 _ index => rebuild_item (_struct_rebuild_path_data fuel) e1 self index)
          (fun e2 => same_contents e e2)
          (fun e2 _ x e3 _ hp hx => same_contents_trans _ _ _ hp
            (rebuild_item_contents _ ih e2 self x e3 hx))
          (List.range s.order.length) e () e1 () (same_contents_refl e) h

theorem struct_rebuild_contents (e : Engine) (self : Nat) (e1 : Engine)
    (h : struct_rebuild_path_data e self = Run.done e1 ()) : same_contents e e1 := by
  unfold struct_rebuild_path_data at h
  cases hs : e.structs[self]? with
  | none => simp [hs] at h
  | some s =>
    simp only [hs] at h
    by_cases hsz : s.size = 0
    · simp only [hsz, if_true, Run.done.injEq, and_true] at h
      rw [← h]; exact same_contents_refl e
    · simp only [hsz, if_false] at h
      cases hh : s.order.head? with
      | none => simp [hh] at h
      | some first_item =>
        simp only [hh] at h
        by_cases hc : coil_path_has_container first_item.key s.path = true
        · simp only [hc, if_true, Run.done.injEq, and_true] at h
          rw [← h]; exact same_contents_refl e
        · simp only [hc, Bool.false_eq_true, if_false] at h
          exact rebuild_path_data_contents _ e self e1 h

theorem is_ancestor_loop_engine :
    ∀ (fuel : Nat) (e : Engine) (parent container : Nat) (e1 : Engine) (r : Bool),
      is_ancestor_loop fuel e parent container = Run.done e1 r → e1 = e := by
  intro fuel
  induction fuel with
  | zero => intro e parent container e1 r h; simp [is_ancestor_loop] at h
  | succ fuel ih =>
    intro e parent container e1 r h
    unfold is_ancestor_loop at h
    cases hs : e.structs[container]? with
    | none => simp [hs] at h
    | some s =>
      simp only [hs] at h
      cases hc : s.container with
      | none =>
        simp only [hc, Run.done.injEq] at h
        exact h.1.symm
      | some c =>
        simp only [hc] at h
        by_cases hcp : c = parent
        · simp only [hcp, if_true, Run.done.injEq] at h
          exact h.1.symm
        · simp only [hcp, if_false] at h
          exact ih e parent c e1 r h

theorem set_value_attach_contents (e : Engine) (self : Nat) (key path : List Char)
    (value : Value) (e1 : Engine)
    (h : set_value_attach e self key path value = Run.done e1 ()) : same_contents e e1 := by
  cases value with
  | struct node =>
    simp only [set_value_attach] at h
    cases hd : coil_struct_is_descendent e node self with
    | done e0 below =>
      have he0 : e0 = e := is_ancestor_loop_engine _ e self node e0 below hd
      subst he0
      rw [hd] at h
      simp only [Run.bind] at h
      cases hs : e0.structs[self]? with
      | none => simp [hs] at h
      | some s =>
        cases hn : e0.structs[node]? with
        | none => simp [hs, hn] at h
        | some ns =>
          simp only [hs, hn] at h
          exact same_contents_trans _ _ _ (same_contents_set_struct e0 node ns
            { ns with
              path_table := if below then ns.path_table else s.path_table
              container := some self
              name := key
              path := path } hn rfl)
            (struct_rebuild_contents _ node e1 h)
    | abort => rw [hd] at h; simp [Run.bind] at h
    | undefined => rw [hd] at h; simp [Run.bind] at h
    | diverge => rw [hd] at h; simp [Run.bind] at h
  | link l =>
    simp only [set_value_attach] at h
    cases hl : e.links[l]? with
    | none => simp [hl] at h
    | some object =>
      simp only [hl, Run.done.injEq, and_true] at h
      rw [← h]; exact fun _ => rfl
  | inc i =>
    simp only [set_value_attach] at h
    cases hl : e.includes[i]? with
    | none => simp [hl] at h
    | some object =>
      simp only [hl, Run.done.injEq, and_true] at h
      rw [← h]; exact fun _ => rfl
  | _ =>
    simp only [set_value_attach, Run.done.injEq, and_true] at h
    rw [← h]; exact same_contents_refl e

theorem find_item_lt (order : List StructItem) (key : List Char) (index : Nat)
    (h : find_item order key = some index) : index < order.length := by
  obtain ⟨l1, item, l2, hsplit, _, hlen, _⟩ := find_item_split order key index h
  rw [hsplit, ← hlen]
  simp

theorem set_value_overwrite_order (dbg : Bool) (e : Engine) (self : Nat) (key path : List Char)
    (value : Value) (s : CoilStruct) (e1 : Engine)
    (hs : e.structs[self]? = some s) (hproto : s.is_prototype = false)
    (h : set_value_overwrite dbg e self key path value = Run.done e1 ()) :
    ∃ index s1, find_item s.order key = some index ∧ e1.structs[self]? = some s1 ∧
      s1.is_prototype = false ∧ s1.order = s.order.set index ⟨key, path, some value⟩ := by
  have hlt := struct_lt_of_some e self s hs
  unfold set_value_overwrite struct_delete_internal at h
  simp only [hs, hproto, Bool.and_false, Bool.false_eq_true, if_false, Bool.not_true,
    Bool.false_and] at h
  by_cases hempty : coil_struct_is_empty s = true
  · simp [hempty, Run.bind] at h
  · simp only [hempty, Bool.false_eq_true, if_false] at h
    cases hitem : find_item s.order key with
    | none => simp [hitem, Run.bind] at h
    | some index =>
      have hidx := find_item_lt s.order key index hitem
      simp only [hitem, if_true, Run.bind] at h
      rw [set_struct_self _ self _ (by rw [set_table_structs]; exact hlt)] at h
      simp only [List.getElem?_set, hidx, if_true, Run.done.injEq, and_true] at h
      subst h
      refine ⟨index, _, rfl,
        set_struct_self _ self _ (by simpa [Engine.set_struct, Engine.set_table] using hlt),
        ?_, ?_⟩
      · rfl
      · simp [List.set_set]

theorem set_value_order_entries (X : Calls) (e : Engine) (self : Nat) (key path : List Char)
    (value : Value) (s : CoilStruct)
    (hs : e.structs[self]? = some s) (hproto : s.is_prototype = false) :
    (path_table_lookup e s path = none →
      set_value_order X e self key path value =
        Run.done (e.set_struct self { s with order := ⟨key, path, some value⟩ :: s.order })
          none) ∧
    (∀ old, path_table_lookup e s path = some old →
      overwritten_prototype e old value = some none →
      ∀ e1 early, set_value_order X e self key path value = Run.done e1 early →
        early = none ∧ ∃ index s1, find_item s.order key = some index ∧
          e1.structs[self]? = some s1 ∧ s1.is_prototype = false ∧
          s1.order = s.order.set index ⟨key, path, some value⟩) := by
  constructor
  · intro hnone
    unfold set_value_order
    simp only [hs, hnone]
  · intro old hold hov e1 early h
    unfold set_value_order at h
    simp only [hs, hold, hov] at h
    cases hw : set_value_overwrite X.COIL_DEBUG e self key path value with
    | done e2 u =>
      rw [hw] at h
      simp only [Run.bind, Run.done.injEq] at h
      obtain ⟨he, hearly⟩ := h
      subst he
      exact ⟨hearly.symm,
        set_value_overwrite_order X.COIL_DEBUG e self key path value s e2 hs hproto hw⟩
    | abort => rw [hw] at h; simp [Run.bind] at h
    | undefined => rw [hw] at h; simp [Run.bind] at h
    | diverge => rw [hw] at h; simp [Run.bind] at h

theorem set_value_finish (e2 : Engine) (self : Nat) (key path : List Char) (value : Value)
    (cast : Bool) (s2 : CoilStruct) (e1 : Engine) (err : Option CoilError)
    (hs2 : e2.structs[self]? = some s2) (hproto : s2.is_prototype = false)
    (h : (set_value_attach e2 self key path value).bind (fun e3 _ =>
      match e3.structs[self]? with
      | none => Run.undefined
      | some s =>
        let e4 := (e3.set_table s.path_table
            (table_insert (e3.table s.path_table) path value)).set_struct self
          { s with
            key_table := table_insert s.key_table key (some value)
            version := guint_succ s.version
            size := guint_succ s.size }
        if cast && s.is_prototype then
          (cast_prototypes (e4.structs.length + 1) e4 self).bind
            (fun e5 _ => Run.done e5 none)
        else Run.done e4 none) = Run.done e1 err) :
    err = none ∧ ∃ s1, e1.structs[self]? = some s1 ∧ s1.is_prototype = false ∧
      s1.order.map StructItem.entry = s2.order.map StructItem.entry := by
  cases ha : set_value_attach e2 self key path value with
  | done e3 u =>
    rw [ha] at h
    simp only [Run.bind] at h
    obtain ⟨s3, hs3, hc3⟩ := same_contents_struct e2 e3 self s2
      (set_value_attach_contents e2 self key path value e3 ha) hs2
    have hp3 : s3.is_prototype = false := by
      have hp : s3.is_prototype = s2.is_prototype := congrArg (fun c => c.2.2.1) hc3
      rw [hp]; exact hproto
    have ho3 : s3.order.map StructItem.entry = s2.order.map StructItem.entry :=
      congrArg (fun c => c.1) hc3
    simp only [hs3, hp3, Bool.and_false, Bool.false_eq_true, if_false, Run.done.injEq] at h
    obtain ⟨he, herr⟩ := h
    subst he
    refine ⟨herr.symm, _, set_struct_self _ self _ (by
      simpa [Engine.set_table] using struct_lt_of_some e3 self s3 hs3), ?_, ?_⟩
    · rfl
    · exact ho3
  | abort => rw [ha] at h; simp [Run.bind] at h
  | undefined => rw [ha] at h; simp [Run.bind] at h
  | diverge => rw [ha] at h; simp [Run.bind] at h

theorem prototype_notify_entries (e : Engine) (inst data : Nat) (e1 : Engine)
    (h : _prototype_expand_notify_cb e inst data = Run.done e1 ()) :
    same_part CoilStruct.entries e e1 := by
  unfold _prototype_expand_notify_cb at h
  cases hs : e.structs[inst]? with
  | none => simp [hs] at h
  | some parent =>
    simp only [hs] at h
    by_cases hp : parent.is_prototype = true
    · simp only [hp, Bool.not_true, Bool.false_eq_true, if_false, Run.done.injEq, and_true] at h
      rw [← h]; exact same_part_refl _ e
    · simp only [hp, Bool.not_false, if_true] at h
      by_cases hc : parent.prototype_handlers.count data = 1
      · simp only [hc, if_true, Run.done.injEq, and_true] at h
        rw [← h]
        exact same_part_set_struct _ e inst parent _ hs rfl
      · simp [hc] at h

theorem set_is_prototype_entries (e : Engine) (self : Nat) (value : Bool) (e1 : Engine)
    (h : set_is_prototype e self value = Run.done e1 ()) :
    same_part CoilStruct.entries e e1 := by
  unfold set_is_prototype at h
  cases hs : e.structs[self]? with
  | none => simp [hs] at h
  | some s =>
    simp only [hs] at h
    have h0 : same_part CoilStruct.entries e (e.set_struct self { s with is_prototype := value }) :=
      same_part_set_struct _ e self s _ hs rfl
    exact run_foldl_invariant
      (fun e1 _ d =>
        match e1.structs[self]? with
        | none => Run.undefined
        | some s1 =>
          if s1.prototype_handlers.contains d then _prototype_expand_notify_cb e1 self d
          else Run.done e1 ())
      (fun e2 => same_part CoilStruct.entries e e2)
      (fun e2 _ d e3 _ hp hx => by
        cases hs2 : e2.structs[self]? with
        | none => simp [hs2] at hx
        | some s2 =>
          simp only [hs2] at hx
          by_cases hc : s2.prototype_handlers.contains d = true
          · simp only [hc, if_true] at hx
            exact same_part_trans _ _ _ _ hp (prototype_notify_entries e2 self d e3 hx)
          · simp only [hc, Bool.false_eq_true, if_false, Run.done.injEq, and_true] at hx
            rw [← hx]; exact hp)
      s.prototype_handlers _ () e1 () h0 h

theorem set_value_overwrite_returns (dbg : Bool) (e : Engine) (self : Nat)
    (key path : List Char) (value : Value) (s : CoilStruct) (index : Nat)
    (hs : e.structs[self]? = some s) (hproto : s.is_prototype = false)
    (hempty : coil_struct_is_empty s = false) (hitem : find_item s.order key = some index) :
    ∃ e1, set_value_overwrite dbg e self key path value = Run.done e1 () := by
  have hlt := struct_lt_of_some e self s hs
  have hidx := find_item_lt s.order key index hitem
  unfold set_value_overwrite struct_delete_internal
  simp only [hs, hproto, Bool.and_false, Bool.false_eq_true, if_false, Bool.not_true,
    Bool.false_and, hempty, hitem, if_true, Run.bind]
  rw [set_struct_self _ self _ (by rw [set_table_structs]; exact hlt)]
  simp only [List.getElem?_set, hidx, if_true]
  exact ⟨_, rfl⟩

theorem entries_keys (items order : List StructItem)
    (h : items.map StructItem.entry = order.map StructItem.entry) :
    items.map (fun item => item.key) = order.map (fun item => item.key) := by
  have := congrArg (List.map Prod.fst) h
  simpa [List.map_map, Function.comp_def, StructItem.entry] using this

theorem set_keeps_keys (order : List StructItem) (key path : List Char) (v : Option Value)
    (index : Nat) (h : find_item order key = some index) :
    (order.set index ⟨key, path, v⟩).map (fun item => item.key) =
      order.map (fun item => item.key) := by
  obtain ⟨l1, item, l2, hsplit, hk, hlen, _⟩ := find_item_split order key index h
  rw [hsplit, ← hlen]
  simp [hk]

/-- C16: the loop over `coil_struct_iter_init` and `coil_struct_iter_next`
hands out the items of a struct that is no prototype in the order their keys
were first set: it hands out the order from its end.  For
`coil_struct_set_key_value` with any value, whatever handlers are connected,
let `e0` be the engine the handlers of `modify` leave, with the struct still
no prototype.  Whenever the call returns, it sets no error, and then: a key
whose path has no value comes last, after the entries the struct has in `e0`;
a key whose path has a value takes the new value at the place it has, all
keys staying where they are; and when that value is a prototype and the new
one a struct, the call is the `coil_struct_merge` of the two, after which it
leaves every order as it is.  For a value that holds no struct, link or
include the call does return.  `coil_struct_delete_key` of a key that has a
value takes its item out and leaves the others in their order. -/
theorem iteration_in_insertion_order (X : Calls) (e : Engine) (self : Nat) (s : CoilStruct)
    (hs : e.structs[self]? = some s) (hproto : s.is_prototype = false) :
    coil_struct_iterate X.COIL_DEBUG e self = some s.order.reverse ∧
    (∀ (k : List Char) (v : Value) (e0 : Engine) (s0 : CoilStruct),
      s.path.length + (k.length + 1) ≤ COIL_PATH_LEN →
      emit_modify X e self = Run.done e0 none → e0.structs[self]? = some s0 →
      s0.is_prototype = false →
      (path_table_lookup e0 s0 (s.path ++ COIL_PATH_DELIM :: k) = none →
        ∀ e1 err, coil_struct_set_key_value X e self k v = Run.done e1 err →
          err = none ∧ ∃ items, coil_struct_iterate X.COIL_DEBUG e1 self = some items ∧
            items.map StructItem.entry =
              s0.order.reverse.map StructItem.entry ++ [(k, some v)]) ∧
      (∀ old, path_table_lookup e0 s0 (s.path ++ COIL_PATH_DELIM :: k) = some old →
        overwritten_prototype e0 old v = some none →
        ∀ e1 err, coil_struct_set_key_value X e self k v = Run.done e1 err →
          err = none ∧ ∃ index items, find_item s0.order k = some index ∧
            coil_struct_iterate X.COIL_DEBUG e1 self = some items ∧
            items.map StructItem.entry =
              (s0.order.set index ⟨k, s.path ++ COIL_PATH_DELIM :: k, some v⟩).reverse.map
                StructItem.entry ∧
            items.map (fun item => item.key) = s0.order.reverse.map (fun item => item.key)) ∧
      (∀ old node src, path_table_lookup e0 s0 (s.path ++ COIL_PATH_DELIM :: k) = some old →
        overwritten_prototype e0 old v = some (some (node, src)) →
        ∀ e1 err, coil_struct_set_key_value X e self k v = Run.done e1 err →
          ∃ e2, X.coil_struct_merge e0 src node true = Run.done e2 err ∧
            same_part CoilStruct.entries e2 e1) ∧
      (v.holds_expandable = false →
        (path_table_lookup e0 s0 (s.path ++ COIL_PATH_DELIM :: k) = none ∨
          ∃ old index, path_table_lookup e0 s0 (s.path ++ COIL_PATH_DELIM :: k) = some old ∧
            overwritten_prototype e0 old v = some none ∧ coil_struct_is_empty s0 = false ∧
            find_item s0.order k = some index) →
        ∃ e1, coil_struct_set_key_value X e self k v = Run.done e1 none)) ∧
    (∀ (k : List Char) (v : Value),
      (coil_path_build_buffer s.path k).length ≤ COIL_PATH_BUFLEN →
      table_lookup s.key_table k = some (some v) → s.size ≠ 0 →
      (find_item s.order k).isSome = true →
      ∃ e1 l1 item l2, coil_struct_delete_key X.COIL_DEBUG e self k = Run.done e1 true ∧
        s.order.reverse = l1 ++ item :: l2 ∧ item.key = k ∧
        coil_struct_iterate X.COIL_DEBUG e1 self = some (l1 ++ l2)) := by
  have hlt := struct_lt_of_some e self s hs
  have hguard : (X.COIL_DEBUG && s.is_prototype) = false := by rw [hproto]; simp
  have hbuild : ∀ k : List Char, s.path.length + (k.length + 1) ≤ COIL_PATH_LEN →
      coil_path_build (some s.path) [k] = Built.string (s.path ++ COIL_PATH_DELIM :: k) := by
    intro k hk
    simp [coil_path_build, hk, keys_text]
  refine ⟨iterate_eq_reverse X.COIL_DEBUG e self s hs hguard, ?_, ?_⟩
  · intro k v e0 s0 hfit hmod hs0 hproto0
    have hlt0 := struct_lt_of_some e0 self s0 hs0
    have hkv : coil_struct_set_key_value X e self k v =
        (set_value_order X e0 self k (s.path ++ COIL_PATH_DELIM :: k) v).bind (fun e2 early =>
          match early with
          | some result => Run.done e2 result
          | none =>
            (set_value_attach e2 self k (s.path ++ COIL_PATH_DELIM :: k) v).bind (fun e3 _ =>
              match e3.structs[self]? with
              | none => Run.undefined
              | some s3 =>
                let e4 := (e3.set_table s3.path_table
                    (table_insert (e3.table s3.path_table) (s.path ++ COIL_PATH_DELIM :: k)
                      v)).set_struct self
                  { s3 with
                    key_table := table_insert s3.key_table k (some v)
                    version := guint_succ s3.version
                    size := guint_succ s3.size }
                if true && s3.is_prototype then
                  (cast_prototypes (e4.structs.length + 1) e4 self).bind
                    (fun e5 _ => Run.done e5 none)
                else Run.done e4 none)) := by
      unfold coil_struct_set_key_value
      simp only [hs, hbuild k hfit]
      unfold struct_set_value_internal
      rw [hmod]
      rfl
    have hiter : ∀ (e1 : Engine) (s1 : CoilStruct), e1.structs[self]? = some s1 →
        s1.is_prototype = false →
        coil_struct_iterate X.COIL_DEBUG e1 self = some s1.order.reverse :=
      fun e1 s1 h1 hp1 => iterate_eq_reverse X.COIL_DEBUG e1 self s1 h1 (by rw [hp1]; simp)
    have horder := set_value_order_entries X e0 self k (s.path ++ COIL_PATH_DELIM :: k) v s0
      hs0 hproto0
    refine ⟨?_, ?_, ?_, ?_⟩
    · intro hnone e1 err hrun
      rw [hkv, horder.1 hnone] at hrun
      obtain ⟨herr, s1, hs1, hp1, ho1⟩ := set_value_finish
        (e0.set_struct self
          { s0 with order := ⟨k, s.path ++ COIL_PATH_DELIM :: k, some v⟩ :: s0.order })
        self k (s.path ++ COIL_PATH_DELIM :: k) v true
        { s0 with order := ⟨k, s.path ++ COIL_PATH_DELIM :: k, some v⟩ :: s0.order } e1 err
        (set_struct_self e0 self _ hlt0) hproto0 hrun
      refine ⟨herr, s1.order.reverse, hiter e1 s1 hs1 hp1, ?_⟩
      rw [List.map_reverse, ho1]
      simp [List.map_reverse, StructItem.entry]
    · intro old hold hov e1 err hrun
      rw [hkv] at hrun
      cases hso : set_value_order X e0 self k (s.path ++ COIL_PATH_DELIM :: k) v with
      | done e2 early =>
        rw [hso] at hrun
        obtain ⟨hearly, index, s2, hitem, hs2, hp2, ho2⟩ := horder.2 old hold hov e2 early hso
        subst hearly
        obtain ⟨herr, s1, hs1, hp1, ho1⟩ := set_value_finish e2 self k
          (s.path ++ COIL_PATH_DELIM :: k) v true s2 e1 err hs2 hp2 hrun
        have hent : s1.order.reverse.map StructItem.entry =
            (s0.order.set index ⟨k, s.path ++ COIL_PATH_DELIM :: k, some v⟩).reverse.map
              StructItem.entry := by
          rw [List.map_reverse, ho1, ho2, List.map_reverse]
        refine ⟨herr, index, s1.order.reverse, hitem, hiter e1 s1 hs1 hp1, hent, ?_⟩
        rw [entries_keys _ _ hent, List.map_reverse, List.map_reverse,
          set_keeps_keys s0.order k _ _ index hitem]
      | abort => rw [hso] at hrun; simp [Run.bind] at hrun
      | undefined => rw [hso] at hrun; simp [Run.bind] at hrun
      | diverge => rw [hso] at hrun; simp [Run.bind] at hrun
    · intro old node src hold hov e1 err hrun
      rw [hkv] at hrun
      unfold set_value_order at hrun
      simp only [hs0, hold, hov] at hrun
      cases hm : X.coil_struct_merge e0 src node true with
      | done em r =>
        rw [hm] at hrun
        simp only [Run.bind] at hrun
        cases r with
        | some code =>
          simp only [Run.done.injEq] at hrun
          obtain ⟨he, herr⟩ := hrun
          subst he
          subst herr
          exact ⟨em, rfl, same_part_refl _ em⟩
        | none =>
          simp only at hrun
          cases hp : set_is_prototype em node false with
          | done e2 u =>
            rw [hp] at hrun
            simp only [Run.bind, Run.done.injEq] at hrun
            obtain ⟨he, herr⟩ := hrun
            subst he
            subst herr
            exact ⟨em, rfl, set_is_prototype_entries em node false e2 hp⟩
          | abort => rw [hp] at hrun; simp [Run.bind] at hrun
          | undefined => rw [hp] at hrun; simp [Run.bind] at hrun
          | diverge => rw [hp] at hrun; simp [Run.bind] at hrun
      | abort => rw [hm] at hrun; simp [Run.bind] at hrun
      | undefined => rw [hm] at hrun; simp [Run.bind] at hrun
      | diverge => rw [hm] at hrun; simp [Run.bind] at hrun
    · intro hv hcase
      have hattach : ∀ e2, set_value_attach e2 self k (s.path ++ COIL_PATH_DELIM :: k) v =
          Run.done e2 () := fun e2 => set_value_attach_plain e2 self k _ v hv
      have hfinish : ∀ (e2 : Engine) (s2 : CoilStruct), e2.structs[self]? = some s2 →
          s2.is_prototype = false →
          ∃ e1, (set_value_attach e2 self k (s.path ++ COIL_PATH_DELIM :: k) v).bind
            (fun e3 _ =>
              match e3.structs[self]? with
              | none => Run.undefined
              | some s3 =>
                let e4 := (e3.set_table s3.path_table
                    (table_insert (e3.table s3.path_table) (s.path ++ COIL_PATH_DELIM :: k)
                      v)).set_struct self
                  { s3 with
                    key_table := table_insert s3.key_table k (some v)
                    version := guint_succ s3.version
                    size := guint_succ s3.size }
                if true && s3.is_prototype then
                  (cast_prototypes (e4.structs.length + 1) e4 self).bind
                    (fun e5 _ => Run.done e5 none)
                else Run.done e4 none) = Run.done e1 (none : Option CoilError) := by
        intro e2 s2 hs2 hp2
        rw [hattach e2]
        simp only [Run.bind, hs2, hp2, Bool.and_false, Bool.false_eq_true, if_false]
        exact ⟨_, rfl⟩
      rw [hkv]
      rcases hcase with hnone | ⟨old, index, hold, hov, hempty, hitem⟩
      · rw [horder.1 hnone]
        exact hfinish
          (e0.set_struct self
            { s0 with order := ⟨k, s.path ++ COIL_PATH_DELIM :: k, some v⟩ :: s0.order })
          { s0 with order := ⟨k, s.path ++ COIL_PATH_DELIM :: k, some v⟩ :: s0.order }
          (set_struct_self e0 self _ hlt0) hproto0
      · obtain ⟨e2, hw⟩ := set_value_overwrite_returns X.COIL_DEBUG e0 self k
          (s.path ++ COIL_PATH_DELIM :: k) v s0 index hs0 hproto0 hempty hitem
        have hso : set_value_order X e0 self k (s.path ++ COIL_PATH_DELIM :: k) v =
            Run.done e2 none := by
          unfold set_value_order
          simp only [hs0, hold, hov, hw, Run.bind]
        obtain ⟨_, _, s2, _, hs2, hp2, _⟩ := horder.2 old hold hov e2 none hso
        rw [hso]
        exact hfinish e2 s2 hs2 hp2
  · intro k v hfit hv hsize hitem
    obtain ⟨index, hindex⟩ := Option.isSome_iff_exists.1 hitem
    obtain ⟨l1, item, l2, hsplit, hk, hlen, herase⟩ := find_item_split s.order k index hindex
    have hdel := delete_internal_present X.COIL_DEBUG e self s k (s.path ++ COIL_PATH_DELIM :: k)
      v index false false hs hguard (fun _ => hv) hsize hindex
    simp only [Bool.false_eq_true, if_false] at hdel
    have hdk : coil_struct_delete_key X.COIL_DEBUG e self k =
        (struct_delete_internal X.COIL_DEBUG e self k (s.path ++ COIL_PATH_DELIM :: k)
          false false).bind (fun e1 r => Run.done e1 r.1) := by
      unfold coil_struct_delete_key
      simp only [hs]
      rw [if_neg (by omega)]
    rw [hdk, hdel]
    refine ⟨_, l2.reverse, item, l1.reverse, rfl, by rw [hsplit]; simp, hk, ?_⟩
    · rw [iterate_eq_reverse X.COIL_DEBUG _ self _
        (set_struct_self _ self _ (by rw [set_table_structs]; exact hlt))
        (by simp only [hproto]; simp)]
      simp only [herase, List.reverse_append]

theorem iteration_in_insertion_order_witness :
    (coil_struct_iterate false iteration_engine 0).map
        (fun items => items.map StructItem.entry)
      = some [(['a'], some (Value.struct 1)), (['b'], some (Value.struct 2))] ∧
    (∃ e1, iteration_new_struct = Run.done e1 none ∧
      (coil_struct_iterate false e1 0).map (fun items => items.map StructItem.entry)
        = some [(['a'], some (Value.struct 1)), (['b'], some (Value.struct 2)),
            (['c'], some (Value.struct 3))]) ∧
    (∃ e1, iteration_overwrite = Run.done e1 none ∧
      (coil_struct_iterate false e1 0).map (fun items => items.map StructItem.entry)
        = some [(['a'], some (Value.int 5)), (['b'], some (Value.struct 2))]) ∧
    (∃ e1, coil_struct_delete_key false iteration_engine 0 ['a'] = Run.done e1 true ∧
      (coil_struct_iterate false e1 0).map (fun items => items.map StructItem.entry)
        = some [(['b'], some (Value.struct 2))]) ∧
    (((iteration_modified.engine.structs[2]?).map (fun s => (s.expanded, s.entries)))
        = some (true, [(['x'], some (Value.int 1)), (['y'], some (Value.int 2))]) ∧
      ∃ e1, iteration_watched = Run.done e1 none ∧
        (coil_struct_iterate false e1 1).map (fun items => items.map StructItem.entry)
          = some [(['x'], some (Value.int 1)), (['w'], some (Value.int 9))]) := by
  have hroot := iteration_in_insertion_order engine_calls iteration_engine 0
    ((iteration_engine.structs[0]?).getD nested_struct) (by rfl) (by rfl)
  have ha := iteration_in_insertion_order engine_calls iteration_engine 1
    ((iteration_engine.structs[1]?).getD nested_struct) (by rfl) (by rfl)
  refine ⟨?_, ?_, ?_, ?_, by rfl, ?_⟩
  · have h1 : coil_struct_iterate false iteration_engine 0 = _ := hroot.1
    rw [h1]
    rfl
  · obtain ⟨_, items, hiter, hent⟩ := (hroot.2.1 ['c'] (Value.struct 3) iteration_engine
      ((iteration_engine.structs[0]?).getD nested_struct) (by decide) (by rfl) (by rfl)
      (by rfl)).1 (by rfl) iteration_new_struct.engine none (by rfl)
    refine ⟨iteration_new_struct.engine, by rfl, ?_⟩
    have h1 : coil_struct_iterate false iteration_new_struct.engine 0 = some items := hiter
    rw [h1]
    show some (items.map StructItem.entry) = _
    rw [hent]
    rfl
  · obtain ⟨_, index, items, hitem, hiter, hent, _⟩ := (hroot.2.1 ['a'] (Value.int 5)
      iteration_engine ((iteration_engine.structs[0]?).getD nested_struct) (by decide)
      (by rfl) (by rfl) (by rfl)).2.1 (Value.struct 1) (by rfl) (by rfl)
      iteration_overwrite.engine none (by rfl)
    refine ⟨iteration_overwrite.engine, by rfl, ?_⟩
    have hindex : some index = some 1 := hitem.symm.trans (by rfl)
    cases hindex
    have h1 : coil_struct_iterate false iteration_overwrite.engine 0 = some items := hiter
    rw [h1]
    show some (items.map StructItem.entry) = _
    rw [hent]
    rfl
  · obtain ⟨e1, l1, item, l2, hrun, _, _, hiter⟩ := hroot.2.2 ['a'] (Value.struct 1)
      (by decide) (by rfl) (by decide) (by rfl)
    have he1 : e1 = (coil_struct_delete_key false iteration_engine 0 ['a']).engine :=
      (congrArg Run.engine hrun).symm
    subst he1
    exact ⟨_, hrun, by rfl⟩
  · obtain ⟨_, items, hiter, hent⟩ := (ha.2.1 ['w'] (Value.int 9) iteration_modified.engine
      ((iteration_modified.engine.structs[1]?).getD nested_struct) (by decide) (by rfl)
      (by rfl) (by rfl)).1 (by rfl) iteration_watched.engine none (by rfl)
    refine ⟨iteration_watched.engine, by rfl, ?_⟩
    have h1 : coil_struct_iterate false iteration_watched.engine 1 = some items := hiter
    rw [h1]
    show some (items.map StructItem.entry) = _
    rw [hent]
    rfl

end Coil
